import Mathlib

/-!
# REST KMS connector: URL pool, discovery, response parsers, validation tokens,
request builders, request engine and workers

A shallow embedding of `fdbserver/RESTKmsConnector.actor.cpp`.

Conventions of the embedding

* A `std::shared_ptr<KmsUrlCtx>` is a `KmsUrlPtr`: the address of the pointee
  together with the pointee's current contents.  An endpoint is referenced from
  one container at a time (the heap, or the `tempStack` of a running request),
  so carrying the contents with the address is exact.
* `std::priority_queue` is modelled by its contract: `top()` is the element
  that no other element exceeds under the comparator, `pop()` removes it.
* Flow errors are values of `Error`; a function that may throw returns
  `Except Error _` together with the connector context it leaves behind.
* One request runs in isolation: the interleaving of several actors at `wait`
  points is outside the model.
* A response body is held as the rapidjson document parsed from it; a request
  body is the text that the serialiser of the environment writes for the
  document built.  A rapidjson
  accessor used outside its precondition (`GetInt64()` on a string, `GetArray()`
  on a value that is not an array, ...) has undefined behaviour; a function
  that reaches such a call returns `none`.
* A `double` is held as the exact value it denotes; a conversion from an integer
  and a sum are rounded to the nearest double, ties to the even significand.
-/

namespace RESTKmsConnector

/-! ## Errors -/

/-- Flow error codes used by the connector; `other` stands for every error code
that the file does not name. -/
inductive Error where
  | encrypt_invalid_kms_config
  | encrypt_keys_fetch_failed
  | file_not_found
  | file_too_large
  | http_request_failed
  | io_error
  | operation_failed
  | value_too_large
  | timed_out
  | connection_failed
  | rest_malformed_response
  | rest_max_base_cipher_len
  | not_implemented
  | internal_error
  | other (code : Nat)
  deriving DecidableEq, Repr

/-- `isKmsNotReachable(errCode)`: timed-out or connection-failed. -/
def isKmsNotReachable (errCode : Error) : Bool :=
  errCode == Error.timed_out || errCode == Error.connection_failed

/-! ## Endpoints and the URL heap -/

/-- `struct KmsUrlCtx`.  The three counters are `uint64_t` fields that start at
zero and only ever grow by one per attempt; they are kept as natural numbers
(2^64 attempts on one endpoint are out of reach). -/
structure KmsUrlCtx where
  url : String
  nRequests : Nat
  nFailedResponses : Nat
  nResponseParseFailures : Nat
  deriving DecidableEq, Repr

/-- `explicit KmsUrlCtx(const std::string& u)`: all counters zero. -/
def KmsUrlCtx.mk1 (u : String) : KmsUrlCtx :=
  { url := u, nRequests := 0, nFailedResponses := 0, nResponseParseFailures := 0 }

/-- `KmsUrlCtx::operator<`. -/
def KmsUrlCtx.lt (self toCompare : KmsUrlCtx) : Bool :=
  if self.nFailedResponses ≠ toCompare.nFailedResponses then
    decide (self.nFailedResponses > toCompare.nFailedResponses)
  else
    decide (self.nResponseParseFailures > toCompare.nResponseParseFailures)

/-- The Endpoint order of the data model: `a` precedes `b` iff `a` has strictly
fewer failed responses, ties broken by fewer parse failures. -/
def precedes (a b : KmsUrlCtx) : Prop :=
  a.nFailedResponses < b.nFailedResponses ∨
    (a.nFailedResponses = b.nFailedResponses ∧
      a.nResponseParseFailures < b.nResponseParseFailures)

instance (a b : KmsUrlCtx) : Decidable (precedes a b) := by
  unfold precedes; infer_instance

/-- A `std::shared_ptr<KmsUrlCtx>`: the address held by the pointer and the
object it points to. -/
structure KmsUrlPtr where
  addr : Nat
  obj : KmsUrlCtx
  deriving DecidableEq, Repr

/-- `std::less<std::shared_ptr<KmsUrlCtx>>`, the comparator named in the
declaration of `KmsUrlMinHeap`.  On shared pointers `operator<` compares the
stored pointers, that is the addresses; `KmsUrlCtx::operator<` is not called. -/
def sharedPtrLess (a b : KmsUrlPtr) : Bool :=
  decide (a.addr < b.addr)

/-- The comparison through the pointees, `*a < *b`, which is what an ordering by
`KmsUrlCtx::operator<` would use. -/
def pointeeLess (a b : KmsUrlPtr) : Bool :=
  a.obj.lt b.obj

/-- Scan for the greatest element under `less`, starting from `best`. -/
def heapTopAux {α : Type} (less : α → α → Bool) (best : α) : List α → α
  | [] => best
  | x :: xs => heapTopAux less (if less best x then x else best) xs

/-- The element `top()` of a priority queue with comparator `less` and contents
`c`: one that no other element exceeds. -/
def heapTop {α : Type} (less : α → α → Bool) : List α → Option α
  | [] => none
  | x :: xs => some (heapTopAux less x xs)

/-- `KmsUrlMinHeap`: a `std::priority_queue` of shared pointers over a vector
`c`, ordered by `std::less` of the pointer type. -/
structure KmsUrlMinHeap where
  c : List KmsUrlPtr
  deriving DecidableEq, Repr

/-- `kmsUrlHeap.empty()`. -/
def KmsUrlMinHeap.empty (h : KmsUrlMinHeap) : Bool := h.c.isEmpty

/-- `kmsUrlHeap.size()`. -/
def KmsUrlMinHeap.size (h : KmsUrlMinHeap) : Nat := h.c.length

/-- `kmsUrlHeap.top()`; `none` on an empty heap, where C++ leaves it undefined. -/
def KmsUrlMinHeap.top (h : KmsUrlMinHeap) : Option KmsUrlPtr :=
  heapTop sharedPtrLess h.c

/-- `kmsUrlHeap.pop()`: removes the top element. -/
def KmsUrlMinHeap.pop (h : KmsUrlMinHeap) : KmsUrlMinHeap :=
  match h.top with
  | none => h
  | some t => { c := h.c.erase t }

/-- `kmsUrlHeap.emplace(p)`. -/
def KmsUrlMinHeap.emplace (h : KmsUrlMinHeap) (p : KmsUrlPtr) : KmsUrlMinHeap :=
  { c := h.c ++ [p] }

/-- What `top()` would give if the queue compared the pointees with
`KmsUrlCtx::operator<`. -/
def KmsUrlMinHeap.topByPointee (h : KmsUrlMinHeap) : Option KmsUrlPtr :=
  heapTop pointeeLess h.c

/-! ## Environment -/

/-- What the asynchronous file system gives for one file: `dFile->size()`, the
number of bytes `dFile->read` reports, and the buffer it filled. -/
structure AsyncFile where
  fSize : Nat
  bytesRead : Nat
  buff : String
  deriving DecidableEq, Repr

/-- A rapidjson value.  `int` is a number written as an integer, `double` any
other number (mantissa and decimal exponent). -/
inductive JsonValue where
  | null
  | bool (b : Bool)
  | int (n : Int)
  | double (m e : Int)
  | string (s : String)
  | array (elems : List JsonValue)
  | object (members : List (String × JsonValue))

/-- `HTTP::IncomingResponse`: the status code and the body, held as the document
that `doc.Parse(resp->data.content.data())` builds from it. -/
structure IncomingResponse where
  code : Nat
  content : JsonValue

/-- `Reference<HTTP::IncomingResponse>`; `none` is a reference that is not valid. -/
abbrev ResponseRef := Option IncomingResponse

/-! ### Doubles -/

/-- One step of the binary search of `bitLength`: `l` grows by `i` when `a` has
more than `l + i` binary digits. -/
def bitLengthStep (a l i : Nat) : Nat := if 1 <<< (l + i) ≤ a then l + i else l

/-- Number of binary digits of `a` (the least `n` with `a < 2^n`), found by
binary search.  Exact for `a < 2^4096`; a larger `a` gets `4096`. -/
def bitLength (a : Nat) : Nat :=
  if a = 0 then 0
  else [2048, 1024, 512, 256, 128, 64, 32, 16, 8, 4, 2, 1].foldl (bitLengthStep a) 0 + 1

/-- A C++ `double` (IEEE-754 binary64).  A finite value is held exactly, as the
whole number of units of `2^-1074` (the smallest positive double) it is worth:
the finite doubles are the multiples `units * 2^-1074` with at most 53
significant binary digits and magnitude below `2^1024`.  The sign of a zero is
not kept (the two zeros compare equal, and a sum with an operand converted from
an integer is never `-0.0`). -/
inductive Double where
  | finite (units : Int)
  | infinity (negative : Bool)
  | nan
  deriving DecidableEq, Repr

/-- Rounding of the exact value `u * 2^-1074` to a double, to nearest with ties
to the even significand (the default rounding of the machine): the digits below
the 53 leading ones are dropped, and a result of magnitude `2^1024` or more is
an infinity.  Powers of two are written as shifts. -/
def Double.round (u : Int) : Double :=
  let a := u.natAbs
  let s := bitLength a - 53
  let q := a >>> s
  let r := a % (1 <<< s)
  let q1 := if 1 <<< s < 2 * r ∨ (2 * r = 1 <<< s ∧ q % 2 = 1) then q + 1 else q
  let v := q1 <<< s
  if 1 <<< 2098 ≤ v then .infinity (decide (u < 0))
  else .finite (if u < 0 then -(v : Int) else (v : Int))

/-- Conversion of an integer to `double`, as in `now() + v.GetInt64()`: the
nearest double (an `int64_t` beyond `2^53` need not be representable). -/
def Double.ofInt (n : Int) : Double :=
  Double.round
    (if n < 0 then -((n.natAbs <<< 1074 : Nat) : Int) else ((n.natAbs <<< 1074 : Nat) : Int))

/-- `a + b` on doubles: the exact sum, rounded. -/
def Double.add : Double → Double → Double
  | .finite a, .finite b => Double.round (a + b)
  | .nan, _ => .nan
  | _, .nan => .nan
  | .infinity s, .infinity t => if s = t then .infinity s else .nan
  | .infinity s, .finite _ => .infinity s
  | .finite _, .infinity t => .infinity t

/-- `-a` on doubles. -/
def Double.neg : Double → Double
  | .finite a => .finite (-a)
  | .infinity s => .infinity (!s)
  | .nan => .nan

/-- `a - b` on doubles. -/
def Double.sub (a b : Double) : Double := Double.add a (Double.neg b)

/-- `a > b` on doubles (false when an operand is not a number). -/
def Double.gt : Double → Double → Bool
  | .finite a, .finite b => decide (b < a)
  | .finite _, .infinity t => t
  | .infinity s, .finite _ => !s
  | .infinity s, .infinity t => !s && t
  | .nan, _ => false
  | _, .nan => false

/-- `std::numeric_limits<double>::max()`: `(2^53 - 1) * 2^971`. -/
def Double.max : Double := .finite (((1 <<< 53 - 1) <<< 2045 : Nat) : Int)

/-- A numeral read as a `double`. -/
instance instOfNatDouble (n : Nat) : OfNat Double n := ⟨Double.ofInt n⟩

/-! ### The system and the connector context -/

/-- Everything the connector reads from outside `RESTKmsConnector.actor.cpp`:
the allocator (`alloc n` is the address returned by the `n`-th `make_shared`),
the clock, the file system, the knobs, and helpers of
`RESTKmsConnectorUtils` and of the encryption subsystem.
`REST_KMS_CONNECTOR_KMS_DISCOVERY_URL_MODE` is the knob of the configured
discovery mode.  `unorderedMapOrder m` is the order in which a range-`for`
visits the entries of a `std::unordered_map<std::string, std::string>` that was
filled in the order `m` (the standard leaves that order open).  `writeJson doc`
is the text that `doc.Accept(writer)` leaves in the `rapidjson::StringBuffer`,
`parseJson text` the document that `doc.Parse(text)` builds (`none` when the
text has a parse error).
`now` is the `double` that `now()` returns, and the refresh interval is held as
the `double` it is compared as. -/
structure Sys where
  alloc : Nat → Nat
  now : Double
  fileExists : String → Bool
  openFile : String → Except Error AsyncFile
  REST_KMS_CONNECTOR_VALIDATION_TOKEN_MODE : String
  REST_KMS_CONNECTOR_DISCOVER_KMS_URL_FILE : String
  REST_KMS_MAX_CIPHER_REQUEST_VERSION : Int
  REST_KMS_MAX_BLOB_METADATA_REQUEST_VERSION : Int
  INVALID_REQUEST_VERSION : Int
  MAX_BASE_CIPHER_LEN : Nat
  getError : JsonValue → Bool
  computeKCV : String → Nat
  REST_KMS_CONNECTOR_KMS_DISCOVERY_URL_MODE : String
  REST_KMS_CURRENT_CIPHER_REQUEST_VERSION : Int
  REST_KMS_CURRENT_BLOB_METADATA_REQUEST_VERSION : Int
  REST_KMS_CONNECTOR_VALIDATION_TOKEN_MAX_SIZE : Nat
  REST_KMS_CONNECTOR_VALIDATION_TOKENS_MAX_PAYLOAD_SIZE : Nat
  REST_KMS_CONNECTOR_REMOVE_TRAILING_NEWLINE : Bool
  unorderedMapOrder : List (String × String) → List (String × String)
  REST_KMS_CONNECTOR_REFRESH_KMS_URLS : Bool
  REST_KMS_CONNECTOR_REFRESH_KMS_URLS_INTERVAL_SEC : Double
  REST_KMS_CONNECTOR_GET_ENCRYPTION_KEYS_ENDPOINT : String
  REST_KMS_CONNECTOR_GET_LATEST_ENCRYPTION_KEYS_ENDPOINT : String
  REST_KMS_CONNECTOR_GET_BLOB_METADATA_ENDPOINT : String
  writeJson : JsonValue → String
  parseJson : String → Option JsonValue

/-- `struct RESTKmsConnectorCtx`: the URL heap and the time of the last URL
refresh.  `nAllocs` is a ghost counter of the `make_shared` calls made so far
(it selects the next address of `Sys.alloc`). -/
structure RESTKmsConnectorCtx where
  kmsUrlHeap : KmsUrlMinHeap
  lastKmsUrlsRefreshTs : Double
  nAllocs : Nat
  deriving DecidableEq, Repr

/-- `ctx->kmsUrlHeap.emplace(std::make_shared<KmsUrlCtx>(url))`. -/
def emplaceNewUrl (sys : Sys) (ctx : RESTKmsConnectorCtx) (url : String) :
    RESTKmsConnectorCtx :=
  { ctx with
    kmsUrlHeap := ctx.kmsUrlHeap.emplace { addr := sys.alloc ctx.nAllocs, obj := KmsUrlCtx.mk1 url }
    nAllocs := ctx.nAllocs + 1 }

/-- `getFullRequestUrl`. -/
def getFullRequestUrl (url suffix : String) : Except Error String :=
  match suffix.data with
  | [] => .error Error.encrypt_invalid_kms_config
  | ch :: _ => if ch = '/' then .ok (url ++ suffix) else .ok (url ++ "/" ++ suffix)

/-! ## rapidjson accessors -/

/-- Modelled from the spec: the member name `kms_urls` (`KMS_URLS_TAG` of
`RESTKmsConnectorUtils`). -/
def KMS_URLS_TAG : String := "kms_urls"

/-- Lookup of the first member with the given name. -/
def findMember (name : String) : List (String × JsonValue) → Option JsonValue
  | [] => none
  | (k, v) :: rest => if k = name then some v else findMember name rest

/-- `v.IsNull()`. -/
def JsonValue.IsNull : JsonValue → Bool
  | .null => true
  | _ => false

/-- `v.IsString()`. -/
def JsonValue.IsString : JsonValue → Bool
  | .string _ => true
  | _ => false

/-- `v.IsArray()`. -/
def JsonValue.IsArray : JsonValue → Bool
  | .array _ => true
  | _ => false

/-- `v.IsObject()`. -/
def JsonValue.IsObject : JsonValue → Bool
  | .object _ => true
  | _ => false

/-- `v.HasMember(name)`; `none` when `v` is not an object (rapidjson asserts
`IsObject()`, the behaviour is then undefined). -/
def JsonValue.HasMember (v : JsonValue) (name : String) : Option Bool :=
  match v with
  | .object members => some (findMember name members).isSome
  | _ => none

/-- `v[name]`; `none` when `v` is not an object or has no such member. -/
def JsonValue.member (v : JsonValue) (name : String) : Option JsonValue :=
  match v with
  | .object members => findMember name members
  | _ => none

/-! ## Side-band URL refresh -/

/-- The loop of `dropCachedKmsUrls`: pop until the heap is empty. -/
def dropLoop : Nat → KmsUrlMinHeap → KmsUrlMinHeap
  | 0, h => h
  | n + 1, h => if h.empty then h else dropLoop n h.pop

/-- `dropCachedKmsUrls`. -/
def dropCachedKmsUrls (ctx : RESTKmsConnectorCtx) : RESTKmsConnectorCtx :=
  { ctx with kmsUrlHeap := dropLoop ctx.kmsUrlHeap.size ctx.kmsUrlHeap }

/-- The `for` loop of `extractKmsUrls` over the elements of `kms_urls`. -/
def extractKmsUrlsLoop (sys : Sys) :
    List JsonValue → RESTKmsConnectorCtx → Except Error Unit × RESTKmsConnectorCtx
  | [], ctx => (.ok (), ctx)
  | .string urlStr :: rest, ctx => extractKmsUrlsLoop sys rest (emplaceNewUrl sys ctx urlStr)
  | _ :: _, ctx => (.error Error.operation_failed, ctx)

/-- `extractKmsUrls`.  The result is `none` where the C++ is undefined
(`GetArray()` on a value that is not an array). -/
def extractKmsUrls (sys : Sys) (ctx : RESTKmsConnectorCtx) (doc : JsonValue) :
    Option (Except Error Unit × RESTKmsConnectorCtx) :=
  let ctx1 := dropCachedKmsUrls ctx
  if !ctx1.kmsUrlHeap.empty then some (.error Error.internal_error, ctx1)
  else
    match doc.member KMS_URLS_TAG with
    | some (.array elems) =>
      match extractKmsUrlsLoop sys elems ctx1 with
      | (.ok (), ctx2) => some (.ok (), { ctx2 with lastKmsUrlsRefreshTs := sys.now })
      | (.error e, ctx2) => some (.error e, ctx2)
    | _ => none

/-- `checkDocForNewKmsUrls`: an error of `extractKmsUrls` is caught and ignored. -/
def checkDocForNewKmsUrls (sys : Sys) (ctx : RESTKmsConnectorCtx) (doc : JsonValue) :
    Option RESTKmsConnectorCtx :=
  match doc.HasMember KMS_URLS_TAG with
  | none => none
  | some false => some ctx
  | some true =>
    match doc.member KMS_URLS_TAG with
    | none => none
    | some v =>
      if v.IsNull then some ctx
      else
        match extractKmsUrls sys ctx doc with
        | none => none
        | some (_, ctx2) => some ctx2

/-! ## Discovery -/

/-- Modelled from the spec: the discovery file holds newline-separated URLs
(`DISCOVER_URL_FILE_URL_SEP` of `RESTKmsConnectorUtils`). -/
def DISCOVER_URL_FILE_URL_SEP : Char := '\n'

/-- The strings that successive `std::getline(ss, url, sep)` calls extract;
`cur` holds the characters of the line being read, newest first. -/
def getlines (sep : Char) : List Char → List Char → List (List Char)
  | [], cur => if cur.isEmpty then [] else [cur.reverse]
  | ch :: rest, cur =>
    if ch = sep then cur.reverse :: getlines sep rest []
    else getlines sep rest (ch :: cur)

/-- `std::isspace` in the classic locale, the predicate of `boost::trim_copy`. -/
def isSpace (ch : Char) : Bool :=
  ch = ' ' || ch = '\t' || ch = '\n' || ch = Char.ofNat 11 || ch = Char.ofNat 12 || ch = '\r'

/-- `boost::trim_copy`. -/
def trim_copy (s : List Char) : List Char :=
  ((s.dropWhile isSpace).reverse.dropWhile isSpace).reverse

/-- The loop that removes the trailing `'/'`(s). -/
def stripTrailingSlashes (s : List Char) : List Char :=
  (s.reverse.dropWhile (fun ch => ch = '/')).reverse

/-- Body of the `while (std::getline(...))` loop of `parseDiscoverKmsUrlFile`. -/
def addDiscoveredUrl (sys : Sys) (ctx : RESTKmsConnectorCtx) (url : List Char) :
    RESTKmsConnectorCtx :=
  let trimedUrl := stripTrailingSlashes (trim_copy url)
  if trimedUrl.isEmpty then ctx else emplaceNewUrl sys ctx (String.mk trimedUrl)

/-- `parseDiscoverKmsUrlFile`. -/
def parseDiscoverKmsUrlFile (sys : Sys) (ctx : RESTKmsConnectorCtx) (filename : String) :
    Except Error Unit × RESTKmsConnectorCtx :=
  if filename.data.isEmpty || !sys.fileExists filename then
    (.error Error.encrypt_invalid_kms_config, ctx)
  else
    match sys.openFile filename with
    | .error e => (.error e, ctx)
    | .ok dFile =>
      if dFile.bytesRead ≠ dFile.fSize then (.error Error.io_error, ctx)
      else
        (.ok (), (getlines DISCOVER_URL_FILE_URL_SEP dFile.buff.data []).foldl
          (addDiscoveredUrl sys) ctx)

/-- `discoverKmsUrls`.  The local `kmsUrls` is never filled, so the branch that
uses it is dead; the mode read is the validation-token mode knob. -/
def discoverKmsUrls (sys : Sys) (ctx : RESTKmsConnectorCtx) (refreshPersistedUrls : Bool) :
    Except Error Unit × RESTKmsConnectorCtx :=
  let _unused := refreshPersistedUrls
  let mode := sys.REST_KMS_CONNECTOR_VALIDATION_TOKEN_MODE
  let kmsUrls : List String := []
  if !kmsUrls.isEmpty then (.ok (), kmsUrls.foldl (emplaceNewUrl sys) ctx)
  else if mode = "file" then
    parseDiscoverKmsUrlFile sys ctx sys.REST_KMS_CONNECTOR_DISCOVER_KMS_URL_FILE
  else (.error Error.not_implemented, ctx)

/-! ## Response parser (cipher keys) -/

/-- Modelled from the spec: member names of the KMS JSON schema
(`RESTKmsConnectorUtils`), as written in the payload description of
`parseEncryptCipherResponse`. -/
def REQUEST_VERSION_TAG : String := "version"

/-- Modelled from the spec: the detail array of the cipher family. -/
def CIPHER_KEY_DETAILS_TAG : String := "cipher_key_details"

/-- Modelled from the spec: member `base_cipher_id` of a cipher detail. -/
def BASE_CIPHER_ID_TAG : String := "base_cipher_id"

/-- Modelled from the spec: member `base_cipher` of a cipher detail. -/
def BASE_CIPHER_TAG : String := "base_cipher"

/-- Modelled from the spec: member `encrypt_domain_id` of a cipher detail. -/
def ENCRYPT_DOMAIN_ID_TAG : String := "encrypt_domain_id"

/-- Modelled from the spec: optional member `refresh_after_sec`. -/
def REFRESH_AFTER_SEC : String := "refresh_after_sec"

/-- Modelled from the spec: optional member `expire_after_sec`. -/
def EXPIRE_AFTER_SEC : String := "expire_after_sec"

/-- `HTTP::HTTP_STATUS_CODE_OK`. -/
def HTTP_STATUS_CODE_OK : Nat := 200

/-- `v.IsInt()`: an integer that fits in 32 bits. -/
def JsonValue.IsInt : JsonValue → Bool
  | .int n => decide (-(2 : Int) ^ 31 ≤ n ∧ n < (2 : Int) ^ 31)
  | _ => false

/-- `v.GetInt64()`; `none` where rapidjson's precondition `IsInt64()` fails. -/
def JsonValue.GetInt64 : JsonValue → Option Int
  | .int n => if -(2 : Int) ^ 63 ≤ n ∧ n < (2 : Int) ^ 63 then some n else none
  | _ => none

/-- `v.GetUint64()`; `none` where rapidjson's precondition `IsUint64()` fails. -/
def JsonValue.GetUint64 : JsonValue → Option Nat
  | .int n => if 0 ≤ n ∧ n < (2 : Int) ^ 64 then some n.toNat else none
  | _ => none

/-- `EncryptCipherKeyDetailsRef` as built by `emplace_back_deep` in
`parseEncryptCipherResponse`.  Key bytes are a string with one character per
byte. -/
structure EncryptCipherKeyDetailsRef where
  encryptDomainId : Int
  encryptKeyId : Nat
  encryptKey : String
  encryptKCV : Nat
  refreshAfterSec : Option Int
  expireAfterSec : Option Int
  deriving DecidableEq, Repr

/-- `checkResponseForError`; `none` where a rapidjson accessor is used outside
its precondition. -/
def checkResponseForError (sys : Sys) (doc : JsonValue) (isCipherType : Bool) :
    Option (Except Error Unit) :=
  match doc.HasMember REQUEST_VERSION_TAG, doc.member REQUEST_VERSION_TAG with
  | some true, some (.int version) =>
    if !(JsonValue.int version).IsInt then some (.error Error.rest_malformed_response)
    else
      let maxSupportedVersion :=
        if isCipherType then sys.REST_KMS_MAX_CIPHER_REQUEST_VERSION
        else sys.REST_KMS_MAX_BLOB_METADATA_REQUEST_VERSION
      if version = sys.INVALID_REQUEST_VERSION ∨ version > maxSupportedVersion then
        some (.error Error.rest_malformed_response)
      else if sys.getError doc then some (.error Error.encrypt_keys_fetch_failed)
      else some (.ok ())
  | some _, some _ => some (.error Error.rest_malformed_response)
  | some _, none => some (.error Error.rest_malformed_response)
  | none, _ => none

/-- The optional `refresh_after_sec` of a cipher detail: present and positive. -/
def cipherRefreshAfterSec (members : List (String × JsonValue)) : Option (Option Int) :=
  match findMember REFRESH_AFTER_SEC members with
  | none => some none
  | some v =>
    match v.GetInt64 with
    | none => none
    | some n => if n > 0 then some (some n) else some none

/-- The optional `expire_after_sec` of a cipher detail. -/
def cipherExpireAfterSec (members : List (String × JsonValue)) : Option (Option Int) :=
  match findMember EXPIRE_AFTER_SEC members with
  | none => some none
  | some v =>
    match v.GetInt64 with
    | none => none
    | some n => some (some n)

/-- Body of the `for` loop of `parseEncryptCipherResponse` for one element. -/
def parseCipherDetail (sys : Sys) (cipherDetail : JsonValue) :
    Option (Except Error EncryptCipherKeyDetailsRef) :=
  match cipherDetail with
  | .object members =>
    let isBaseCipherIdPresent := (findMember BASE_CIPHER_ID_TAG members).isSome
    let isBaseCipherPresent := (findMember BASE_CIPHER_TAG members).isSome
    let isEncryptDomainIdPresent := (findMember ENCRYPT_DOMAIN_ID_TAG members).isSome
    if !isBaseCipherIdPresent || !isBaseCipherPresent || !isEncryptDomainIdPresent then
      some (.error Error.rest_malformed_response)
    else
      match findMember BASE_CIPHER_TAG members, cipherRefreshAfterSec members,
        cipherExpireAfterSec members,
        (findMember ENCRYPT_DOMAIN_ID_TAG members).bind JsonValue.GetInt64,
        (findMember BASE_CIPHER_ID_TAG members).bind JsonValue.GetUint64 with
      | some (.string cipher), some refreshAfterSec, some expireAfterSec, some domainId,
        some baseCipherId =>
        if cipher.length > sys.MAX_BASE_CIPHER_LEN then
          some (.error Error.rest_max_base_cipher_len)
        else
          some (.ok { encryptDomainId := domainId, encryptKeyId := baseCipherId,
                      encryptKey := cipher, encryptKCV := sys.computeKCV cipher,
                      refreshAfterSec := refreshAfterSec, expireAfterSec := expireAfterSec })
      | _, _, _, _, _ => none
  | _ => some (.error Error.rest_malformed_response)

/-- The `for` loop of `parseEncryptCipherResponse` over `cipher_key_details`. -/
def parseCipherDetails (sys : Sys) :
    List JsonValue → Option (Except Error (List EncryptCipherKeyDetailsRef))
  | [] => some (.ok [])
  | cipherDetail :: rest =>
    match parseCipherDetail sys cipherDetail with
    | none => none
    | some (.error e) => some (.error e)
    | some (.ok d) =>
      match parseCipherDetails sys rest with
      | none => none
      | some (.error e) => some (.error e)
      | some (.ok ds) => some (.ok (d :: ds))

/-- `parseEncryptCipherResponse`: the outcome and the context it leaves; `none`
where the C++ is undefined. -/
def parseEncryptCipherResponse (sys : Sys) (ctx : RESTKmsConnectorCtx) (resp : ResponseRef) :
    Option (Except Error (List EncryptCipherKeyDetailsRef) × RESTKmsConnectorCtx) :=
  match resp with
  | none => some (.error Error.http_request_failed, ctx)
  | some r =>
    if r.code ≠ HTTP_STATUS_CODE_OK then some (.error Error.http_request_failed, ctx)
    else
      let doc := r.content
      match checkResponseForError sys doc true with
      | none => none
      | some (.error e) => some (.error e, ctx)
      | some (.ok ()) =>
        match doc.member CIPHER_KEY_DETAILS_TAG with
        | some (.array elems) =>
          match parseCipherDetails sys elems with
          | none => none
          | some (.error e) => some (.error e, ctx)
          | some (.ok result) =>
            match checkDocForNewKmsUrls sys ctx doc with
            | none => none
            | some ctx2 => some (.ok result, ctx2)
        | _ => some (.error Error.rest_malformed_response, ctx)

/-! ## Response parser (blob metadata) -/

/-- Modelled from the spec: the detail array of the blob-metadata family
(`BLOB_METADATA_DETAILS_TAG` of `RESTKmsConnectorUtils`). -/
def BLOB_METADATA_DETAILS_TAG : String := "blob_metadata_details"

/-- Modelled from the spec: member `domain_id` of a blob-metadata detail. -/
def BLOB_METADATA_DOMAIN_ID_TAG : String := "domain_id"

/-- Modelled from the spec: member `locations` of a blob-metadata detail. -/
def BLOB_METADATA_LOCATIONS_TAG : String := "locations"

/-- Modelled from the spec: member `id` of a location. -/
def BLOB_METADATA_LOCATION_ID_TAG : String := "id"

/-- Modelled from the spec: member `path` of a location. -/
def BLOB_METADATA_LOCATION_PATH_TAG : String := "path"

/-- `BlobMetadataLocationRef(locationId, path)`; the path is a string with one
character per byte. -/
structure BlobMetadataLocationRef where
  locationId : Int
  path : String
  deriving DecidableEq, Repr

/-- `BlobMetadataDetailsRef(domainId, locations, refreshAt, expireAt)`. -/
structure BlobMetadataDetailsRef where
  domainId : Int
  locations : List BlobMetadataLocationRef
  refreshAt : Double
  expireAt : Double
  deriving DecidableEq, Repr

/-- Body of the inner `for` loop of `parseBlobMetadataResponse` for one location. -/
def parseBlobLocation (location : JsonValue) : Option (Except Error BlobMetadataLocationRef) :=
  match location with
  | .object members =>
    let isLocationIdPresent := (findMember BLOB_METADATA_LOCATION_ID_TAG members).isSome
    let isPathPresent := (findMember BLOB_METADATA_LOCATION_PATH_TAG members).isSome
    if !isLocationIdPresent || !isPathPresent then some (.error Error.rest_malformed_response)
    else
      match (findMember BLOB_METADATA_LOCATION_ID_TAG members).bind JsonValue.GetInt64,
        findMember BLOB_METADATA_LOCATION_PATH_TAG members with
      | some locationId, some (.string path) =>
        some (.ok { locationId := locationId, path := path })
      | _, _ => none
  | _ => some (.error Error.rest_malformed_response)

/-- The inner `for` loop of `parseBlobMetadataResponse` over `locations`. -/
def parseBlobLocations :
    List JsonValue → Option (Except Error (List BlobMetadataLocationRef))
  | [] => some (.ok [])
  | location :: rest =>
    match parseBlobLocation location with
    | none => none
    | some (.error e) => some (.error e)
    | some (.ok l) =>
      match parseBlobLocations rest with
      | none => none
      | some (.error e) => some (.error e)
      | some (.ok ls) => some (.ok (l :: ls))

/-- The `double refreshAt` of a blob-metadata detail: the double sum
`now() + detail[REFRESH_AFTER_SEC].GetInt64()` (the integer is converted to
`double`, then added) when the member is present and positive, and
`std::numeric_limits<double>::max()` otherwise. -/
def blobRefreshAt (sys : Sys) (members : List (String × JsonValue)) : Option Double :=
  match findMember REFRESH_AFTER_SEC members with
  | none => some Double.max
  | some v =>
    match v.GetInt64 with
    | none => none
    | some n => if n > 0 then some (Double.add sys.now (Double.ofInt n)) else some Double.max

/-- The `double expireAt` of a blob-metadata detail: the double sum
`now() + detail[EXPIRE_AFTER_SEC].GetInt64()` when the member is present, and
`std::numeric_limits<double>::max()` otherwise. -/
def blobExpireAt (sys : Sys) (members : List (String × JsonValue)) : Option Double :=
  match findMember EXPIRE_AFTER_SEC members with
  | none => some Double.max
  | some v =>
    match v.GetInt64 with
    | none => none
    | some n => some (Double.add sys.now (Double.ofInt n))

/-- Body of the outer `for` loop of `parseBlobMetadataResponse` for one element. -/
def parseBlobDetail (sys : Sys) (detail : JsonValue) :
    Option (Except Error BlobMetadataDetailsRef) :=
  match detail with
  | .object members =>
    let isDomainIdPresent := (findMember BLOB_METADATA_DOMAIN_ID_TAG members).isSome
    let isLocationsPresent :=
      match findMember BLOB_METADATA_LOCATIONS_TAG members with
      | some v => v.IsArray
      | none => false
    if !isDomainIdPresent || !isLocationsPresent then
      some (.error Error.rest_malformed_response)
    else
      match (findMember BLOB_METADATA_DOMAIN_ID_TAG members).bind JsonValue.GetInt64 with
      | none => none
      | some domainId =>
        match findMember BLOB_METADATA_LOCATIONS_TAG members with
        | some (.array locs) =>
          match parseBlobLocations locs with
          | none => none
          | some (.error e) => some (.error e)
          | some (.ok locations) =>
            match blobRefreshAt sys members, blobExpireAt sys members with
            | some refreshAt, some expireAt =>
              some (.ok { domainId := domainId, locations := locations,
                          refreshAt := refreshAt, expireAt := expireAt })
            | _, _ => none
        | _ => none
  | _ => some (.error Error.rest_malformed_response)

/-- The outer `for` loop of `parseBlobMetadataResponse` over
`blob_metadata_details`. -/
def parseBlobDetails (sys : Sys) :
    List JsonValue → Option (Except Error (List BlobMetadataDetailsRef))
  | [] => some (.ok [])
  | detail :: rest =>
    match parseBlobDetail sys detail with
    | none => none
    | some (.error e) => some (.error e)
    | some (.ok d) =>
      match parseBlobDetails sys rest with
      | none => none
      | some (.error e) => some (.error e)
      | some (.ok ds) => some (.ok (d :: ds))

/-- `parseBlobMetadataResponse`: the outcome and the context it leaves; `none`
where the C++ is undefined.  Unlike `parseEncryptCipherResponse` it reads
`resp->code` without testing `resp.isValid()`. -/
def parseBlobMetadataResponse (sys : Sys) (ctx : RESTKmsConnectorCtx) (resp : ResponseRef) :
    Option (Except Error (List BlobMetadataDetailsRef) × RESTKmsConnectorCtx) :=
  match resp with
  | none => none
  | some r =>
    if r.code ≠ HTTP_STATUS_CODE_OK then some (.error Error.http_request_failed, ctx)
    else
      let doc := r.content
      match checkResponseForError sys doc false with
      | none => none
      | some (.error e) => some (.error e, ctx)
      | some (.ok ()) =>
        match doc.member BLOB_METADATA_DETAILS_TAG with
        | some (.array elems) =>
          match parseBlobDetails sys elems with
          | none => none
          | some (.error e) => some (.error e, ctx)
          | some (.ok result) =>
            match checkDocForNewKmsUrls sys ctx doc with
            | none => none
            | some ctx2 => some (.ok result, ctx2)
        | _ => some (.error Error.rest_malformed_response, ctx)

/-! ## Validation-token store -/

/-- `removeTrailingChar(str, c)`: erases the last character as long as it is `c`. -/
def removeTrailingChar (str : String) (c : Char) : String :=
  String.mk (str.data.reverse.dropWhile (fun ch => ch = c)).reverse

/-- Modelled from the spec: the byte `NAME_SEP` that ends a token name in the
details string (`TOKEN_NAME_FILE_SEP` of `RESTKmsConnectorUtils`; the unit tests
of the file write it `$`). -/
def TOKEN_NAME_FILE_SEP : Char := '$'

/-- Modelled from the spec: the byte `TUPLE_SEP` that ends a name/path tuple
(`TOKEN_TUPLE_SEP` of `RESTKmsConnectorUtils`). -/
def TOKEN_TUPLE_SEP : Char := ','

/-- Modelled from the spec: `StringRef::eat(sep)` scans up to `sep`; it returns
the bytes before the first `sep` and leaves what follows it, or returns
everything and leaves nothing when there is no `sep`. -/
def eat (sep : Char) (s : List Char) : List Char × List Char :=
  (s.takeWhile (fun ch => ch ≠ sep), (s.dropWhile (fun ch => ch ≠ sep)).drop 1)

/-- `ValidationTokenSource`. -/
inductive ValidationTokenSource where
  | VALIDATION_TOKEN_SOURCE_FILE
  deriving DecidableEq, Repr

/-- Modelled from the spec: `ValidationTokenCtx` (`RESTKmsConnectorUtils`) with
the attributes name, value, source kind, origin path and read timestamp; the
constructor sets the read timestamp to `now()`. -/
structure ValidationTokenCtx where
  name : String
  value : String
  source : ValidationTokenSource
  filePath : Option String
  readTS : Double
  deriving DecidableEq, Repr

/-- A `std::unordered_map` with string keys, as the list of its entries. -/
abbrev UnorderedMap (α : Type) := List (String × α)

/-- `ValidationTokenMap`, the type of `ctx->validationTokenMap`. -/
abbrev ValidationTokenMap := UnorderedMap ValidationTokenCtx

/-- `m.emplace(key, value)`: inserts unless the key is already there. -/
def UnorderedMap.emplace {α : Type} (m : UnorderedMap α) (key : String) (value : α) :
    UnorderedMap α :=
  if m.any (fun kv => kv.1 = key) then m else m ++ [(key, value)]

/-- The `loop` of `procureValidationTokensFromFiles` that fills
`tokenFilePathMap`; `detailsRef` is what is left of the details string.  Every
iteration that goes on consumes a byte, so a fuel above the length of
`detailsRef` is never used up. -/
def tokenFileLoop (sys : Sys) :
    Nat → List Char → UnorderedMap String → Option (Except Error (UnorderedMap String))
  | 0, _, _ => none
  | fuel + 1, detailsRef, tokenFilePathMap =>
    let name := (eat TOKEN_NAME_FILE_SEP detailsRef).1
    let detailsRef := (eat TOKEN_NAME_FILE_SEP detailsRef).2
    if name.isEmpty then some (.ok tokenFilePathMap)
    else
      let path := (eat TOKEN_TUPLE_SEP detailsRef).1
      let detailsRef := (eat TOKEN_TUPLE_SEP detailsRef).2
      if path.isEmpty then some (.error Error.operation_failed)
      else
        let tokenName := String.mk (trim_copy name)
        let tokenFile := String.mk (trim_copy path)
        if !sys.fileExists tokenFile then some (.error Error.encrypt_invalid_kms_config)
        else tokenFileLoop sys fuel detailsRef (tokenFilePathMap.emplace tokenName tokenFile)

/-- The `for` loop of `procureValidationTokensFromFiles` over the entries of
`tokenFilePathMap` that are still to be visited; `validationTokenMap` is the
store filled so far. -/
def readTokenFiles (sys : Sys) :
    List (String × String) → Nat → ValidationTokenMap → Except Error Unit × ValidationTokenMap
  | [], _, validationTokenMap => (.ok (), validationTokenMap)
  | (tokenName, tokenFile) :: rest, tokensPayloadSize, validationTokenMap =>
    match sys.openFile tokenFile with
    | .error e => (.error e, validationTokenMap)
    | .ok tFile =>
      if tFile.fSize > sys.REST_KMS_CONNECTOR_VALIDATION_TOKEN_MAX_SIZE then
        (.error Error.file_too_large, validationTokenMap)
      else
        let tokensPayloadSize := tokensPayloadSize + tFile.fSize
        if tokensPayloadSize > sys.REST_KMS_CONNECTOR_VALIDATION_TOKENS_MAX_PAYLOAD_SIZE then
          (.error Error.value_too_large, validationTokenMap)
        else if tFile.bytesRead ≠ tFile.fSize then (.error Error.io_error, validationTokenMap)
        else
          let value := String.mk (tFile.buff.data.take tFile.fSize)
          let tokenCtx : ValidationTokenCtx :=
            { name := tokenName
              value := if sys.REST_KMS_CONNECTOR_REMOVE_TRAILING_NEWLINE then
                  removeTrailingChar value '\n'
                else value
              source := ValidationTokenSource.VALIDATION_TOKEN_SOURCE_FILE
              filePath := some tokenFile
              readTS := sys.now }
          readTokenFiles sys rest tokensPayloadSize
            (validationTokenMap.emplace tokenName tokenCtx)

/-- `procureValidationTokensFromFiles`, on the field `ctx->validationTokenMap`,
the only part of the context that it changes.  The result is `none` only if
the fuel of the first loop runs out, which does not happen. -/
def procureValidationTokensFromFiles (sys : Sys) (validationTokenMap : ValidationTokenMap)
    (details : String) : Option (Except Error Unit × ValidationTokenMap) :=
  if details.data.isEmpty then some (.error Error.encrypt_invalid_kms_config, validationTokenMap)
  else
    match tokenFileLoop sys (details.data.length + 1) details.data [] with
    | none => none
    | some (.error e) => some (.error e, validationTokenMap)
    | some (.ok tokenFilePathMap) =>
      some (readTokenFiles sys (sys.unorderedMapOrder tokenFilePathMap) 0 [])

/-- Ghost: the values that `ctx->validationTokenMap` takes during the `for` loop
of `procureValidationTokensFromFiles`, one per `emplace`, oldest first.  The
loop is the one of `readTokenFiles`; it stops where that loop throws. -/
def readTokenFilesStates (sys : Sys) :
    List (String × String) → Nat → ValidationTokenMap → List ValidationTokenMap
  | [], _, _ => []
  | (tokenName, tokenFile) :: rest, tokensPayloadSize, validationTokenMap =>
    match sys.openFile tokenFile with
    | .error _ => []
    | .ok tFile =>
      if tFile.fSize > sys.REST_KMS_CONNECTOR_VALIDATION_TOKEN_MAX_SIZE then []
      else
        let tokensPayloadSize := tokensPayloadSize + tFile.fSize
        if tokensPayloadSize > sys.REST_KMS_CONNECTOR_VALIDATION_TOKENS_MAX_PAYLOAD_SIZE then []
        else if tFile.bytesRead ≠ tFile.fSize then []
        else
          let value := String.mk (tFile.buff.data.take tFile.fSize)
          let tokenCtx : ValidationTokenCtx :=
            { name := tokenName
              value := if sys.REST_KMS_CONNECTOR_REMOVE_TRAILING_NEWLINE then
                  removeTrailingChar value '\n'
                else value
              source := ValidationTokenSource.VALIDATION_TOKEN_SOURCE_FILE
              filePath := some tokenFile
              readTS := sys.now }
          validationTokenMap.emplace tokenName tokenCtx ::
            readTokenFilesStates sys rest tokensPayloadSize
              (validationTokenMap.emplace tokenName tokenCtx)

/-- Ghost: the values that `ctx->validationTokenMap` takes from the entry into
`procureValidationTokensFromFiles` to its end, oldest first: the store at
entry, then, if the details string passes its checks, the store after
`validationTokenMap.clear()` and the store after each `emplace`. -/
def procureStates (sys : Sys) (validationTokenMap : ValidationTokenMap)
    (details : String) : Option (List ValidationTokenMap) :=
  if details.data.isEmpty then some [validationTokenMap]
  else
    match tokenFileLoop sys (details.data.length + 1) details.data [] with
    | none => none
    | some (.error _) => some [validationTokenMap]
    | some (.ok tokenFilePathMap) =>
      some (validationTokenMap :: [] ::
        readTokenFilesStates sys (sys.unorderedMapOrder tokenFilePathMap) 0 [])

/-! ## Request engine -/

/-- How one attempt on an endpoint ended. -/
inductive AttemptOutcome where
  | urlFailed (e : Error)
  | postFailed (e : Error)
  | parseFailed (e : Error)
  | parsed
  deriving DecidableEq, Repr

/-- Ghost record of one iteration of the `while` loop of `kmsRequestImpl`: the
pass, the endpoint as it was popped, and how the attempt ended.  A POST was
issued unless the outcome is `urlFailed`. -/
structure AttemptRecord where
  pass : Nat
  curUrl : KmsUrlPtr
  outcome : AttemptOutcome
  deriving DecidableEq, Repr

/-- The HTTP client and the parse callback of one request.  `doPost pass n url
body` is the result of `restClient.doPost` for the attempt number `n` of the
request, made during `pass` (the answer of a server may change with time).
`parseFunc` may change the context; `none` is undefined behaviour. -/
structure RequestEnv (T : Type) where
  doPost : Nat → Nat → String → String → Except Error ResponseRef
  parseFunc : RESTKmsConnectorCtx → ResponseRef → Option (Except Error T × RESTKmsConnectorCtx)

/-- State of the actor `kmsRequestImpl`: the context, the `state` variables
`pass` and `tempStack` (top first), and two ghost fields: the attempts made so
far, oldest first, and the arguments of the calls of `discoverKmsUrls`. -/
structure RequestState where
  ctx : RESTKmsConnectorCtx
  pass : Nat
  tempStack : List KmsUrlPtr
  log : List AttemptRecord
  discoverCalls : List Bool
  deriving DecidableEq, Repr

/-- How one iteration of the `while` loop ends: with `return parsedResp`, with
`throw e`, or by going on with the loop. -/
inductive IterExit (T : Type) where
  | returned (parsedResp : T)
  | threw (e : Error)
  | next

/-- How the `while` loop of one pass is left. -/
inductive LoopExit (T : Type) where
  | returned (parsedResp : T)
  | threw (e : Error)
  | exhausted

/-- `curUrl->nFailedResponses++`. -/
def KmsUrlPtr.incFailedResponses (p : KmsUrlPtr) : KmsUrlPtr :=
  { p with obj := { p.obj with nFailedResponses := p.obj.nFailedResponses + 1 } }

/-- `curUrl->nRequests++`. -/
def KmsUrlPtr.incRequests (p : KmsUrlPtr) : KmsUrlPtr :=
  { p with obj := { p.obj with nRequests := p.obj.nRequests + 1 } }

/-- `curUrl->nResponseParseFailures++`. -/
def KmsUrlPtr.incResponseParseFailures (p : KmsUrlPtr) : KmsUrlPtr :=
  { p with obj := { p.obj with nResponseParseFailures := p.obj.nResponseParseFailures + 1 } }

/-- The loop that pushes the endpoints of `tempStack` back on the heap, top of
the stack first. -/
def restoreTempStack (tempStack : List KmsUrlPtr) (h : KmsUrlMinHeap) : KmsUrlMinHeap :=
  tempStack.foldl KmsUrlMinHeap.emplace h

/-- The `catch` of the outer `try`: count a failed response, then rethrow an
unreachable error in pass 2 and otherwise go on with the loop. -/
def outerCatch {T : Type} (st : RequestState) (ctx1 : RESTKmsConnectorCtx) (curUrl : KmsUrlPtr)
    (e : Error) (outcome : AttemptOutcome) : IterExit T × RequestState :=
  (if decide (st.pass > 1) && isKmsNotReachable e then .threw e else .next,
    { st with
      ctx := ctx1
      tempStack := curUrl.incFailedResponses :: st.tempStack
      log := st.log ++ [{ pass := st.pass, curUrl := curUrl, outcome := outcome }] })

/-- One iteration of the `while` loop of `kmsRequestImpl`, for `curUrl =
ctx->kmsUrlHeap.top()`.  `curUrl` is also the top of `tempStack`, so the
counter updates are written there.  The result is `none` when `parseFunc` is
undefined. -/
def kmsUrlIteration {T : Type} (env : RequestEnv T) (urlSuffix requestBodyRef : String)
    (st : RequestState) (curUrl : KmsUrlPtr) : Option (IterExit T × RequestState) :=
  let ctx1 := { st.ctx with kmsUrlHeap := st.ctx.kmsUrlHeap.pop }
  match getFullRequestUrl curUrl.obj.url urlSuffix with
  | .error e => some (outerCatch st ctx1 curUrl e (.urlFailed e))
  | .ok kmsEncryptionFullUrl =>
    match env.doPost st.pass st.log.length kmsEncryptionFullUrl requestBodyRef with
    | .error e => some (outerCatch st ctx1 curUrl e (.postFailed e))
    | .ok resp =>
      match env.parseFunc ctx1 resp with
      | none => none
      | some (.ok parsedResp, ctx2) =>
        some (.returned parsedResp,
          { st with
            ctx := { ctx2 with
              kmsUrlHeap := restoreTempStack (curUrl.incRequests :: st.tempStack) ctx2.kmsUrlHeap }
            tempStack := []
            log := st.log ++ [{ pass := st.pass, curUrl := curUrl, outcome := .parsed }] })
      | some (.error e, ctx2) =>
        some (.next,
          { st with
            ctx := ctx2
            tempStack := curUrl.incRequests.incResponseParseFailures :: st.tempStack
            log := st.log ++ [{ pass := st.pass, curUrl := curUrl, outcome := .parseFailed e }] })

/-- The `while (!ctx->kmsUrlHeap.empty())` loop of `kmsRequestImpl`.  The result
is `none` when the fuel runs out or `parseFunc` is undefined. -/
def kmsUrlLoop {T : Type} (env : RequestEnv T) (urlSuffix requestBodyRef : String) :
    Nat → RequestState → Option (LoopExit T × RequestState)
  | 0, _ => none
  | fuel + 1, st =>
    match st.ctx.kmsUrlHeap.top with
    | none => some (.exhausted, st)
    | some curUrl =>
      match kmsUrlIteration env urlSuffix requestBodyRef st curUrl with
      | none => none
      | some (.returned parsedResp, st1) => some (.returned parsedResp, st1)
      | some (.threw e, st1) => some (.threw e, st1)
      | some (.next, st1) => kmsUrlLoop env urlSuffix requestBodyRef fuel st1

/-- The `for (; pass <= 2; pass++)` loop of `kmsRequestImpl` with `n` iterations
left, followed by the final `throw encrypt_keys_fetch_failed()`.  `tempStack` is
declared inside the loop body, so every pass starts with an empty stack. -/
def kmsRequestPasses {T : Type} (sys : Sys) (env : RequestEnv T)
    (urlSuffix requestBodyRef : String) (fuel : Nat) :
    Nat → RequestState → Option (Except Error T × RequestState)
  | 0, st => some (.error Error.encrypt_keys_fetch_failed, st)
  | n + 1, st =>
    match kmsUrlLoop env urlSuffix requestBodyRef fuel { st with tempStack := [] } with
    | none => none
    | some (.returned parsedResp, st1) => some (.ok parsedResp, st1)
    | some (.threw e, st1) => some (.error e, st1)
    | some (.exhausted, st1) =>
      if st1.pass = 1 then
        match discoverKmsUrls sys st1.ctx true with
        | (.error e, ctx2) =>
          some (.error e, { st1 with ctx := ctx2, discoverCalls := st1.discoverCalls ++ [true] })
        | (.ok (), ctx2) =>
          kmsRequestPasses sys env urlSuffix requestBodyRef fuel n
            { st1 with ctx := ctx2, pass := st1.pass + 1,
                       discoverCalls := st1.discoverCalls ++ [true] }
      else
        kmsRequestPasses sys env urlSuffix requestBodyRef fuel n { st1 with pass := st1.pass + 1 }

/-- `kmsRequestImpl`: the reply or the error thrown, and the final state of the
actor (of which `ctx` survives the call).  `fuel` bounds the iterations of each
`while` loop. -/
def kmsRequestImpl {T : Type} (sys : Sys) (env : RequestEnv T)
    (urlSuffix requestBodyRef : String) (fuel : Nat) (ctx : RESTKmsConnectorCtx) :
    Option (Except Error T × RequestState) :=
  kmsRequestPasses sys env urlSuffix requestBodyRef fuel 2
    { ctx := ctx, pass := 1, tempStack := [], log := [], discoverCalls := [] }

/-! ## Request builders -/

/-- Modelled from the spec: member `validation_tokens` of a request
(`VALIDATION_TOKENS_TAG` of `RESTKmsConnectorUtils`), as written in the payload
description of the builders. -/
def VALIDATION_TOKENS_TAG : String := "validation_tokens"

/-- Modelled from the spec: member `token_name` of a validation token. -/
def VALIDATION_TOKEN_NAME_TAG : String := "token_name"

/-- Modelled from the spec: member `token_value` of a validation token. -/
def VALIDATION_TOKEN_VALUE_TAG : String := "token_value"

/-- Modelled from the spec: member `refresh_kms_urls` of a request. -/
def REFRESH_KMS_URLS_TAG : String := "refresh_kms_urls"

/-- Modelled from the spec: member `debug_uid` of a request. -/
def DEBUG_UID_TAG : String := "debug_uid"

/-- Modelled from the spec: `KmsConnLookupKeyIdsReqInfo` (`KmsConnectorInterface.h`),
one requested key: its domain and its base cipher id (an unsigned 64-bit
number). -/
structure KmsConnLookupKeyIdsReqInfo where
  domainId : Int
  baseCipherId : Nat
  deriving DecidableEq, Repr

/-- Modelled from the spec: `KmsConnLookupEKsByKeyIdsReq`, the by-key-ids
request: the requested keys and an optional debug identifier. -/
structure KmsConnLookupEKsByKeyIdsReq where
  encryptKeyInfos : List KmsConnLookupKeyIdsReqInfo
  debugId : Option String
  deriving DecidableEq, Repr

/-- Modelled from the spec: `KmsConnLookupEKsByDomainIdsReq`, the
latest-by-domain-ids request. -/
structure KmsConnLookupEKsByDomainIdsReq where
  encryptDomainIds : List Int
  debugId : Option String
  deriving DecidableEq, Repr

/-- Modelled from the spec: `KmsConnBlobMetadataReq`, the blob-metadata
request. -/
structure KmsConnBlobMetadataReq where
  domainIds : List Int
  debugId : Option String
  deriving DecidableEq, Repr

/-- Modelled from the spec: `addVersionToDoc` (`RESTKmsConnectorUtils`) appends
the top-level member `version`.  A document under construction is the list of
its members, in the order of the `AddMember` calls. -/
def addVersionToDoc (doc : List (String × JsonValue)) (version : Int) :
    List (String × JsonValue) :=
  doc ++ [(REQUEST_VERSION_TAG, .int version)]

/-- Modelled from the spec: `addBaseCipherIdDomIdToDoc` pushes the entry
`{ base_cipher_id, encrypt_domain_id? }` of one requested key on the array. -/
def addBaseCipherIdDomIdToDoc (keyIdDetails : List JsonValue) (baseCipherId : Nat)
    (domainId : Option Int) : List JsonValue :=
  keyIdDetails ++ [.object ((BASE_CIPHER_ID_TAG, .int baseCipherId) ::
    match domainId with
    | some d => [(ENCRYPT_DOMAIN_ID_TAG, .int d)]
    | none => [])]

/-- Modelled from the spec: `addLatestDomainDetailsToDoc` appends the member
`rootTagName`, an array with one entry `{ keyIdTagName: domain }` per requested
domain, in the caller's order. -/
def addLatestDomainDetailsToDoc (doc : List (String × JsonValue))
    (rootTagName keyIdTagName : String) (domainIds : List Int) : List (String × JsonValue) :=
  doc ++ [(rootTagName, .array (domainIds.map (fun d => .object [(keyIdTagName, .int d)])))]

/-- Modelled from the spec: `addValidationTokensSectionToJsonDoc` appends the
member `validation_tokens`, an array with one entry `{ token_name, token_value }`
per token of the store. -/
def addValidationTokensSectionToJsonDoc (doc : List (String × JsonValue))
    (tokenMap : ValidationTokenMap) : List (String × JsonValue) :=
  doc ++ [(VALIDATION_TOKENS_TAG, .array (tokenMap.map (fun kv =>
    .object [(VALIDATION_TOKEN_NAME_TAG, .string kv.2.name),
             (VALIDATION_TOKEN_VALUE_TAG, .string kv.2.value)])))]

/-- Modelled from the spec: `addRefreshKmsUrlsSectionToJsonDoc` appends the
member `refresh_kms_urls`. -/
def addRefreshKmsUrlsSectionToJsonDoc (doc : List (String × JsonValue))
    (refreshKmsUrls : Bool) : List (String × JsonValue) :=
  doc ++ [(REFRESH_KMS_URLS_TAG, .bool refreshKmsUrls)]

/-- Modelled from the spec: `addDebugUidSectionToJsonDoc` appends the member
`debug_uid` iff the caller supplied a debug identifier. -/
def addDebugUidSectionToJsonDoc (doc : List (String × JsonValue))
    (dbgId : Option String) : List (String × JsonValue) :=
  match dbgId with
  | some uid => doc ++ [(DEBUG_UID_TAG, .string uid)]
  | none => doc

/-- The document that `getEncryptKeysByKeyIdsRequestBody` builds before it
serialises it.  The version written is the knob of the blob-metadata family. -/
def getEncryptKeysByKeyIdsRequestDoc (sys : Sys) (validationTokenMap : ValidationTokenMap)
    (req : KmsConnLookupEKsByKeyIdsReq) (refreshKmsUrls : Bool) : JsonValue :=
  let doc : List (String × JsonValue) := []
  let doc := addVersionToDoc doc sys.REST_KMS_CURRENT_BLOB_METADATA_REQUEST_VERSION
  let keyIdDetails := req.encryptKeyInfos.foldl
    (fun keyIdDetails detail =>
      addBaseCipherIdDomIdToDoc keyIdDetails detail.baseCipherId (some detail.domainId)) []
  let doc := doc ++ [(CIPHER_KEY_DETAILS_TAG, .array keyIdDetails)]
  let doc := addValidationTokensSectionToJsonDoc doc validationTokenMap
  let doc := addRefreshKmsUrlsSectionToJsonDoc doc refreshKmsUrls
  let doc := addDebugUidSectionToJsonDoc doc req.debugId
  .object doc

/-- `getEncryptKeysByKeyIdsRequestBody`: the document, serialised. -/
def getEncryptKeysByKeyIdsRequestBody (sys : Sys) (validationTokenMap : ValidationTokenMap)
    (req : KmsConnLookupEKsByKeyIdsReq) (refreshKmsUrls : Bool) : String :=
  sys.writeJson (getEncryptKeysByKeyIdsRequestDoc sys validationTokenMap req refreshKmsUrls)

/-- The document that `getEncryptKeysByDomainIdsRequestBody` builds before it
serialises it. -/
def getEncryptKeysByDomainIdsRequestDoc (sys : Sys) (validationTokenMap : ValidationTokenMap)
    (req : KmsConnLookupEKsByDomainIdsReq) (refreshKmsUrls : Bool) : JsonValue :=
  let doc : List (String × JsonValue) := []
  let doc := addVersionToDoc doc sys.REST_KMS_CURRENT_CIPHER_REQUEST_VERSION
  let doc := addLatestDomainDetailsToDoc doc CIPHER_KEY_DETAILS_TAG ENCRYPT_DOMAIN_ID_TAG
    req.encryptDomainIds
  let doc := addValidationTokensSectionToJsonDoc doc validationTokenMap
  let doc := addRefreshKmsUrlsSectionToJsonDoc doc refreshKmsUrls
  let doc := addDebugUidSectionToJsonDoc doc req.debugId
  .object doc

/-- `getEncryptKeysByDomainIdsRequestBody`: the document, serialised. -/
def getEncryptKeysByDomainIdsRequestBody (sys : Sys) (validationTokenMap : ValidationTokenMap)
    (req : KmsConnLookupEKsByDomainIdsReq) (refreshKmsUrls : Bool) : String :=
  sys.writeJson (getEncryptKeysByDomainIdsRequestDoc sys validationTokenMap req refreshKmsUrls)

/-- The document that `getBlobMetadataRequestBody` builds before it serialises
it. -/
def getBlobMetadataRequestDoc (sys : Sys) (validationTokenMap : ValidationTokenMap)
    (req : KmsConnBlobMetadataReq) (refreshKmsUrls : Bool) : JsonValue :=
  let doc : List (String × JsonValue) := []
  let doc := addVersionToDoc doc sys.REST_KMS_CURRENT_BLOB_METADATA_REQUEST_VERSION
  let doc := addLatestDomainDetailsToDoc doc BLOB_METADATA_DETAILS_TAG
    BLOB_METADATA_DOMAIN_ID_TAG req.domainIds
  let doc := addValidationTokensSectionToJsonDoc doc validationTokenMap
  let doc := addRefreshKmsUrlsSectionToJsonDoc doc refreshKmsUrls
  let doc := addDebugUidSectionToJsonDoc doc req.debugId
  .object doc

/-- `getBlobMetadataRequestBody`: the document, serialised. -/
def getBlobMetadataRequestBody (sys : Sys) (validationTokenMap : ValidationTokenMap)
    (req : KmsConnBlobMetadataReq) (refreshKmsUrls : Bool) : String :=
  sys.writeJson (getBlobMetadataRequestDoc sys validationTokenMap req refreshKmsUrls)

/-! ## Workers -/

/-- `canReplyWith`. -/
def canReplyWith (e : Error) : Bool :=
  match e with
  | .encrypt_invalid_kms_config => true
  | .encrypt_keys_fetch_failed => true
  | .file_not_found => true
  | .file_too_large => true
  | .http_request_failed => true
  | .io_error => true
  | .operation_failed => true
  | .value_too_large => true
  | .timed_out => true
  | .connection_failed => true
  | .rest_malformed_response => true
  | _ => false

/-- `shouldRefreshKmsUrls`: the difference and the comparison are those of
`double`. -/
def shouldRefreshKmsUrls (sys : Sys) (ctx : RESTKmsConnectorCtx) : Bool :=
  if !sys.REST_KMS_CONNECTOR_REFRESH_KMS_URLS then false
  else Double.gt (Double.sub sys.now ctx.lastKmsUrlsRefreshTs)
    sys.REST_KMS_CONNECTOR_REFRESH_KMS_URLS_INTERVAL_SEC

/-- How a worker actor ends: what it sent on `req.reply` (the reply, an error, or
nothing), the error that leaves the actor (`none` when it returns `Void()`), and
the context it leaves. -/
structure WorkerExit (Rep : Type) where
  sent : Option (Except Error Rep)
  thrown : Option Error
  ctx : RESTKmsConnectorCtx

/-- `fetchEncryptionKeysByKeyIds`; `doPost` is the HTTP client. -/
def fetchEncryptionKeysByKeyIds (sys : Sys)
    (doPost : Nat → Nat → String → String → Except Error ResponseRef)
    (validationTokenMap : ValidationTokenMap) (fuel : Nat) (ctx : RESTKmsConnectorCtx)
    (req : KmsConnLookupEKsByKeyIdsReq) :
    Option (WorkerExit (List EncryptCipherKeyDetailsRef)) :=
  let refreshKmsUrls := shouldRefreshKmsUrls sys ctx
  let requestBodyRef := getEncryptKeysByKeyIdsRequestBody sys validationTokenMap req refreshKmsUrls
  match kmsRequestImpl sys { doPost := doPost, parseFunc := parseEncryptCipherResponse sys }
      sys.REST_KMS_CONNECTOR_GET_ENCRYPTION_KEYS_ENDPOINT requestBodyRef fuel ctx with
  | none => none
  | some (.ok cipherKeyDetails, st) =>
    some { sent := some (.ok cipherKeyDetails), thrown := none, ctx := st.ctx }
  | some (.error e, st) =>
    if !canReplyWith e then some { sent := none, thrown := some e, ctx := st.ctx }
    else some { sent := some (.error e), thrown := none, ctx := st.ctx }

/-- `fetchEncryptionKeysByDomainIds`. -/
def fetchEncryptionKeysByDomainIds (sys : Sys)
    (doPost : Nat → Nat → String → String → Except Error ResponseRef)
    (validationTokenMap : ValidationTokenMap) (fuel : Nat) (ctx : RESTKmsConnectorCtx)
    (req : KmsConnLookupEKsByDomainIdsReq) :
    Option (WorkerExit (List EncryptCipherKeyDetailsRef)) :=
  let refreshKmsUrls := shouldRefreshKmsUrls sys ctx
  let requestBodyRef :=
    getEncryptKeysByDomainIdsRequestBody sys validationTokenMap req refreshKmsUrls
  match kmsRequestImpl sys { doPost := doPost, parseFunc := parseEncryptCipherResponse sys }
      sys.REST_KMS_CONNECTOR_GET_LATEST_ENCRYPTION_KEYS_ENDPOINT requestBodyRef fuel ctx with
  | none => none
  | some (.ok cipherKeyDetails, st) =>
    some { sent := some (.ok cipherKeyDetails), thrown := none, ctx := st.ctx }
  | some (.error e, st) =>
    if !canReplyWith e then some { sent := none, thrown := some e, ctx := st.ctx }
    else some { sent := some (.error e), thrown := none, ctx := st.ctx }

/-- `fetchBlobMetadata`. -/
def fetchBlobMetadata (sys : Sys)
    (doPost : Nat → Nat → String → String → Except Error ResponseRef)
    (validationTokenMap : ValidationTokenMap) (fuel : Nat) (ctx : RESTKmsConnectorCtx)
    (req : KmsConnBlobMetadataReq) :
    Option (WorkerExit (List BlobMetadataDetailsRef)) :=
  let refreshKmsUrls := shouldRefreshKmsUrls sys ctx
  let requestBodyRef := getBlobMetadataRequestBody sys validationTokenMap req refreshKmsUrls
  match kmsRequestImpl sys { doPost := doPost, parseFunc := parseBlobMetadataResponse sys }
      sys.REST_KMS_CONNECTOR_GET_BLOB_METADATA_ENDPOINT requestBodyRef fuel ctx with
  | none => none
  | some (.ok metadataDetails, st) =>
    some { sent := some (.ok metadataDetails), thrown := none, ctx := st.ctx }
  | some (.error e, st) =>
    if !canReplyWith e then some { sent := none, thrown := some e, ctx := st.ctx }
    else some { sent := some (.error e), thrown := none, ctx := st.ctx }

/-! ## Notions used to state the properties -/

/-- Repeated `top()` / `pop()`, at most `n` times. -/
def popAll : Nat → KmsUrlMinHeap → List KmsUrlPtr
  | 0, _ => []
  | n + 1, h =>
    match h.top with
    | none => []
    | some t => t :: popAll n h.pop

/-- The order in which the endpoints of a heap are popped. -/
def KmsUrlMinHeap.popOrder (h : KmsUrlMinHeap) : List KmsUrlPtr :=
  popAll h.size h

/-- Identity of an endpoint: its address and its URL (what no attempt changes). -/
def KmsUrlPtr.ident (p : KmsUrlPtr) : Nat × String := (p.addr, p.obj.url)

/-- A transport error that the engine rethrows: in pass 2, timed-out or
connection-failed. -/
def isTerminal (pass : Nat) (e : Error) : Bool :=
  decide (pass > 1) && isKmsNotReachable e

/-- The attempt number `n`, made in `pass` on the endpoint with URL `url`, fails
without ending the request: the URL cannot be built, or the POST raises an error
that is not terminal, or the POST returns and the parse function fails, leaving
the context as it was. -/
def AttemptFails {T : Type} (env : RequestEnv T) (urlSuffix requestBodyRef : String)
    (pass n : Nat) (url : String) : Prop :=
  match getFullRequestUrl url urlSuffix with
  | .error e => isTerminal pass e = false
  | .ok full =>
    match env.doPost pass n full requestBodyRef with
    | .error e => isTerminal pass e = false
    | .ok resp => ∀ c, ∃ e, env.parseFunc c resp = some (.error e, c)

/-- The attempt number `n`, made in `pass` on the endpoint with URL `url`,
succeeds with the parse result `v`: the POST returns a response that the parse
function accepts, whatever the context. -/
def AttemptSucceeds {T : Type} (env : RequestEnv T) (urlSuffix requestBodyRef : String)
    (pass n : Nat) (url : String) (v : T) : Prop :=
  ∃ full resp, getFullRequestUrl url urlSuffix = .ok full ∧
    env.doPost pass n full requestBodyRef = .ok resp ∧
    ∀ c, ∃ c2, env.parseFunc c resp = some (.ok v, c2)

/-- The attempt number `n`, made in `pass` on the endpoint with URL `url`, finds
the endpoint unreachable: the POST raises `e`, which is timed-out or
connection-failed. -/
def AttemptUnreachable {T : Type} (env : RequestEnv T) (urlSuffix requestBodyRef : String)
    (pass n : Nat) (url : String) (e : Error) : Prop :=
  ∃ full, getFullRequestUrl url urlSuffix = .ok full ∧
    env.doPost pass n full requestBodyRef = .error e ∧ isKmsNotReachable e = true

/-- The endpoint of a record after the counter updates of its attempt. -/
def AttemptRecord.updated (r : AttemptRecord) : KmsUrlPtr :=
  match r.outcome with
  | .urlFailed _ => r.curUrl.incFailedResponses
  | .postFailed _ => r.curUrl.incFailedResponses
  | .parseFailed _ => r.curUrl.incRequests.incResponseParseFailures
  | .parsed => r.curUrl.incRequests

/-- The record of a failed attempt after which the `while` loop goes on: a parse
failure, or a transport failure that is not terminal. -/
def AttemptRecord.goesOn (r : AttemptRecord) : Prop :=
  match r.outcome with
  | .urlFailed e => isTerminal r.pass e = false
  | .postFailed e => isTerminal r.pass e = false
  | .parseFailed _ => True
  | .parsed => False

/-- The record of an attempt whose transport error `e` is rethrown. -/
def AttemptRecord.rethrows (r : AttemptRecord) (e : Error) : Prop :=
  (r.outcome = .urlFailed e ∨ r.outcome = .postFailed e) ∧ isTerminal r.pass e = true

/-- The record `r`, the attempt number `i` of the request, is what the HTTP
client and the parse function produced for its endpoint. -/
def RecordSound {T : Type} (env : RequestEnv T) (urlSuffix requestBodyRef : String)
    (i : Nat) (r : AttemptRecord) : Prop :=
  match r.outcome with
  | .urlFailed e => getFullRequestUrl r.curUrl.obj.url urlSuffix = .error e
  | .postFailed e =>
    ∃ u, getFullRequestUrl r.curUrl.obj.url urlSuffix = .ok u ∧
      env.doPost r.pass i u requestBodyRef = .error e
  | .parseFailed e =>
    ∃ u resp c c2, getFullRequestUrl r.curUrl.obj.url urlSuffix = .ok u ∧
      env.doPost r.pass i u requestBodyRef = .ok resp ∧
      env.parseFunc c resp = some (.error e, c2)
  | .parsed =>
    ∃ u resp c c2 v, getFullRequestUrl r.curUrl.obj.url urlSuffix = .ok u ∧
      env.doPost r.pass i u requestBodyRef = .ok resp ∧
      env.parseFunc c resp = some (.ok v, c2)

/-- The attempt number `i`, recorded in `r`, got a response whose parse is `v`. -/
def RecordParsed {T : Type} (env : RequestEnv T) (urlSuffix requestBodyRef : String)
    (i : Nat) (r : AttemptRecord) (v : T) : Prop :=
  r.outcome = .parsed ∧
    ∃ u resp c c2, getFullRequestUrl r.curUrl.obj.url urlSuffix = .ok u ∧
      env.doPost r.pass i u requestBodyRef = .ok resp ∧
      env.parseFunc c resp = some (.ok v, c2)

/-- Every record of the list, the first being attempt number `i`, is sound. -/
def LogSound {T : Type} (env : RequestEnv T) (urlSuffix requestBodyRef : String) :
    Nat → List AttemptRecord → Prop
  | _, [] => True
  | i, r :: rs => RecordSound env urlSuffix requestBodyRef i r ∧
      LogSound env urlSuffix requestBodyRef (i + 1) rs

/-- On the responses that the HTTP client returns, the parse function leaves the
URL pool as it was whenever it fails. -/
def FailedParseKeepsPool {T : Type} (env : RequestEnv T) : Prop :=
  ∀ pass n url body resp c e c2, env.doPost pass n url body = .ok resp →
    env.parseFunc c resp = some (.error e, c2) → c2.kmsUrlHeap = c.kmsUrlHeap

/-- On the responses that the HTTP client returns, the parse function never
touches the URL pool (no response carries a URL refresh). -/
def ParseKeepsPool {T : Type} (env : RequestEnv T) : Prop :=
  ∀ pass n url body resp c o c2, env.doPost pass n url body = .ok resp →
    env.parseFunc c resp = some (o, c2) → c2.kmsUrlHeap = c.kmsUrlHeap

/-- The state in which `kmsRequestImpl` enters pass 1. -/
def initialState (ctx : RESTKmsConnectorCtx) : RequestState :=
  { ctx := ctx, pass := 1, tempStack := [], log := [], discoverCalls := [] }

/-- The state in which `kmsRequestImpl` enters pass 2, after pass 1 ended in
`st1` and `discoverKmsUrls` left the context `c`. -/
def secondPassState (st1 : RequestState) (c : RESTKmsConnectorCtx) : RequestState :=
  { st1 with ctx := c, pass := st1.pass + 1, tempStack := [],
             discoverCalls := st1.discoverCalls ++ [true] }

/-- The parse function is defined (no undefined behaviour) on every response
that the HTTP client returns. -/
def ParseDefined {T : Type} (env : RequestEnv T) : Prop :=
  ∀ pass n url body resp c, env.doPost pass n url body = .ok resp →
    env.parseFunc c resp ≠ none

/-- What the records `recs` of one pass look like for each way the pass can end;
`base` is the number of attempts made before the pass. -/
def PassOutcome {T : Type} (env : RequestEnv T) (urlSuffix requestBodyRef : String)
    (base : Nat) (recs : List AttemptRecord) : LoopExit T → Prop
  | .exhausted => ∀ r ∈ recs, r.goesOn
  | .threw e => ∃ init last, recs = init ++ [last] ∧ (∀ r ∈ init, r.goesOn) ∧ last.rethrows e
  | .returned v => ∃ init last, recs = init ++ [last] ∧ (∀ r ∈ init, r.goesOn) ∧
      RecordParsed env urlSuffix requestBodyRef (base + init.length) last v

/-! ## Notions used to state the parser properties -/

/-- A valid reference to a response of status 200 whose body is the document
`doc`. -/
def response200 (doc : JsonValue) : ResponseRef :=
  some { code := HTTP_STATUS_CODE_OK, content := doc }

/-- The largest response version that a family accepts: the cipher knob for
the cipher family, the blob-metadata knob otherwise. -/
def maxSupportedVersion (sys : Sys) (isCipherType : Bool) : Int :=
  if isCipherType then sys.REST_KMS_MAX_CIPHER_REQUEST_VERSION
  else sys.REST_KMS_MAX_BLOB_METADATA_REQUEST_VERSION

/-- The version rule of the response schema, in the words of the specification:
the member `version` is present and is an integer (a value that fits a C++
`int`), it differs from `INVALID_REQUEST_VERSION`, and it is at most the largest
version that the family supports. -/
def VersionAccepted (sys : Sys) (doc : JsonValue) (isCipherType : Bool) : Prop :=
  ∃ v : Int, doc.member REQUEST_VERSION_TAG = some (.int v) ∧
    (-(2 : Int) ^ 31 ≤ v ∧ v < (2 : Int) ^ 31) ∧
    v ≠ sys.INVALID_REQUEST_VERSION ∧ v ≤ maxSupportedVersion sys isCipherType

/-- The element is an object that has the three keys `base_cipher_id`,
`base_cipher` and `encrypt_domain_id`. -/
def hasCipherKeys (e : JsonValue) : Bool :=
  e.IsObject && (e.member BASE_CIPHER_ID_TAG).isSome && (e.member BASE_CIPHER_TAG).isSome &&
    (e.member ENCRYPT_DOMAIN_ID_TAG).isSome

/-- An optional member that holds a 64-bit signed integer when it is present. -/
def int64OrAbsent : Option JsonValue → Bool
  | none => true
  | some v => v.GetInt64.isSome

/-- The members of the cipher entry have the types of the schema: `base_cipher`
is a string, `encrypt_domain_id` a 64-bit signed integer, `base_cipher_id` a
64-bit unsigned integer, and `refresh_after_sec`, `expire_after_sec` are 64-bit
signed integers when present. -/
def cipherEntryTyped (e : JsonValue) : Bool :=
  (match e.member BASE_CIPHER_TAG with
    | some (.string _) => true
    | _ => false) &&
  ((e.member ENCRYPT_DOMAIN_ID_TAG).bind JsonValue.GetInt64).isSome &&
  ((e.member BASE_CIPHER_ID_TAG).bind JsonValue.GetUint64).isSome &&
  int64OrAbsent (e.member REFRESH_AFTER_SEC) && int64OrAbsent (e.member EXPIRE_AFTER_SEC)

/-- The length of the `base_cipher` of a cipher entry (0 when there is none). -/
def cipherKeyLength (e : JsonValue) : Nat :=
  match e.member BASE_CIPHER_TAG with
  | some (.string cipher) => cipher.length
  | _ => 0

/-- The top-level `kms_urls` member is absent, null, or an array. -/
def kmsUrlsIsArrayOrAbsent (doc : JsonValue) : Bool :=
  match doc.member KMS_URLS_TAG with
  | none => true
  | some .null => true
  | some (.array _) => true
  | some _ => false

/-- The location is an object that has both `id` and `path`. -/
def locationShaped (l : JsonValue) : Bool :=
  l.IsObject && (l.member BLOB_METADATA_LOCATION_ID_TAG).isSome &&
    (l.member BLOB_METADATA_LOCATION_PATH_TAG).isSome

/-- The element is an object that has `domain_id` and a `locations` member that
is an array, every location being an object with `id` and `path`. -/
def blobEntryShaped (e : JsonValue) : Bool :=
  e.IsObject && (e.member BLOB_METADATA_DOMAIN_ID_TAG).isSome &&
    match e.member BLOB_METADATA_LOCATIONS_TAG with
    | some (.array locs) => locs.all locationShaped
    | _ => false

/-- An optional member that holds a string when it is present. -/
def stringOrAbsent : Option JsonValue → Bool
  | none => true
  | some (.string _) => true
  | some _ => false

/-- The members `id` and `path` of the location have the types of the schema
when they are present. -/
def locationTyped (l : JsonValue) : Bool :=
  int64OrAbsent (l.member BLOB_METADATA_LOCATION_ID_TAG) &&
    stringOrAbsent (l.member BLOB_METADATA_LOCATION_PATH_TAG)

/-- The members of the blob-metadata entry have the types of the schema when
they are present: `domain_id`, `refresh_after_sec` and `expire_after_sec` are
64-bit signed integers, and the locations of an array `locations` are typed. -/
def blobEntryTyped (e : JsonValue) : Bool :=
  int64OrAbsent (e.member BLOB_METADATA_DOMAIN_ID_TAG) &&
  (match e.member BLOB_METADATA_LOCATIONS_TAG with
    | some (.array locs) => locs.all locationTyped
    | _ => true) &&
  int64OrAbsent (e.member REFRESH_AFTER_SEC) && int64OrAbsent (e.member EXPIRE_AFTER_SEC)

/-- The structure that the specification asks of a blob-metadata response:
`blob_metadata_details` is present and is an array, and every element has the
shape `blobEntryShaped`. -/
def BlobStructureOk (doc : JsonValue) : Prop :=
  ∃ elems, doc.member BLOB_METADATA_DETAILS_TAG = some (.array elems) ∧
    ∀ e ∈ elems, blobEntryShaped e = true

/-- The endpoints that `n` successive `make_shared<KmsUrlCtx>(url)` calls create
for the URLs of the list, the first at allocation number `k`: all counters zero. -/
def freshEndpoints (sys : Sys) : Nat → List String → List KmsUrlPtr
  | _, [] => []
  | k, u :: us => { addr := sys.alloc k, obj := KmsUrlCtx.mk1 u } :: freshEndpoints sys (k + 1) us

/-- A loop that runs `f` on the elements in order, stops at the first element
on which `f` throws or is undefined, and collects the results otherwise: the
common shape of the `for` loops of the two parsers. -/
def parseEach {α β : Type} (f : α → Option (Except Error β)) :
    List α → Option (Except Error (List β))
  | [] => some (.ok [])
  | a :: rest =>
    match f a with
    | none => none
    | some (.error e) => some (.error e)
    | some (.ok d) =>
      match parseEach f rest with
      | none => none
      | some (.error e) => some (.error e)
      | some (.ok ds) => some (.ok (d :: ds))

/-- How the cipher parser surfaces the members of the entry `e` in the detail
`d`: key bytes, domain id and base cipher id. -/
def CipherDetailOf (e : JsonValue) (d : EncryptCipherKeyDetailsRef) : Prop :=
  e.member BASE_CIPHER_TAG = some (.string d.encryptKey) ∧
  (e.member ENCRYPT_DOMAIN_ID_TAG).bind JsonValue.GetInt64 = some d.encryptDomainId ∧
  (e.member BASE_CIPHER_ID_TAG).bind JsonValue.GetUint64 = some d.encryptKeyId

/-- How the blob-metadata parser surfaces a location. -/
def BlobLocationOf (l : JsonValue) (loc : BlobMetadataLocationRef) : Prop :=
  (l.member BLOB_METADATA_LOCATION_ID_TAG).bind JsonValue.GetInt64 = some loc.locationId ∧
  l.member BLOB_METADATA_LOCATION_PATH_TAG = some (.string loc.path)

/-- How the blob-metadata parser surfaces the entry `e` in the detail `d`: the
domain id, and one location per element of `locations`, in order. -/
def BlobDetailOf (e : JsonValue) (d : BlobMetadataDetailsRef) : Prop :=
  (e.member BLOB_METADATA_DOMAIN_ID_TAG).bind JsonValue.GetInt64 = some d.domainId ∧
  ∃ locs, e.member BLOB_METADATA_LOCATIONS_TAG = some (.array locs) ∧
    List.Forall₂ BlobLocationOf locs d.locations

/-- The intervals of a cipher detail against the members of its entry: the
refresh interval is the positive `refresh_after_sec`, the expiry interval is
`expire_after_sec` whatever its sign. -/
def CipherIntervalsOf (e : JsonValue) (d : EncryptCipherKeyDetailsRef) : Prop :=
  (∀ n, d.refreshAfterSec = some n ↔ (e.member REFRESH_AFTER_SEC = some (.int n) ∧ 0 < n)) ∧
  (d.refreshAfterSec = none ↔
    (e.member REFRESH_AFTER_SEC = none ∨ ∃ n, e.member REFRESH_AFTER_SEC = some (.int n) ∧ n ≤ 0)) ∧
  (∀ n, d.expireAfterSec = some n ↔ e.member EXPIRE_AFTER_SEC = some (.int n)) ∧
  (d.expireAfterSec = none ↔ e.member EXPIRE_AFTER_SEC = none)

/-- The deadlines of a blob-metadata detail against the members of its entry:
each of the two members is absent or an integer, the refresh deadline is the
double sum `now() + refresh_after_sec` when that member is positive and
`std::numeric_limits<double>::max()` when it is absent or not positive, the
expiry deadline is the double sum `now() + expire_after_sec` when that member is
present and `std::numeric_limits<double>::max()` when it is absent. -/
def BlobDeadlinesOf (sys : Sys) (e : JsonValue) (d : BlobMetadataDetailsRef) : Prop :=
  (e.member REFRESH_AFTER_SEC = none ∨ ∃ n, e.member REFRESH_AFTER_SEC = some (.int n)) ∧
  (∀ n, e.member REFRESH_AFTER_SEC = some (.int n) → 0 < n →
    d.refreshAt = Double.add sys.now (Double.ofInt n)) ∧
  ((e.member REFRESH_AFTER_SEC = none ∨
      ∃ n, e.member REFRESH_AFTER_SEC = some (.int n) ∧ n ≤ 0) →
    d.refreshAt = Double.max) ∧
  (e.member EXPIRE_AFTER_SEC = none ∨ ∃ n, e.member EXPIRE_AFTER_SEC = some (.int n)) ∧
  (∀ n, e.member EXPIRE_AFTER_SEC = some (.int n) →
    d.expireAt = Double.add sys.now (Double.ofInt n)) ∧
  (e.member EXPIRE_AFTER_SEC = none → d.expireAt = Double.max)

/-! ## Notions used to state the discovery and token properties -/

/-- The URL that the specification derives from a line of the discovery file:
surrounding whitespace trimmed, then all trailing `'/'` removed. -/
def normaliseUrlLine (line : List Char) : List Char :=
  stripTrailingSlashes (trim_copy line)

/-- The URLs that the specification reads off a discovery-file content: the
lines in file order, normalised, without those that are empty after the
normalisation. -/
def discoveredUrls (content : String) : List String :=
  (((getlines DISCOVER_URL_FILE_URL_SEP content.data []).map normaliseUrlLine).filter
    (fun u => !u.isEmpty)).map String.mk

/-- The context after `urls` have been inserted into the pool of `ctx` as fresh
endpoints. -/
def withDiscovered (sys : Sys) (ctx : RESTKmsConnectorCtx) (urls : List String) :
    RESTKmsConnectorCtx :=
  { ctx with
    kmsUrlHeap := { c := ctx.kmsUrlHeap.c ++ freshEndpoints sys ctx.nAllocs urls }
    nAllocs := ctx.nAllocs + urls.length }

/-- A name/path tuple as it is written in the details string: the name,
`NAME_SEP`, the path. -/
def renderTuple (t : String × String) : List Char :=
  t.1.data ++ TOKEN_NAME_FILE_SEP :: t.2.data

/-- The tuples written one after the other, each followed by `TUPLE_SEP`. -/
def renderTuples : List (String × String) → List Char
  | [] => []
  | t :: ts => renderTuple t ++ TOKEN_TUPLE_SEP :: renderTuples ts

/-- The details string `name1<NAME_SEP>path1<TUPLE_SEP>name2<NAME_SEP>path2...` of
the tuples, with or without a `TUPLE_SEP` after the last tuple. -/
def tokenDetails (ts : List (String × String)) (trailingSep : Bool) : String :=
  String.mk (if trailingSep then renderTuples ts else (renderTuples ts).dropLast)

/-- A tuple that can be read back from a details string: the name is non-empty
and holds no `NAME_SEP`, the path is non-empty and holds no `TUPLE_SEP`. -/
def TupleWellFormed (t : String × String) : Prop :=
  t.1.data ≠ [] ∧ (∀ ch ∈ t.1.data, ch ≠ TOKEN_NAME_FILE_SEP) ∧
  t.2.data ≠ [] ∧ (∀ ch ∈ t.2.data, ch ≠ TOKEN_TUPLE_SEP)

instance instDecidableTupleWellFormed (t : String × String) : Decidable (TupleWellFormed t) :=
  inferInstanceAs (Decidable (t.1.data ≠ [] ∧ (∀ ch ∈ t.1.data, ch ≠ TOKEN_NAME_FILE_SEP) ∧
    t.2.data ≠ [] ∧ (∀ ch ∈ t.2.data, ch ≠ TOKEN_TUPLE_SEP)))

/-- A string with surrounding whitespace trimmed. -/
def trimString (s : String) : String :=
  String.mk (trim_copy s.data)

/-- The name that the first loop of the procurement reads next in what is left
of the details string. -/
def nextName (detailsRef : List Char) : List Char :=
  (eat TOKEN_NAME_FILE_SEP detailsRef).1

/-- The path that the first loop of the procurement reads after `nextName`. -/
def nextPath (detailsRef : List Char) : List Char :=
  (eat TOKEN_TUPLE_SEP (eat TOKEN_NAME_FILE_SEP detailsRef).2).1

/-- The token that the specification stores for a file with the given bytes:
the value is the bytes, without the trailing newlines when the strip knob is on;
the source is `file`, the origin is the path, the read timestamp is the current
time. -/
def tokenOfFile (sys : Sys) (bytes name path : String) : ValidationTokenCtx :=
  { name := name
    value := if sys.REST_KMS_CONNECTOR_REMOVE_TRAILING_NEWLINE then
        removeTrailingChar bytes '\n'
      else bytes
    source := ValidationTokenSource.VALIDATION_TOKEN_SOURCE_FILE
    filePath := some path
    readTS := sys.now }

/-- An asynchronous file that holds `bytes` and is read completely. -/
def wholeFile (bytes : String) : AsyncFile :=
  { fSize := bytes.data.length, bytesRead := bytes.data.length, buff := bytes }

/-- The sum of the lengths of the token values of a store. -/
def payloadSize (store : ValidationTokenMap) : Nat :=
  (store.map (fun kv => kv.2.value.data.length)).sum

/-- The token `kv` was read from a file by the running procurement: it is what
the loop over the token files builds from a file that the file system opens. -/
def ReadByThisCall (sys : Sys) (kv : String × ValidationTokenCtx) : Prop :=
  ∃ tokenFile tFile, sys.openFile tokenFile = .ok tFile ∧
    kv.2 = tokenOfFile sys (String.mk (tFile.buff.data.take tFile.fSize)) kv.1 tokenFile

/-- The store `b` is the store `a` after the `emplace` of a token read by the
running procurement. -/
def InsertsFresh (sys : Sys) (a b : ValidationTokenMap) : Prop :=
  ∃ tokenName tokenFile tFile, sys.openFile tokenFile = .ok tFile ∧
    b = a.emplace tokenName
      (tokenOfFile sys (String.mk (tFile.buff.data.take tFile.fSize)) tokenName tokenFile)

/-- A POST was issued in the attempt: every outcome but a URL that could not be
built. -/
def AttemptOutcome.posted : AttemptOutcome → Bool
  | .urlFailed _ => false
  | _ => true

/-- The number of POSTs of a log of attempts. -/
def posts (log : List AttemptRecord) : Nat :=
  (log.filter (fun r => r.outcome.posted)).length

/-- Ghost: the contents of `ctx->kmsUrlHeap` at the counter updates that one
iteration of the `while` loop of `kmsRequestImpl` makes on `curUrl`, in order.
`nFailedResponses++` (outer `catch`) and `nRequests++` (after `doPost`) see the
heap as `pop()` left it; `nResponseParseFailures++` (inner `catch`) sees the heap
that the parse function left when it threw. -/
def heapsAtCounterUpdates {T : Type} (env : RequestEnv T) (urlSuffix requestBodyRef : String)
    (st : RequestState) (curUrl : KmsUrlPtr) : List KmsUrlMinHeap :=
  let ctx1 := { st.ctx with kmsUrlHeap := st.ctx.kmsUrlHeap.pop }
  match getFullRequestUrl curUrl.obj.url urlSuffix with
  | .error _ => [ctx1.kmsUrlHeap]
  | .ok kmsEncryptionFullUrl =>
    match env.doPost st.pass st.log.length kmsEncryptionFullUrl requestBodyRef with
    | .error _ => [ctx1.kmsUrlHeap]
    | .ok resp =>
      match env.parseFunc ctx1 resp with
      | some (.error _, ctx2) => [ctx1.kmsUrlHeap, ctx2.kmsUrlHeap]
      | _ => [ctx1.kmsUrlHeap]

/-- The addresses of the endpoints that are alive: those of the pool and those
staged on the `tempStack` of the running request. -/
def liveAddrs (ctx : RESTKmsConnectorCtx) (tempStack : List KmsUrlPtr) : List Nat :=
  (ctx.kmsUrlHeap.c ++ tempStack).map (fun p => p.addr)

/-- The endpoints that are alive are distinct objects that `make_shared`
returned: no two have the same address, and every address is one of the
allocations made so far. -/
def PoolInv (sys : Sys) (ctx : RESTKmsConnectorCtx) (tempStack : List KmsUrlPtr) : Prop :=
  (liveAddrs ctx tempStack).Nodup ∧
  ∀ a ∈ liveAddrs ctx tempStack, ∃ i, i < ctx.nAllocs ∧ a = sys.alloc i

/-- What a parse does to the pool: it leaves the pool as it is, or it replaces
the pool by endpoints that it creates. -/
def PoolStep (sys : Sys) (c c2 : RESTKmsConnectorCtx) : Prop :=
  (c2.kmsUrlHeap = c.kmsUrlHeap ∧ c2.nAllocs = c.nAllocs) ∨
  ∃ urls, c2.kmsUrlHeap.c = freshEndpoints sys c.nAllocs urls ∧
    c2.nAllocs = c.nAllocs + urls.length

/-- The parse function treats the pool as the parsers of the connector do: a
parse that throws leaves the context as it was, a parse that returns makes a
`PoolStep`. -/
def ParseStepsPool {T : Type} (sys : Sys) (env : RequestEnv T) : Prop :=
  ∀ c resp o c2, env.parseFunc c resp = some (o, c2) →
    PoolStep sys c c2 ∧ ∀ e, o = .error e → c2 = c

/-- The states of the connector that can be reached: the context together with
the `tempStack` of the running request.  The steps are the construction of the
context, a discovery, a parse, an iteration of the `while` loop of
`kmsRequestImpl`, and the end of the scope of `tempStack`. -/
inductive Reachable (sys : Sys) : RESTKmsConnectorCtx → List KmsUrlPtr → Prop where
  | init : Reachable sys { kmsUrlHeap := { c := [] }, lastKmsUrlsRefreshTs := 0, nAllocs := 0 } []
  | discover {ctx : RESTKmsConnectorCtx} {tempStack : List KmsUrlPtr} (b : Bool) :
      Reachable sys ctx tempStack → Reachable sys (discoverKmsUrls sys ctx b).2 tempStack
  | parse {T : Type} {ctx ctx2 : RESTKmsConnectorCtx} {tempStack : List KmsUrlPtr}
      (env : RequestEnv T) (resp : ResponseRef) (o : Except Error T) :
      ParseStepsPool sys env → Reachable sys ctx tempStack →
      env.parseFunc ctx resp = some (o, ctx2) → Reachable sys ctx2 tempStack
  | attempt {T : Type} {st st1 : RequestState} {curUrl : KmsUrlPtr} {x : IterExit T}
      (env : RequestEnv T) (urlSuffix requestBodyRef : String) :
      ParseStepsPool sys env → Reachable sys st.ctx st.tempStack →
      st.ctx.kmsUrlHeap.top = some curUrl →
      kmsUrlIteration env urlSuffix requestBodyRef st curUrl = some (x, st1) →
      Reachable sys st1.ctx st1.tempStack
  | scopeEnd {ctx : RESTKmsConnectorCtx} {tempStack : List KmsUrlPtr} :
      Reachable sys ctx tempStack → Reachable sys ctx []

/-! ## JSON text

A writer of compact JSON text and a reader of that text, used as the serialiser
and the parser of the scenarios. -/

/-- The decimal digits of `n`, most significant first (`fuel` bounds their number). -/
def natDigits : Nat → Nat → List Nat
  | 0, _ => []
  | fuel + 1, n => if n < 10 then [n] else natDigits fuel (n / 10) ++ [n % 10]

/-- The character of a decimal digit. -/
def digitChar (d : Nat) : Char := Char.ofNat (48 + d)

/-- The decimal digit that a character stands for. -/
def digitVal (c : Char) : Option Nat :=
  if 48 ≤ c.toNat ∧ c.toNat ≤ 57 then some (c.toNat - 48) else none

/-- A natural number in decimal. -/
def writeNat (n : Nat) : List Char := (natDigits (n + 1) n).map digitChar

/-- An integer in decimal, with a minus sign when it is negative. -/
def writeInt (n : Int) : List Char :=
  if n < 0 then '-' :: writeNat n.natAbs else writeNat n.natAbs

/-- Reads decimal digits as long as there are some; `acc` is the value read so far. -/
def readDigits : List Char → Nat → Nat × List Char
  | [], acc => (acc, [])
  | c :: cs, acc =>
    match digitVal c with
    | some d => readDigits cs (acc * 10 + d)
    | none => (acc, c :: cs)

/-- Reads a natural number: at least one digit. -/
def readNat : List Char → Option (Nat × List Char)
  | [] => none
  | c :: cs =>
    match digitVal c with
    | some d => some (readDigits cs d)
    | none => none

/-- Reads an integer. -/
def readInt : List Char → Option (Int × List Char)
  | '-' :: cs => (readNat cs).map (fun r => (-(r.1 : Int), r.2))
  | cs => (readNat cs).map (fun r => ((r.1 : Int), r.2))

/-- The text that follows a number: nothing, or a character that is not a digit. -/
def NoDigitAhead : List Char → Prop
  | [] => True
  | c :: _ => digitVal c = none

/-- The double quote. -/
def quote : Char := Char.ofNat 34

/-- The backslash. -/
def backslash : Char := Char.ofNat 92

/-- The opening brace. -/
def lbrace : Char := Char.ofNat 123

/-- The closing brace. -/
def rbrace : Char := Char.ofNat 125

/-- The characters of a string with the quote and the backslash escaped (every
other character is written as it is). -/
def escape : List Char → List Char
  | [] => []
  | c :: cs =>
    if c = quote ∨ c = backslash then backslash :: c :: escape cs else c :: escape cs

/-- Reads the characters of a string up to the closing quote; the flag tells
that the previous character was the escaping backslash. -/
def readString : Bool → List Char → Option (List Char × List Char)
  | _, [] => none
  | true, c :: cs => (readString false cs).map (fun r => (c :: r.1, r.2))
  | false, c :: cs =>
    if c = quote then some ([], cs)
    else if c = backslash then readString true cs
    else (readString false cs).map (fun r => (c :: r.1, r.2))

mutual
/-- A value as compact JSON text. -/
def writeValue : JsonValue → List Char
  | .null => ['n', 'u', 'l', 'l']
  | .bool b => if b then ['t', 'r', 'u', 'e'] else ['f', 'a', 'l', 's', 'e']
  | .int n => writeInt n
  | .double m e => writeInt m ++ 'e' :: writeInt e
  | .string s => quote :: (escape s.data ++ [quote])
  | .array [] => ['[', ']']
  | .array (v :: vs) => '[' :: (writeValue v ++ writeElemsTail vs)
  | .object [] => [lbrace, rbrace]
  | .object ((k, v) :: ms) =>
    lbrace :: quote :: (escape k.data ++ quote :: ':' :: (writeValue v ++ writeMembersTail ms))
/-- What follows an element of an array: the closing bracket, or a comma and
the remaining elements. -/
def writeElemsTail : List JsonValue → List Char
  | [] => [']']
  | v :: vs => ',' :: (writeValue v ++ writeElemsTail vs)
/-- What follows a member of an object: the closing brace, or a comma and the
remaining members. -/
def writeMembersTail : List (String × JsonValue) → List Char
  | [] => [rbrace]
  | (k, v) :: ms =>
    ',' :: quote :: (escape k.data ++ quote :: ':' :: (writeValue v ++ writeMembersTail ms))
end

/-- The first character of a number: a digit or the minus sign. -/
def isNumStart (c : Char) : Bool := c = '-' || (digitVal c).isSome

/-- Reads a number: an integer, or a mantissa and an exponent separated by `e`. -/
def readNumber (cs : List Char) : Option (JsonValue × List Char) :=
  match readInt cs with
  | none => none
  | some (m, r) =>
    match r with
    | [] => some (.int m, [])
    | c :: r2 =>
      if c = 'e' then (readInt r2).map (fun x => (.double m x.1, x.2))
      else some (.int m, c :: r2)

/-- Reads the key of a member and the colon after it; the text starts after the
opening quote of the key. -/
def readKey (cs : List Char) : Option (String × List Char) :=
  match readString false cs with
  | none => none
  | some (_, []) => none
  | some (k, e :: r) => if e = ':' then some (String.mk k, r) else none

mutual
/-- Reads one value from the text; `fuel` bounds the depth of the calls. -/
def readValue : Nat → List Char → Option (JsonValue × List Char)
  | 0, _ => none
  | _ + 1, [] => none
  | fuel + 1, c :: rest =>
    if isNumStart c then readNumber (c :: rest)
    else if c = 'n' then
      match rest with
      | 'u' :: 'l' :: 'l' :: r => some (.null, r)
      | _ => none
    else if c = 't' then
      match rest with
      | 'r' :: 'u' :: 'e' :: r => some (.bool true, r)
      | _ => none
    else if c = 'f' then
      match rest with
      | 'a' :: 'l' :: 's' :: 'e' :: r => some (.bool false, r)
      | _ => none
    else if c = quote then
      (readString false rest).map (fun r => (.string (String.mk r.1), r.2))
    else if c = '[' then
      match rest with
      | [] => none
      | d :: r =>
        if d = ']' then some (.array [], r)
        else
          match readValue fuel (d :: r) with
          | none => none
          | some (v, r2) => (readElemsTail fuel r2).map (fun t => (.array (v :: t.1), t.2))
    else if c = lbrace then
      match rest with
      | [] => none
      | d :: r =>
        if d = rbrace then some (.object [], r)
        else if d = quote then
          match readKey r with
          | none => none
          | some (k, r2) =>
            match readValue fuel r2 with
            | none => none
            | some (v, r3) =>
              (readMembersTail fuel r3).map (fun t => (.object ((k, v) :: t.1), t.2))
        else none
    else none
/-- Reads what follows an element of an array. -/
def readElemsTail : Nat → List Char → Option (List JsonValue × List Char)
  | 0, _ => none
  | _ + 1, [] => none
  | fuel + 1, c :: rest =>
    if c = ']' then some ([], rest)
    else if c = ',' then
      match readValue fuel rest with
      | none => none
      | some (v, r2) => (readElemsTail fuel r2).map (fun t => (v :: t.1, t.2))
    else none
/-- Reads what follows a member of an object. -/
def readMembersTail : Nat → List Char → Option (List (String × JsonValue) × List Char)
  | 0, _ => none
  | _ + 1, [] => none
  | fuel + 1, c :: rest =>
    if c = rbrace then some ([], rest)
    else if c = ',' then
      match rest with
      | [] => none
      | d :: r =>
        if d = quote then
          match readKey r with
          | none => none
          | some (k, r2) =>
            match readValue fuel r2 with
            | none => none
            | some (v, r3) => (readMembersTail fuel r3).map (fun t => ((k, v) :: t.1, t.2))
        else none
    else none
end

/-- Compact JSON text of a document. -/
def jsonText (d : JsonValue) : String := String.mk (writeValue d)

/-- The document of a JSON text, when the text is one value and nothing else. -/
def jsonParse (s : String) : Option JsonValue :=
  match readValue (s.length + 1) s.data with
  | some (v, []) => some v
  | _ => none

/-- The text that follows a value inside a document: nothing, a comma, a
closing bracket or a closing brace. -/
def Delim : List Char → Prop
  | [] => True
  | c :: _ => c = ',' ∨ c = ']' ∨ c = rbrace

/-! ## Scenarios -/

/-- A system for the scenarios: the discovery file `/kms/urls` holds `fileText`
and is read completely, the mode knobs are `file`, and the successive
`make_shared` calls return the addresses of `addrs`.  A validation token may
have 8 bytes, all tokens together 20 bytes; trailing newlines are removed. -/
def scenarioSys (fileText : String) (addrs : List Nat) : Sys :=
  { alloc := fun n => addrs.getD n (1000 + n)
    now := 42
    fileExists := fun f => f = "/kms/urls"
    openFile := fun _ =>
      .ok { fSize := fileText.length, bytesRead := fileText.length, buff := fileText }
    REST_KMS_CONNECTOR_VALIDATION_TOKEN_MODE := "file"
    REST_KMS_CONNECTOR_DISCOVER_KMS_URL_FILE := "/kms/urls"
    REST_KMS_MAX_CIPHER_REQUEST_VERSION := 1
    REST_KMS_MAX_BLOB_METADATA_REQUEST_VERSION := 1
    INVALID_REQUEST_VERSION := 0
    MAX_BASE_CIPHER_LEN := 4096
    getError := fun _ => false
    computeKCV := fun _ => 0
    REST_KMS_CONNECTOR_KMS_DISCOVERY_URL_MODE := "file"
    REST_KMS_CURRENT_CIPHER_REQUEST_VERSION := 1
    REST_KMS_CURRENT_BLOB_METADATA_REQUEST_VERSION := 1
    REST_KMS_CONNECTOR_VALIDATION_TOKEN_MAX_SIZE := 8
    REST_KMS_CONNECTOR_VALIDATION_TOKENS_MAX_PAYLOAD_SIZE := 20
    REST_KMS_CONNECTOR_REMOVE_TRAILING_NEWLINE := true
    unorderedMapOrder := fun m => m
    REST_KMS_CONNECTOR_REFRESH_KMS_URLS := true
    REST_KMS_CONNECTOR_REFRESH_KMS_URLS_INTERVAL_SEC := 600
    REST_KMS_CONNECTOR_GET_ENCRYPTION_KEYS_ENDPOINT := "get"
    REST_KMS_CONNECTOR_GET_LATEST_ENCRYPTION_KEYS_ENDPOINT := "latest"
    REST_KMS_CONNECTOR_GET_BLOB_METADATA_ENDPOINT := "blob"
    writeJson := jsonText
    parseJson := jsonParse }

/-- A valid cipher response body for the key `(domain 5, id 12345)`, with the
given `kms_urls` member when there is one. -/
def validCipherDoc (kmsUrls : Option (List String)) : JsonValue :=
  .object ([("version", .int 1),
    ("cipher_key_details", .array [.object [("base_cipher_id", .int 12345),
      ("encrypt_domain_id", .int 5), ("base_cipher", .string "key")]])] ++
    match kmsUrls with
    | none => []
    | some urls => [("kms_urls", .array (urls.map JsonValue.string))])

/-- The details that `parseEncryptCipherResponse` extracts from `validCipherDoc`. -/
def validCipherDetails : List EncryptCipherKeyDetailsRef :=
  [{ encryptDomainId := 5, encryptKeyId := 12345, encryptKey := "key", encryptKCV := 0,
     refreshAfterSec := none, expireAfterSec := none }]

/-- HTTP 200 with the body `doc`. -/
def ok200 (doc : JsonValue) : Except Error ResponseRef :=
  .ok (some { code := 200, content := doc })

/-- KMS servers that answer by URL, with the cipher parser of the connector.  A
server that answers a status other than 200 is one whose POST raises
http-request-failed (the HTTP client reports only status 200 as success). -/
def envOf (sys : Sys) (answer : String → Except Error ResponseRef) :
    RequestEnv (List EncryptCipherKeyDetailsRef) :=
  { doPost := fun _ _ url _ => answer url
    parseFunc := parseEncryptCipherResponse sys }

/-- A fresh endpoint at address `addr`. -/
def freshAt (addr : Nat) (url : String) : KmsUrlPtr :=
  { addr := addr, obj := KmsUrlCtx.mk1 url }

/-- A connector context whose pool holds the given endpoints. -/
def ctxOf (pool : List KmsUrlPtr) : RESTKmsConnectorCtx :=
  { kmsUrlHeap := { c := pool }, lastKmsUrlsRefreshTs := 0, nAllocs := 0 }

/-- Server A answers 503, every other server answers 200 with a valid body. -/
def aDown (url : String) : Except Error ResponseRef :=
  if url = "https://a/get" then .error Error.http_request_failed
  else ok200 (validCipherDoc none)

/-- Server A cannot be connected to, every other server answers 200 with a
valid body. -/
def aUnreachable (url : String) : Except Error ResponseRef :=
  if url = "https://a/get" then .error Error.connection_failed
  else ok200 (validCipherDoc none)

/-- A response body whose version is above the supported one. -/
def versionTooHighDoc : JsonValue :=
  .object [("version", .int 7), ("cipher_key_details", .array [])]

/-- Server A answers 503, server B answers 200 with a body of an unsupported
version, every other server answers 200 with a valid body. -/
def aDownBMalformed (url : String) : Except Error ResponseRef :=
  if url = "https://a/get" then .error Error.http_request_failed
  else if url = "https://b/get" then ok200 versionTooHighDoc
  else ok200 (validCipherDoc none)

/-- Every server raises http-request-failed. -/
def allDown (_url : String) : Except Error ResponseRef :=
  .error Error.http_request_failed

/-- Every server answers 200 with a valid body that carries
`kms_urls = ["https://new1", "https://new2"]`. -/
def allRefresh (_url : String) : Except Error ResponseRef :=
  ok200 (validCipherDoc (some ["https://new1", "https://new2"]))

/-- The discovery file of the scenarios with servers A and C. -/
def fileAC : String := "https://a\nhttps://c\n"

/-- Endpoint B after one answered request, at address 1. -/
def answeredB : KmsUrlPtr :=
  { addr := 1, obj := { url := "https://b", nRequests := 1, nFailedResponses := 0,
                        nResponseParseFailures := 0 } }

/-- Endpoint A after one failed response, at address 2. -/
def failedA : KmsUrlPtr :=
  { addr := 2, obj := { url := "https://a", nRequests := 0, nFailedResponses := 1,
                        nResponseParseFailures := 0 } }

/-- The pool of three fresh endpoints A, B, C at decreasing addresses. -/
def poolABC : RESTKmsConnectorCtx :=
  ctxOf [freshAt 3 "https://a", freshAt 2 "https://b", freshAt 1 "https://c"]

/-- The state in which the failover scenario ends when A lies above B: A failed
once, B answered, both are back in the pool. -/
def failoverEnd : RequestState :=
  { ctx := ctxOf [answeredB, failedA]
    pass := 1
    tempStack := []
    log := [{ pass := 1, curUrl := freshAt 2 "https://a",
              outcome := .postFailed Error.http_request_failed },
            { pass := 1, curUrl := freshAt 1 "https://b", outcome := .parsed }]
    discoverCalls := [] }

/-- Modelled from the spec: `RESTKmsConnectorUtils::getError` reports an error
when the document carries a member `error` that is an object. -/
def getErrorOfDoc (doc : JsonValue) : Bool :=
  match doc.member "error" with
  | some v => v.IsObject
  | none => false

/-- The system of the parser scenarios: `scenarioSys` with `getErrorOfDoc` as
`getError`. -/
def parserSys : Sys :=
  { scenarioSys "" [] with getError := getErrorOfDoc }

/-- The system of the parser scenarios with the clock at 42.5 seconds (`85 / 2`,
that is `85 * 2^1073` units of `2^-1074`). -/
def halfSecondSys : Sys :=
  { parserSys with now := .finite ((85 <<< 1073 : Nat) : Int) }

/-- A valid cipher entry for the key `(domain, id)` with the given key bytes and
optional intervals. -/
def cipherEntry (domain id : Int) (key : String) (refresh expire : Option Int) : JsonValue :=
  .object ([("base_cipher_id", .int id), ("encrypt_domain_id", .int domain),
      ("base_cipher", .string key)] ++
    (match refresh with
      | none => []
      | some n => [("refresh_after_sec", .int n)]) ++
    (match expire with
      | none => []
      | some n => [("expire_after_sec", .int n)]))

/-- A valid blob-metadata entry: domain 7, two locations, refresh after 10
seconds, expiry one second ago. -/
def blobEntry : JsonValue :=
  .object [("domain_id", .int 7),
    ("locations", .array [.object [("id", .int 1), ("path", .string "fdbblob://p1")],
                          .object [("id", .int 2), ("path", .string "fdbblob://p2")]]),
    ("refresh_after_sec", .int 10), ("expire_after_sec", .int (-1))]

/-- A blob-metadata entry with intervals that a `double` cannot hold exactly in
a sum: refresh after `2^53 + 1` seconds, expiry after `2^53` seconds. -/
def farBlobEntry : JsonValue :=
  .object [("domain_id", .int 7), ("locations", .array []),
    ("refresh_after_sec", .int 9007199254740993), ("expire_after_sec", .int 9007199254740992)]

/-- A response body with the given `version` member (if any), cipher details,
blob-metadata details, and further members. -/
def responseDoc (version : Option JsonValue) (cipherDetails blobDetails : JsonValue)
    (more : List (String × JsonValue)) : JsonValue :=
  .object ((match version with
      | none => []
      | some v => [("version", v)]) ++
    [("cipher_key_details", cipherDetails), ("blob_metadata_details", blobDetails)] ++ more)

/-- Two cipher entries: the first with a refresh interval of 10 and an expiry
interval of -1, the second with a refresh interval of 0 and no expiry. -/
def twoCipherEntries : JsonValue :=
  .array [cipherEntry 5 12345 "key" (some 10) (some (-1)),
          cipherEntry 6 67890 "other" (some 0) none]

/-- The details that the cipher parser returns for `twoCipherEntries`. -/
def twoCipherDetails : List EncryptCipherKeyDetailsRef :=
  [{ encryptDomainId := 5, encryptKeyId := 12345, encryptKey := "key", encryptKCV := 0,
     refreshAfterSec := some 10, expireAfterSec := some (-1) },
   { encryptDomainId := 6, encryptKeyId := 67890, encryptKey := "other", encryptKCV := 0,
     refreshAfterSec := none, expireAfterSec := none }]

/-- The details that the blob-metadata parser returns for `[blobEntry]` at time
42. -/
def oneBlobDetail : List BlobMetadataDetailsRef :=
  [{ domainId := 7,
     locations := [{ locationId := 1, path := "fdbblob://p1" },
                   { locationId := 2, path := "fdbblob://p2" }],
     refreshAt := Double.ofInt 52, expireAt := Double.ofInt 41 }]

/-- A valid response of both families, with further members. -/
def goodDoc (more : List (String × JsonValue)) : JsonValue :=
  responseDoc (some (.int 1)) twoCipherEntries (.array [blobEntry]) more

/-- An error object as the KMS sends it. -/
def errorObject : JsonValue :=
  .object [("err_msg", .string "Foo is always bad")]

/-- A key of `n` bytes. -/
def keyOfLength (n : Nat) : String :=
  String.mk (List.replicate n 'k')

/-- A cipher response whose first entry has a key of 4097 bytes and whose second
element is the number 5. -/
def overlongThenNonObject : JsonValue :=
  responseDoc (some (.int 1))
    (.array [cipherEntry 5 1 (keyOfLength 4097) none none, .int 5]) (.array []) []

/-- A cipher response whose first entry is valid and whose second element is the
number 5. -/
def validThenNonObject : JsonValue :=
  responseDoc (some (.int 1)) (.array [cipherEntry 5 1 "key" none none, .int 5]) (.array []) []

/-- A cipher response with one entry whose key has `n` bytes. -/
def keyDoc (n : Nat) : JsonValue :=
  responseDoc (some (.int 1)) (.array [cipherEntry 5 1 (keyOfLength n) none none]) (.array []) []

/-- The members of a response with version 0, valid details of both families and
an error object. -/
def versionZeroMembers : List (String × JsonValue) :=
  [("version", .int 0), ("cipher_key_details", twoCipherEntries),
   ("blob_metadata_details", .array [blobEntry]), ("error", errorObject)]

/-- The context after the parse of a response with
`kms_urls = ["https://new1", "https://new2"]` in `parserSys`, which allocates at
the addresses 1000, 1001, ... -/
def refreshedCtx : RESTKmsConnectorCtx :=
  { kmsUrlHeap := { c := [freshAt 1000 "https://new1", freshAt 1001 "https://new2"] }
    lastKmsUrlsRefreshTs := 42
    nAllocs := 2 }

/-- The `kms_urls` member of the refresh scenario. -/
def newUrls : List (String × JsonValue) :=
  [("kms_urls", .array (["https://new1", "https://new2"].map JsonValue.string))]

/-- The members of a response with the given version and valid details of both
families. -/
def versionMembers (v : Int) : List (String × JsonValue) :=
  [("version", .int v), ("cipher_key_details", twoCipherEntries),
   ("blob_metadata_details", .array [blobEntry])]

/-- The response that the unit test `testMissingOrInvalidVersion` builds when it
draws the version -7: one detail entry that holds nothing but an id. -/
def testVersionDoc (isCipher : Bool) : JsonValue :=
  .object [(if isCipher then "cipher_key_details" else "blob_metadata_details",
      .array [.object [(if isCipher then "base_cipher_id" else "domain_id", .int 12345)]]),
    ("version", .int (-7))]

/-- A discovery file with three lines: trailing blanks, leading blanks, trailing
slashes. -/
def threeUrlLines : String := "https://a/x  \n  https://a/y\nhttps://a/z///\n"

/-- A system whose files have 3 bytes of which only 2 are read. -/
def shortReadSys : Sys :=
  { scenarioSys "" [] with
    openFile := fun _ => .ok { fSize := 3, bytesRead := 2, buff := "ab" } }

/-- The discovery mode is `file`, the validation-token mode is not; the
discovery file lists `https://a`. -/
def tokenModeOffSys : Sys :=
  { scenarioSys "https://a\n" [] with REST_KMS_CONNECTOR_VALIDATION_TOKEN_MODE := "none" }

/-- The validation-token mode is `file`, the discovery mode is not; the
discovery file lists `https://a`. -/
def discoveryModeOffSys : Sys :=
  { scenarioSys "https://a\n" [] with REST_KMS_CONNECTOR_KMS_DISCOVERY_URL_MODE := "none" }

/-- The bytes of the file at `path` in a file system given as a list of
(path, bytes); empty when there is no such file. -/
def contentOf (files : List (String × String)) (path : String) : String :=
  (files.lookup path).getD ""

/-- A system whose file system holds exactly the token files `files`, each read
completely, with `TOKEN_MAX_SIZE = 8`, `TOKENS_MAX_PAYLOAD = 20` and the given
strip knob. -/
def tokenSys (files : List (String × String)) (strip : Bool) : Sys :=
  { scenarioSys "" [] with
    fileExists := fun f => (files.lookup f).isSome
    openFile := fun f =>
      match files.lookup f with
      | some bytes => .ok (wholeFile bytes)
      | none => .error Error.file_not_found
    REST_KMS_CONNECTOR_REMOVE_TRAILING_NEWLINE := strip }

/-- Three token files with the body `abc\n`. -/
def threeTokenFiles : List (String × String) :=
  [("/t/1", "abc\n"), ("/t/2", "abc\n"), ("/t/3", "abc\n")]

/-- The tuples `t1..t3` that name the files of `threeTokenFiles`. -/
def threeTuples : List (String × String) :=
  [("t1", "/t/1"), ("t2", "/t/2"), ("t3", "/t/3")]

/-- Token files of 8 and of 9 bytes, and three further files of 8 bytes. -/
def sizedTokenFiles : List (String × String) :=
  [("/t/8", "12345678"), ("/t/9", "123456789"),
   ("/t/a", "aaaaaaaa"), ("/t/b", "bbbbbbbb"), ("/t/c", "cccccccc")]

/-- The token that a procurement at time 42 stores for a file. -/
def fileToken (name value path : String) : ValidationTokenCtx :=
  { name := name, value := value,
    source := ValidationTokenSource.VALIDATION_TOKEN_SOURCE_FILE,
    filePath := some path, readTS := 42 }

/-- A store that holds one token from an earlier procurement. -/
def oldStore : ValidationTokenMap :=
  [("old", fileToken "old" "secret" "/t/old")]

/-- The current cipher version is 1 and the current blob-metadata version is 2. -/
def twoVersionsSys : Sys :=
  { scenarioSys "" [] with REST_KMS_CURRENT_BLOB_METADATA_REQUEST_VERSION := 2 }

/-- A by-key-ids request for the keys `(domain 5, id 12345)` and
`(domain 6, id 67890)`. -/
def keyIdsReq : KmsConnLookupEKsByKeyIdsReq :=
  { encryptKeyInfos := [{ domainId := 5, baseCipherId := 12345 },
                        { domainId := 6, baseCipherId := 67890 }],
    debugId := none }

/-- A by-domain-ids request for the domains 5, -2 and 6, with a debug
identifier. -/
def domainIdsReq : KmsConnLookupEKsByDomainIdsReq :=
  { encryptDomainIds := [5, -2, 6], debugId := some "dbg" }

/-- A blob-metadata request for the domains 7 and 8. -/
def blobReq : KmsConnBlobMetadataReq :=
  { domainIds := [7, 8], debugId := none }

/-- An HTTP client whose every POST fails with http-request-failed. -/
def noAnswer : Nat → Nat → String → String → Except Error ResponseRef :=
  fun _ _ _ _ => .error Error.http_request_failed

/-- An HTTP client whose every POST is answered with the valid cipher response. -/
def validAnswer : Nat → Nat → String → String → Except Error ResponseRef :=
  fun _ _ _ _ => ok200 (validCipherDoc none)

/-- The endpoint A after one request that was answered and parsed. -/
def usedOnce : KmsUrlPtr :=
  { addr := 1, obj := { url := "https://a", nRequests := 1, nFailedResponses := 0,
                        nResponseParseFailures := 0 } }

/-- The context after the discovery of the file that lists A and C, when the
allocator returns the addresses 1000, 1001, ... -/
def discoveredAC : RESTKmsConnectorCtx :=
  { kmsUrlHeap := { c := [freshAt 1000 "https://a", freshAt 1001 "https://c"] },
    lastKmsUrlsRefreshTs := 0, nAllocs := 2 }

/-! ## Theorems -/

/-! ### The heap -/

theorem heapTopAux_mem {α : Type} (less : α → α → Bool) (xs : List α) (best : α) :
    heapTopAux less best xs = best ∨ heapTopAux less best xs ∈ xs := by
  induction xs generalizing best with
  | nil => exact Or.inl rfl
  | cons x xs ih =>
    simp only [heapTopAux]
    rcases ih (if less best x then x else best) with h | h
    · by_cases hb : less best x = true
      · rw [if_pos hb] at h ⊢
        right; rw [h]; exact List.mem_cons_self _ _
      · rw [if_neg hb] at h ⊢
        left; exact h
    · right; exact List.mem_cons_of_mem _ h

theorem top_mem {h : KmsUrlMinHeap} {t : KmsUrlPtr} (ht : h.top = some t) : t ∈ h.c := by
  unfold KmsUrlMinHeap.top at ht
  cases hc : h.c with
  | nil => rw [hc] at ht; simp [heapTop] at ht
  | cons x xs =>
    rw [hc] at ht
    simp only [heapTop, Option.some.injEq] at ht
    rcases heapTopAux_mem sharedPtrLess xs x with h1 | h1
    · rw [← ht, h1]; exact List.mem_cons_self _ _
    · rw [← ht]; exact List.mem_cons_of_mem _ h1

theorem top_eq_none_iff (h : KmsUrlMinHeap) : h.top = none ↔ h.c = [] := by
  unfold KmsUrlMinHeap.top
  cases h.c <;> simp [heapTop]

theorem heapTopAux_addr_ge (xs : List KmsUrlPtr) (best : KmsUrlPtr) :
    best.addr ≤ (heapTopAux sharedPtrLess best xs).addr ∧
      ∀ x ∈ xs, x.addr ≤ (heapTopAux sharedPtrLess best xs).addr := by
  induction xs generalizing best with
  | nil => simp [heapTopAux]
  | cons x xs ih =>
    simp only [heapTopAux]
    obtain ⟨h1, h2⟩ := ih (if sharedPtrLess best x then x else best)
    by_cases hb : sharedPtrLess best x = true
    · rw [if_pos hb] at h1 h2 ⊢
      have hlt : best.addr < x.addr := by simpa [sharedPtrLess] using hb
      refine ⟨by omega, ?_⟩
      intro y hy
      rcases List.mem_cons.mp hy with rfl | hy
      · exact h1
      · exact h2 y hy
    · rw [if_neg hb] at h1 h2 ⊢
      have hge : x.addr ≤ best.addr := by
        have : ¬ best.addr < x.addr := by simpa [sharedPtrLess] using hb
        omega
      refine ⟨h1, ?_⟩
      intro y hy
      rcases List.mem_cons.mp hy with rfl | hy
      · omega
      · exact h2 y hy

/-- `top()` is an endpoint of greatest address, whatever the counters are. -/
theorem top_addr_max {h : KmsUrlMinHeap} {t : KmsUrlPtr} (ht : h.top = some t) :
    ∀ x ∈ h.c, x.addr ≤ t.addr := by
  unfold KmsUrlMinHeap.top at ht
  cases hc : h.c with
  | nil => intro x hx; cases hx
  | cons y ys =>
    rw [hc] at ht
    simp only [heapTop, Option.some.injEq] at ht
    obtain ⟨h1, h2⟩ := heapTopAux_addr_ge ys y
    intro x hx
    rw [← ht]
    rcases List.mem_cons.mp hx with rfl | hx
    · exact h1
    · exact h2 x hx

theorem pop_perm {h : KmsUrlMinHeap} {t : KmsUrlPtr} (ht : h.top = some t) :
    List.Perm h.c (t :: h.pop.c) := by
  have hm := top_mem ht
  simp only [KmsUrlMinHeap.pop, ht]
  exact List.perm_cons_erase hm

theorem pop_size {h : KmsUrlMinHeap} {t : KmsUrlPtr} (ht : h.top = some t) :
    h.pop.size + 1 = h.size := by
  have := (pop_perm ht).length_eq
  simp only [List.length_cons] at this
  simp only [KmsUrlMinHeap.size]; omega

theorem restoreTempStack_c (ts : List KmsUrlPtr) (h : KmsUrlMinHeap) :
    (restoreTempStack ts h).c = h.c ++ ts := by
  induction ts generalizing h with
  | nil => simp [restoreTempStack]
  | cons x xs ih =>
    simp only [restoreTempStack, List.foldl_cons] at ih ⊢
    rw [ih]; simp [KmsUrlMinHeap.emplace]

theorem dropLoop_empty (n : Nat) (h : KmsUrlMinHeap) (hn : h.size ≤ n) :
    (dropLoop n h).c = [] := by
  induction n generalizing h with
  | zero =>
    simp only [KmsUrlMinHeap.size, Nat.le_zero, List.length_eq_zero] at hn
    simpa [dropLoop] using hn
  | succ n ih =>
    simp only [dropLoop]
    by_cases he : h.empty = true
    · simp only [he, if_true]
      simpa [KmsUrlMinHeap.empty] using he
    · simp only [he]
      have hne : h.c ≠ [] := by simpa [KmsUrlMinHeap.empty] using he
      cases ht : h.top with
      | none => exact absurd ((top_eq_none_iff h).mp ht) hne
      | some t =>
        have := pop_size ht
        apply ih; omega

/-- The pop order is a rearrangement of the heap's contents. -/
theorem popAll_perm (n : Nat) (h : KmsUrlMinHeap) (hn : h.size ≤ n) :
    List.Perm (popAll n h) h.c := by
  induction n generalizing h with
  | zero =>
    simp only [KmsUrlMinHeap.size, Nat.le_zero, List.length_eq_zero] at hn
    simp [popAll, hn]
  | succ n ih =>
    simp only [popAll]
    cases ht : h.top with
    | none => simp [(top_eq_none_iff h).mp ht]
    | some t =>
      have hs := pop_size ht
      have := ih h.pop (by omega)
      exact (List.Perm.cons t this).trans (pop_perm ht).symm

/-- C6: `KmsUrlCtx::operator<(a, b)` holds exactly when `b` precedes `a` in the
Endpoint order (fewer failed responses, ties broken by fewer parse failures);
the URL and the request counter do not influence it; and the relation is a
strict weak order: irreflexive, transitive, with transitive incomparability. -/
theorem operatorLt_strict_weak_order :
    (∀ a b : KmsUrlCtx, a.lt b = true ↔
        (b.nFailedResponses < a.nFailedResponses ∨
          (b.nFailedResponses = a.nFailedResponses ∧
            b.nResponseParseFailures < a.nResponseParseFailures))) ∧
    (∀ a b : KmsUrlCtx, a.lt b = true ↔ precedes b a) ∧
    (∀ (a b : KmsUrlCtx) (u v : String) (m n : Nat),
        KmsUrlCtx.lt { a with url := u, nRequests := m } { b with url := v, nRequests := n }
          = a.lt b) ∧
    (∀ a : KmsUrlCtx, a.lt a = false) ∧
    (∀ a b c : KmsUrlCtx, a.lt b = true → b.lt c = true → a.lt c = true) ∧
    (∀ a b c : KmsUrlCtx, a.lt b = false → b.lt a = false →
        b.lt c = false → c.lt b = false → a.lt c = false ∧ c.lt a = false) := by
  have key : ∀ a b : KmsUrlCtx, a.lt b = true ↔
      (b.nFailedResponses < a.nFailedResponses ∨
        (b.nFailedResponses = a.nFailedResponses ∧
          b.nResponseParseFailures < a.nResponseParseFailures)) := by
    intro a b
    unfold KmsUrlCtx.lt
    split <;> simp <;> omega
  have keyF : ∀ a b : KmsUrlCtx, a.lt b = false ↔
      ¬ (b.nFailedResponses < a.nFailedResponses ∨
        (b.nFailedResponses = a.nFailedResponses ∧
          b.nResponseParseFailures < a.nResponseParseFailures)) := by
    intro a b
    rw [← key a b]; simp
  refine ⟨key, ?_, ?_, ?_, ?_, ?_⟩
  · intro a b; rw [key a b]; rfl
  · intro a b u v m n; rfl
  · intro a; rw [keyF]; omega
  · intro a b c hab hbc
    rw [key] at hab hbc ⊢; omega
  · intro a b c hab hba hbc hcb
    rw [keyF] at hab hba hbc hcb
    rw [keyF, keyF]; omega

/-! ### One iteration -/

theorem popOrder_cons {h : KmsUrlMinHeap} {t : KmsUrlPtr} (ht : h.top = some t) :
    h.popOrder = t :: h.pop.popOrder := by
  have hs := pop_size ht
  unfold KmsUrlMinHeap.popOrder
  rw [← hs]
  simp only [popAll, ht]

theorem popOrder_nil {h : KmsUrlMinHeap} (ht : h.top = none) : h.popOrder = [] := by
  unfold KmsUrlMinHeap.popOrder
  cases hn : h.size with
  | zero => rfl
  | succ n => simp only [popAll, ht]

theorem popOrder_perm (h : KmsUrlMinHeap) : List.Perm h.popOrder h.c :=
  popAll_perm h.size h (Nat.le_refl _)

theorem iteration_of_fails {T : Type} (env : RequestEnv T) (suf body : String)
    (st : RequestState) (cur : KmsUrlPtr)
    (hf : AttemptFails env suf body st.pass st.log.length cur.obj.url) :
    ∃ o, o ≠ AttemptOutcome.parsed ∧
      kmsUrlIteration env suf body st cur = some (.next,
        { st with
          ctx := { st.ctx with kmsUrlHeap := st.ctx.kmsUrlHeap.pop }
          tempStack := AttemptRecord.updated ⟨st.pass, cur, o⟩ :: st.tempStack
          log := st.log ++ [⟨st.pass, cur, o⟩] }) := by
  unfold AttemptFails at hf
  unfold kmsUrlIteration
  cases hu : getFullRequestUrl cur.obj.url suf with
  | error e =>
    rw [hu] at hf
    simp only at hf
    refine ⟨.urlFailed e, by simp, ?_⟩
    simp only [outerCatch, AttemptRecord.updated]
    unfold isTerminal at hf
    rw [hf]; rfl
  | ok full =>
    rw [hu] at hf
    simp only at hf ⊢
    cases hp : env.doPost st.pass st.log.length full body with
    | error e =>
      rw [hp] at hf
      simp only at hf
      refine ⟨.postFailed e, by simp, ?_⟩
      simp only [outerCatch, AttemptRecord.updated]
      unfold isTerminal at hf
      rw [hf]; rfl
    | ok resp =>
      rw [hp] at hf
      simp only at hf
      obtain ⟨e, he⟩ := hf { st.ctx with kmsUrlHeap := st.ctx.kmsUrlHeap.pop }
      refine ⟨.parseFailed e, by simp, ?_⟩
      simp only [he, AttemptRecord.updated]

theorem iteration_of_succeeds {T : Type} (env : RequestEnv T) (suf body : String)
    (st : RequestState) (cur : KmsUrlPtr) (v : T)
    (hs : AttemptSucceeds env suf body st.pass st.log.length cur.obj.url v) :
    ∃ ctx2 : RESTKmsConnectorCtx, kmsUrlIteration env suf body st cur = some (.returned v,
        { st with
          ctx := { ctx2 with
            kmsUrlHeap := restoreTempStack (cur.incRequests :: st.tempStack) ctx2.kmsUrlHeap }
          tempStack := []
          log := st.log ++ [⟨st.pass, cur, .parsed⟩] }) := by
  obtain ⟨full, resp, hu, hp, hparse⟩ := hs
  obtain ⟨c2, hc2⟩ := hparse { st.ctx with kmsUrlHeap := st.ctx.kmsUrlHeap.pop }
  refine ⟨c2, ?_⟩
  unfold kmsUrlIteration
  simp only [hu, hp, hc2]

/-- When every endpoint of the pool fails without ending the request, the
`while` loop pops them all, in pop order, and leaves an empty pool. -/
theorem loop_all_fail {T : Type} (env : RequestEnv T) (suf body : String)
    (fuel : Nat) (st : RequestState)
    (hfail : ∀ n, ∀ p ∈ st.ctx.kmsUrlHeap.c, AttemptFails env suf body st.pass n p.obj.url)
    (hfuel : st.ctx.kmsUrlHeap.size < fuel) :
    ∃ recs stack,
      kmsUrlLoop env suf body fuel st = some (.exhausted,
        { st with
          ctx := { st.ctx with kmsUrlHeap := { c := [] } }
          tempStack := stack
          log := st.log ++ recs }) ∧
      recs.map (fun r => r.curUrl) = st.ctx.kmsUrlHeap.popOrder ∧
      (∀ r ∈ recs, r.pass = st.pass ∧ r.outcome ≠ .parsed) := by
  induction fuel generalizing st with
  | zero => omega
  | succ fuel ih =>
    simp only [kmsUrlLoop]
    cases ht : st.ctx.kmsUrlHeap.top with
    | none =>
      refine ⟨[], st.tempStack, ?_, ?_, by simp⟩
      · have hc := (top_eq_none_iff _).mp ht
        have : st.ctx.kmsUrlHeap = { c := [] } := by
          cases hh : st.ctx.kmsUrlHeap; rw [hh] at hc; simpa using hc
        simp [← this]
      · simp [popOrder_nil ht]
    | some cur =>
      have hmem := top_mem ht
      obtain ⟨o, ho, hit⟩ := iteration_of_fails env suf body st cur (hfail _ cur hmem)
      simp only [hit]
      have hsz := pop_size ht
      have hperm := pop_perm ht
      obtain ⟨recs, stack, hrun, hmap, hall⟩ := ih
        { st with
          ctx := { st.ctx with kmsUrlHeap := st.ctx.kmsUrlHeap.pop }
          tempStack := AttemptRecord.updated ⟨st.pass, cur, o⟩ :: st.tempStack
          log := st.log ++ [⟨st.pass, cur, o⟩] }
        (by
          intro n p hp
          exact hfail n p (hperm.symm.subset (List.mem_cons_of_mem _ hp)))
        (by simp only; omega)
      refine ⟨⟨st.pass, cur, o⟩ :: recs, stack, ?_, ?_, ?_⟩
      · rw [hrun]; simp
      · simp only [List.map_cons, hmap, popOrder_cons ht]
      · intro r hr
        rcases List.mem_cons.mp hr with rfl | hr
        · exact ⟨rfl, ho⟩
        · exact hall r hr

/-- C4: when rediscovery succeeds and, in both passes, every attempt on every
endpoint fails (a parse failure, or a transport error that in pass 2 is neither
timed-out nor connection-failed), `kmsRequestImpl` fails with
encrypt-keys-fetch-failed, having tried every endpoint once per pass; with an
empty pool and a discovery that yields no URL it does so without any attempt
(no POST is issued). -/
theorem all_attempts_fail_gives_fetch_failed {T : Type} (sys : Sys) (env : RequestEnv T)
    (suf body : String) (ctx ctxD : RESTKmsConnectorCtx) (fuel : Nat)
    (hpass1 : ∀ n, ∀ p ∈ ctx.kmsUrlHeap.c, AttemptFails env suf body 1 n p.obj.url)
    (hdisc : discoverKmsUrls sys { ctx with kmsUrlHeap := { c := [] } } true = (.ok (), ctxD))
    (hpass2 : ∀ n, ∀ p ∈ ctxD.kmsUrlHeap.c, AttemptFails env suf body 2 n p.obj.url)
    (hfuel : ctx.kmsUrlHeap.size < fuel ∧ ctxD.kmsUrlHeap.size < fuel) :
    ∃ st, kmsRequestImpl sys env suf body fuel ctx
        = some (.error Error.encrypt_keys_fetch_failed, st) ∧
      st.log.length = ctx.kmsUrlHeap.size + ctxD.kmsUrlHeap.size ∧
      (∀ r ∈ st.log, r.outcome ≠ .parsed) ∧
      st.discoverCalls = [true] ∧
      (ctx.kmsUrlHeap.c = [] → ctxD.kmsUrlHeap.c = [] → st.log = []) := by
  obtain ⟨recs1, stack1, hrun1, hmap1, hall1⟩ :=
    loop_all_fail env suf body fuel
      { ctx := ctx, pass := 1, tempStack := [], log := [], discoverCalls := [] } hpass1 hfuel.1
  obtain ⟨recs2, stack2, hrun2, hmap2, hall2⟩ :=
    loop_all_fail env suf body fuel
      { ctx := ctxD, pass := 2, tempStack := [], log := recs1, discoverCalls := [true] }
      hpass2 hfuel.2
  have hlen1 : recs1.length = ctx.kmsUrlHeap.size := by
    have := congrArg List.length hmap1
    simp only [List.length_map] at this
    rw [this]; exact (popOrder_perm _).length_eq
  have hlen2 : recs2.length = ctxD.kmsUrlHeap.size := by
    have := congrArg List.length hmap2
    simp only [List.length_map] at this
    rw [this]; exact (popOrder_perm _).length_eq
  simp only [List.nil_append] at hrun1
  simp only at hrun2
  refine ⟨{ ctx := { ctxD with kmsUrlHeap := { c := [] } }, pass := 3, tempStack := stack2,
            log := recs1 ++ recs2, discoverCalls := [true] }, ?_, ?_, ?_, ?_, ?_⟩
  · unfold kmsRequestImpl
    simp only [kmsRequestPasses, hrun1, if_true, hdisc, List.nil_append, hrun2]
    simp
  · simp [hlen1, hlen2]
  · intro r hr
    simp only [List.mem_append] at hr
    rcases hr with hr | hr
    · exact (hall1 r hr).2
    · exact (hall2 r hr).2
  · rfl
  · intro h1 h2
    have e1 : recs1 = [] := List.length_eq_zero.mp (by rw [hlen1]; simp [KmsUrlMinHeap.size, h1])
    have e2 : recs2 = [] := List.length_eq_zero.mp (by rw [hlen2]; simp [KmsUrlMinHeap.size, h2])
    simp [e1, e2]

/-- Case analysis of one iteration: the transport failed, or the parse failed,
or the parse succeeded. -/
theorem kmsUrlIteration_cases {T : Type} {env : RequestEnv T} {suf body : String}
    {st st1 : RequestState} {cur : KmsUrlPtr} {x : IterExit T}
    (h : kmsUrlIteration env suf body st cur = some (x, st1)) :
    (∃ e o, (o = AttemptOutcome.urlFailed e ∧ getFullRequestUrl cur.obj.url suf = .error e ∨
          o = AttemptOutcome.postFailed e ∧ ∃ u, getFullRequestUrl cur.obj.url suf = .ok u ∧
            env.doPost st.pass st.log.length u body = .error e) ∧
        x = (if isTerminal st.pass e then IterExit.threw e else IterExit.next) ∧
        st1 = { st with
          ctx := { st.ctx with kmsUrlHeap := st.ctx.kmsUrlHeap.pop }
          tempStack := cur.incFailedResponses :: st.tempStack
          log := st.log ++ [⟨st.pass, cur, o⟩] }) ∨
    (∃ u resp e ctx2, getFullRequestUrl cur.obj.url suf = .ok u ∧
        env.doPost st.pass st.log.length u body = .ok resp ∧
        env.parseFunc { st.ctx with kmsUrlHeap := st.ctx.kmsUrlHeap.pop } resp
          = some (.error e, ctx2) ∧
        x = IterExit.next ∧
        st1 = { st with
          ctx := ctx2
          tempStack := cur.incRequests.incResponseParseFailures :: st.tempStack
          log := st.log ++ [⟨st.pass, cur, .parseFailed e⟩] }) ∨
    (∃ u resp v ctx2, getFullRequestUrl cur.obj.url suf = .ok u ∧
        env.doPost st.pass st.log.length u body = .ok resp ∧
        env.parseFunc { st.ctx with kmsUrlHeap := st.ctx.kmsUrlHeap.pop } resp
          = some (.ok v, ctx2) ∧
        x = IterExit.returned v ∧
        st1 = { st with
          ctx := { ctx2 with
            kmsUrlHeap := restoreTempStack (cur.incRequests :: st.tempStack) ctx2.kmsUrlHeap }
          tempStack := []
          log := st.log ++ [⟨st.pass, cur, .parsed⟩] }) := by
  unfold kmsUrlIteration at h
  cases hu : getFullRequestUrl cur.obj.url suf with
  | error e =>
    rw [hu] at h
    simp only [outerCatch, Option.some.injEq, Prod.mk.injEq] at h
    left
    exact ⟨e, .urlFailed e, Or.inl ⟨rfl, rfl⟩, by rw [← h.1]; rfl, h.2.symm⟩
  | ok u =>
    rw [hu] at h
    simp only at h
    cases hp : env.doPost st.pass st.log.length u body with
    | error e =>
      rw [hp] at h
      simp only [outerCatch, Option.some.injEq, Prod.mk.injEq] at h
      left
      exact ⟨e, .postFailed e, Or.inr ⟨rfl, u, rfl, hp⟩, by rw [← h.1]; rfl, h.2.symm⟩
    | ok resp =>
      rw [hp] at h
      simp only at h
      cases hq : env.parseFunc { st.ctx with kmsUrlHeap := st.ctx.kmsUrlHeap.pop } resp with
      | none => rw [hq] at h; simp at h
      | some res =>
        obtain ⟨r, ctx2⟩ := res
        rw [hq] at h
        cases r with
        | error e =>
          simp only [Option.some.injEq, Prod.mk.injEq] at h
          right; left
          exact ⟨u, resp, e, ctx2, rfl, hp, hq, h.1.symm, h.2.symm⟩
        | ok v =>
          simp only [Option.some.injEq, Prod.mk.injEq] at h
          right; right
          exact ⟨u, resp, v, ctx2, rfl, hp, hq, h.1.symm, h.2.symm⟩

/-- One step of the `while` loop, unfolded. -/
theorem kmsUrlLoop_succ {T : Type} (env : RequestEnv T) (suf body : String)
    (fuel : Nat) (st : RequestState) :
    kmsUrlLoop env suf body (fuel + 1) st =
      match st.ctx.kmsUrlHeap.top with
      | none => some (.exhausted, st)
      | some curUrl =>
        match kmsUrlIteration env suf body st curUrl with
        | none => none
        | some (.returned parsedResp, st1) => some (.returned parsedResp, st1)
        | some (.threw e, st1) => some (.threw e, st1)
        | some (.next, st1) => kmsUrlLoop env suf body fuel st1 := rfl

/-- Inversion of a run of the `while` loop: either the pool was empty, or the
first iteration ended the loop, or it went on. -/
theorem kmsUrlLoop_inv {T : Type} {env : RequestEnv T} {suf body : String}
    {fuel : Nat} {st st2 : RequestState} {x : LoopExit T}
    (h : kmsUrlLoop env suf body (fuel + 1) st = some (x, st2)) :
    (st.ctx.kmsUrlHeap.top = none ∧ x = .exhausted ∧ st2 = st) ∨
    (∃ cur, st.ctx.kmsUrlHeap.top = some cur ∧
      ((∃ v, kmsUrlIteration env suf body st cur = some (.returned v, st2) ∧ x = .returned v) ∨
       (∃ e, kmsUrlIteration env suf body st cur = some (.threw e, st2) ∧ x = .threw e) ∨
       (∃ st1, kmsUrlIteration env suf body st cur = some (.next, st1) ∧
          kmsUrlLoop env suf body fuel st1 = some (x, st2)))) := by
  rw [kmsUrlLoop_succ] at h
  cases ht : st.ctx.kmsUrlHeap.top with
  | none =>
    rw [ht] at h
    simp only [Option.some.injEq, Prod.mk.injEq] at h
    exact Or.inl ⟨rfl, h.1.symm, h.2.symm⟩
  | some cur =>
    rw [ht] at h
    simp only at h
    right
    refine ⟨cur, rfl, ?_⟩
    cases hi : kmsUrlIteration env suf body st cur with
    | none => rw [hi] at h; simp at h
    | some res =>
      obtain ⟨y, st1⟩ := res
      rw [hi] at h
      cases y with
      | returned v =>
        simp only [Option.some.injEq, Prod.mk.injEq] at h
        left; exact ⟨v, by rw [h.2], h.1.symm⟩
      | threw e =>
        simp only [Option.some.injEq, Prod.mk.injEq] at h
        right; left; exact ⟨e, by rw [h.2], h.1.symm⟩
      | next =>
        simp only at h
        right; right; exact ⟨st1, rfl, h⟩
theorem iteration_record {T : Type} {env : RequestEnv T} {suf body : String}
    {st st1 : RequestState} {cur : KmsUrlPtr} {x : IterExit T}
    (h : kmsUrlIteration env suf body st cur = some (x, st1)) :
    st1.pass = st.pass ∧ st1.discoverCalls = st.discoverCalls ∧
    ∃ r, st1.log = st.log ++ [r] ∧ r.pass = st.pass ∧ r.curUrl = cur ∧
      RecordSound env suf body st.log.length r ∧
      (match x with
       | .next => r.goesOn
       | .threw e => r.rethrows e
       | .returned v => RecordParsed env suf body st.log.length r v) := by
  rcases kmsUrlIteration_cases h with
    ⟨e, o, ho, hx, hst⟩ | ⟨u, resp, e, ctx2, hu, hp, hq, hx, hst⟩ |
    ⟨u, resp, v, ctx2, hu, hp, hq, hx, hst⟩
  · subst hst
    refine ⟨rfl, rfl, ⟨st.pass, cur, o⟩, rfl, rfl, rfl, ?_, ?_⟩
    · rcases ho with ⟨rfl, hu⟩ | ⟨rfl, u, hu, hp⟩
      · exact hu
      · exact ⟨u, hu, hp⟩
    · by_cases ht : isTerminal st.pass e = true
      · rw [if_pos ht] at hx; subst hx
        refine ⟨?_, ht⟩
        rcases ho with ⟨rfl, _⟩ | ⟨rfl, _⟩
        · exact Or.inl rfl
        · exact Or.inr rfl
      · rw [if_neg ht] at hx; subst hx
        have ht' : isTerminal st.pass e = false := by simpa using ht
        rcases ho with ⟨rfl, _⟩ | ⟨rfl, _⟩
        · exact ht'
        · exact ht'
  · subst hst; subst hx
    exact ⟨rfl, rfl, ⟨st.pass, cur, .parseFailed e⟩, rfl, rfl, rfl,
      ⟨u, resp, _, ctx2, hu, hp, hq⟩, trivial⟩
  · subst hst; subst hx
    exact ⟨rfl, rfl, ⟨st.pass, cur, .parsed⟩, rfl, rfl, rfl,
      ⟨u, resp, _, ctx2, v, hu, hp, hq⟩, rfl, u, resp, _, ctx2, hu, hp, hq⟩

/-- The trace of one run of the `while` loop. -/
theorem kmsUrlLoop_trace {T : Type} {env : RequestEnv T} {suf body : String}
    (fuel : Nat) {st st2 : RequestState} {x : LoopExit T}
    (h : kmsUrlLoop env suf body fuel st = some (x, st2)) :
    st2.pass = st.pass ∧ st2.discoverCalls = st.discoverCalls ∧
    ∃ recs, st2.log = st.log ++ recs ∧ (∀ r ∈ recs, r.pass = st.pass) ∧
      LogSound env suf body st.log.length recs ∧
      (match x with
       | .exhausted => (∀ r ∈ recs, r.goesOn) ∧ st2.ctx.kmsUrlHeap.c = []
       | .threw e => ∃ init last, recs = init ++ [last] ∧ (∀ r ∈ init, r.goesOn) ∧
           last.rethrows e
       | .returned v => ∃ init last, recs = init ++ [last] ∧ (∀ r ∈ init, r.goesOn) ∧
           RecordParsed env suf body (st.log.length + init.length) last v) := by
  induction fuel generalizing st with
  | zero => simp [kmsUrlLoop] at h
  | succ fuel ih =>
    rcases kmsUrlLoop_inv h with ⟨ht, rfl, rfl⟩ | ⟨cur, ht, hcase⟩
    · refine ⟨rfl, rfl, [], by simp, by simp, trivial, by simp, (top_eq_none_iff _).mp ht⟩
    · rcases hcase with ⟨v, hi, rfl⟩ | ⟨e, hi, rfl⟩ | ⟨st1, hi, hrest⟩
      · obtain ⟨h1, h2, r, hlog, hpass, _, hsound, hx⟩ := iteration_record hi
        refine ⟨h1, h2, [r], hlog, by simpa using hpass, ⟨hsound, trivial⟩, [], r, rfl,
          by simp, by simpa using hx⟩
      · obtain ⟨h1, h2, r, hlog, hpass, _, hsound, hx⟩ := iteration_record hi
        exact ⟨h1, h2, [r], hlog, by simpa using hpass, ⟨hsound, trivial⟩, [], r, rfl,
          by simp, hx⟩
      · obtain ⟨h1, h2, r, hlog, hpass, _, hsound, hx⟩ := iteration_record hi
        obtain ⟨g1, g2, recs, glog, gpass, gsound, gx⟩ := ih hrest
        refine ⟨g1.trans h1, g2.trans h2, r :: recs, ?_, ?_, ?_, ?_⟩
        · rw [glog, hlog]; simp
        · intro r' hr'
          rcases List.mem_cons.mp hr' with rfl | hr'
          · exact hpass
          · rw [gpass r' hr', h1]
        · refine ⟨hsound, ?_⟩
          have : st1.log.length = st.log.length + 1 := by rw [hlog]; simp
          rw [this] at gsound; exact gsound
        · have hlen : st1.log.length = st.log.length + 1 := by rw [hlog]; simp
          cases x with
          | exhausted =>
            simp only at gx ⊢
            refine ⟨?_, gx.2⟩
            intro r' hr'
            rcases List.mem_cons.mp hr' with rfl | hr'
            · exact hx
            · exact gx.1 r' hr'
          | threw e =>
            simp only at gx ⊢
            obtain ⟨init, last, rfl, hinit, hlast⟩ := gx
            refine ⟨r :: init, last, by simp, ?_, hlast⟩
            intro r' hr'
            rcases List.mem_cons.mp hr' with rfl | hr'
            · exact hx
            · exact hinit r' hr'
          | returned v =>
            simp only at gx ⊢
            obtain ⟨init, last, rfl, hinit, hlast⟩ := gx
            refine ⟨r :: init, last, by simp, ?_, ?_⟩
            · intro r' hr'
              rcases List.mem_cons.mp hr' with rfl | hr'
              · exact hx
              · exact hinit r' hr'
            · rw [hlen] at hlast
              have : st.log.length + 1 + init.length = st.log.length + (r :: init).length := by
                simp; omega
              rw [this] at hlast; exact hlast

/-- With a parse function that keeps the pool when it fails, the endpoints tried
in one run of the loop are an initial segment of the pop order of the pool,
and all of it when the loop runs to exhaustion. -/
theorem kmsUrlLoop_popOrder {T : Type} {env : RequestEnv T} {suf body : String}
    (hkeep : FailedParseKeepsPool env)
    (fuel : Nat) {st st2 : RequestState} {x : LoopExit T}
    (h : kmsUrlLoop env suf body fuel st = some (x, st2))
    {recs : List AttemptRecord} (hrecs : st2.log = st.log ++ recs) :
    recs.map (fun r => r.curUrl) <+: st.ctx.kmsUrlHeap.popOrder ∧
      (x = .exhausted → recs.map (fun r => r.curUrl) = st.ctx.kmsUrlHeap.popOrder) := by
  induction fuel generalizing st recs with
  | zero => simp [kmsUrlLoop] at h
  | succ fuel ih =>
    rcases kmsUrlLoop_inv h with ⟨ht, rfl, rfl⟩ | ⟨cur, ht, hcase⟩
    · have : recs = [] := by simpa using hrecs
      subst this
      simp [popOrder_nil ht]
    · rw [popOrder_cons ht]
      rcases hcase with ⟨v, hi, rfl⟩ | ⟨e, hi, rfl⟩ | ⟨st1, hi, hrest⟩
      · obtain ⟨_, _, r, hlog, _, hcur, _⟩ := iteration_record hi
        have : recs = [r] := by
          rw [hlog] at hrecs; exact (List.append_cancel_left hrecs).symm
        subst this
        refine ⟨?_, by simp⟩
        simp only [List.map_cons, List.map_nil, hcur]
        exact ⟨_, rfl⟩
      · obtain ⟨_, _, r, hlog, _, hcur, _⟩ := iteration_record hi
        have : recs = [r] := by
          rw [hlog] at hrecs; exact (List.append_cancel_left hrecs).symm
        subst this
        refine ⟨?_, by simp⟩
        simp only [List.map_cons, List.map_nil, hcur]
        exact ⟨_, rfl⟩
      · obtain ⟨_, _, r, hlog, _, hcur, _⟩ := iteration_record hi
        obtain ⟨_, _, recs1, glog, _⟩ := kmsUrlLoop_trace fuel hrest
        have hrec : recs = r :: recs1 := by
          rw [glog, hlog, List.append_assoc] at hrecs
          exact (List.append_cancel_left hrecs).symm
        have hheap : st1.ctx.kmsUrlHeap = st.ctx.kmsUrlHeap.pop := by
          rcases kmsUrlIteration_cases hi with
            ⟨e, o, _, _, hst⟩ | ⟨u, resp, e, ctx2, _, hp, hq, _, hst⟩ |
            ⟨u, resp, v, ctx2, _, _, _, hx, _⟩
          · rw [hst]
          · rw [hst]; exact hkeep _ _ _ _ _ _ _ _ hp hq
          · cases hx
        obtain ⟨hpre, hex⟩ := ih hrest glog
        rw [hheap] at hpre hex
        subst hrec
        simp only [List.map_cons, hcur]
        refine ⟨?_, ?_⟩
        · obtain ⟨t, ht'⟩ := hpre
          exact ⟨t, by rw [← ht']; simp⟩
        · intro hx; rw [hex hx]

/-- The course of `kmsRequestImpl`: pass 1, then `discoverKmsUrls`, then pass 2. -/
theorem kmsRequestImpl_inv {T : Type} {sys : Sys} {env : RequestEnv T} {suf body : String}
    {fuel : Nat} {ctx : RESTKmsConnectorCtx} {r : Except Error T} {st : RequestState}
    (h : kmsRequestImpl sys env suf body fuel ctx = some (r, st)) :
    (∃ v, kmsUrlLoop env suf body fuel (initialState ctx) = some (.returned v, st) ∧ r = .ok v) ∨
    (∃ e, kmsUrlLoop env suf body fuel (initialState ctx) = some (.threw e, st) ∧ r = .error e) ∨
    (∃ st1, kmsUrlLoop env suf body fuel (initialState ctx) = some (.exhausted, st1) ∧
      ((∃ e c, discoverKmsUrls sys st1.ctx true = (.error e, c) ∧ r = .error e ∧
          st = { st1 with ctx := c, discoverCalls := st1.discoverCalls ++ [true] }) ∨
       (∃ c, discoverKmsUrls sys st1.ctx true = (.ok (), c) ∧
          ((∃ v, kmsUrlLoop env suf body fuel (secondPassState st1 c) = some (.returned v, st) ∧
              r = .ok v) ∨
           (∃ e, kmsUrlLoop env suf body fuel (secondPassState st1 c) = some (.threw e, st) ∧
              r = .error e) ∨
           (∃ st2, kmsUrlLoop env suf body fuel (secondPassState st1 c) = some (.exhausted, st2) ∧
              r = .error Error.encrypt_keys_fetch_failed ∧
              st = { st2 with pass := st2.pass + 1 }))))) := by
  unfold kmsRequestImpl at h
  simp only [kmsRequestPasses] at h
  change (match kmsUrlLoop env suf body fuel (initialState ctx) with
    | none => none
    | some (.returned parsedResp, st1) => some (.ok parsedResp, st1)
    | some (.threw e, st1) => some (.error e, st1)
    | some (.exhausted, st1) => _) = some (r, st) at h
  cases h1 : kmsUrlLoop env suf body fuel (initialState ctx) with
  | none => rw [h1] at h; simp at h
  | some res =>
    obtain ⟨x, st1⟩ := res
    rw [h1] at h
    cases x with
    | returned v =>
      simp only [Option.some.injEq, Prod.mk.injEq] at h
      left; exact ⟨v, by rw [h.2], h.1.symm⟩
    | threw e =>
      simp only [Option.some.injEq, Prod.mk.injEq] at h
      right; left; exact ⟨e, by rw [h.2], h.1.symm⟩
    | exhausted =>
      right; right
      refine ⟨st1, rfl, ?_⟩
      have hp1 : st1.pass = 1 := (kmsUrlLoop_trace fuel h1).1
      dsimp only at h
      rw [if_pos hp1] at h
      cases hd : discoverKmsUrls sys st1.ctx true with
      | mk o c =>
        rw [hd] at h
        cases o with
        | error e =>
          simp only [Option.some.injEq, Prod.mk.injEq] at h
          left; exact ⟨e, c, rfl, h.1.symm, h.2.symm⟩
        | ok u =>
          right
          refine ⟨c, rfl, ?_⟩
          simp only at h
          change (match kmsUrlLoop env suf body fuel (secondPassState st1 c) with
            | none => none
            | some (.returned parsedResp, st1) => some (.ok parsedResp, st1)
            | some (.threw e, st1) => some (.error e, st1)
            | some (.exhausted, st1) => _) = some (r, st) at h
          cases h2 : kmsUrlLoop env suf body fuel (secondPassState st1 c) with
          | none => rw [h2] at h; simp at h
          | some res2 =>
            obtain ⟨x2, st2⟩ := res2
            rw [h2] at h
            cases x2 with
            | returned v =>
              simp only [Option.some.injEq, Prod.mk.injEq] at h
              left; exact ⟨v, by rw [h.2], h.1.symm⟩
            | threw e =>
              simp only [Option.some.injEq, Prod.mk.injEq] at h
              right; left; exact ⟨e, by rw [h.2], h.1.symm⟩
            | exhausted =>
              right; right
              have hp2 : st2.pass = 2 := by
                have := (kmsUrlLoop_trace fuel h2).1
                rw [this]; simp [secondPassState, hp1]
              have hne : ¬ st2.pass = 1 := by omega
              dsimp only at h
              rw [if_neg hne] at h
              simp only [Option.some.injEq, Prod.mk.injEq] at h
              exact ⟨st2, rfl, h.1.symm, h.2.symm⟩

/-! ### Termination -/

theorem kmsUrlIteration_defined {T : Type} {env : RequestEnv T} (hdef : ParseDefined env)
    (suf body : String) (st : RequestState) (cur : KmsUrlPtr) :
    ∃ x st1, kmsUrlIteration env suf body st cur = some (x, st1) := by
  unfold kmsUrlIteration
  cases hu : getFullRequestUrl cur.obj.url suf with
  | error e => exact ⟨_, _, rfl⟩
  | ok u =>
    simp only
    cases hp : env.doPost st.pass st.log.length u body with
    | error e => exact ⟨_, _, rfl⟩
    | ok resp =>
      simp only
      cases hq : env.parseFunc { st.ctx with kmsUrlHeap := st.ctx.kmsUrlHeap.pop } resp with
      | none => exact absurd hq (hdef _ _ _ _ _ _ hp)
      | some res =>
        obtain ⟨o, ctx2⟩ := res
        cases o with
        | error e => exact ⟨_, _, rfl⟩
        | ok v => exact ⟨_, _, rfl⟩

/-- The pool after an iteration that goes on is the pool with its top removed,
when a failing parse keeps the pool. -/
theorem iteration_next_heap {T : Type} {env : RequestEnv T} {suf body : String}
    (hkeep : FailedParseKeepsPool env) {st st1 : RequestState} {cur : KmsUrlPtr}
    (hi : kmsUrlIteration env suf body st cur = some (.next, st1)) :
    st1.ctx.kmsUrlHeap = st.ctx.kmsUrlHeap.pop := by
  rcases kmsUrlIteration_cases hi with
    ⟨e, o, _, _, hst⟩ | ⟨u, resp, e, ctx2, _, hp, hq, _, hst⟩ |
    ⟨u, resp, v, ctx2, _, _, _, hx, _⟩
  · rw [hst]
  · rw [hst]; exact hkeep _ _ _ _ _ _ _ _ hp hq
  · cases hx

/-- The `while` loop ends when the fuel exceeds the size of the pool. -/
theorem kmsUrlLoop_terminates {T : Type} {env : RequestEnv T}
    (hkeep : FailedParseKeepsPool env) (hdef : ParseDefined env) (suf body : String)
    (fuel : Nat) (st : RequestState) (hfuel : st.ctx.kmsUrlHeap.size < fuel) :
    ∃ x st2, kmsUrlLoop env suf body fuel st = some (x, st2) := by
  induction fuel generalizing st with
  | zero => omega
  | succ fuel ih =>
    rw [kmsUrlLoop_succ]
    cases ht : st.ctx.kmsUrlHeap.top with
    | none => exact ⟨_, _, rfl⟩
    | some cur =>
      obtain ⟨y, st1, hi⟩ := kmsUrlIteration_defined hdef suf body st cur
      simp only [hi]
      cases y with
      | returned v => exact ⟨_, _, rfl⟩
      | threw e => exact ⟨_, _, rfl⟩
      | next =>
        simp only
        apply ih
        rw [iteration_next_heap hkeep hi]
        have := pop_size ht
        omega

/-- One iteration of the `for` loop, given how its `while` loop ended. -/
theorem kmsRequestPasses_of_loop {T : Type} (sys : Sys) {env : RequestEnv T} {suf body : String}
    {fuel : Nat} (n : Nat) {st st1 : RequestState} {x : LoopExit T}
    (h1 : kmsUrlLoop env suf body fuel { st with tempStack := [] } = some (x, st1)) :
    kmsRequestPasses sys env suf body fuel (n + 1) st =
      match x with
      | .returned v => some (.ok v, st1)
      | .threw e => some (.error e, st1)
      | .exhausted =>
        if st1.pass = 1 then
          match discoverKmsUrls sys st1.ctx true with
          | (.error e, ctx2) =>
            some (.error e, { st1 with ctx := ctx2, discoverCalls := st1.discoverCalls ++ [true] })
          | (.ok (), ctx2) =>
            kmsRequestPasses sys env suf body fuel n
              { st1 with ctx := ctx2, pass := st1.pass + 1,
                         discoverCalls := st1.discoverCalls ++ [true] }
        else
          kmsRequestPasses sys env suf body fuel n { st1 with pass := st1.pass + 1 } := by
  rw [kmsRequestPasses]
  simp only [h1]
  cases x <;> rfl

/-- `kmsRequestImpl` ends when the fuel exceeds the size of the pool and of every
pool that rediscovery builds. -/
theorem kmsRequestImpl_terminates {T : Type} {sys : Sys} {env : RequestEnv T}
    (hkeep : FailedParseKeepsPool env) (hdef : ParseDefined env) (suf body : String)
    (fuel : Nat) (ctx : RESTKmsConnectorCtx)
    (hfuel1 : ctx.kmsUrlHeap.size < fuel)
    (hfuel2 : ∀ c0 c, c0.kmsUrlHeap.c = [] → discoverKmsUrls sys c0 true = (.ok (), c) →
      c.kmsUrlHeap.size < fuel) :
    ∃ r st, kmsRequestImpl sys env suf body fuel ctx = some (r, st) := by
  obtain ⟨x1, st1, h1⟩ := kmsUrlLoop_terminates hkeep hdef suf body fuel (initialState ctx) hfuel1
  have h1' : kmsUrlLoop env suf body fuel { initialState ctx with tempStack := [] }
      = some (x1, st1) := h1
  have e0 : kmsRequestImpl sys env suf body fuel ctx
      = kmsRequestPasses sys env suf body fuel 2 (initialState ctx) := rfl
  rw [e0, kmsRequestPasses_of_loop sys 1 h1']
  cases x1 with
  | returned v => exact ⟨_, _, rfl⟩
  | threw e => exact ⟨_, _, rfl⟩
  | exhausted =>
    have hp1 : st1.pass = 1 := (kmsUrlLoop_trace fuel h1).1
    have hemp : st1.ctx.kmsUrlHeap.c = [] := by
      obtain ⟨_, _, recs, _, _, _, hx⟩ := kmsUrlLoop_trace fuel h1
      exact hx.2
    dsimp only
    rw [if_pos hp1]
    cases hd : discoverKmsUrls sys st1.ctx true with
    | mk o c =>
      cases o with
      | error e => exact ⟨_, _, rfl⟩
      | ok u =>
        dsimp only
        obtain ⟨x2, st2, h2⟩ := kmsUrlLoop_terminates hkeep hdef suf body fuel
          (secondPassState st1 c) (hfuel2 st1.ctx c hemp hd)
        have h2' : kmsUrlLoop env suf body fuel
            { ({ st1 with ctx := c, pass := st1.pass + 1,
                          discoverCalls := st1.discoverCalls ++ [true] } : RequestState)
              with tempStack := [] } = some (x2, st2) := h2
        rw [kmsRequestPasses_of_loop sys 0 h2']
        cases x2 with
        | returned v => exact ⟨_, _, rfl⟩
        | threw e => exact ⟨_, _, rfl⟩
        | exhausted =>
          dsimp only
          split <;> [split; skip] <;> exact ⟨_, _, rfl⟩

/-! ### One pass -/

theorem goesOn_not_parsed {r : AttemptRecord} (h : r.goesOn) : r.outcome ≠ .parsed := by
  intro hp
  unfold AttemptRecord.goesOn at h
  rw [hp] at h
  exact h

theorem rethrows_not_parsed {r : AttemptRecord} {e : Error} (h : r.rethrows e) :
    r.outcome ≠ .parsed := by
  intro hp
  rcases h.1 with h1 | h1 <;> rw [hp] at h1 <;> cases h1

theorem rethrows_not_goesOn {r : AttemptRecord} {e : Error} (h : r.rethrows e) : ¬ r.goesOn := by
  intro hg
  unfold AttemptRecord.goesOn at hg
  rcases h.1 with h1 | h1
  · rw [h1] at hg; simp only at hg; rw [h.2] at hg; cases hg
  · rw [h1] at hg; simp only at hg; rw [h.2] at hg; cases hg

theorem parsed_not_goesOn {r : AttemptRecord} (h : r.outcome = .parsed) : ¬ r.goesOn :=
  fun hg => goesOn_not_parsed hg h

/-- Position of an element in a list that ends with `last`. -/
theorem mem_init_or_last {α : Type} {l1 l2 init : List α} {r last : α}
    (h : l1 ++ r :: l2 = init ++ [last]) :
    (l2 = [] ∧ l1 = init ∧ r = last) ∨ r ∈ init := by
  rcases List.eq_nil_or_concat l2 with rfl | ⟨l2', z, rfl⟩
  · left
    have := List.append_inj' h (by simp)
    exact ⟨rfl, this.1, by simpa using this.2⟩
  · right
    have h' : (l1 ++ r :: l2') ++ [z] = init ++ [last] := by
      rw [← h]; simp
    have := List.append_inj' h' (by simp)
    rw [← this.1]; simp

/-- C2: one pass of `kmsRequestImpl` (a run of its `while` loop from any state,
with a parse function that is defined and keeps the pool when it fails) ends, and
the endpoints it tries are an initial segment of the pop order of the pool, which
lists every endpoint of the pool once, so that no endpoint is tried twice.  The
first attempt is made on the top of the pool (a pool that is not empty is never
left untried), and the pass ends in one of three ways: on an attempt whose POST
and parse both succeed, whose parse result it returns; on an attempt whose error
it rethrows; or by exhaustion, and then every endpoint of the pool has been
tried.  Every attempt before the last one failed without being rethrown.  An
attempt that fails without being rethrown, a parse failure in particular, is
followed by the next endpoint in pop order, and the pass ends on it only when the
whole pool has been tried; an attempt whose POST and parse both succeed is the
last one, and its parse result is what the pass returns. -/
theorem pass_tries_endpoints_in_pop_order {T : Type} (env : RequestEnv T) (suf body : String)
    (fuel : Nat) (st : RequestState)
    (hkeep : FailedParseKeepsPool env) (hdef : ParseDefined env)
    (hfuel : st.ctx.kmsUrlHeap.size < fuel) :
    ∃ x st2 recs, kmsUrlLoop env suf body fuel st = some (x, st2) ∧
      st2.log = st.log ++ recs ∧
      LogSound env suf body st.log.length recs ∧
      recs.map (fun r => r.curUrl) <+: st.ctx.kmsUrlHeap.popOrder ∧
      List.Perm st.ctx.kmsUrlHeap.popOrder st.ctx.kmsUrlHeap.c ∧
      ((st.ctx.kmsUrlHeap.c.map (fun p => p.addr)).Nodup →
        (recs.map (fun r => r.curUrl.addr)).Nodup) ∧
      (st.ctx.kmsUrlHeap.c ≠ [] →
        ∃ r rest, recs = r :: rest ∧ st.ctx.kmsUrlHeap.top = some r.curUrl) ∧
      PassOutcome env suf body st.log.length recs x ∧
      (x = .exhausted → recs.map (fun r => r.curUrl) = st.ctx.kmsUrlHeap.popOrder) ∧
      (∀ init last, recs = init ++ [last] →
        (∀ r ∈ init, r.goesOn) ∧
        (last.goesOn → x = .exhausted ∧
          recs.map (fun r => r.curUrl) = st.ctx.kmsUrlHeap.popOrder)) ∧
      (∀ r ∈ recs, ∀ e, r.outcome = .parseFailed e → r.goesOn) ∧
      (∀ l1 r l2, recs = l1 ++ r :: l2 → r.outcome = .parsed →
        l2 = [] ∧ (∀ r' ∈ l1, r'.outcome ≠ .parsed) ∧
        ∃ v, x = .returned v ∧ RecordParsed env suf body (st.log.length + l1.length) r v) ∧
      (∀ v, x = .returned v →
        ∃ init last, recs = init ++ [last] ∧
          RecordParsed env suf body (st.log.length + init.length) last v) := by
  obtain ⟨x, st2, hrun⟩ := kmsUrlLoop_terminates hkeep hdef suf body fuel st hfuel
  obtain ⟨_, _, recs, hlog, _, hsound, hx⟩ := kmsUrlLoop_trace fuel hrun
  obtain ⟨hpre, hex⟩ := kmsUrlLoop_popOrder hkeep fuel hrun hlog
  have hout : PassOutcome env suf body st.log.length recs x := by
    cases x with
    | exhausted => exact hx.1
    | threw e => exact hx
    | returned v => exact hx
  refine ⟨x, st2, recs, hrun, hlog, hsound, hpre, popOrder_perm _, ?_, ?_, hout, hex,
    ?_, ?_, ?_, ?_⟩
  · intro hnd
    have h1 : (st.ctx.kmsUrlHeap.popOrder.map (fun p => p.addr)).Nodup :=
      ((popOrder_perm st.ctx.kmsUrlHeap).map _).nodup_iff.mpr hnd
    have h2 : (recs.map (fun r => r.curUrl)).map (fun p => p.addr) <+:
        st.ctx.kmsUrlHeap.popOrder.map (fun p => p.addr) := by
      obtain ⟨t, ht⟩ := hpre
      exact ⟨t.map (fun p => p.addr), by rw [← ht]; simp⟩
    have h3 := h1.sublist h2.sublist
    simpa [List.map_map] using h3
  · intro hne
    cases ht : st.ctx.kmsUrlHeap.top with
    | none => exact absurd ((top_eq_none_iff _).mp ht) hne
    | some t =>
      have hpo := popOrder_cons ht
      have hrne : recs ≠ [] := by
        intro hnil
        subst hnil
        cases x with
        | exhausted =>
          have := hex rfl
          rw [hpo] at this
          cases this
        | threw e =>
          obtain ⟨init, last, hrec, _⟩ := hout
          cases init <;> cases hrec
        | returned v =>
          obtain ⟨init, last, hrec, _⟩ := hout
          cases init <;> cases hrec
      cases recs with
      | nil => exact absurd rfl hrne
      | cons r rest =>
        refine ⟨r, rest, rfl, ?_⟩
        obtain ⟨tl, htl⟩ := hpre
        rw [hpo] at htl
        simp only [List.map_cons, List.cons_append] at htl
        injection htl with h1 _
        rw [h1]
  · intro init last hrec
    cases x with
    | exhausted =>
      simp only at hx
      refine ⟨fun r hr => hx.1 r (by rw [hrec]; simp [hr]), fun _ => ⟨rfl, hex rfl⟩⟩
    | threw e =>
      simp only at hx
      obtain ⟨init', last', hrec', hinit, hlast⟩ := hx
      have := List.append_inj' (hrec.symm.trans hrec') (by simp)
      obtain ⟨rfl, h2⟩ := this
      have h2 : last = last' := by simpa using h2
      subst h2
      exact ⟨hinit, fun hg => absurd hg (rethrows_not_goesOn hlast)⟩
    | returned v =>
      simp only at hx
      obtain ⟨init', last', hrec', hinit, hlast⟩ := hx
      have := List.append_inj' (hrec.symm.trans hrec') (by simp)
      obtain ⟨rfl, h2⟩ := this
      have h2 : last = last' := by simpa using h2
      subst h2
      exact ⟨hinit, fun hg => absurd hg (parsed_not_goesOn hlast.1)⟩
  · intro r _ e he
    unfold AttemptRecord.goesOn
    rw [he]; trivial
  · intro l1 r l2 hrec hparsed
    cases x with
    | exhausted =>
      simp only at hx
      exact absurd (hx.1 r (by rw [hrec]; simp)) (parsed_not_goesOn hparsed)
    | threw e =>
      simp only at hx
      obtain ⟨init, last, hrec', hinit, hlast⟩ := hx
      rcases mem_init_or_last (hrec.symm.trans hrec') with ⟨_, _, rfl⟩ | hmem
      · exact absurd hparsed (rethrows_not_parsed hlast)
      · exact absurd (hinit r hmem) (parsed_not_goesOn hparsed)
    | returned v =>
      simp only at hx
      obtain ⟨init, last, hrec', hinit, hlast⟩ := hx
      rcases mem_init_or_last (hrec.symm.trans hrec') with ⟨rfl, rfl, rfl⟩ | hmem
      · exact ⟨rfl, fun r' hr' => goesOn_not_parsed (hinit r' hr'), v, rfl, hlast⟩
      · exact absurd (hinit r hmem) (parsed_not_goesOn hparsed)
  · intro v hv
    subst hv
    simp only at hx
    obtain ⟨init, last, hrec', _, hlast⟩ := hx
    exact ⟨init, last, hrec', hlast⟩

/-! ### The whole request -/

theorem LogSound_append {T : Type} (env : RequestEnv T) (suf body : String)
    (l1 l2 : List AttemptRecord) (i : Nat)
    (h1 : LogSound env suf body i l1) (h2 : LogSound env suf body (i + l1.length) l2) :
    LogSound env suf body i (l1 ++ l2) := by
  induction l1 generalizing i with
  | nil => simpa using h2
  | cons r rs ih =>
    obtain ⟨hr, hrs⟩ := h1
    refine ⟨hr, ih (i + 1) hrs ?_⟩
    have : i + 1 + rs.length = i + (r :: rs).length := by simp; omega
    rw [this]; exact h2

theorem kmsUrlLoop_passOutcome {T : Type} {env : RequestEnv T} {suf body : String}
    (fuel : Nat) {st st2 : RequestState} {x : LoopExit T}
    (h : kmsUrlLoop env suf body fuel st = some (x, st2)) :
    st2.pass = st.pass ∧ st2.discoverCalls = st.discoverCalls ∧
    ∃ recs, st2.log = st.log ++ recs ∧ (∀ r ∈ recs, r.pass = st.pass) ∧
      LogSound env suf body st.log.length recs ∧
      PassOutcome env suf body st.log.length recs x ∧
      (x = .exhausted → st2.ctx.kmsUrlHeap.c = []) := by
  obtain ⟨h1, h2, recs, hlog, hpass, hsound, hx⟩ := kmsUrlLoop_trace fuel h
  refine ⟨h1, h2, recs, hlog, hpass, hsound, ?_, ?_⟩
  · cases x with
    | exhausted => exact hx.1
    | threw e => exact hx
    | returned v => exact hx
  · intro hx'
    subst hx'
    exact hx.2

/-- In pass 1 no transport error is terminal. -/
theorem not_rethrows_in_pass_one {r : AttemptRecord} {e : Error} (hp : r.pass = 1) :
    ¬ r.rethrows e := by
  intro h
  have := h.2
  simp [isTerminal, hp] at this

/-- The trace of a whole request: the records of pass 1, then those of pass 2,
and how the reply follows from the way the passes end. -/
theorem kmsRequestImpl_trace {T : Type} {sys : Sys} {env : RequestEnv T} {suf body : String}
    {fuel : Nat} {ctx : RESTKmsConnectorCtx} {r : Except Error T} {st : RequestState}
    (h : kmsRequestImpl sys env suf body fuel ctx = some (r, st)) :
    ∃ recs1 recs2 x1, st.log = recs1 ++ recs2 ∧
      (∀ a ∈ recs1, a.pass = 1) ∧ (∀ a ∈ recs2, a.pass = 2) ∧
      LogSound env suf body 0 (recs1 ++ recs2) ∧
      PassOutcome env suf body 0 recs1 x1 ∧
      (FailedParseKeepsPool env →
        recs1.map (fun a => a.curUrl) <+: ctx.kmsUrlHeap.popOrder ∧
        (x1 = .exhausted → recs1.map (fun a => a.curUrl) = ctx.kmsUrlHeap.popOrder)) ∧
      ((∃ v, x1 = .returned v ∧ r = .ok v ∧ recs2 = [] ∧ st.discoverCalls = [] ∧ st.pass = 1) ∨
       (x1 = .exhausted ∧ st.discoverCalls = [true] ∧
         ((∃ e c0 c, c0.kmsUrlHeap.c = [] ∧ discoverKmsUrls sys c0 true = (.error e, c) ∧
             r = .error e ∧ recs2 = [] ∧ st.ctx = c) ∨
          (∃ c0 c x2, c0.kmsUrlHeap.c = [] ∧ discoverKmsUrls sys c0 true = (.ok (), c) ∧
             PassOutcome env suf body recs1.length recs2 x2 ∧
             (FailedParseKeepsPool env →
               recs2.map (fun a => a.curUrl) <+: c.kmsUrlHeap.popOrder ∧
               (x2 = .exhausted → recs2.map (fun a => a.curUrl) = c.kmsUrlHeap.popOrder)) ∧
             ((∃ v, x2 = .returned v ∧ r = .ok v ∧ st.pass = 2) ∨
              (∃ e, x2 = .threw e ∧ r = .error e) ∨
              (x2 = .exhausted ∧ r = .error Error.encrypt_keys_fetch_failed ∧
                st.ctx.kmsUrlHeap.c = [])))))) := by
  rcases kmsRequestImpl_inv h with ⟨v, h1, rfl⟩ | ⟨e, h1, rfl⟩ | ⟨st1, h1, hrest⟩
  · obtain ⟨hp, hd, recs, hlog, hpass, hsound, hout, _⟩ := kmsUrlLoop_passOutcome fuel h1
    refine ⟨recs, [], .returned v, by simpa [initialState] using hlog, hpass, by simp,
      by simpa [initialState] using hsound, hout,
      fun (hkeep : FailedParseKeepsPool env) => kmsUrlLoop_popOrder hkeep fuel h1 hlog,
      Or.inl ⟨v, rfl, rfl, rfl, hd, hp⟩⟩
  · obtain ⟨hp, hd, recs, hlog, hpass, hsound, hout, _⟩ := kmsUrlLoop_passOutcome fuel h1
    obtain ⟨init, last, hrec, _, hlast⟩ := hout
    exact absurd hlast (not_rethrows_in_pass_one (hpass last (by rw [hrec]; simp)))
  · obtain ⟨hp, hd, recs1, hlog, hpass, hsound, hout, hemp⟩ := kmsUrlLoop_passOutcome fuel h1
    have hpo1 := fun (hkeep : FailedParseKeepsPool env) => kmsUrlLoop_popOrder hkeep fuel h1 hlog
    have hlog1 : st1.log = recs1 := by simpa [initialState] using hlog
    have hsound1 : LogSound env suf body 0 recs1 := by simpa [initialState] using hsound
    have hd1 : st1.discoverCalls = [] := hd
    rcases hrest with ⟨e, c, hdisc, rfl, rfl⟩ | ⟨c, hdisc, hpass2⟩
    · refine ⟨recs1, [], .exhausted, by simp [hlog1], hpass, by simp,
        by simpa using hsound1, hout, hpo1, Or.inr ⟨rfl, by simp [hd1], Or.inl
          ⟨e, st1.ctx, c, hemp rfl, hdisc, rfl, rfl, rfl⟩⟩⟩
    · have key : ∀ (x2 : LoopExit T) (st2 : RequestState),
          kmsUrlLoop env suf body fuel (secondPassState st1 c) = some (x2, st2) →
          ∃ recs2, st2.log = recs1 ++ recs2 ∧ (∀ a ∈ recs2, a.pass = 2) ∧
            LogSound env suf body 0 (recs1 ++ recs2) ∧
            PassOutcome env suf body recs1.length recs2 x2 ∧
            (FailedParseKeepsPool env →
              recs2.map (fun a => a.curUrl) <+: c.kmsUrlHeap.popOrder ∧
              (x2 = .exhausted → recs2.map (fun a => a.curUrl) = c.kmsUrlHeap.popOrder)) ∧
            st2.discoverCalls = [true] ∧ st2.pass = 2 ∧
            (x2 = .exhausted → st2.ctx.kmsUrlHeap.c = []) := by
        intro x2 st2 h2
        obtain ⟨gp, gd, recs2, glog, gpass, gsound, gout, gemp⟩ := kmsUrlLoop_passOutcome fuel h2
        have gpo := fun (hkeep : FailedParseKeepsPool env) => kmsUrlLoop_popOrder hkeep fuel h2 glog
        have hl : (secondPassState st1 c).log = recs1 := by simp [secondPassState, hlog1]
        have hp2 : (secondPassState st1 c).pass = 2 := by
          have : st1.pass = 1 := hp
          simp [secondPassState, this]
        rw [hl] at glog gsound gout
        rw [hp2] at gpass gp
        refine ⟨recs2, glog, gpass, LogSound_append env suf body recs1 recs2 0 hsound1
          (by simpa using gsound), gout, gpo, ?_, gp, gemp⟩
        rw [gd]; simp [secondPassState, hd1]
      rcases hpass2 with ⟨v, h2, rfl⟩ | ⟨e, h2, rfl⟩ | ⟨st2, h2, rfl, rfl⟩
      · obtain ⟨recs2, glog, gpass, gsound, gout, gpo, gd, gp, _⟩ := key _ _ h2
        exact ⟨recs1, recs2, .exhausted, glog, hpass, gpass, gsound, hout, hpo1, Or.inr
          ⟨rfl, gd, Or.inr ⟨st1.ctx, c, _, hemp rfl, hdisc, gout, gpo,
            Or.inl ⟨v, rfl, rfl, gp⟩⟩⟩⟩
      · obtain ⟨recs2, glog, gpass, gsound, gout, gpo, gd, gp, _⟩ := key _ _ h2
        exact ⟨recs1, recs2, .exhausted, glog, hpass, gpass, gsound, hout, hpo1, Or.inr
          ⟨rfl, gd, Or.inr ⟨st1.ctx, c, _, hemp rfl, hdisc, gout, gpo,
            Or.inr (Or.inl ⟨e, rfl, rfl⟩)⟩⟩⟩
      · obtain ⟨recs2, glog, gpass, gsound, gout, gpo, gd, gp, gemp⟩ := key _ _ h2
        exact ⟨recs1, recs2, .exhausted, glog, hpass, gpass, gsound, hout, hpo1, Or.inr
          ⟨rfl, gd, Or.inr ⟨st1.ctx, c, _, hemp rfl, hdisc, gout, gpo,
            Or.inr (Or.inr ⟨rfl, rfl, gemp rfl⟩)⟩⟩⟩

theorem isKmsNotReachable_iff (e : Error) :
    isKmsNotReachable e = true ↔ e = Error.timed_out ∨ e = Error.connection_failed := by
  simp [isKmsNotReachable]

/-- Position of an element in a list that ends with `last`, with the tail. -/
theorem mem_init_or_last' {α : Type} {l1 l2 init : List α} {r last : α}
    (h : l1 ++ r :: l2 = init ++ [last]) :
    (l2 = [] ∧ l1 = init ∧ r = last) ∨ (l2 ≠ [] ∧ r ∈ init) := by
  rcases List.eq_nil_or_concat l2 with rfl | ⟨l2', z, rfl⟩
  · left
    have := List.append_inj' h (by simp)
    exact ⟨rfl, this.1, by simpa using this.2⟩
  · right
    have h' : (l1 ++ r :: l2') ++ [z] = init ++ [last] := by
      rw [← h]; simp
    have := List.append_inj' h' (by simp)
    refine ⟨by simp, ?_⟩
    rw [← this.1]; simp

theorem goesOn_postFailed {r : AttemptRecord} {e : Error} (ho : r.outcome = .postFailed e)
    (hg : r.goesOn) : isTerminal r.pass e = false := by
  unfold AttemptRecord.goesOn at hg
  rw [ho] at hg
  exact hg

/-- C3: `kmsRequestImpl` (with a parse function that is defined and keeps the
pool when it fails, and enough fuel) ends, and for every POST that raised a
transport error `e`: in pass 1 the request went on, to a further attempt or to
rediscovery, whatever the kind of `e`; in pass 2, if `e` is timed-out or
connection-failed no further attempt was made and `e` is the error of the
request, and otherwise the request went on to a further attempt or, the pool
being used up, to the final encrypt-keys-fetch-failed. -/
theorem transport_errors_by_pass {T : Type} (sys : Sys) (env : RequestEnv T)
    (suf body : String) (fuel : Nat) (ctx : RESTKmsConnectorCtx)
    (hkeep : FailedParseKeepsPool env) (hdef : ParseDefined env)
    (hfuel1 : ctx.kmsUrlHeap.size < fuel)
    (hfuel2 : ∀ c0 c, c0.kmsUrlHeap.c = [] → discoverKmsUrls sys c0 true = (.ok (), c) →
      c.kmsUrlHeap.size < fuel) :
    ∃ r st, kmsRequestImpl sys env suf body fuel ctx = some (r, st) ∧
      LogSound env suf body 0 st.log ∧
      ∀ l1 rec l2 e, st.log = l1 ++ rec :: l2 → rec.outcome = .postFailed e →
        (rec.pass = 1 ∨ rec.pass = 2) ∧
        (isKmsNotReachable e = true ↔ e = Error.timed_out ∨ e = Error.connection_failed) ∧
        (rec.pass = 1 → l2 ≠ [] ∨ st.discoverCalls = [true]) ∧
        (rec.pass = 2 → isKmsNotReachable e = true → l2 = [] ∧ r = .error e) ∧
        (rec.pass = 2 → isKmsNotReachable e = false →
          l2 ≠ [] ∨ (r = .error Error.encrypt_keys_fetch_failed ∧ st.ctx.kmsUrlHeap.c = [])) := by
  obtain ⟨r, st, hrun⟩ := kmsRequestImpl_terminates hkeep hdef suf body fuel ctx hfuel1 hfuel2
  obtain ⟨recs1, recs2, x1, hlog, hp1, hp2, hsound, hout1, _, hcases⟩ :=
    kmsRequestImpl_trace hrun
  refine ⟨r, st, hrun, by rw [hlog]; exact hsound, ?_⟩
  intro l1 rec l2 e hdec hpost
  rw [hlog] at hdec
  have hnp : rec.outcome ≠ .parsed := by rw [hpost]; simp
  have hpos : (∃ a'', recs1 = l1 ++ rec :: a'' ∧ l2 = a'' ++ recs2) ∨
      (∃ c', recs2 = c' ++ rec :: l2) := by
    rcases List.append_eq_append_iff.mp hdec.symm with ⟨a', ha1, ha2⟩ | ⟨c', hc1, hc2⟩
    · cases a' with
      | nil => exact Or.inr ⟨[], by simpa using ha2.symm⟩
      | cons b a'' =>
        simp only [List.cons_append, List.cons.injEq] at ha2
        obtain ⟨rfl, hl2⟩ := ha2
        exact Or.inl ⟨a'', ha1, hl2⟩
    · exact Or.inr ⟨c', hc2⟩
  rcases hpos with ⟨a'', ha1, hl2⟩ | ⟨c', hc2⟩
  · -- `rec` is a record of pass 1
    have hmem : rec ∈ recs1 := by rw [ha1]; simp
    have hpass : rec.pass = 1 := hp1 rec hmem
    refine ⟨Or.inl hpass, isKmsNotReachable_iff e, fun _ => ?_, fun h => by omega,
      fun h => by omega⟩
    rcases hcases with ⟨v, rfl, _, _, _⟩ | ⟨_, hd, _⟩
    · obtain ⟨init, last, hrec, hinit, hlast⟩ := hout1
      rcases mem_init_or_last' (ha1.symm.trans hrec) with ⟨_, _, rfl⟩ | ⟨hne, _⟩
      · exact absurd hlast.1 hnp
      · left; rw [hl2]; simp [hne]
    · exact Or.inr hd
  · -- `rec` is a record of pass 2
    have hmem : rec ∈ recs2 := by rw [hc2]; simp
    have hpass : rec.pass = 2 := hp2 rec hmem
    have hterm : isTerminal rec.pass e = isKmsNotReachable e := by
      simp [isTerminal, hpass]
    have hnil : recs2 ≠ [] := by rw [hc2]; simp
    have hmain : (isKmsNotReachable e = true → l2 = [] ∧ r = .error e) ∧
        (isKmsNotReachable e = false →
          l2 ≠ [] ∨ (r = .error Error.encrypt_keys_fetch_failed ∧ st.ctx.kmsUrlHeap.c = [])) := by
      rcases hcases with ⟨v, _, _, h0, _⟩ | ⟨_, _, hdisc⟩
      · exact absurd h0 hnil
      · rcases hdisc with ⟨_, _, _, _, _, _, h0, _⟩ | ⟨c0, c, x2, _, _, hout2, _, hx2⟩
        · exact absurd h0 hnil
        · rcases hx2 with ⟨v, rfl, _, _⟩ | ⟨e', rfl, hr⟩ | ⟨rfl, hr, hemp⟩
          · obtain ⟨init, last, hrec, hinit, hlast⟩ := hout2
            rcases mem_init_or_last' (hc2.symm.trans hrec) with ⟨_, _, rfl⟩ | ⟨hl2, hin⟩
            · exact absurd hlast.1 hnp
            · have := goesOn_postFailed hpost (hinit rec hin)
              rw [hterm] at this
              exact ⟨fun hreach => absurd hreach (by rw [this]; simp), fun _ => Or.inl hl2⟩
          · obtain ⟨init, last, hrec, hinit, hlast⟩ := hout2
            rcases mem_init_or_last' (hc2.symm.trans hrec) with ⟨hl2, _, rfl⟩ | ⟨hl2, hin⟩
            · have he : e' = e := by
                rcases hlast.1 with h1 | h1
                · rw [hpost] at h1; cases h1
                · rw [hpost] at h1; cases h1; rfl
              subst he
              have ht := hlast.2
              rw [hterm] at ht
              exact ⟨fun _ => ⟨hl2, hr⟩, fun hreach => absurd ht (by rw [hreach]; simp)⟩
            · have := goesOn_postFailed hpost (hinit rec hin)
              rw [hterm] at this
              exact ⟨fun hreach => absurd hreach (by rw [this]; simp), fun _ => Or.inl hl2⟩
          · have := goesOn_postFailed hpost (hout2 rec hmem)
            rw [hterm] at this
            exact ⟨fun hreach => absurd hreach (by rw [this]; simp),
              fun _ => Or.inr ⟨hr, hemp⟩⟩
    exact ⟨Or.inr hpass, isKmsNotReachable_iff e, fun h => by omega,
      fun _ => hmain.1, fun _ => hmain.2⟩

/-! ### Counters -/

/-- C7: one attempt of `kmsRequestImpl` on the endpoint `cur` just popped (with a
parse function that is defined) leaves that endpoint as `ep`, with the same
address and URL, and: if the URL could not be built or the POST raised, its
failed responses grew by exactly 1 and nothing else changed; if the POST
returned and the parse succeeded, its requests grew by exactly 1 and nothing
else changed; if the POST returned and the parse failed, its requests and its
parse failures each grew by exactly 1 and its failed responses did not change.
No counter decreases.  The endpoints staged before are staged or pushed back
unchanged, and when the parse function leaves the pool alone the endpoints held
after the attempt are `ep` and all the others exactly as they were. -/
theorem attempt_updates_counters {T : Type} (env : RequestEnv T) (suf body : String)
    (st : RequestState) (cur : KmsUrlPtr)
    (hdef : ParseDefined env) (ht : st.ctx.kmsUrlHeap.top = some cur) :
    ∃ x st1 rec ep, kmsUrlIteration env suf body st cur = some (x, st1) ∧
      st1.log = st.log ++ [rec] ∧ rec.curUrl = cur ∧ rec.pass = st.pass ∧
      RecordSound env suf body st.log.length rec ∧
      ep.addr = cur.addr ∧ ep.obj.url = cur.obj.url ∧
      ((∃ e, rec.outcome = .urlFailed e ∨ rec.outcome = .postFailed e) →
        ep.obj.nFailedResponses = cur.obj.nFailedResponses + 1 ∧
        ep.obj.nRequests = cur.obj.nRequests ∧
        ep.obj.nResponseParseFailures = cur.obj.nResponseParseFailures) ∧
      (rec.outcome = .parsed →
        ep.obj.nRequests = cur.obj.nRequests + 1 ∧
        ep.obj.nFailedResponses = cur.obj.nFailedResponses ∧
        ep.obj.nResponseParseFailures = cur.obj.nResponseParseFailures) ∧
      ((∃ e, rec.outcome = .parseFailed e) →
        ep.obj.nRequests = cur.obj.nRequests + 1 ∧
        ep.obj.nResponseParseFailures = cur.obj.nResponseParseFailures + 1 ∧
        ep.obj.nFailedResponses = cur.obj.nFailedResponses) ∧
      (cur.obj.nRequests ≤ ep.obj.nRequests ∧
        cur.obj.nFailedResponses ≤ ep.obj.nFailedResponses ∧
        cur.obj.nResponseParseFailures ≤ ep.obj.nResponseParseFailures) ∧
      ((rec.outcome = .parsed ∧ st1.tempStack = [] ∧
          ∃ poolAfterParse, st1.ctx.kmsUrlHeap.c = poolAfterParse ++ ep :: st.tempStack) ∨
        (rec.outcome ≠ .parsed ∧ st1.tempStack = ep :: st.tempStack)) ∧
      (ParseKeepsPool env →
        List.Perm (st1.ctx.kmsUrlHeap.c ++ st1.tempStack)
          (ep :: (st.ctx.kmsUrlHeap.pop.c ++ st.tempStack)) ∧
        List.Perm st.ctx.kmsUrlHeap.c (cur :: st.ctx.kmsUrlHeap.pop.c)) := by
  obtain ⟨x, st1, hi⟩ := kmsUrlIteration_defined hdef suf body st cur
  obtain ⟨_, _, rec, hlog, hpass, hcur, hsound, _⟩ := iteration_record hi
  have hrec : ∀ o, st1.log = st.log ++ [⟨st.pass, cur, o⟩] → rec.outcome = o := by
    intro o h
    rw [hlog] at h
    have := List.append_cancel_left h
    simp only [List.cons.injEq, and_true] at this
    rw [this]
  rcases kmsUrlIteration_cases hi with
    ⟨e, o, ho, hx, hst⟩ | ⟨u, resp, e, ctx2, hu, hp, hq, hx, hst⟩ |
    ⟨u, resp, v, ctx2, hu, hp, hq, hx, hst⟩
  · have hout : rec.outcome = o := hrec o (by rw [hst])
    have hfail : (∃ e', o = .urlFailed e' ∨ o = .postFailed e') := by
      rcases ho with ⟨h, _⟩ | ⟨h, _⟩
      · exact ⟨e, Or.inl h⟩
      · exact ⟨e, Or.inr h⟩
    refine ⟨x, st1, rec, cur.incFailedResponses, hi, hlog, hcur, hpass, hsound, rfl, rfl,
      fun _ => ⟨rfl, rfl, rfl⟩, ?_, ?_, ?_, ?_, ?_⟩
    · intro h; rw [hout] at h; obtain ⟨e', h' | h'⟩ := hfail <;> rw [h'] at h <;> cases h
    · rintro ⟨e', h⟩; rw [hout] at h; obtain ⟨e'', h' | h'⟩ := hfail <;> rw [h'] at h <;> cases h
    · simp [KmsUrlPtr.incFailedResponses]
    · right
      refine ⟨?_, by rw [hst]⟩
      rw [hout]; obtain ⟨e', h' | h'⟩ := hfail <;> rw [h'] <;> simp
    · intro _
      refine ⟨?_, pop_perm ht⟩
      rw [hst]
      simp only
      exact List.perm_middle
  · have hout : rec.outcome = .parseFailed e := hrec _ (by rw [hst])
    refine ⟨x, st1, rec, cur.incRequests.incResponseParseFailures, hi, hlog, hcur, hpass,
      hsound, rfl, rfl, ?_, ?_, fun _ => ⟨rfl, rfl, rfl⟩, ?_, ?_, ?_⟩
    · rintro ⟨e', h | h⟩ <;> rw [hout] at h <;> cases h
    · intro h; rw [hout] at h; cases h
    · simp [KmsUrlPtr.incRequests, KmsUrlPtr.incResponseParseFailures]
    · right
      exact ⟨by rw [hout]; simp, by rw [hst]⟩
    · intro hkeep
      refine ⟨?_, pop_perm ht⟩
      have := hkeep _ _ _ _ _ _ _ _ hp hq
      rw [hst]
      simp only [this]
      exact List.perm_middle
  · have hout : rec.outcome = .parsed := hrec _ (by rw [hst])
    refine ⟨x, st1, rec, cur.incRequests, hi, hlog, hcur, hpass, hsound, rfl, rfl, ?_,
      fun _ => ⟨rfl, rfl, rfl⟩, ?_, ?_, ?_, ?_⟩
    · rintro ⟨e', h | h⟩ <;> rw [hout] at h <;> cases h
    · rintro ⟨e', h⟩; rw [hout] at h; cases h
    · simp [KmsUrlPtr.incRequests]
    · left
      refine ⟨hout, by rw [hst], ctx2.kmsUrlHeap.c, ?_⟩
      rw [hst]
      simp only [restoreTempStack_c]
    · intro hkeep
      refine ⟨?_, pop_perm ht⟩
      have := hkeep _ _ _ _ _ _ _ _ hp hq
      rw [hst]
      simp only [restoreTempStack_c, this, List.append_nil]
      exact List.perm_middle

/-! ### Rediscovery -/

/-- The first endpoint of the pop order is the top of the heap. -/
theorem top_of_popOrder_cons {h : KmsUrlMinHeap} {t : KmsUrlPtr} {rest : List KmsUrlPtr}
    (ho : h.popOrder = t :: rest) : h.top = some t ∧ h.pop.popOrder = rest := by
  cases ht : h.top with
  | none => rw [popOrder_nil ht] at ho; cases ho
  | some t' =>
    rw [popOrder_cons ht] at ho
    injection ho with h1 h2
    subst h1
    exact ⟨rfl, h2⟩

/-- The iteration on an endpoint that is unreachable in pass 2: the error is
rethrown. -/
theorem iteration_of_unreachable {T : Type} (env : RequestEnv T) (suf body : String)
    (st : RequestState) (cur : KmsUrlPtr) (e : Error) (hpass : 1 < st.pass)
    (hu : AttemptUnreachable env suf body st.pass st.log.length cur.obj.url e) :
    kmsUrlIteration env suf body st cur = some (.threw e,
      { st with
        ctx := { st.ctx with kmsUrlHeap := st.ctx.kmsUrlHeap.pop }
        tempStack := cur.incFailedResponses :: st.tempStack
        log := st.log ++ [⟨st.pass, cur, .postFailed e⟩] }) := by
  obtain ⟨full, hfull, hpost, hreach⟩ := hu
  unfold kmsUrlIteration
  simp only [hfull, hpost, outerCatch, hreach, Bool.and_true, decide_eq_true hpass, if_true]

/-- The `while` loop over endpoints that fail without ending the request: they
are popped in pop order, one attempt each, and the loop goes on with what is left
of the pool. -/
theorem loop_skips_failures {T : Type} (env : RequestEnv T) (suf body : String)
    (fuel : Nat) (pre : List KmsUrlPtr) :
    ∀ (st : RequestState) (rest : List KmsUrlPtr),
      st.ctx.kmsUrlHeap.popOrder = pre ++ rest →
      (∀ n, ∀ q ∈ pre, AttemptFails env suf body st.pass n q.obj.url) →
      ∃ recs st1, kmsUrlLoop env suf body (fuel + pre.length) st =
          kmsUrlLoop env suf body fuel st1 ∧
        st1.log = st.log ++ recs ∧ st1.pass = st.pass ∧
        st1.discoverCalls = st.discoverCalls ∧
        st1.ctx.kmsUrlHeap.popOrder = rest ∧
        recs.map (fun r => r.curUrl) = pre ∧
        (∀ r ∈ recs, r.pass = st.pass ∧ r.outcome ≠ .parsed) := by
  induction pre with
  | nil =>
    intro st rest ho _
    exact ⟨[], st, rfl, by simp, rfl, rfl, by simpa using ho, rfl, by simp⟩
  | cons q pre ih =>
    intro st rest ho hfail
    obtain ⟨ht, hpop⟩ := top_of_popOrder_cons (by simpa using ho)
    obtain ⟨o, ho2, hit⟩ := iteration_of_fails env suf body st q
      (hfail _ q (List.mem_cons_self _ _))
    obtain ⟨recs, st1, hrun, hlog, hpass, hd, hord, hmap, hall⟩ := ih
      { st with
        ctx := { st.ctx with kmsUrlHeap := st.ctx.kmsUrlHeap.pop }
        tempStack := AttemptRecord.updated ⟨st.pass, q, o⟩ :: st.tempStack
        log := st.log ++ [⟨st.pass, q, o⟩] } rest hpop
      (fun n p hp => hfail n p (List.mem_cons_of_mem _ hp))
    refine ⟨⟨st.pass, q, o⟩ :: recs, st1, ?_, ?_, hpass, hd, hord, ?_, ?_⟩
    · rw [← hrun, List.length_cons, ← Nat.add_assoc]
      simp only [kmsUrlLoop, ht, hit]
    · rw [hlog]; simp
    · simp [hmap]
    · intro r hr
      rcases List.mem_cons.mp hr with rfl | hr
      · exact ⟨rfl, ho2⟩
      · exact hall r hr

/-- The `while` loop over a pool whose first endpoints fail without ending the
request and whose next endpoint answers with a response that parses: the loop
returns the parse of that endpoint, having tried the endpoints before it once
each, in pop order. -/
theorem loop_until_success {T : Type} (env : RequestEnv T) (suf body : String)
    (fuel : Nat) (st : RequestState) (pre : List KmsUrlPtr) (p : KmsUrlPtr)
    (post : List KmsUrlPtr) (v : T)
    (ho : st.ctx.kmsUrlHeap.popOrder = pre ++ p :: post)
    (hpre : ∀ n, ∀ q ∈ pre, AttemptFails env suf body st.pass n q.obj.url)
    (hp : ∀ n, AttemptSucceeds env suf body st.pass n p.obj.url v)
    (hfuel : pre.length < fuel) :
    ∃ recs st2, kmsUrlLoop env suf body fuel st = some (.returned v, st2) ∧
      st2.log = st.log ++ recs ∧ st2.pass = st.pass ∧
      st2.discoverCalls = st.discoverCalls ∧
      recs.map (fun r => r.curUrl) = pre ++ [p] ∧
      (∀ r ∈ recs, r.pass = st.pass) ∧
      ∃ init last, recs = init ++ [last] ∧ (∀ r ∈ init, r.outcome ≠ .parsed) ∧
        last.outcome = .parsed ∧ last.curUrl = p := by
  obtain ⟨f, rfl⟩ : ∃ f, fuel = (f + 1) + pre.length := ⟨fuel - pre.length - 1, by omega⟩
  obtain ⟨recs, st1, hrun, hlog, hpass, hd, hord, hmap, hall⟩ :=
    loop_skips_failures env suf body (f + 1) pre st (p :: post) ho hpre
  obtain ⟨ht, _⟩ := top_of_popOrder_cons hord
  obtain ⟨c2, hit⟩ := iteration_of_succeeds env suf body st1 p v (hpass ▸ hp _)
  refine ⟨recs ++ [⟨st1.pass, p, .parsed⟩],
    { st1 with
      ctx := { c2 with
        kmsUrlHeap := restoreTempStack (p.incRequests :: st1.tempStack) c2.kmsUrlHeap }
      tempStack := []
      log := st1.log ++ [⟨st1.pass, p, .parsed⟩] },
    ?_, ?_, ?_, ?_, ?_, ?_, recs, _, rfl, fun r hr => (hall r hr).2, rfl, rfl⟩
  · rw [hrun]
    simp only [kmsUrlLoop, ht, hit]
  · simp [hlog]
  · exact hpass
  · exact hd
  · simp [hmap]
  · intro r hr
    rcases List.mem_append.mp hr with hr | hr
    · exact (hall r hr).1
    · simp only [List.mem_singleton] at hr
      subst hr
      exact hpass

/-- The `while` loop of pass 2 over a pool whose first endpoints fail without
ending the request and whose next endpoint is unreachable: the loop rethrows the
error of that endpoint, and the endpoints after it are not tried. -/
theorem loop_until_unreachable {T : Type} (env : RequestEnv T) (suf body : String)
    (fuel : Nat) (st : RequestState) (pre : List KmsUrlPtr) (p : KmsUrlPtr)
    (post : List KmsUrlPtr) (e : Error)
    (ho : st.ctx.kmsUrlHeap.popOrder = pre ++ p :: post)
    (hpre : ∀ n, ∀ q ∈ pre, AttemptFails env suf body st.pass n q.obj.url)
    (hpass2 : 1 < st.pass)
    (hp : ∀ n, AttemptUnreachable env suf body st.pass n p.obj.url e)
    (hfuel : pre.length < fuel) :
    ∃ recs st2, kmsUrlLoop env suf body fuel st = some (.threw e, st2) ∧
      st2.log = st.log ++ recs ∧ st2.pass = st.pass ∧
      st2.discoverCalls = st.discoverCalls ∧
      recs.map (fun r => r.curUrl) = pre ++ [p] ∧
      (∀ r ∈ recs, r.pass = st.pass ∧ r.outcome ≠ .parsed) := by
  obtain ⟨f, rfl⟩ : ∃ f, fuel = (f + 1) + pre.length := ⟨fuel - pre.length - 1, by omega⟩
  obtain ⟨recs, st1, hrun, hlog, hpass, hd, hord, hmap, hall⟩ :=
    loop_skips_failures env suf body (f + 1) pre st (p :: post) ho hpre
  obtain ⟨ht, _⟩ := top_of_popOrder_cons hord
  have hit := iteration_of_unreachable env suf body st1 p e (hpass ▸ hpass2) (hpass ▸ hp _)
  refine ⟨recs ++ [⟨st1.pass, p, .postFailed e⟩],
    { st1 with
      ctx := { st1.ctx with kmsUrlHeap := st1.ctx.kmsUrlHeap.pop }
      tempStack := p.incFailedResponses :: st1.tempStack
      log := st1.log ++ [⟨st1.pass, p, .postFailed e⟩] },
    ?_, ?_, ?_, ?_, ?_, ?_⟩
  · rw [hrun]
    simp only [kmsUrlLoop, ht, hit]
  · simp [hlog]
  · exact hpass
  · exact hd
  · simp [hmap]
  · intro r hr
    rcases List.mem_append.mp hr with hr | hr
    · exact hall r hr
    · simp only [List.mem_singleton] at hr
      subst hr
      exact ⟨hpass, by simp⟩

/-- A request whose pass 1 ran the pool to exhaustion: `discoverKmsUrls` has been
called once, with `true`, the attempts that follow those of pass 1 are attempts
of pass 2, and (with a parse function that keeps the pool when it fails) they are
made on an initial segment of the pop order of the pool that the discovery left,
on all of it when the request ends with encrypt-keys-fetch-failed. -/
theorem second_pass_trace {T : Type} (sys : Sys) (env : RequestEnv T) (suf body : String)
    (fuel : Nat) (ctx : RESTKmsConnectorCtx) (recs1 : List AttemptRecord)
    (stack1 : List KmsUrlPtr)
    (hrun1 : kmsUrlLoop env suf body fuel
        { ctx := ctx, pass := 1, tempStack := [], log := [], discoverCalls := [] } =
      some (.exhausted,
        { ctx := { ctx with kmsUrlHeap := { c := [] } }, pass := 1, tempStack := stack1,
          log := recs1, discoverCalls := [] }))
    {r : Except Error T} {st : RequestState}
    (h : kmsRequestImpl sys env suf body fuel ctx = some (r, st)) :
    st.discoverCalls = [true] ∧
    ∃ recs2, st.log = recs1 ++ recs2 ∧ (∀ a ∈ recs2, a.pass = 2) ∧
      ∀ ctxD, discoverKmsUrls sys { ctx with kmsUrlHeap := { c := [] } } true = (.ok (), ctxD) →
        FailedParseKeepsPool env →
        recs2.map (fun a => a.curUrl) <+: ctxD.kmsUrlHeap.popOrder ∧
        (r = .error Error.encrypt_keys_fetch_failed →
          recs2.map (fun a => a.curUrl) = ctxD.kmsUrlHeap.popOrder) := by
  unfold kmsRequestImpl at h
  simp only [kmsRequestPasses, hrun1, if_true] at h
  cases hd : discoverKmsUrls sys { ctx with kmsUrlHeap := { c := [] } } true with
  | mk o c =>
    rw [hd] at h
    cases o with
    | error e =>
      simp only [Option.some.injEq, Prod.mk.injEq] at h
      obtain ⟨rfl, rfl⟩ := h
      exact ⟨rfl, [], by simp, by simp, fun ctxD hok => by cases hok⟩
    | ok u =>
      simp only [List.nil_append] at h
      cases hl : kmsUrlLoop env suf body fuel
          { ctx := c, pass := 2, tempStack := [], log := recs1, discoverCalls := [true] } with
      | none => rw [hl] at h; cases h
      | some res =>
        obtain ⟨x2, st2⟩ := res
        rw [hl] at h
        obtain ⟨hp2, hd2, recs2, hlog2, hpass2, _, hx⟩ := kmsUrlLoop_trace fuel hl
        have hkey : st.discoverCalls = [true] ∧ st.log = recs1 ++ recs2 ∧
            (r = .error Error.encrypt_keys_fetch_failed → x2 = .exhausted) := by
          cases x2 with
          | returned v =>
            simp only [Option.some.injEq, Prod.mk.injEq] at h
            obtain ⟨rfl, rfl⟩ := h
            exact ⟨hd2, hlog2, fun hr => by cases hr⟩
          | threw e =>
            simp only [Option.some.injEq, Prod.mk.injEq] at h
            obtain ⟨rfl, rfl⟩ := h
            refine ⟨hd2, hlog2, fun hr => ?_⟩
            simp only at hx
            obtain ⟨init, last, _, _, hlast⟩ := hx
            have hterm := hlast.2
            simp only [Except.error.injEq] at hr
            subst hr
            simp [isTerminal, isKmsNotReachable] at hterm
          | exhausted =>
            have hne : ¬ st2.pass = 1 := by rw [hp2]; show ¬ (2 = 1); decide
            simp only [if_neg hne, Option.some.injEq, Prod.mk.injEq] at h
            obtain ⟨rfl, rfl⟩ := h
            exact ⟨hd2, hlog2, fun _ => rfl⟩
        refine ⟨hkey.1, recs2, hkey.2.1, hpass2, ?_⟩
        intro ctxD hok hkeep
        have hc : c = ctxD := by
          simp only [Prod.mk.injEq, true_and] at hok
          exact hok
        subst hc
        obtain ⟨hpre, hex⟩ := kmsUrlLoop_popOrder hkeep fuel hl hlog2
        exact ⟨hpre, fun hr => hex (hkey.2.2 hr)⟩

/-- C8 (amended): when every endpoint of the pool fails in pass 1,
`kmsRequestImpl` tries each of them once, in pop order, and then calls
`discoverKmsUrls` exactly once, with `refreshPersistedUrls = true`, on the
context whose pool is empty; an error of the discovery is the reply.  Pass 2
iterates, in pop order, over the pool that this discovery leaves, which holds the
endpoints it produced and nothing else: when the endpoints popped before an
endpoint `p` fail without raising timed-out or connection-failed and `p` answers
with a response that the parse function accepts, the reply is the parse of `p`
and no endpoint after `p` is tried; when `p` instead raises timed-out or
connection-failed, that error is the reply and no endpoint after `p` is tried,
whatever those endpoints would answer. -/
theorem rediscovery_after_failed_pass_one {T : Type} (sys : Sys) (env : RequestEnv T)
    (suf body : String) (fuel : Nat) (ctx : RESTKmsConnectorCtx)
    (hpass1 : ∀ n, ∀ p ∈ ctx.kmsUrlHeap.c, AttemptFails env suf body 1 n p.obj.url)
    (hfuel1 : ctx.kmsUrlHeap.size < fuel) :
    ∃ recs1 : List AttemptRecord,
      recs1.map (fun a => a.curUrl) = ctx.kmsUrlHeap.popOrder ∧
      (∀ a ∈ recs1, a.pass = 1 ∧ a.outcome ≠ .parsed) ∧
      (∀ e ctxD,
        discoverKmsUrls sys { ctx with kmsUrlHeap := { c := [] } } true = (.error e, ctxD) →
        ∃ st, kmsRequestImpl sys env suf body fuel ctx = some (.error e, st) ∧
          st.log = recs1 ∧ st.discoverCalls = [true] ∧ st.ctx = ctxD) ∧
      (∀ ctxD pre p post,
        discoverKmsUrls sys { ctx with kmsUrlHeap := { c := [] } } true = (.ok (), ctxD) →
        ctxD.kmsUrlHeap.popOrder = pre ++ p :: post →
        (∀ n, ∀ q ∈ pre, AttemptFails env suf body 2 n q.obj.url) →
        pre.length < fuel →
        (∀ v, (∀ n, AttemptSucceeds env suf body 2 n p.obj.url v) →
          ∃ st recs2, kmsRequestImpl sys env suf body fuel ctx = some (.ok v, st) ∧
            st.log = recs1 ++ recs2 ∧ st.discoverCalls = [true] ∧
            recs2.map (fun a => a.curUrl) = pre ++ [p] ∧
            (∀ a ∈ recs2, a.pass = 2) ∧
            ∃ init last, recs2 = init ++ [last] ∧ (∀ a ∈ init, a.outcome ≠ .parsed) ∧
              last.outcome = .parsed ∧ last.curUrl = p) ∧
        (∀ e, (∀ n, AttemptUnreachable env suf body 2 n p.obj.url e) →
          ∃ st recs2, kmsRequestImpl sys env suf body fuel ctx = some (.error e, st) ∧
            st.log = recs1 ++ recs2 ∧ st.discoverCalls = [true] ∧
            recs2.map (fun a => a.curUrl) = pre ++ [p] ∧
            (∀ a ∈ recs2, a.pass = 2 ∧ a.outcome ≠ .parsed))) ∧
      (∀ r st, kmsRequestImpl sys env suf body fuel ctx = some (r, st) →
        st.discoverCalls = [true] ∧
        ∃ recs2, st.log = recs1 ++ recs2 ∧ (∀ a ∈ recs2, a.pass = 2) ∧
          ∀ ctxD,
            discoverKmsUrls sys { ctx with kmsUrlHeap := { c := [] } } true = (.ok (), ctxD) →
            FailedParseKeepsPool env →
            recs2.map (fun a => a.curUrl) <+: ctxD.kmsUrlHeap.popOrder ∧
            (r = .error Error.encrypt_keys_fetch_failed →
              recs2.map (fun a => a.curUrl) = ctxD.kmsUrlHeap.popOrder)) := by
  obtain ⟨recs1, stack1, hrun1, hmap1, hall1⟩ :=
    loop_all_fail env suf body fuel
      { ctx := ctx, pass := 1, tempStack := [], log := [], discoverCalls := [] } hpass1 hfuel1
  simp only [List.nil_append] at hrun1
  refine ⟨recs1, hmap1, hall1, ?_, ?_,
    fun r st h => second_pass_trace sys env suf body fuel ctx recs1 stack1 hrun1 h⟩
  · intro e ctxD hdisc
    refine ⟨{ ctx := ctxD, pass := 1, tempStack := stack1, log := recs1,
              discoverCalls := [true] }, ?_, rfl, rfl, rfl⟩
    unfold kmsRequestImpl
    simp only [kmsRequestPasses, hrun1, if_true, hdisc, List.nil_append]
  · intro ctxD pre p post hdisc ho hpre hfuel2
    constructor
    · intro v hp
      obtain ⟨recs2, st2, hrun2, hlog2, _, hd2, hmap2, hpass2, hlast⟩ :=
        loop_until_success env suf body fuel
          { ctx := ctxD, pass := 2, tempStack := [], log := recs1, discoverCalls := [true] }
          pre p post v ho hpre hp hfuel2
      refine ⟨st2, recs2, ?_, hlog2, hd2, hmap2, hpass2, hlast⟩
      unfold kmsRequestImpl
      simp only [kmsRequestPasses, hrun1, if_true, hdisc, List.nil_append, hrun2]
    · intro e hp
      obtain ⟨recs2, st2, hrun2, hlog2, _, hd2, hmap2, hall2⟩ :=
        loop_until_unreachable env suf body fuel
          { ctx := ctxD, pass := 2, tempStack := [], log := recs1, discoverCalls := [true] }
          pre p post e ho hpre (show 1 < 2 by decide) hp hfuel2
      refine ⟨st2, recs2, ?_, hlog2, hd2, hmap2, hall2⟩
      unfold kmsRequestImpl
      simp only [kmsRequestPasses, hrun1, if_true, hdisc, List.nil_append, hrun2]

/-! ### The pool across a request -/

theorem ident_incFailedResponses (p : KmsUrlPtr) : p.incFailedResponses.ident = p.ident := rfl

theorem ident_incRequests (p : KmsUrlPtr) : p.incRequests.ident = p.ident := rfl

theorem ident_incResponseParseFailures (p : KmsUrlPtr) :
    p.incResponseParseFailures.ident = p.ident := rfl

/-- An iteration moves the popped endpoint out of the pool and changes no
identity, when the parse function leaves the pool alone. -/
theorem iteration_idents {T : Type} {env : RequestEnv T} {suf body : String}
    (hparse : ParseKeepsPool env) {st st1 : RequestState} {cur : KmsUrlPtr} {x : IterExit T}
    (ht : st.ctx.kmsUrlHeap.top = some cur)
    (hi : kmsUrlIteration env suf body st cur = some (x, st1)) :
    List.Perm ((st1.ctx.kmsUrlHeap.c ++ st1.tempStack).map KmsUrlPtr.ident)
      ((st.ctx.kmsUrlHeap.c ++ st.tempStack).map KmsUrlPtr.ident) := by
  have hpop := pop_perm ht
  have base : ∀ ep : KmsUrlPtr, ep.ident = cur.ident →
      List.Perm ((st.ctx.kmsUrlHeap.pop.c ++ ep :: st.tempStack).map KmsUrlPtr.ident)
        ((st.ctx.kmsUrlHeap.c ++ st.tempStack).map KmsUrlPtr.ident) := by
    intro ep hep
    have h1 : List.Perm (st.ctx.kmsUrlHeap.pop.c ++ ep :: st.tempStack)
        (ep :: (st.ctx.kmsUrlHeap.pop.c ++ st.tempStack)) := List.perm_middle
    have h2 := h1.map KmsUrlPtr.ident
    have h3 : List.Perm (st.ctx.kmsUrlHeap.c ++ st.tempStack)
        (cur :: (st.ctx.kmsUrlHeap.pop.c ++ st.tempStack)) := by
      have := hpop.append_right st.tempStack
      simpa using this
    have h4 := h3.map KmsUrlPtr.ident
    simp only [List.map_cons, hep] at h2
    simp only [List.map_cons] at h4
    exact h2.trans h4.symm
  rcases kmsUrlIteration_cases hi with
    ⟨e, o, _, _, hst⟩ | ⟨u, resp, e, ctx2, _, hp, hq, _, hst⟩ |
    ⟨u, resp, v, ctx2, _, hp, hq, _, hst⟩
  · rw [hst]; exact base _ rfl
  · rw [hst]
    simp only [hparse _ _ _ _ _ _ _ _ hp hq]
    exact base _ rfl
  · rw [hst]
    simp only [restoreTempStack_c, hparse _ _ _ _ _ _ _ _ hp hq, List.append_nil]
    exact base _ rfl

/-- A pass that ends with a result has put every staged endpoint back. -/
theorem kmsUrlLoop_returned_idents {T : Type} {env : RequestEnv T} {suf body : String}
    (hparse : ParseKeepsPool env) (fuel : Nat) {st st2 : RequestState} {v : T}
    (h : kmsUrlLoop env suf body fuel st = some (.returned v, st2)) :
    List.Perm (st2.ctx.kmsUrlHeap.c.map KmsUrlPtr.ident)
      ((st.ctx.kmsUrlHeap.c ++ st.tempStack).map KmsUrlPtr.ident) ∧ st2.tempStack = [] := by
  induction fuel generalizing st with
  | zero => simp [kmsUrlLoop] at h
  | succ fuel ih =>
    rcases kmsUrlLoop_inv h with ⟨_, hx, _⟩ | ⟨cur, ht, hcase⟩
    · cases hx
    · rcases hcase with ⟨v', hi, hv⟩ | ⟨e, _, hx⟩ | ⟨st1, hi, hrest⟩
      · have hperm := iteration_idents hparse ht hi
        have hts : st2.tempStack = [] := by
          rcases kmsUrlIteration_cases hi with
            ⟨_, _, _, hx, _⟩ | ⟨_, _, _, _, _, _, _, hx, _⟩ | ⟨_, _, _, _, _, _, _, _, hst⟩
          · split at hx <;> cases hx
          · cases hx
          · rw [hst]
        rw [hts] at hperm
        exact ⟨by simpa using hperm, hts⟩
      · cases hx
      · obtain ⟨h1, h2⟩ := ih hrest
        exact ⟨h1.trans (iteration_idents hparse ht hi), h2⟩

/-- C1 (amended): when `kmsRequestImpl` returns a result, through a parse
function that leaves the pool untouched, every endpoint popped during the pass
that produced the result has been put back: after a result found in pass 1 the
pool holds the same multiset of endpoints as before the call (same addresses and
URLs; counters and order may differ) and no discovery took place; after a result
found in pass 2 it holds the endpoints of the pool that rediscovery built from
an empty pool. -/
theorem pool_restored_when_request_succeeds {T : Type} (sys : Sys) (env : RequestEnv T)
    (suf body : String) (fuel : Nat) (ctx : RESTKmsConnectorCtx) (v : T) (st : RequestState)
    (hparse : ParseKeepsPool env)
    (h : kmsRequestImpl sys env suf body fuel ctx = some (.ok v, st)) :
    st.tempStack = [] ∧ (st.pass = 1 ∨ st.pass = 2) ∧
    (st.pass = 1 →
      st.discoverCalls = [] ∧
      List.Perm (st.ctx.kmsUrlHeap.c.map KmsUrlPtr.ident)
        (ctx.kmsUrlHeap.c.map KmsUrlPtr.ident)) ∧
    (st.pass = 2 →
      ∃ c0 c, c0.kmsUrlHeap.c = [] ∧ discoverKmsUrls sys c0 true = (.ok (), c) ∧
        List.Perm (st.ctx.kmsUrlHeap.c.map KmsUrlPtr.ident)
          (c.kmsUrlHeap.c.map KmsUrlPtr.ident)) := by
  rcases kmsRequestImpl_inv h with ⟨v', h1, hv⟩ | ⟨e, _, hr⟩ | ⟨st1, h1, hrest⟩
  · obtain ⟨hperm, hts⟩ := kmsUrlLoop_returned_idents hparse fuel h1
    obtain ⟨hp, hd, _⟩ := kmsUrlLoop_trace fuel h1
    have hp1 : st.pass = 1 := hp
    refine ⟨hts, Or.inl hp1, fun _ => ⟨hd, by simpa [initialState] using hperm⟩, ?_⟩
    intro h2; omega
  · cases hr
  · obtain ⟨hp, _, _, _, _, _, hx⟩ := kmsUrlLoop_trace fuel h1
    have hp1 : st1.pass = 1 := hp
    have hemp : st1.ctx.kmsUrlHeap.c = [] := hx.2
    rcases hrest with ⟨e, c, _, hr, _⟩ | ⟨c, hdisc, hpass2⟩
    · cases hr
    · rcases hpass2 with ⟨v', h2, hv⟩ | ⟨e, _, hr⟩ | ⟨st2, _, hr, _⟩
      · obtain ⟨hperm, hts⟩ := kmsUrlLoop_returned_idents hparse fuel h2
        obtain ⟨gp, _, _⟩ := kmsUrlLoop_trace fuel h2
        have hp2 : st.pass = 2 := by rw [gp]; simp [secondPassState, hp1]
        refine ⟨hts, Or.inr hp2, fun h1' => by omega, fun _ => ⟨st1.ctx, c, hemp, hdisc, ?_⟩⟩
        simpa [secondPassState] using hperm
      · cases hr
      · cases hr

/-! ### Discovery -/

theorem foldl_addDiscoveredUrl_size (sys : Sys) (lines : List (List Char))
    (c : RESTKmsConnectorCtx) :
    (lines.foldl (addDiscoveredUrl sys) c).kmsUrlHeap.size ≤ c.kmsUrlHeap.size + lines.length := by
  induction lines generalizing c with
  | nil => simp
  | cons l ls ih =>
    simp only [List.foldl_cons, List.length_cons]
    refine (ih _).trans ?_
    have : (addDiscoveredUrl sys c l).kmsUrlHeap.size ≤ c.kmsUrlHeap.size + 1 := by
      unfold addDiscoveredUrl
      simp only
      split
      · omega
      · simp [emplaceNewUrl, KmsUrlMinHeap.emplace, KmsUrlMinHeap.size]
    omega

/-- A successful discovery adds at most one endpoint per line of the file. -/
theorem discoverKmsUrls_size {sys : Sys} {c0 c : RESTKmsConnectorCtx} {b : Bool}
    (h : discoverKmsUrls sys c0 b = (.ok (), c)) :
    ∃ f, sys.openFile sys.REST_KMS_CONNECTOR_DISCOVER_KMS_URL_FILE = .ok f ∧
      c.kmsUrlHeap.size ≤
        c0.kmsUrlHeap.size + (getlines DISCOVER_URL_FILE_URL_SEP f.buff.data []).length := by
  unfold discoverKmsUrls at h
  simp only [List.isEmpty_nil, Bool.not_true, Bool.false_eq_true, if_false] at h
  split at h
  · unfold parseDiscoverKmsUrlFile at h
    split at h
    · cases h
    · split at h
      · cases h
      · rename_i dFile hf
        split at h
        · cases h
        · simp only [Prod.mk.injEq, true_and] at h
          refine ⟨dFile, hf, ?_⟩
          rw [← h]
          exact foldl_addDiscoveredUrl_size sys _ c0
  · cases h

theorem scenarioSys_fuel (fileText : String) (addrs : List Nat) (fuel : Nat)
    (hlines : (getlines DISCOVER_URL_FILE_URL_SEP fileText.data []).length < fuel) :
    ∀ c0 c, c0.kmsUrlHeap.c = [] →
      discoverKmsUrls (scenarioSys fileText addrs) c0 true = (.ok (), c) →
      c.kmsUrlHeap.size < fuel := by
  intro c0 c h0 hd
  obtain ⟨f, hf, hsz⟩ := discoverKmsUrls_size hd
  have hf' : f.buff = fileText := by
    simp only [scenarioSys] at hf
    cases hf
    rfl
  rw [hf'] at hsz
  have : c0.kmsUrlHeap.size = 0 := by simp [KmsUrlMinHeap.size, h0]
  omega

/-! ### The cipher parser as the callback -/

/-- A failed `parseEncryptCipherResponse` leaves the whole context as it was. -/
theorem parseEncryptCipherResponse_error_ctx {sys : Sys} {c c2 : RESTKmsConnectorCtx}
    {resp : ResponseRef} {e : Error}
    (h : parseEncryptCipherResponse sys c resp = some (.error e, c2)) : c2 = c := by
  unfold parseEncryptCipherResponse at h
  split at h
  · simp only [Option.some.injEq, Prod.mk.injEq] at h
    exact h.2.symm
  · split at h
    · simp only [Option.some.injEq, Prod.mk.injEq] at h
      exact h.2.symm
    · simp only at h
      split at h
      · cases h
      · simp only [Option.some.injEq, Prod.mk.injEq] at h
        exact h.2.symm
      · split at h
        · split at h
          · cases h
          · simp only [Option.some.injEq, Prod.mk.injEq] at h
            exact h.2.symm
          · split at h
            · cases h
            · simp only [Option.some.injEq, Prod.mk.injEq] at h
              exact absurd h.1 (by simp)
        · simp only [Option.some.injEq, Prod.mk.injEq] at h
          exact h.2.symm

/-- With the cipher parser as the callback, a failed parse keeps the pool. -/
theorem envOf_keeps_on_failure (sys : Sys) (answer : String → Except Error ResponseRef) :
    FailedParseKeepsPool (envOf sys answer) := by
  intro pass n url body resp c e c2 _ h
  rw [parseEncryptCipherResponse_error_ctx h]

/-- The parse of the valid response without `kms_urls`. -/
theorem parse_validCipherDoc (fileText : String) (addrs : List Nat) (c : RESTKmsConnectorCtx) :
    parseEncryptCipherResponse (scenarioSys fileText addrs) c
      (some { code := 200, content := validCipherDoc none }) = some (.ok validCipherDetails, c) :=
  rfl

/-- The parse of the response of an unsupported version. -/
theorem parse_versionTooHighDoc (fileText : String) (addrs : List Nat)
    (c : RESTKmsConnectorCtx) :
    parseEncryptCipherResponse (scenarioSys fileText addrs) c
      (some { code := 200, content := versionTooHighDoc })
      = some (.error Error.rest_malformed_response, c) :=
  rfl

theorem aDown_defined (fileText : String) (addrs : List Nat) :
    ParseDefined (envOf (scenarioSys fileText addrs) aDown) := by
  intro pass n url body resp c hp
  simp only [envOf, aDown, ok200] at hp ⊢
  split at hp
  · cases hp
  · cases hp
    rw [parse_validCipherDoc]
    simp

theorem aDown_keeps (fileText : String) (addrs : List Nat) :
    ParseKeepsPool (envOf (scenarioSys fileText addrs) aDown) := by
  intro pass n url body resp c o c2 hp h
  simp only [envOf, aDown, ok200] at hp h
  split at hp
  · cases hp
  · cases hp
    rw [parse_validCipherDoc] at h
    cases h
    rfl

theorem aUnreachable_defined (fileText : String) (addrs : List Nat) :
    ParseDefined (envOf (scenarioSys fileText addrs) aUnreachable) := by
  intro pass n url body resp c hp
  simp only [envOf, aUnreachable, ok200] at hp ⊢
  split at hp
  · cases hp
  · cases hp
    rw [parse_validCipherDoc]
    simp

theorem aDownBMalformed_defined (fileText : String) (addrs : List Nat) :
    ParseDefined (envOf (scenarioSys fileText addrs) aDownBMalformed) := by
  intro pass n url body resp c hp
  simp only [envOf, aDownBMalformed, ok200] at hp ⊢
  split at hp
  · cases hp
  · split at hp
    · cases hp
      rw [parse_versionTooHighDoc]
      simp
    · cases hp
      rw [parse_validCipherDoc]
      simp

theorem aDownBMalformed_keeps (fileText : String) (addrs : List Nat) :
    ParseKeepsPool (envOf (scenarioSys fileText addrs) aDownBMalformed) := by
  intro pass n url body resp c o c2 hp h
  simp only [envOf, aDownBMalformed, ok200] at hp h
  split at hp
  · cases hp
  · split at hp
    · cases hp
      rw [parse_versionTooHighDoc] at h
      cases h
      rfl
    · cases hp
      rw [parse_validCipherDoc] at h
      cases h
      rfl

/-! ### Scenarios -/

/-- C5 (code bug): in a pool that holds B (no failed response, address 1) and A
(one failed response, address 2), `top()` is A, in whichever order they were
pushed, although B precedes A in the Endpoint order; a queue that compared the
pointees with `KmsUrlCtx::operator<` would yield B. -/
theorem top_is_highest_address_not_healthiest :
    KmsUrlMinHeap.top { c := [answeredB, failedA] } = some failedA ∧
    KmsUrlMinHeap.top { c := [failedA, answeredB] } = some failedA ∧
    (KmsUrlMinHeap.pop { c := [answeredB, failedA] }).c = [answeredB] ∧
    precedes answeredB.obj failedA.obj ∧
    KmsUrlMinHeap.topByPointee { c := [answeredB, failedA] } = some answeredB ∧
    KmsUrlMinHeap.topByPointee { c := [failedA, answeredB] } = some answeredB := by
  decide

/-- C9 (code bug): the failover scenario, pool of two fresh endpoints A and B,
A answering 503 and B answering 200 with a valid response.  When A lies at the
higher address, A is tried first and fails, B answers, and afterwards the top of
the heap is A (one failed response), not B.  When B lies at the higher address,
B is tried first and answers, A is never contacted and its failed responses
stay 0. -/
theorem failover_scenario_follows_addresses :
    (∃ st, kmsRequestImpl (scenarioSys fileAC []) (envOf (scenarioSys fileAC []) aDown)
        "/get" "{}" 3 (ctxOf [freshAt 2 "https://a", freshAt 1 "https://b"])
        = some (.ok validCipherDetails, st) ∧
      st.ctx.kmsUrlHeap.c = [answeredB, failedA] ∧
      st.ctx.kmsUrlHeap.top = some failedA) ∧
    (∃ st, kmsRequestImpl (scenarioSys fileAC []) (envOf (scenarioSys fileAC []) aDown)
        "/get" "{}" 3 (ctxOf [freshAt 1 "https://a", freshAt 2 "https://b"])
        = some (.ok validCipherDetails, st) ∧
      st.ctx.kmsUrlHeap.c = [freshAt 1 "https://a", { answeredB with addr := 2 }] ∧
      st.ctx.kmsUrlHeap.top = some { answeredB with addr := 2 } ∧
      st.log.map (fun r => r.curUrl.obj.url) = ["https://b"]) :=
  ⟨⟨_, rfl, rfl, rfl⟩, ⟨_, rfl, rfl, rfl, rfl⟩⟩

/-- C10 (code bug): pool = [A]; A answers 200 with a valid response that carries
`kms_urls = ["https://new1", "https://new2"]`.  After the call the pool holds
three endpoints: the two new ones and A, pushed back by the engine after the
parse had replaced the pool; `lastKmsUrlsRefreshTs` is the time of the parse. -/
theorem refresh_scenario_keeps_answering_endpoint :
    ∃ st, kmsRequestImpl (scenarioSys fileAC [11, 12]) (envOf (scenarioSys fileAC [11, 12]) allRefresh)
        "/get" "{}" 3 (ctxOf [freshAt 1 "https://a"])
        = some (.ok validCipherDetails, st) ∧
      st.ctx.kmsUrlHeap.c.map (fun p => p.obj.url) = ["https://new1", "https://new2", "https://a"] ∧
      st.ctx.kmsUrlHeap.size = 3 ∧
      st.ctx.lastKmsUrlsRefreshTs = (scenarioSys fileAC [11, 12]).now ∧
      st.pass = 1 :=
  ⟨_, rfl, rfl, rfl, rfl, rfl⟩

/-- C1 (counterexample): pool = [A], the discovery file lists A, and every POST
raises http-request-failed.  The request fails with encrypt-keys-fetch-failed
and leaves an empty pool, although the pool held A before the call. -/
theorem pool_lost_when_request_fails :
    ∃ st, kmsRequestImpl (scenarioSys "https://a\n" [2]) (envOf (scenarioSys "https://a\n" [2]) allDown)
        "/get" "{}" 3 (ctxOf [freshAt 1 "https://a"])
        = some (.error Error.encrypt_keys_fetch_failed, st) ∧
      (ctxOf [freshAt 1 "https://a"]).kmsUrlHeap.c.map KmsUrlPtr.ident = [(1, "https://a")] ∧
      st.ctx.kmsUrlHeap.c = [] ∧
      ¬ List.Perm (st.ctx.kmsUrlHeap.c.map KmsUrlPtr.ident)
          ((ctxOf [freshAt 1 "https://a"]).kmsUrlHeap.c.map KmsUrlPtr.ident) :=
  ⟨_, rfl, rfl, rfl, by decide⟩

/-- C1 (witness): the failover scenario with A above B ends in pass 1 with both
endpoints back in the pool. -/
theorem pool_restored_when_request_succeeds_witness :
    ParseKeepsPool (envOf (scenarioSys fileAC []) aDown) ∧
    kmsRequestImpl (scenarioSys fileAC []) (envOf (scenarioSys fileAC []) aDown) "/get" "{}" 3
      (ctxOf [freshAt 2 "https://a", freshAt 1 "https://b"]) = some (.ok validCipherDetails, failoverEnd) ∧
    (failoverEnd.tempStack = [] ∧ (failoverEnd.pass = 1 ∨ failoverEnd.pass = 2) ∧
    (failoverEnd.pass = 1 →
      failoverEnd.discoverCalls = [] ∧
      List.Perm (failoverEnd.ctx.kmsUrlHeap.c.map KmsUrlPtr.ident)
        ((ctxOf [freshAt 2 "https://a", freshAt 1 "https://b"]).kmsUrlHeap.c.map
          KmsUrlPtr.ident)) ∧
    (failoverEnd.pass = 2 →
      ∃ c0 c, c0.kmsUrlHeap.c = [] ∧
        discoverKmsUrls (scenarioSys fileAC []) c0 true = (.ok (), c) ∧
        List.Perm (failoverEnd.ctx.kmsUrlHeap.c.map KmsUrlPtr.ident)
          (c.kmsUrlHeap.c.map KmsUrlPtr.ident))) :=
  ⟨aDown_keeps _ _, rfl,
    pool_restored_when_request_succeeds (scenarioSys fileAC []) (envOf (scenarioSys fileAC []) aDown)
      "/get" "{}" 3 (ctxOf [freshAt 2 "https://a", freshAt 1 "https://b"]) validCipherDetails failoverEnd
      (aDown_keeps _ _) rfl⟩

/-! ### Witnesses -/

/-- C2 (witness): the pass over the pool of A, B, C (popped in this order) where
the POST to A raises http-request-failed, B answers a body that does not parse,
and C answers: the three endpoints are tried in pop order, once each, and the
pass returns the parse of the response of C.  Where every POST raises
http-request-failed the pass tries the three endpoints and ends by
exhaustion. -/
theorem pass_tries_endpoints_in_pop_order_witness :
    FailedParseKeepsPool (envOf (scenarioSys fileAC []) aDownBMalformed) ∧
    ParseDefined (envOf (scenarioSys fileAC []) aDownBMalformed) ∧
    (initialState poolABC).ctx.kmsUrlHeap.size < 4 ∧
    (initialState poolABC).ctx.kmsUrlHeap.popOrder =
      [freshAt 3 "https://a", freshAt 2 "https://b", freshAt 1 "https://c"] ∧
    (∃ st2, kmsUrlLoop (envOf (scenarioSys fileAC []) aDownBMalformed) "/get" "{}" 4 (initialState poolABC) =
        some (.returned validCipherDetails, st2) ∧
      st2.log =
        [{ pass := 1, curUrl := freshAt 3 "https://a",
           outcome := .postFailed Error.http_request_failed },
         { pass := 1, curUrl := freshAt 2 "https://b",
           outcome := .parseFailed Error.rest_malformed_response },
         { pass := 1, curUrl := freshAt 1 "https://c", outcome := .parsed }] ∧
      st2.ctx.kmsUrlHeap.c.map (fun p => (p.obj.url, p.obj.nRequests, p.obj.nFailedResponses,
          p.obj.nResponseParseFailures)) =
        [("https://c", 1, 0, 0), ("https://b", 1, 0, 1), ("https://a", 0, 1, 0)]) ∧
    (∃ st2, kmsUrlLoop (envOf (scenarioSys fileAC []) allDown) "/get" "{}" 4
        (initialState poolABC) = some (.exhausted, st2) ∧
      st2.log =
        [{ pass := 1, curUrl := freshAt 3 "https://a",
           outcome := .postFailed Error.http_request_failed },
         { pass := 1, curUrl := freshAt 2 "https://b",
           outcome := .postFailed Error.http_request_failed },
         { pass := 1, curUrl := freshAt 1 "https://c",
           outcome := .postFailed Error.http_request_failed }] ∧
      st2.ctx.kmsUrlHeap.c = []) ∧
    (∃ x st2 recs, kmsUrlLoop (envOf (scenarioSys fileAC []) aDownBMalformed) "/get" "{}" 4 (initialState poolABC) = some (x, st2) ∧
      st2.log = (initialState poolABC).log ++ recs ∧
      LogSound (envOf (scenarioSys fileAC []) aDownBMalformed) "/get" "{}" (initialState poolABC).log.length recs ∧
      recs.map (fun r => r.curUrl) <+: (initialState poolABC).ctx.kmsUrlHeap.popOrder ∧
      List.Perm (initialState poolABC).ctx.kmsUrlHeap.popOrder (initialState poolABC).ctx.kmsUrlHeap.c ∧
      (((initialState poolABC).ctx.kmsUrlHeap.c.map (fun p => p.addr)).Nodup →
        (recs.map (fun r => r.curUrl.addr)).Nodup) ∧
      ((initialState poolABC).ctx.kmsUrlHeap.c ≠ [] →
        ∃ r rest, recs = r :: rest ∧ (initialState poolABC).ctx.kmsUrlHeap.top = some r.curUrl) ∧
      PassOutcome (envOf (scenarioSys fileAC []) aDownBMalformed) "/get" "{}" (initialState poolABC).log.length recs x ∧
      (x = .exhausted → recs.map (fun r => r.curUrl) = (initialState poolABC).ctx.kmsUrlHeap.popOrder) ∧
      (∀ init last, recs = init ++ [last] →
        (∀ r ∈ init, r.goesOn) ∧
        (last.goesOn → x = .exhausted ∧
          recs.map (fun r => r.curUrl) = (initialState poolABC).ctx.kmsUrlHeap.popOrder)) ∧
      (∀ r ∈ recs, ∀ e, r.outcome = .parseFailed e → r.goesOn) ∧
      (∀ l1 r l2, recs = l1 ++ r :: l2 → r.outcome = .parsed →
        l2 = [] ∧ (∀ r' ∈ l1, r'.outcome ≠ .parsed) ∧
        ∃ v, x = .returned v ∧ RecordParsed (envOf (scenarioSys fileAC []) aDownBMalformed) "/get" "{}" ((initialState poolABC).log.length + l1.length) r v) ∧
      (∀ v, x = .returned v →
        ∃ init last, recs = init ++ [last] ∧
          RecordParsed (envOf (scenarioSys fileAC []) aDownBMalformed) "/get" "{}" ((initialState poolABC).log.length + init.length) last v)) :=
  ⟨envOf_keeps_on_failure _ _, aDownBMalformed_defined _ _, by decide, rfl,
    ⟨_, rfl, rfl, rfl⟩, ⟨_, rfl, rfl, rfl⟩,
    pass_tries_endpoints_in_pop_order (envOf (scenarioSys fileAC []) aDownBMalformed) "/get" "{}" 4
      (initialState poolABC) (envOf_keeps_on_failure _ _) (aDownBMalformed_defined _ _)
      (by decide)⟩

/-- C3 (witness): pool = [A], rediscovery yields A above C, and A cannot be
connected to: the error is tolerated in pass 1 and rethrown in pass 2. -/
theorem transport_errors_by_pass_witness :
    FailedParseKeepsPool (envOf (scenarioSys fileAC [20, 10]) aUnreachable) ∧
    ParseDefined (envOf (scenarioSys fileAC [20, 10]) aUnreachable) ∧
    (ctxOf [freshAt 1 "https://a"]).kmsUrlHeap.size < 3 ∧
    (∀ c0 c, c0.kmsUrlHeap.c = [] →
      discoverKmsUrls (scenarioSys fileAC [20, 10]) c0 true = (.ok (), c) →
      c.kmsUrlHeap.size < 3) ∧
    (∃ st, kmsRequestImpl (scenarioSys fileAC [20, 10]) (envOf (scenarioSys fileAC [20, 10]) aUnreachable) "/get" "{}" 3
        (ctxOf [freshAt 1 "https://a"]) = some (.error Error.connection_failed, st) ∧
      st.log.map (fun r => (r.pass, r.curUrl.obj.url)) = [(1, "https://a"), (2, "https://a")]) ∧
    (∃ r st, kmsRequestImpl (scenarioSys fileAC [20, 10]) (envOf (scenarioSys fileAC [20, 10]) aUnreachable) "/get" "{}" 3 (ctxOf [freshAt 1 "https://a"]) = some (r, st) ∧
      LogSound (envOf (scenarioSys fileAC [20, 10]) aUnreachable) "/get" "{}" 0 st.log ∧
      ∀ l1 rec l2 e, st.log = l1 ++ rec :: l2 → rec.outcome = .postFailed e →
        (rec.pass = 1 ∨ rec.pass = 2) ∧
        (isKmsNotReachable e = true ↔ e = Error.timed_out ∨ e = Error.connection_failed) ∧
        (rec.pass = 1 → l2 ≠ [] ∨ st.discoverCalls = [true]) ∧
        (rec.pass = 2 → isKmsNotReachable e = true → l2 = [] ∧ r = .error e) ∧
        (rec.pass = 2 → isKmsNotReachable e = false →
          l2 ≠ [] ∨ (r = .error Error.encrypt_keys_fetch_failed ∧ st.ctx.kmsUrlHeap.c = []))) :=
  ⟨envOf_keeps_on_failure _ _, aUnreachable_defined _ _, by decide,
    scenarioSys_fuel fileAC [20, 10] 3 (by decide), ⟨_, rfl, rfl⟩,
    transport_errors_by_pass (scenarioSys fileAC [20, 10]) (envOf (scenarioSys fileAC [20, 10]) aUnreachable) "/get" "{}" 3
      (ctxOf [freshAt 1 "https://a"]) (envOf_keeps_on_failure _ _) (aUnreachable_defined _ _)
      (by decide) (scenarioSys_fuel fileAC [20, 10] 3 (by decide))⟩

/-- Where server A raises an error that does not end the request, the attempt on
`https://a` fails. -/
theorem attempt_on_a_fails (sys : Sys) (answer : String → Except Error ResponseRef)
    (e : Error) (pass n : Nat) (ha : answer "https://a/get" = .error e)
    (ht : isTerminal pass e = false) :
    AttemptFails (envOf sys answer) "/get" "{}" pass n "https://a" := by
  have hu : getFullRequestUrl "https://a" "/get" = .ok "https://a/get" := rfl
  unfold AttemptFails
  rw [hu]
  simp only [envOf, ha]
  exact ht

/-- Where server C answers 200 with the valid body, the attempt on `https://c`
succeeds with the details of that body. -/
theorem attempt_on_c_succeeds (fileText : String) (addrs : List Nat)
    (answer : String → Except Error ResponseRef) (pass n : Nat)
    (hc : answer "https://c/get" = ok200 (validCipherDoc none)) :
    AttemptSucceeds (envOf (scenarioSys fileText addrs) answer) "/get" "{}" pass n "https://c"
      validCipherDetails :=
  ⟨"https://c/get", some { code := 200, content := validCipherDoc none }, rfl, hc,
    fun c => ⟨c, parse_validCipherDoc fileText addrs c⟩⟩

/-- C8 (counterexample): pool = [A], the discovery file lists A and C, server A
cannot be connected to and server C answers 200 with a valid response whenever
it is asked.  The endpoint of the pool fails in pass 1 and the discovery, run
once, produces A and C, with A popped first.  The request does not return the
parse of the response of C: it ends with connection-failed, raised by A in pass
2, and C is never contacted. -/
theorem unreachable_endpoint_hides_valid_endpoint :
    (∀ n, ∀ p ∈ (ctxOf [freshAt 1 "https://a"]).kmsUrlHeap.c,
      AttemptFails (envOf (scenarioSys fileAC [20, 10]) aUnreachable) "/get" "{}" 1 n
        p.obj.url) ∧
    (∃ ctxD,
      discoverKmsUrls (scenarioSys fileAC [20, 10])
        { ctxOf [freshAt 1 "https://a"] with kmsUrlHeap := { c := [] } } true =
          (.ok (), ctxD) ∧
      ctxD.kmsUrlHeap.popOrder = [freshAt 20 "https://a", freshAt 10 "https://c"]) ∧
    (∀ pass n, AttemptSucceeds (envOf (scenarioSys fileAC [20, 10]) aUnreachable) "/get" "{}"
      pass n "https://c" validCipherDetails) ∧
    (∃ st, kmsRequestImpl (scenarioSys fileAC [20, 10])
        (envOf (scenarioSys fileAC [20, 10]) aUnreachable) "/get" "{}" 3
        (ctxOf [freshAt 1 "https://a"]) = some (.error Error.connection_failed, st) ∧
      st.discoverCalls = [true] ∧
      st.log.map (fun r => (r.pass, r.curUrl.obj.url, r.outcome)) =
        [(1, "https://a", .postFailed Error.connection_failed),
         (2, "https://a", .postFailed Error.connection_failed)]) ∧
    (∀ st, kmsRequestImpl (scenarioSys fileAC [20, 10])
        (envOf (scenarioSys fileAC [20, 10]) aUnreachable) "/get" "{}" 3
        (ctxOf [freshAt 1 "https://a"]) ≠ some (.ok validCipherDetails, st)) :=
  ⟨fun n p hp => by
      simp only [ctxOf, List.mem_singleton] at hp
      subst hp
      exact attempt_on_a_fails _ aUnreachable Error.connection_failed 1 n rfl rfl,
    ⟨_, rfl, rfl⟩,
    fun pass n => attempt_on_c_succeeds fileAC [20, 10] aUnreachable pass n rfl,
    ⟨_, rfl, rfl, rfl⟩,
    fun st h => by
      have h2 : kmsRequestImpl (scenarioSys fileAC [20, 10])
          (envOf (scenarioSys fileAC [20, 10]) aUnreachable) "/get" "{}" 3
          (ctxOf [freshAt 1 "https://a"]) = some (.error Error.connection_failed, _) := rfl
      rw [h2] at h
      cases h⟩

/-- C8 (witness): pool = [A], discovery source = [A, C], A always answers 503
and C answers 200.  The endpoint of the pool fails in pass 1, the discovery is
run once, and the reply is the parse of the response of C, whether A is popped
before C in pass 2 (A is tried again, fails, and C is tried) or after it (C is
tried alone); in both cases the pool holds A and C afterwards.  The same reply
follows from the theorem, with A as the endpoint popped before C. -/
theorem rediscovery_after_failed_pass_one_witness :
    (∀ n, ∀ p ∈ (ctxOf [freshAt 1 "https://a"]).kmsUrlHeap.c, AttemptFails (envOf (scenarioSys fileAC [20, 10]) aDown) "/get" "{}" 1 n p.obj.url) ∧
    (ctxOf [freshAt 1 "https://a"]).kmsUrlHeap.size < 3 ∧
    (∃ ctxD,
      discoverKmsUrls (scenarioSys fileAC [20, 10]) { (ctxOf [freshAt 1 "https://a"]) with kmsUrlHeap := { c := [] } } true = (.ok (), ctxD) ∧
      ctxD.kmsUrlHeap.popOrder = [freshAt 20 "https://a", freshAt 10 "https://c"]) ∧
    (∃ st, kmsRequestImpl (scenarioSys fileAC [20, 10]) (envOf (scenarioSys fileAC [20, 10]) aDown) "/get" "{}" 3 (ctxOf [freshAt 1 "https://a"]) = some (.ok validCipherDetails, st) ∧
      st.log.map (fun r => (r.pass, r.curUrl.obj.url, r.outcome)) =
        [(1, "https://a", .postFailed Error.http_request_failed),
         (2, "https://a", .postFailed Error.http_request_failed),
         (2, "https://c", .parsed)] ∧
      st.discoverCalls = [true] ∧
      st.ctx.kmsUrlHeap.c.map (fun p => p.obj.url) = ["https://c", "https://a"]) ∧
    (∃ st, kmsRequestImpl (scenarioSys fileAC [10, 20])
        (envOf (scenarioSys fileAC [10, 20]) aDown) "/get" "{}" 3
        (ctxOf [freshAt 1 "https://a"]) = some (.ok validCipherDetails, st) ∧
      st.log.map (fun r => (r.pass, r.curUrl.obj.url, r.outcome)) =
        [(1, "https://a", .postFailed Error.http_request_failed), (2, "https://c", .parsed)] ∧
      st.discoverCalls = [true] ∧
      st.ctx.kmsUrlHeap.c.map (fun p => p.obj.url) = ["https://a", "https://c"]) ∧
    (∃ recs1 st recs2,
      kmsRequestImpl (scenarioSys fileAC [20, 10]) (envOf (scenarioSys fileAC [20, 10]) aDown) "/get" "{}" 3
        (ctxOf [freshAt 1 "https://a"]) = some (.ok validCipherDetails, st) ∧
      st.log = recs1 ++ recs2 ∧ st.discoverCalls = [true] ∧
      recs1.map (fun a => a.curUrl) = [freshAt 1 "https://a"] ∧
      recs2.map (fun a => a.curUrl) = [freshAt 20 "https://a", freshAt 10 "https://c"]) ∧
    (∃ recs1 : List AttemptRecord,
      recs1.map (fun a => a.curUrl) = (ctxOf [freshAt 1 "https://a"]).kmsUrlHeap.popOrder ∧
      (∀ a ∈ recs1, a.pass = 1 ∧ a.outcome ≠ .parsed) ∧
      (∀ e ctxD,
        discoverKmsUrls (scenarioSys fileAC [20, 10]) { (ctxOf [freshAt 1 "https://a"]) with kmsUrlHeap := { c := [] } } true = (.error e, ctxD) →
        ∃ st, kmsRequestImpl (scenarioSys fileAC [20, 10]) (envOf (scenarioSys fileAC [20, 10]) aDown) "/get" "{}" 3 (ctxOf [freshAt 1 "https://a"]) = some (.error e, st) ∧
          st.log = recs1 ∧ st.discoverCalls = [true] ∧ st.ctx = ctxD) ∧
      (∀ ctxD pre p post,
        discoverKmsUrls (scenarioSys fileAC [20, 10]) { (ctxOf [freshAt 1 "https://a"]) with kmsUrlHeap := { c := [] } } true = (.ok (), ctxD) →
        ctxD.kmsUrlHeap.popOrder = pre ++ p :: post →
        (∀ n, ∀ q ∈ pre, AttemptFails (envOf (scenarioSys fileAC [20, 10]) aDown) "/get" "{}" 2 n q.obj.url) →
        pre.length < 3 →
        (∀ v, (∀ n, AttemptSucceeds (envOf (scenarioSys fileAC [20, 10]) aDown) "/get" "{}" 2 n p.obj.url v) →
          ∃ st recs2, kmsRequestImpl (scenarioSys fileAC [20, 10]) (envOf (scenarioSys fileAC [20, 10]) aDown) "/get" "{}" 3 (ctxOf [freshAt 1 "https://a"]) = some (.ok v, st) ∧
            st.log = recs1 ++ recs2 ∧ st.discoverCalls = [true] ∧
            recs2.map (fun a => a.curUrl) = pre ++ [p] ∧
            (∀ a ∈ recs2, a.pass = 2) ∧
            ∃ init last, recs2 = init ++ [last] ∧ (∀ a ∈ init, a.outcome ≠ .parsed) ∧
              last.outcome = .parsed ∧ last.curUrl = p) ∧
        (∀ e, (∀ n, AttemptUnreachable (envOf (scenarioSys fileAC [20, 10]) aDown) "/get" "{}" 2 n p.obj.url e) →
          ∃ st recs2, kmsRequestImpl (scenarioSys fileAC [20, 10]) (envOf (scenarioSys fileAC [20, 10]) aDown) "/get" "{}" 3 (ctxOf [freshAt 1 "https://a"]) = some (.error e, st) ∧
            st.log = recs1 ++ recs2 ∧ st.discoverCalls = [true] ∧
            recs2.map (fun a => a.curUrl) = pre ++ [p] ∧
            (∀ a ∈ recs2, a.pass = 2 ∧ a.outcome ≠ .parsed))) ∧
      (∀ r st, kmsRequestImpl (scenarioSys fileAC [20, 10]) (envOf (scenarioSys fileAC [20, 10]) aDown) "/get" "{}" 3 (ctxOf [freshAt 1 "https://a"]) = some (r, st) →
        st.discoverCalls = [true] ∧
        ∃ recs2, st.log = recs1 ++ recs2 ∧ (∀ a ∈ recs2, a.pass = 2) ∧
          ∀ ctxD,
            discoverKmsUrls (scenarioSys fileAC [20, 10]) { (ctxOf [freshAt 1 "https://a"]) with kmsUrlHeap := { c := [] } } true = (.ok (), ctxD) →
            FailedParseKeepsPool (envOf (scenarioSys fileAC [20, 10]) aDown) →
            recs2.map (fun a => a.curUrl) <+: ctxD.kmsUrlHeap.popOrder ∧
            (r = .error Error.encrypt_keys_fetch_failed →
              recs2.map (fun a => a.curUrl) = ctxD.kmsUrlHeap.popOrder))) :=
  ⟨fun n p hp => by
      simp only [ctxOf, List.mem_singleton] at hp
      subst hp
      exact attempt_on_a_fails _ aDown Error.http_request_failed 1 n rfl rfl,
    by decide, ⟨_, rfl, rfl⟩, ⟨_, rfl, rfl, rfl, rfl⟩, ⟨_, rfl, rfl, rfl, rfl⟩,
    (by
      obtain ⟨recs1, h1, _, _, h4, _⟩ :=
        rediscovery_after_failed_pass_one (scenarioSys fileAC [20, 10])
          (envOf (scenarioSys fileAC [20, 10]) aDown) "/get" "{}" 3 (ctxOf [freshAt 1 "https://a"])
          (fun n p hp => by
            simp only [ctxOf, List.mem_singleton] at hp
            subst hp
            exact attempt_on_a_fails _ aDown Error.http_request_failed 1 n rfl rfl)
          (by decide)
      obtain ⟨st, recs2, hrun, hlog, hd, hmap, _⟩ :=
        (h4 _ [freshAt 20 "https://a"] (freshAt 10 "https://c") [] rfl rfl
          (fun n q hq => by
            simp only [List.mem_singleton] at hq
            subst hq
            exact attempt_on_a_fails _ aDown Error.http_request_failed 2 n rfl rfl)
          (by decide)).1 validCipherDetails
          (fun n => attempt_on_c_succeeds fileAC [20, 10] aDown 2 n rfl)
      exact ⟨recs1, st, recs2, hrun, hlog, hd, h1, hmap⟩),
    rediscovery_after_failed_pass_one (scenarioSys fileAC [20, 10]) (envOf (scenarioSys fileAC [20, 10]) aDown) "/get" "{}" 3 (ctxOf [freshAt 1 "https://a"])
      (fun n p hp => by
        simp only [ctxOf, List.mem_singleton] at hp
        subst hp
        exact attempt_on_a_fails _ aDown Error.http_request_failed 1 n rfl rfl)
      (by decide)⟩

/-- C7 (witness): the first attempt of the pass over A, B, C, on A. -/
theorem attempt_updates_counters_witness :
    ParseDefined (envOf (scenarioSys fileAC []) aDownBMalformed) ∧
    (initialState poolABC).ctx.kmsUrlHeap.top = some (freshAt 3 "https://a") ∧
    (∃ x st1 rec ep, kmsUrlIteration (envOf (scenarioSys fileAC []) aDownBMalformed) "/get" "{}" (initialState poolABC) (freshAt 3 "https://a") = some (x, st1) ∧
      st1.log = (initialState poolABC).log ++ [rec] ∧ rec.curUrl = (freshAt 3 "https://a") ∧ rec.pass = (initialState poolABC).pass ∧
      RecordSound (envOf (scenarioSys fileAC []) aDownBMalformed) "/get" "{}" (initialState poolABC).log.length rec ∧
      ep.addr = (freshAt 3 "https://a").addr ∧ ep.obj.url = (freshAt 3 "https://a").obj.url ∧
      ((∃ e, rec.outcome = .urlFailed e ∨ rec.outcome = .postFailed e) →
        ep.obj.nFailedResponses = (freshAt 3 "https://a").obj.nFailedResponses + 1 ∧
        ep.obj.nRequests = (freshAt 3 "https://a").obj.nRequests ∧
        ep.obj.nResponseParseFailures = (freshAt 3 "https://a").obj.nResponseParseFailures) ∧
      (rec.outcome = .parsed →
        ep.obj.nRequests = (freshAt 3 "https://a").obj.nRequests + 1 ∧
        ep.obj.nFailedResponses = (freshAt 3 "https://a").obj.nFailedResponses ∧
        ep.obj.nResponseParseFailures = (freshAt 3 "https://a").obj.nResponseParseFailures) ∧
      ((∃ e, rec.outcome = .parseFailed e) →
        ep.obj.nRequests = (freshAt 3 "https://a").obj.nRequests + 1 ∧
        ep.obj.nResponseParseFailures = (freshAt 3 "https://a").obj.nResponseParseFailures + 1 ∧
        ep.obj.nFailedResponses = (freshAt 3 "https://a").obj.nFailedResponses) ∧
      ((freshAt 3 "https://a").obj.nRequests ≤ ep.obj.nRequests ∧
        (freshAt 3 "https://a").obj.nFailedResponses ≤ ep.obj.nFailedResponses ∧
        (freshAt 3 "https://a").obj.nResponseParseFailures ≤ ep.obj.nResponseParseFailures) ∧
      ((rec.outcome = .parsed ∧ st1.tempStack = [] ∧
          ∃ poolAfterParse, st1.ctx.kmsUrlHeap.c = poolAfterParse ++ ep :: (initialState poolABC).tempStack) ∨
        (rec.outcome ≠ .parsed ∧ st1.tempStack = ep :: (initialState poolABC).tempStack)) ∧
      (ParseKeepsPool (envOf (scenarioSys fileAC []) aDownBMalformed) →
        List.Perm (st1.ctx.kmsUrlHeap.c ++ st1.tempStack)
          (ep :: ((initialState poolABC).ctx.kmsUrlHeap.pop.c ++ (initialState poolABC).tempStack)) ∧
        List.Perm (initialState poolABC).ctx.kmsUrlHeap.c ((freshAt 3 "https://a") :: (initialState poolABC).ctx.kmsUrlHeap.pop.c))) :=
  ⟨aDownBMalformed_defined _ _, by decide,
    attempt_updates_counters (envOf (scenarioSys fileAC []) aDownBMalformed) "/get" "{}" (initialState poolABC)
      (freshAt 3 "https://a") (aDownBMalformed_defined _ _) (by decide)⟩

theorem allDown_attempt_fails (sys : Sys) (pass n : Nat) (url : String) :
    AttemptFails (envOf sys allDown) "/get" "{}" pass n url := by
  unfold AttemptFails
  cases hu : getFullRequestUrl url "/get" with
  | error e =>
    simp only
    unfold getFullRequestUrl at hu
    have : ("/get" : String).data = ['/', 'g', 'e', 't'] := rfl
    rw [this] at hu
    simp at hu
  | ok full =>
    simp [envOf, allDown, isTerminal, isKmsNotReachable]

/-- C4 (witness): pool = [A], the discovery file lists A, every POST raises
http-request-failed; and the empty pool with an empty discovery file, where the
request fails without any attempt. -/
theorem all_attempts_fail_gives_fetch_failed_witness :
    (∀ n, ∀ p ∈ (ctxOf [freshAt 1 "https://a"]).kmsUrlHeap.c,
      AttemptFails (envOf (scenarioSys "https://a\n" [2]) allDown) "/get" "{}" 1 n p.obj.url) ∧
    discoverKmsUrls (scenarioSys "https://a\n" [2])
      { ctxOf [freshAt 1 "https://a"] with kmsUrlHeap := { c := [] } } true
      = (.ok (), { ctxOf [freshAt 2 "https://a"] with nAllocs := 1 }) ∧
    (∃ st, kmsRequestImpl (scenarioSys "" []) (envOf (scenarioSys "" []) allDown) "/get" "{}" 1 (ctxOf [])
        = some (.error Error.encrypt_keys_fetch_failed, st) ∧ st.log = []) ∧
    (∃ st, kmsRequestImpl (scenarioSys "https://a\n" [2]) (envOf (scenarioSys "https://a\n" [2]) allDown) "/get" "{}" 3 (ctxOf [freshAt 1 "https://a"])
        = some (.error Error.encrypt_keys_fetch_failed, st) ∧
      st.log.length = (ctxOf [freshAt 1 "https://a"]).kmsUrlHeap.size + { ctxOf [freshAt 2 "https://a"] with nAllocs := 1 }.kmsUrlHeap.size ∧
      (∀ r ∈ st.log, r.outcome ≠ .parsed) ∧
      st.discoverCalls = [true] ∧
      ((ctxOf [freshAt 1 "https://a"]).kmsUrlHeap.c = [] → { ctxOf [freshAt 2 "https://a"] with nAllocs := 1 }.kmsUrlHeap.c = [] → st.log = [])) :=
  ⟨fun n p _ => allDown_attempt_fails _ 1 n p.obj.url, rfl, ⟨_, rfl, rfl⟩,
    all_attempts_fail_gives_fetch_failed (scenarioSys "https://a\n" [2]) (envOf (scenarioSys "https://a\n" [2]) allDown)
      "/get" "{}" (ctxOf [freshAt 1 "https://a"]) { ctxOf [freshAt 2 "https://a"] with nAllocs := 1 }
      3 (fun n p _ => allDown_attempt_fails _ 1 n p.obj.url) rfl
      (fun n p _ => allDown_attempt_fails _ 2 n p.obj.url) (by decide)⟩

/-! ### Loops of the parsers -/

theorem parseCipherDetails_eq (sys : Sys) (l : List JsonValue) :
    parseCipherDetails sys l = parseEach (parseCipherDetail sys) l := by
  induction l with
  | nil => rfl
  | cons a rest ih =>
    rw [parseCipherDetails, parseEach, ih]
    cases parseCipherDetail sys a with
    | none => rfl
    | some r =>
      cases r with
      | error e => rfl
      | ok d =>
        simp only
        cases parseEach (parseCipherDetail sys) rest with
        | none => rfl
        | some r2 => cases r2 <;> rfl

theorem parseBlobLocations_eq (l : List JsonValue) :
    parseBlobLocations l = parseEach parseBlobLocation l := by
  induction l with
  | nil => rfl
  | cons a rest ih =>
    rw [parseBlobLocations, parseEach, ih]
    cases parseBlobLocation a with
    | none => rfl
    | some r =>
      cases r with
      | error e => rfl
      | ok d =>
        simp only
        cases parseEach (parseBlobLocation) rest with
        | none => rfl
        | some r2 => cases r2 <;> rfl

theorem parseBlobDetails_eq (sys : Sys) (l : List JsonValue) :
    parseBlobDetails sys l = parseEach (parseBlobDetail sys) l := by
  induction l with
  | nil => rfl
  | cons a rest ih =>
    rw [parseBlobDetails, parseEach, ih]
    cases parseBlobDetail sys a with
    | none => rfl
    | some r =>
      cases r with
      | error e => rfl
      | ok d =>
        simp only
        cases parseEach (parseBlobDetail sys) rest with
        | none => rfl
        | some r2 => cases r2 <;> rfl

/-- A loop succeeds exactly when its body succeeds on every element; the results
are collected in order. -/
theorem parseEach_ok_iff {α β : Type} (f : α → Option (Except Error β)) (l : List α)
    (ds : List β) :
    parseEach f l = some (.ok ds) ↔ List.Forall₂ (fun a d => f a = some (.ok d)) l ds := by
  induction l generalizing ds with
  | nil =>
    simp only [parseEach, Option.some.injEq, Except.ok.injEq, List.forall₂_nil_left_iff]
    exact eq_comm
  | cons a rest ih =>
    simp only [parseEach]
    constructor
    · intro h
      split at h
      · cases h
      · cases h
      · rename_i d hd
        split at h
        · cases h
        · cases h
        · rename_i ds2 hds
          cases h
          exact List.Forall₂.cons hd ((ih ds2).mp hds)
    · intro h
      cases h with
      | cons hd htl =>
        rw [hd]
        simp only
        rw [(ih _).mpr htl]

/-- A loop ends with the error of the first element on which its body throws,
when the body succeeds on the elements before it. -/
theorem parseEach_first_error {α β : Type} (f : α → Option (Except Error β))
    (pre : List α) (bad : α) (post : List α) (e : Error)
    (hpre : ∀ a ∈ pre, ∃ d, f a = some (.ok d)) (hbad : f bad = some (.error e)) :
    parseEach f (pre ++ bad :: post) = some (.error e) := by
  induction pre with
  | nil => simp only [List.nil_append, parseEach, hbad]
  | cons a rest ih =>
    obtain ⟨d, hd⟩ := hpre a (List.mem_cons_self _ _)
    have := ih (fun x hx => hpre x (List.mem_cons_of_mem _ hx))
    show parseEach f (a :: (rest ++ bad :: post)) = _
    simp only [parseEach, hd, this]

/-- A loop is undefined when its body is undefined on the first element on which
it does not succeed. -/
theorem parseEach_first_none {α β : Type} (f : α → Option (Except Error β))
    (pre : List α) (bad : α) (post : List α)
    (hpre : ∀ a ∈ pre, ∃ d, f a = some (.ok d)) (hbad : f bad = none) :
    parseEach f (pre ++ bad :: post) = none := by
  induction pre with
  | nil => simp only [List.nil_append, parseEach, hbad]
  | cons a rest ih =>
    obtain ⟨d, hd⟩ := hpre a (List.mem_cons_self _ _)
    have := ih (fun x hx => hpre x (List.mem_cons_of_mem _ hx))
    show parseEach f (a :: (rest ++ bad :: post)) = _
    simp only [parseEach, hd, this]

/-- An error of a loop is the error of its body on some element, the body having
succeeded on the elements before it. -/
theorem parseEach_error_elim {α β : Type} (f : α → Option (Except Error β)) (l : List α)
    (e : Error) (h : parseEach f l = some (.error e)) :
    ∃ pre bad post, l = pre ++ bad :: post ∧ (∀ a ∈ pre, ∃ d, f a = some (.ok d)) ∧
      f bad = some (.error e) := by
  induction l with
  | nil => simp [parseEach] at h
  | cons a rest ih =>
    simp only [parseEach] at h
    split at h
    · cases h
    · rename_i e2 he
      cases h
      exact ⟨[], a, rest, rfl, by simp, he⟩
    · rename_i d hd
      split at h
      · cases h
      · rename_i e2 he
        cases h
        obtain ⟨pre, bad, post, hl, hpre, hbad⟩ := ih he
        refine ⟨a :: pre, bad, post, by rw [hl]; rfl, ?_, hbad⟩
        intro x hx
        rcases List.mem_cons.mp hx with rfl | hx
        · exact ⟨d, hd⟩
        · exact hpre x hx
      · cases h

/-- A loop whose body succeeds on every element succeeds. -/
theorem parseEach_all_ok {α β : Type} (f : α → Option (Except Error β)) (l : List α)
    (h : ∀ a ∈ l, ∃ d, f a = some (.ok d)) : ∃ ds, parseEach f l = some (.ok ds) := by
  induction l with
  | nil => exact ⟨[], rfl⟩
  | cons a rest ih =>
    obtain ⟨d, hd⟩ := h a (List.mem_cons_self _ _)
    obtain ⟨ds, hds⟩ := ih (fun x hx => h x (List.mem_cons_of_mem _ hx))
    exact ⟨d :: ds, by simp only [parseEach, hd, hds]⟩

/-- A loop whose body never throws `e` and is defined where it matters does not
end with `e`. -/
theorem parseEach_not_error {α β : Type} (f : α → Option (Except Error β)) (l : List α)
    (e : Error) (h : ∀ a ∈ l, f a ≠ some (.error e)) : parseEach f l ≠ some (.error e) := by
  intro hp
  obtain ⟨pre, bad, post, hl, _, hbad⟩ := parseEach_error_elim f l e hp
  exact h bad (by rw [hl]; simp) hbad

/-- In a list with an element that fails a test, there is a first such element. -/
theorem exists_first_failing {α : Type} (p : α → Bool) (l : List α)
    (h : ∃ a ∈ l, p a = false) :
    ∃ pre bad post, l = pre ++ bad :: post ∧ (∀ a ∈ pre, p a = true) ∧ p bad = false := by
  induction l with
  | nil => simp at h
  | cons a rest ih =>
    cases hpa : p a with
    | false => exact ⟨[], a, rest, rfl, by simp, hpa⟩
    | true =>
      obtain ⟨x, hx, hpx⟩ := h
      rcases List.mem_cons.mp hx with rfl | hx
      · rw [hpa] at hpx
        cases hpx
      · obtain ⟨pre, bad, post, hl, hpre, hbad⟩ := ih ⟨x, hx, hpx⟩
        refine ⟨a :: pre, bad, post, by rw [hl]; rfl, ?_, hbad⟩
        intro y hy
        rcases List.mem_cons.mp hy with rfl | hy
        · exact hpa
        · exact hpre y hy

/-! ### Status and version checks -/

/-- On a JSON object, `checkResponseForError` throws rest-malformed-response
exactly when the version rule is violated, and otherwise throws
encrypt-keys-fetch-failed exactly when `getError` reports an error. -/
theorem checkResponseForError_object (sys : Sys) (members : List (String × JsonValue))
    (isCipherType : Bool) :
    (VersionAccepted sys (.object members) isCipherType →
      checkResponseForError sys (.object members) isCipherType =
        some (if sys.getError (.object members) then .error Error.encrypt_keys_fetch_failed
              else .ok ())) ∧
    (¬ VersionAccepted sys (.object members) isCipherType →
      checkResponseForError sys (.object members) isCipherType =
        some (.error Error.rest_malformed_response)) := by
  unfold VersionAccepted maxSupportedVersion checkResponseForError
  simp only [JsonValue.HasMember, JsonValue.member]
  cases hf : findMember REQUEST_VERSION_TAG members with
  | none => simp
  | some v =>
    cases v with
    | int version =>
      simp only [Option.isSome_some, JsonValue.IsInt, Option.some.injEq, JsonValue.int.injEq,
        exists_eq_left', Bool.not_eq_true', decide_eq_false_iff_not]
      constructor
      · rintro ⟨hr, hne, hle⟩
        rw [if_neg (by simpa using hr)]
        have : ¬ (version = sys.INVALID_REQUEST_VERSION ∨
            version > if isCipherType = true then sys.REST_KMS_MAX_CIPHER_REQUEST_VERSION
              else sys.REST_KMS_MAX_BLOB_METADATA_REQUEST_VERSION) := by
          rintro (h | h)
          · exact hne h
          · exact absurd hle (not_le.mpr h)
        rw [if_neg this]
        split <;> rfl
      · intro hn
        by_cases hr : -(2 : Int) ^ 31 ≤ version ∧ version < (2 : Int) ^ 31
        · rw [if_neg (by simpa using hr)]
          have : (version = sys.INVALID_REQUEST_VERSION ∨
              version > if isCipherType = true then sys.REST_KMS_MAX_CIPHER_REQUEST_VERSION
                else sys.REST_KMS_MAX_BLOB_METADATA_REQUEST_VERSION) := by
            by_contra hc
            push_neg at hc
            exact hn ⟨hr, hc.1, hc.2⟩
          rw [if_pos this]
        · rw [if_pos (by simpa using hr)]
    | null => simp
    | bool b => simp
    | double m e => simp
    | string s => simp
    | array elems => simp
    | object ms => simp

/-- After a passed version check and without an error, `checkResponseForError`
returns normally. -/
theorem checkResponseForError_ok {sys : Sys} {members : List (String × JsonValue)}
    {isCipherType : Bool} (hv : VersionAccepted sys (.object members) isCipherType)
    (herr : sys.getError (.object members) = false) :
    checkResponseForError sys (.object members) isCipherType = some (.ok ()) := by
  rw [(checkResponseForError_object sys members isCipherType).1 hv, herr]
  rfl

/-- Only a JSON object can satisfy the version rule. -/
theorem VersionAccepted.isObject {sys : Sys} {doc : JsonValue} {isCipherType : Bool}
    (hv : VersionAccepted sys doc isCipherType) : ∃ members, doc = .object members := by
  obtain ⟨v, hm, _⟩ := hv
  cases doc with
  | object members => exact ⟨members, rfl⟩
  | null => simp [JsonValue.member] at hm
  | bool b => simp [JsonValue.member] at hm
  | int n => simp [JsonValue.member] at hm
  | double m e => simp [JsonValue.member] at hm
  | string s => simp [JsonValue.member] at hm
  | array elems => simp [JsonValue.member] at hm

/-- The cipher parser after the status and version checks. -/
theorem parseEncryptCipherResponse_checked {sys : Sys} {members : List (String × JsonValue)}
    (ctx : RESTKmsConnectorCtx) (hv : VersionAccepted sys (.object members) true)
    (herr : sys.getError (.object members) = false) :
    parseEncryptCipherResponse sys ctx (response200 (.object members)) =
      match findMember CIPHER_KEY_DETAILS_TAG members with
      | some (.array elems) =>
        match parseEach (parseCipherDetail sys) elems with
        | none => none
        | some (.error e) => some (.error e, ctx)
        | some (.ok result) =>
          match checkDocForNewKmsUrls sys ctx (.object members) with
          | none => none
          | some ctx2 => some (.ok result, ctx2)
      | _ => some (.error Error.rest_malformed_response, ctx) := by
  unfold parseEncryptCipherResponse response200
  simp only [ne_eq, not_true_eq_false, if_false, checkResponseForError_ok hv herr,
    JsonValue.member]
  split
  · rw [parseCipherDetails_eq]
  · rfl

/-- The blob-metadata parser after the status and version checks. -/
theorem parseBlobMetadataResponse_checked {sys : Sys} {members : List (String × JsonValue)}
    (ctx : RESTKmsConnectorCtx) (hv : VersionAccepted sys (.object members) false)
    (herr : sys.getError (.object members) = false) :
    parseBlobMetadataResponse sys ctx (response200 (.object members)) =
      match findMember BLOB_METADATA_DETAILS_TAG members with
      | some (.array elems) =>
        match parseEach (parseBlobDetail sys) elems with
        | none => none
        | some (.error e) => some (.error e, ctx)
        | some (.ok result) =>
          match checkDocForNewKmsUrls sys ctx (.object members) with
          | none => none
          | some ctx2 => some (.ok result, ctx2)
      | _ => some (.error Error.rest_malformed_response, ctx) := by
  unfold parseBlobMetadataResponse response200
  simp only [ne_eq, not_true_eq_false, if_false, checkResponseForError_ok hv herr,
    JsonValue.member]
  split
  · rw [parseBlobDetails_eq]
  · rfl

/-! ### Entries of the cipher parser -/

theorem GetInt64_eq_some {v : JsonValue} {n : Int} (h : v.GetInt64 = some n) : v = .int n := by
  cases v <;> simp only [JsonValue.GetInt64] at h <;> try cases h
  split at h
  · cases h
    rfl
  · cases h

/-- The refresh interval returned for a cipher entry. -/
theorem cipherRefreshAfterSec_spec {members : List (String × JsonValue)} {r : Option Int}
    (h : cipherRefreshAfterSec members = some r) :
    (∀ n, r = some n ↔ (findMember REFRESH_AFTER_SEC members = some (.int n) ∧ 0 < n)) ∧
    (r = none ↔ (findMember REFRESH_AFTER_SEC members = none ∨
      ∃ n, findMember REFRESH_AFTER_SEC members = some (.int n) ∧ n ≤ 0)) ∧
    int64OrAbsent (findMember REFRESH_AFTER_SEC members) = true := by
  unfold cipherRefreshAfterSec at h
  cases hf : findMember REFRESH_AFTER_SEC members with
  | none =>
    rw [hf] at h
    simp only [Option.some.injEq] at h
    subst h
    simp [int64OrAbsent]
  | some v =>
    rw [hf] at h
    simp only at h
    cases hg : v.GetInt64 with
    | none => rw [hg] at h; cases h
    | some m =>
      rw [hg] at h
      have hv := GetInt64_eq_some hg
      subst hv
      simp only at h
      by_cases hm : m > 0
      · rw [if_pos hm] at h
        simp only [Option.some.injEq] at h
        subst h
        simp only [Option.some.injEq, JsonValue.int.injEq, int64OrAbsent, hg, Option.isSome_some,
          and_true, false_or, false_iff, not_exists, not_and, not_le, reduceCtorEq]
        refine ⟨fun n => ⟨fun h => ⟨h, h ▸ hm⟩, fun h => h.1⟩, fun n hn => hn ▸ hm⟩
      · rw [if_neg hm] at h
        simp only [Option.some.injEq] at h
        subst h
        simp only [Option.some.injEq, JsonValue.int.injEq, int64OrAbsent, hg, Option.isSome_some,
          and_true, false_or, true_iff, false_iff, not_and, not_lt, reduceCtorEq]
        exact ⟨fun n hn => hn ▸ not_lt.mp hm, ⟨m, rfl, not_lt.mp hm⟩⟩

/-- The expiry interval returned for a cipher entry. -/
theorem cipherExpireAfterSec_spec {members : List (String × JsonValue)} {r : Option Int}
    (h : cipherExpireAfterSec members = some r) :
    (∀ n, r = some n ↔ findMember EXPIRE_AFTER_SEC members = some (.int n)) ∧
    (r = none ↔ findMember EXPIRE_AFTER_SEC members = none) ∧
    int64OrAbsent (findMember EXPIRE_AFTER_SEC members) = true := by
  unfold cipherExpireAfterSec at h
  cases hf : findMember EXPIRE_AFTER_SEC members with
  | none =>
    rw [hf] at h
    simp only [Option.some.injEq] at h
    subst h
    simp [int64OrAbsent]
  | some v =>
    rw [hf] at h
    simp only at h
    cases hg : v.GetInt64 with
    | none => rw [hg] at h; cases h
    | some m =>
      rw [hg] at h
      have hv := GetInt64_eq_some hg
      subst hv
      simp only [Option.some.injEq] at h
      subst h
      refine ⟨fun n => ?_, by simp, by simp [int64OrAbsent, hg]⟩
      simp only [Option.some.injEq, JsonValue.int.injEq]

/-- What a successful `parseCipherDetail` returns. -/
theorem parseCipherDetail_ok {sys : Sys} {e : JsonValue} {d : EncryptCipherKeyDetailsRef}
    (h : parseCipherDetail sys e = some (.ok d)) :
    CipherDetailOf e d ∧ CipherIntervalsOf e d ∧
    d.encryptKey.length ≤ sys.MAX_BASE_CIPHER_LEN ∧
    d.encryptKCV = sys.computeKCV d.encryptKey ∧
    cipherEntryTyped e = true ∧ hasCipherKeys e = true ∧
    cipherKeyLength e = d.encryptKey.length := by
  cases e with
  | object members =>
    unfold parseCipherDetail at h
    simp only at h
    split at h
    · cases h
    · rename_i hkeys
      split at h
      · rename_i cipher refreshAfterSec expireAfterSec domainId baseCipherId h1 h2 h3 h4 h5
        split at h
        · cases h
        · rename_i hlen
          simp only [Option.some.injEq, Except.ok.injEq] at h
          subst h
          obtain ⟨hr1, hr2, hr3⟩ := cipherRefreshAfterSec_spec h2
          obtain ⟨he1, he2, he3⟩ := cipherExpireAfterSec_spec h3
          simp only [Bool.or_eq_true, Bool.not_eq_true', not_or, Bool.not_eq_false] at hkeys
          refine ⟨⟨h1, h4, h5⟩, ⟨hr1, hr2, he1, he2⟩, not_lt.mp hlen, rfl, ?_, ?_, ?_⟩
          · simp [cipherEntryTyped, JsonValue.member, h1, h4, h5, hr3, he3]
          · simp only [hasCipherKeys, JsonValue.IsObject, JsonValue.member, Bool.true_and,
              Bool.and_eq_true]
            exact ⟨⟨hkeys.1.1, hkeys.1.2⟩, hkeys.2⟩
          · simp [cipherKeyLength, JsonValue.member, h1]
      · cases h
  | null => simp [parseCipherDetail] at h
  | bool b => simp [parseCipherDetail] at h
  | int n => simp [parseCipherDetail] at h
  | double m e => simp [parseCipherDetail] at h
  | string s => simp [parseCipherDetail] at h
  | array elems => simp [parseCipherDetail] at h

/-- An element that is not an object with the three keys makes `parseCipherDetail`
throw rest-malformed-response, and only such an element does. -/
theorem parseCipherDetail_malformed_iff (sys : Sys) (e : JsonValue) :
    parseCipherDetail sys e = some (.error Error.rest_malformed_response) ↔
      hasCipherKeys e = false := by
  cases e with
  | object members =>
    unfold parseCipherDetail
    simp only [hasCipherKeys, JsonValue.IsObject, JsonValue.member, Bool.true_and]
    cases h1 : (findMember BASE_CIPHER_ID_TAG members).isSome <;>
    cases h2 : (findMember BASE_CIPHER_TAG members).isSome <;>
    cases h3 : (findMember ENCRYPT_DOMAIN_ID_TAG members).isSome <;>
    simp
    split
    · split <;> simp
    · simp
  | null => simp [parseCipherDetail, hasCipherKeys, JsonValue.IsObject]
  | bool b => simp [parseCipherDetail, hasCipherKeys, JsonValue.IsObject]
  | int n => simp [parseCipherDetail, hasCipherKeys, JsonValue.IsObject]
  | double m e => simp [parseCipherDetail, hasCipherKeys, JsonValue.IsObject]
  | string s => simp [parseCipherDetail, hasCipherKeys, JsonValue.IsObject]
  | array elems => simp [parseCipherDetail, hasCipherKeys, JsonValue.IsObject]

theorem int64OrAbsent_refresh {members : List (String × JsonValue)}
    (h : int64OrAbsent (findMember REFRESH_AFTER_SEC members) = true) :
    ∃ r, cipherRefreshAfterSec members = some r := by
  unfold cipherRefreshAfterSec
  cases hf : findMember REFRESH_AFTER_SEC members with
  | none => exact ⟨none, rfl⟩
  | some v =>
    rw [hf] at h
    simp only [int64OrAbsent, Option.isSome_iff_exists] at h
    obtain ⟨n, hn⟩ := h
    simp only [hn]
    split
    · exact ⟨_, rfl⟩
    · exact ⟨_, rfl⟩

theorem int64OrAbsent_expire {members : List (String × JsonValue)}
    (h : int64OrAbsent (findMember EXPIRE_AFTER_SEC members) = true) :
    ∃ r, cipherExpireAfterSec members = some r := by
  unfold cipherExpireAfterSec
  cases hf : findMember EXPIRE_AFTER_SEC members with
  | none => exact ⟨none, rfl⟩
  | some v =>
    rw [hf] at h
    simp only [int64OrAbsent, Option.isSome_iff_exists] at h
    obtain ⟨n, hn⟩ := h
    simp only [hn]
    exact ⟨_, rfl⟩

/-- On an entry whose members have the types of the schema, `parseCipherDetail`
throws rest-max-base-cipher-len when the key is longer than `MAX_BASE_CIPHER_LEN`
and succeeds otherwise. -/
theorem parseCipherDetail_typed {sys : Sys} {e : JsonValue} (ht : cipherEntryTyped e = true) :
    (sys.MAX_BASE_CIPHER_LEN < cipherKeyLength e →
      parseCipherDetail sys e = some (.error Error.rest_max_base_cipher_len)) ∧
    (cipherKeyLength e ≤ sys.MAX_BASE_CIPHER_LEN →
      ∃ d, parseCipherDetail sys e = some (.ok d)) := by
  cases e with
  | object members =>
    simp only [cipherEntryTyped, JsonValue.member, Bool.and_eq_true] at ht
    obtain ⟨⟨⟨⟨h1, h4⟩, h5⟩, h2⟩, h3⟩ := ht
    obtain ⟨r, hr⟩ := int64OrAbsent_refresh h2
    obtain ⟨x, hx⟩ := int64OrAbsent_expire h3
    obtain ⟨domainId, hd⟩ := Option.isSome_iff_exists.mp h4
    obtain ⟨baseCipherId, hb⟩ := Option.isSome_iff_exists.mp h5
    cases hc : findMember BASE_CIPHER_TAG members with
    | none => rw [hc] at h1; cases h1
    | some v =>
      cases v with
      | string cipher =>
        have hd1 : (findMember ENCRYPT_DOMAIN_ID_TAG members).isSome = true := by
          cases hq : findMember ENCRYPT_DOMAIN_ID_TAG members with
          | none => rw [hq] at hd; cases hd
          | some _ => rfl
        have hb1 : (findMember BASE_CIPHER_ID_TAG members).isSome = true := by
          cases hq : findMember BASE_CIPHER_ID_TAG members with
          | none => rw [hq] at hb; cases hb
          | some _ => rfl
        unfold parseCipherDetail
        simp only [cipherKeyLength, JsonValue.member, hc, hr, hx, hd, hb, hd1, hb1,
          Option.isSome_some, Bool.not_true, Bool.or_self, Bool.false_eq_true, if_false]
        constructor
        · intro hl
          rw [if_pos hl]
        · intro hl
          rw [if_neg (not_lt.mpr hl)]
          exact ⟨_, rfl⟩
      | null => rw [hc] at h1; cases h1
      | bool b => rw [hc] at h1; cases h1
      | int n => rw [hc] at h1; cases h1
      | double m e => rw [hc] at h1; cases h1
      | array elems => rw [hc] at h1; cases h1
      | object ms => rw [hc] at h1; cases h1
  | null => simp [cipherEntryTyped, JsonValue.member] at ht
  | bool b => simp [cipherEntryTyped, JsonValue.member] at ht
  | int n => simp [cipherEntryTyped, JsonValue.member] at ht
  | double m e => simp [cipherEntryTyped, JsonValue.member] at ht
  | string s => simp [cipherEntryTyped, JsonValue.member] at ht
  | array elems => simp [cipherEntryTyped, JsonValue.member] at ht

/-! ### Side-band URL refresh -/

/-- After `dropCachedKmsUrls` the heap is empty; the other fields are as before. -/
theorem dropCachedKmsUrls_eq (ctx : RESTKmsConnectorCtx) :
    dropCachedKmsUrls ctx = { ctx with kmsUrlHeap := { c := [] } } := by
  have h := dropLoop_empty ctx.kmsUrlHeap.size ctx.kmsUrlHeap (le_refl _)
  unfold dropCachedKmsUrls
  cases hd : dropLoop ctx.kmsUrlHeap.size ctx.kmsUrlHeap with
  | mk c =>
    rw [hd] at h
    simp only at h
    subst h
    rfl

/-- The loop of `extractKmsUrls` over an array of strings adds one fresh endpoint
per string, in order. -/
theorem extractKmsUrlsLoop_strings (sys : Sys) (urls : List String) (c : RESTKmsConnectorCtx) :
    extractKmsUrlsLoop sys (urls.map JsonValue.string) c =
      (.ok (), { c with
        kmsUrlHeap := { c := c.kmsUrlHeap.c ++ freshEndpoints sys c.nAllocs urls }
        nAllocs := c.nAllocs + urls.length }) := by
  induction urls generalizing c with
  | nil => simp [extractKmsUrlsLoop, freshEndpoints]
  | cons u us ih =>
    simp only [List.map_cons, extractKmsUrlsLoop, ih, emplaceNewUrl, KmsUrlMinHeap.emplace,
      freshEndpoints, List.append_assoc, List.singleton_append, List.length_cons]
    congr 2
    omega

/-- With `kms_urls` an array, `extractKmsUrls` is defined. -/
theorem extractKmsUrls_array (sys : Sys) (ctx : RESTKmsConnectorCtx) (doc : JsonValue)
    (elems : List JsonValue) (h : doc.member KMS_URLS_TAG = some (.array elems)) :
    extractKmsUrls sys ctx doc =
      match extractKmsUrlsLoop sys elems { ctx with kmsUrlHeap := { c := [] } } with
      | (.ok (), ctx2) => some (.ok (), { ctx2 with lastKmsUrlsRefreshTs := sys.now })
      | (.error e, ctx2) => some (.error e, ctx2) := by
  unfold extractKmsUrls
  simp only [dropCachedKmsUrls_eq, KmsUrlMinHeap.empty, List.isEmpty_nil, Bool.not_true,
    Bool.false_eq_true, if_false, h]

/-- The four cases of `checkDocForNewKmsUrls` on a JSON object. -/
theorem checkDocForNewKmsUrls_cases (sys : Sys) (ctx : RESTKmsConnectorCtx)
    (members : List (String × JsonValue)) :
    (findMember KMS_URLS_TAG members = none →
      checkDocForNewKmsUrls sys ctx (.object members) = some ctx) ∧
    (findMember KMS_URLS_TAG members = some .null →
      checkDocForNewKmsUrls sys ctx (.object members) = some ctx) ∧
    (∀ elems, findMember KMS_URLS_TAG members = some (.array elems) →
      checkDocForNewKmsUrls sys ctx (.object members) =
        some (match extractKmsUrlsLoop sys elems { ctx with kmsUrlHeap := { c := [] } } with
          | (.ok (), ctx2) => { ctx2 with lastKmsUrlsRefreshTs := sys.now }
          | (.error _, ctx2) => ctx2)) ∧
    (∀ v, findMember KMS_URLS_TAG members = some v → v.IsNull = false → v.IsArray = false →
      checkDocForNewKmsUrls sys ctx (.object members) = none) := by
  refine ⟨?_, ?_, ?_, ?_⟩
  · intro h
    simp [checkDocForNewKmsUrls, JsonValue.HasMember, h]
  · intro h
    simp [checkDocForNewKmsUrls, JsonValue.HasMember, JsonValue.member, h, JsonValue.IsNull]
  · intro elems h
    have hm : (JsonValue.object members).member KMS_URLS_TAG = some (.array elems) := h
    simp only [checkDocForNewKmsUrls, JsonValue.HasMember, h, Option.isSome_some, hm,
      JsonValue.IsNull, Bool.false_eq_true, if_false, extractKmsUrls_array sys ctx _ elems hm]
    cases extractKmsUrlsLoop sys elems { ctx with kmsUrlHeap := { c := [] } } with
    | mk r c2 =>
      cases r with
      | ok u => cases u; rfl
      | error e => rfl
  · intro v h hnull harr
    have hm : (JsonValue.object members).member KMS_URLS_TAG = some v := h
    simp only [checkDocForNewKmsUrls, JsonValue.HasMember, h, Option.isSome_some, hm, hnull,
      Bool.false_eq_true, if_false]
    unfold extractKmsUrls
    simp only [dropCachedKmsUrls_eq, KmsUrlMinHeap.empty, List.isEmpty_nil, Bool.not_true,
      Bool.false_eq_true, if_false, hm]
    cases v <;> simp [JsonValue.IsArray] at harr ⊢

/-- With `kms_urls` absent, null or an array, `checkDocForNewKmsUrls` is defined. -/
theorem checkDocForNewKmsUrls_defined (sys : Sys) (ctx : RESTKmsConnectorCtx)
    (members : List (String × JsonValue))
    (h : kmsUrlsIsArrayOrAbsent (.object members) = true) :
    ∃ ctx2, checkDocForNewKmsUrls sys ctx (.object members) = some ctx2 := by
  obtain ⟨h1, h2, h3, _⟩ := checkDocForNewKmsUrls_cases sys ctx members
  simp only [kmsUrlsIsArrayOrAbsent, JsonValue.member] at h
  cases hf : findMember KMS_URLS_TAG members with
  | none => exact ⟨_, h1 hf⟩
  | some v =>
    cases v with
    | null => exact ⟨_, h2 hf⟩
    | array elems => exact ⟨_, h3 elems hf⟩
    | bool b => rw [hf] at h; cases h
    | int n => rw [hf] at h; cases h
    | double m e => rw [hf] at h; cases h
    | string s => rw [hf] at h; cases h
    | object ms => rw [hf] at h; cases h

/-! ### Arithmetic of doubles -/

/-- The binary search keeps `2^l ≤ a`. -/
theorem bitLength_fold_lower (a : Nat) (steps : List Nat) (l : Nat) (h : 2 ^ l ≤ a) :
    2 ^ (steps.foldl (bitLengthStep a) l) ≤ a := by
  induction steps generalizing l with
  | nil => exact h
  | cons i rest ih =>
    rw [List.foldl_cons]
    apply ih
    unfold bitLengthStep
    split
    · rename_i hc
      rwa [Nat.one_shiftLeft] at hc
    · exact h

/-- Over the steps `2^k, ..., 2, 1` the binary search ends within one digit of
`a`. -/
theorem bitLength_fold_upper (a : Nat) (k l : Nat) (h : a < 2 ^ (l + 2 ^ (k + 1))) :
    a < 2 ^ (((List.range (k + 1)).reverse.map (fun j => 2 ^ j)).foldl (bitLengthStep a) l + 1) := by
  induction k generalizing l with
  | zero =>
    have hl : ((List.range (0 + 1)).reverse.map (fun j => 2 ^ j)) = [1] := rfl
    rw [hl, List.foldl_cons, List.foldl_nil]
    unfold bitLengthStep
    split
    · simpa [Nat.add_assoc] using h
    · rename_i hc
      rw [Nat.one_shiftLeft] at hc
      exact not_le.mp hc
  | succ k ih =>
    rw [List.range_succ, List.reverse_append, List.reverse_singleton, List.singleton_append,
      List.map_cons, List.foldl_cons]
    apply ih
    unfold bitLengthStep
    split
    · rw [Nat.add_assoc, ← two_mul, ← pow_succ']
      exact h
    · rename_i hc
      rw [Nat.one_shiftLeft] at hc
      exact not_le.mp hc

/-- `bitLength a` is the number of binary digits of `a`. -/
theorem bitLength_spec (a : Nat) (h0 : 0 < a) (h : a < 2 ^ 4096) :
    2 ^ (bitLength a - 1) ≤ a ∧ a < 2 ^ bitLength a := by
  unfold bitLength
  rw [if_neg (by omega)]
  constructor
  · rw [Nat.add_sub_cancel]
    exact bitLength_fold_lower a _ 0 (by simpa using h0)
  · have e : (4096 : Nat) = 0 + 2 ^ (11 + 1) := by norm_num
    rw [e] at h
    exact bitLength_fold_upper a 11 0 h

/-- A number below `2^n` has at most `n` binary digits. -/
theorem bitLength_le (a n : Nat) (h : a < 2 ^ n) : bitLength a ≤ n := by
  unfold bitLength
  split
  · exact Nat.zero_le _
  · rename_i h0
    have hl := bitLength_fold_lower a [2048, 1024, 512, 256, 128, 64, 32, 16, 8, 4, 2, 1] 0
      (by simpa using Nat.pos_of_ne_zero h0)
    have := lt_of_le_of_lt hl h
    have := (Nat.pow_lt_pow_iff_right (by decide : 1 < 2)).mp this
    omega

/-- The units of an integer, over any scale `2^k`. -/
theorem scaled_units (k : Nat) (n : Int) :
    (if n < 0 then -((n.natAbs <<< k : Nat) : Int) else ((n.natAbs <<< k : Nat) : Int)) =
      n * ((2 ^ k : Nat) : Int) := by
  rw [Nat.shiftLeft_eq]
  split
  · rename_i h
    rw [Nat.cast_mul, ← neg_mul, Int.ofNat_natAbs_of_nonpos (le_of_lt h), neg_neg]
  · rename_i h
    rw [Nat.cast_mul, Int.natAbs_of_nonneg (not_lt.mp h)]

/-- The magnitude of scaled units. -/
theorem scaled_natAbs (k : Nat) (n : Int) :
    (n * ((2 ^ k : Nat) : Int)).natAbs = n.natAbs * 2 ^ k := by
  rw [Int.natAbs_mul, Int.natAbs_ofNat]

/-- A magnitude below `2^k` is below the shift `1 <<< k`. -/
theorem not_one_shiftLeft_le (k a : Nat) (h : a < 2 ^ k) : ¬ 1 <<< k ≤ a := by
  rw [Nat.one_shiftLeft]
  exact not_le.mpr h

/-- Scaling a magnitude of at most `2^b` by `2^j` stays below `2^k` when
`b + j < k`. -/
theorem scaled_lt (a b j k : Nat) (h : a ≤ 2 ^ b) (hk : b + j < k) : a * 2 ^ j < 2 ^ k :=
  calc a * 2 ^ j ≤ 2 ^ b * 2 ^ j := Nat.mul_le_mul_right _ h
    _ = 2 ^ (b + j) := (pow_add 2 b j).symm
    _ < 2 ^ k := Nat.pow_lt_pow_right (by decide) hk

/-- Rounding does not change a magnitude whose dropped digits are all zero. -/
theorem round_magnitude (a s : Nat) (hdvd : 2 ^ s ∣ a) :
    (if 1 <<< s < 2 * (a % (1 <<< s)) ∨ (2 * (a % (1 <<< s)) = 1 <<< s ∧ (a >>> s) % 2 = 1)
      then a >>> s + 1 else a >>> s) <<< s = a := by
  have hr : a % 2 ^ s = 0 := Nat.mod_eq_zero_of_dvd hdvd
  have hpos : 0 < 2 ^ s := Nat.pow_pos (by decide)
  rw [Nat.one_shiftLeft, hr, Nat.shiftLeft_eq, Nat.shiftRight_eq_div_pow,
    if_neg (by omega), Nat.div_mul_cancel hdvd]

/-- A value with at most 53 significant binary digits, below `2^1024`, is a
double: rounding leaves it as it is. -/
theorem round_exact (u : Int) (m j : Nat) (hu : u.natAbs = m * 2 ^ j) (hm : m < 2 ^ 53)
    (hlt : u.natAbs < 2 ^ 2098) : Double.round u = .finite u := by
  have hs : bitLength u.natAbs - 53 ≤ j := by
    have : u.natAbs < 2 ^ (53 + j) := by
      rw [hu, pow_add]
      exact Nat.mul_lt_mul_of_pos_right hm (Nat.pow_pos (by decide))
    have := bitLength_le _ _ this
    omega
  have hdvd : 2 ^ (bitLength u.natAbs - 53) ∣ u.natAbs :=
    Dvd.dvd.trans (pow_dvd_pow 2 hs) (hu ▸ Dvd.intro_left m rfl)
  unfold Double.round
  simp only []
  rewrite [round_magnitude _ _ hdvd, if_neg (not_one_shiftLeft_le 2098 _ hlt)]
  congr 1
  split
  · rename_i h
    rw [Int.ofNat_natAbs_of_nonpos (le_of_lt h), neg_neg]
  · rename_i h
    exact Int.natAbs_of_nonneg (not_lt.mp h)

/-- An integer of magnitude at most `2^53` is converted to `double` exactly. -/
theorem ofInt_exact (n : Int) (h : n.natAbs ≤ 2 ^ 53) :
    Double.ofInt n = .finite (n * ((2 ^ 1074 : Nat) : Int)) := by
  unfold Double.ofInt
  rewrite [scaled_units 1074 n]
  have habs := scaled_natAbs 1074 n
  have hlt := scaled_lt n.natAbs 53 1074 2098 h (by decide)
  rcases Nat.lt_or_ge n.natAbs (2 ^ 53) with hn | hge
  · exact round_exact _ n.natAbs 1074 habs hn (habs.symm ▸ hlt)
  · have he : n.natAbs = 2 ^ 53 := le_antisymm h hge
    refine round_exact _ 1 (53 + 1074) ?_ (by decide) (habs.symm ▸ hlt)
    rewrite [habs, he, one_mul]
    exact (pow_add 2 53 1074).symm

/-- The double sum of two integers is exact when they and their sum have
magnitude at most `2^53`. -/
theorem add_ofInt_exact (t n : Int) (ht : t.natAbs ≤ 2 ^ 53) (hn : n.natAbs ≤ 2 ^ 53)
    (hs : (t + n).natAbs ≤ 2 ^ 53) :
    Double.add (Double.ofInt t) (Double.ofInt n) = Double.ofInt (t + n) := by
  have h1 := ofInt_exact (t + n) hs
  rewrite [ofInt_exact t ht, ofInt_exact n hn, h1]
  unfold Double.ofInt at h1
  rewrite [scaled_units 1074 (t + n)] at h1
  show Double.round _ = _
  rewrite [← add_mul]
  exact h1

/-! ### Entries of the blob-metadata parser -/

theorem forall₂_mem_left {α β : Type} {R : α → β → Prop} {l1 : List α} {l2 : List β}
    (h : List.Forall₂ R l1 l2) {a : α} (ha : a ∈ l1) : ∃ b, b ∈ l2 ∧ R a b := by
  induction h with
  | nil => cases ha
  | cons hab _ ih =>
    rcases List.mem_cons.mp ha with rfl | ha
    · exact ⟨_, List.mem_cons_self _ _, hab⟩
    · obtain ⟨b, hb, hr⟩ := ih ha
      exact ⟨b, List.mem_cons_of_mem _ hb, hr⟩

/-- What `parseBlobLocation` returns: a location read off the members `id` and
`path`, or rest-malformed-response for a location that lacks the shape. -/
theorem parseBlobLocation_spec (l : JsonValue) :
    (∀ loc, parseBlobLocation l = some (.ok loc) →
      BlobLocationOf l loc ∧ locationShaped l = true) ∧
    (∀ e, parseBlobLocation l = some (.error e) →
      e = Error.rest_malformed_response ∧ locationShaped l = false) := by
  cases l with
  | object members =>
    unfold parseBlobLocation
    simp only [locationShaped, BlobLocationOf, JsonValue.IsObject, JsonValue.member,
      Bool.true_and]
    cases h1 : (findMember BLOB_METADATA_LOCATION_ID_TAG members).isSome <;>
    cases h2 : (findMember BLOB_METADATA_LOCATION_PATH_TAG members).isSome <;>
    simp
    constructor
    · intro loc h
      split at h
      · rename_i locationId path h3 h4
        simp only [Option.some.injEq, Except.ok.injEq] at h
        subst h
        exact ⟨h3, h4⟩
      · cases h
    · intro e h
      split at h <;> cases h
  | null => simp [parseBlobLocation, locationShaped, JsonValue.IsObject, eq_comm]
  | bool b => simp [parseBlobLocation, locationShaped, JsonValue.IsObject, eq_comm]
  | int n => simp [parseBlobLocation, locationShaped, JsonValue.IsObject, eq_comm]
  | double m e => simp [parseBlobLocation, locationShaped, JsonValue.IsObject, eq_comm]
  | string s => simp [parseBlobLocation, locationShaped, JsonValue.IsObject, eq_comm]
  | array elems => simp [parseBlobLocation, locationShaped, JsonValue.IsObject, eq_comm]

/-- What the loop over `locations` returns. -/
theorem parseBlobLocations_spec (locs : List JsonValue) :
    (∀ ls, parseBlobLocations locs = some (.ok ls) →
      List.Forall₂ BlobLocationOf locs ls ∧ locs.all locationShaped = true) ∧
    (∀ e, parseBlobLocations locs = some (.error e) →
      e = Error.rest_malformed_response ∧ locs.all locationShaped = false) := by
  rw [parseBlobLocations_eq]
  constructor
  · intro ls h
    have h2 := (parseEach_ok_iff _ _ _).mp h
    constructor
    · exact h2.imp (fun {a b} hab => ((parseBlobLocation_spec a).1 b hab).1)
    · rw [List.all_eq_true]
      intro a ha
      obtain ⟨b, _, hab⟩ := forall₂_mem_left h2 ha
      exact ((parseBlobLocation_spec a).1 b hab).2
  · intro e h
    obtain ⟨pre, bad, post, hl, _, hbad⟩ := parseEach_error_elim _ _ _ h
    obtain ⟨he, hs⟩ := (parseBlobLocation_spec bad).2 e hbad
    refine ⟨he, ?_⟩
    rw [hl, List.all_eq_false]
    exact ⟨bad, by simp, by simp [hs]⟩

/-- The refresh deadline returned for a blob-metadata entry. -/
theorem blobRefreshAt_spec {sys : Sys} {members : List (String × JsonValue)} {r : Double}
    (h : blobRefreshAt sys members = some r) :
    (findMember REFRESH_AFTER_SEC members = none ∨
      ∃ n, findMember REFRESH_AFTER_SEC members = some (.int n)) ∧
    (∀ n, findMember REFRESH_AFTER_SEC members = some (.int n) → 0 < n →
      r = Double.add sys.now (Double.ofInt n)) ∧
    ((findMember REFRESH_AFTER_SEC members = none ∨
        ∃ n, findMember REFRESH_AFTER_SEC members = some (.int n) ∧ n ≤ 0) →
      r = Double.max) := by
  unfold blobRefreshAt at h
  cases hf : findMember REFRESH_AFTER_SEC members with
  | none =>
    rw [hf] at h
    simp only [Option.some.injEq] at h
    subst h
    simp
  | some v =>
    rw [hf] at h
    simp only at h
    cases hg : v.GetInt64 with
    | none => rw [hg] at h; cases h
    | some m =>
      rw [hg] at h
      have hv := GetInt64_eq_some hg
      subst hv
      simp only at h
      by_cases hm : m > 0
      · rw [if_pos hm] at h
        simp only [Option.some.injEq] at h
        subst h
        refine ⟨Or.inr ⟨m, rfl⟩, fun n hn _ => ?_, fun hc => ?_⟩
        · simp only [Option.some.injEq, JsonValue.int.injEq] at hn
          rw [hn]
        · rcases hc with hc | ⟨n, hn, hle⟩
          · cases hc
          · simp only [Option.some.injEq, JsonValue.int.injEq] at hn
            subst hn
            omega
      · rw [if_neg hm] at h
        simp only [Option.some.injEq] at h
        subst h
        refine ⟨Or.inr ⟨m, rfl⟩, fun n hn hpos => ?_, fun _ => rfl⟩
        simp only [Option.some.injEq, JsonValue.int.injEq] at hn
        subst hn
        exact absurd hpos hm

/-- The expiry deadline returned for a blob-metadata entry. -/
theorem blobExpireAt_spec {sys : Sys} {members : List (String × JsonValue)} {r : Double}
    (h : blobExpireAt sys members = some r) :
    (findMember EXPIRE_AFTER_SEC members = none ∨
      ∃ n, findMember EXPIRE_AFTER_SEC members = some (.int n)) ∧
    (∀ n, findMember EXPIRE_AFTER_SEC members = some (.int n) →
      r = Double.add sys.now (Double.ofInt n)) ∧
    (findMember EXPIRE_AFTER_SEC members = none → r = Double.max) := by
  unfold blobExpireAt at h
  cases hf : findMember EXPIRE_AFTER_SEC members with
  | none =>
    rw [hf] at h
    simp only [Option.some.injEq] at h
    subst h
    simp
  | some v =>
    rw [hf] at h
    simp only at h
    cases hg : v.GetInt64 with
    | none => rw [hg] at h; cases h
    | some m =>
      rw [hg] at h
      have hv := GetInt64_eq_some hg
      subst hv
      simp only [Option.some.injEq] at h
      subst h
      refine ⟨Or.inr ⟨m, rfl⟩, fun n hn => ?_, fun hc => by cases hc⟩
      simp only [Option.some.injEq, JsonValue.int.injEq] at hn
      rw [hn]

/-- What `parseBlobDetail` returns: a detail read off the members of the entry,
or rest-malformed-response for an entry that lacks the shape. -/
theorem parseBlobDetail_spec (sys : Sys) (e : JsonValue) :
    (∀ d, parseBlobDetail sys e = some (.ok d) →
      BlobDetailOf e d ∧ BlobDeadlinesOf sys e d ∧ blobEntryShaped e = true) ∧
    (∀ err, parseBlobDetail sys e = some (.error err) →
      err = Error.rest_malformed_response ∧ blobEntryShaped e = false) := by
  cases e with
  | object members =>
    unfold parseBlobDetail
    simp only [blobEntryShaped, BlobDetailOf, BlobDeadlinesOf, JsonValue.IsObject,
      JsonValue.member, Bool.true_and]
    cases h1 : (findMember BLOB_METADATA_DOMAIN_ID_TAG members).isSome with
    | false => simp [eq_comm]
    | true =>
      cases h2 : findMember BLOB_METADATA_LOCATIONS_TAG members with
      | none => simp [eq_comm]
      | some v =>
        cases v with
        | array locs =>
          simp only [JsonValue.IsArray, Bool.not_true, Bool.or_self, Bool.false_eq_true,
            if_false, Bool.true_and]
          obtain ⟨hok, herr⟩ := parseBlobLocations_spec locs
          constructor
          · intro d h
            split at h
            · cases h
            · rename_i domainId hd
              split at h
              · cases h
              · cases h
              · rename_i locations hl
                split at h
                · rename_i refreshAt expireAt hr he
                  simp only [Option.some.injEq, Except.ok.injEq] at h
                  subst h
                  obtain ⟨hf, hs⟩ := hok _ hl
                  obtain ⟨r0, r1, r2⟩ := blobRefreshAt_spec hr
                  obtain ⟨e0, e1, e2⟩ := blobExpireAt_spec he
                  exact ⟨⟨hd, locs, rfl, hf⟩, ⟨r0, r1, r2, e0, e1, e2⟩, hs⟩
                · cases h
          · intro err h
            split at h
            · cases h
            · split at h
              · cases h
              · rename_i e2 hl
                simp only [Option.some.injEq, Except.error.injEq] at h
                subst h
                exact herr _ hl
              · split at h <;> cases h
        | null => simp [JsonValue.IsArray, eq_comm]
        | bool b => simp [JsonValue.IsArray, eq_comm]
        | int n => simp [JsonValue.IsArray, eq_comm]
        | double m e => simp [JsonValue.IsArray, eq_comm]
        | string s => simp [JsonValue.IsArray, eq_comm]
        | object ms => simp [JsonValue.IsArray, eq_comm]
  | null => simp [parseBlobDetail, blobEntryShaped, JsonValue.IsObject, eq_comm]
  | bool b => simp [parseBlobDetail, blobEntryShaped, JsonValue.IsObject, eq_comm]
  | int n => simp [parseBlobDetail, blobEntryShaped, JsonValue.IsObject, eq_comm]
  | double m e => simp [parseBlobDetail, blobEntryShaped, JsonValue.IsObject, eq_comm]
  | string s => simp [parseBlobDetail, blobEntryShaped, JsonValue.IsObject, eq_comm]
  | array elems => simp [parseBlobDetail, blobEntryShaped, JsonValue.IsObject, eq_comm]

/-! ### Successful parses -/

/-- A normal return of `checkResponseForError` means a JSON object that satisfies
the version rule and for which `getError` reports no error. -/
theorem checkResponseForError_ok_elim {sys : Sys} {doc : JsonValue} {isCipherType : Bool}
    (h : checkResponseForError sys doc isCipherType = some (.ok ())) :
    ∃ members, doc = .object members ∧ VersionAccepted sys doc isCipherType ∧
      sys.getError doc = false := by
  cases doc with
  | object members =>
    refine ⟨members, rfl, ?_⟩
    obtain ⟨h1, h2⟩ := checkResponseForError_object sys members isCipherType
    by_cases hv : VersionAccepted sys (.object members) isCipherType
    · refine ⟨hv, ?_⟩
      rw [h1 hv] at h
      cases hg : sys.getError (.object members) with
      | false => rfl
      | true => rw [hg] at h; simp at h
    · rw [h2 hv] at h
      simp at h
  | null => simp [checkResponseForError, JsonValue.HasMember] at h
  | bool b => simp [checkResponseForError, JsonValue.HasMember] at h
  | int n => simp [checkResponseForError, JsonValue.HasMember] at h
  | double m e => simp [checkResponseForError, JsonValue.HasMember] at h
  | string s => simp [checkResponseForError, JsonValue.HasMember] at h
  | array elems => simp [checkResponseForError, JsonValue.HasMember] at h

/-- What a successful `parseEncryptCipherResponse` went through. -/
theorem parseEncryptCipherResponse_ok_elim {sys : Sys} {ctx ctx2 : RESTKmsConnectorCtx}
    {resp : ResponseRef} {result : List EncryptCipherKeyDetailsRef}
    (h : parseEncryptCipherResponse sys ctx resp = some (.ok result, ctx2)) :
    ∃ r elems, resp = some r ∧ r.code = HTTP_STATUS_CODE_OK ∧
      VersionAccepted sys r.content true ∧ sys.getError r.content = false ∧
      r.content.member CIPHER_KEY_DETAILS_TAG = some (.array elems) ∧
      parseEach (parseCipherDetail sys) elems = some (.ok result) ∧
      checkDocForNewKmsUrls sys ctx r.content = some ctx2 := by
  unfold parseEncryptCipherResponse at h
  split at h
  · simp at h
  · rename_i r
    split at h
    · simp at h
    · rename_i hcode
      simp only at h
      split at h
      · cases h
      · simp at h
      · rename_i hchk
        obtain ⟨members, hdoc, hv, herr⟩ := checkResponseForError_ok_elim hchk
        split at h
        · rename_i elems hmem
          rw [parseCipherDetails_eq] at h
          split at h
          · cases h
          · simp at h
          · rename_i res hres
            split at h
            · cases h
            · rename_i c2 hc2
              simp only [Option.some.injEq, Prod.mk.injEq, Except.ok.injEq] at h
              obtain ⟨h1, h2⟩ := h
              subst h1 h2
              exact ⟨r, elems, rfl, not_not.mp hcode, hv, herr, hmem, hres, hc2⟩
        · simp at h

/-- What a successful `parseBlobMetadataResponse` went through. -/
theorem parseBlobMetadataResponse_ok_elim {sys : Sys} {ctx ctx2 : RESTKmsConnectorCtx}
    {resp : ResponseRef} {result : List BlobMetadataDetailsRef}
    (h : parseBlobMetadataResponse sys ctx resp = some (.ok result, ctx2)) :
    ∃ r elems, resp = some r ∧ r.code = HTTP_STATUS_CODE_OK ∧
      VersionAccepted sys r.content false ∧ sys.getError r.content = false ∧
      r.content.member BLOB_METADATA_DETAILS_TAG = some (.array elems) ∧
      parseEach (parseBlobDetail sys) elems = some (.ok result) ∧
      checkDocForNewKmsUrls sys ctx r.content = some ctx2 := by
  unfold parseBlobMetadataResponse at h
  split at h
  · cases h
  · rename_i r
    split at h
    · simp at h
    · rename_i hcode
      simp only at h
      split at h
      · cases h
      · simp at h
      · rename_i hchk
        obtain ⟨members, hdoc, hv, herr⟩ := checkResponseForError_ok_elim hchk
        split at h
        · rename_i elems hmem
          rw [parseBlobDetails_eq] at h
          split at h
          · cases h
          · simp at h
          · rename_i res hres
            split at h
            · cases h
            · rename_i c2 hc2
              simp only [Option.some.injEq, Prod.mk.injEq, Except.ok.injEq] at h
              obtain ⟨h1, h2⟩ := h
              subst h1 h2
              exact ⟨r, elems, rfl, not_not.mp hcode, hv, herr, hmem, hres, hc2⟩
        · simp at h

theorem forall₂_length {α β : Type} {R : α → β → Prop} {l1 : List α} {l2 : List β}
    (h : List.Forall₂ R l1 l2) : l2.length = l1.length := by
  induction h with
  | nil => rfl
  | cons _ _ ih => simp [ih]

/-! ### Parser: what a successful parse returns -/

/-- C11: on every response on which `parseEncryptCipherResponse` succeeds, the
returned list has one entry per element of `cipher_key_details`, in order, and
each entry carries the domain id, the base cipher id and the key bytes (the same
string, hence the same length and the same bytes) of its element; on every
response on which `parseBlobMetadataResponse` succeeds, the returned list has
one entry per element of `blob_metadata_details`, in order, with the domain id
of the element and one location per element of its `locations`, in order. -/
theorem parsed_details_mirror_response (sys : Sys) (ctx : RESTKmsConnectorCtx)
    (resp : ResponseRef) :
    (∀ result ctx2, parseEncryptCipherResponse sys ctx resp = some (.ok result, ctx2) →
      ∃ r elems, resp = some r ∧
        r.content.member CIPHER_KEY_DETAILS_TAG = some (.array elems) ∧
        result.length = elems.length ∧ List.Forall₂ CipherDetailOf elems result) ∧
    (∀ result ctx2, parseBlobMetadataResponse sys ctx resp = some (.ok result, ctx2) →
      ∃ r elems, resp = some r ∧
        r.content.member BLOB_METADATA_DETAILS_TAG = some (.array elems) ∧
        result.length = elems.length ∧ List.Forall₂ BlobDetailOf elems result) := by
  constructor
  · intro result ctx2 h
    obtain ⟨r, elems, hr, _, _, _, hmem, hres, _⟩ := parseEncryptCipherResponse_ok_elim h
    have hf := (parseEach_ok_iff _ _ _).mp hres
    exact ⟨r, elems, hr, hmem, forall₂_length hf,
      hf.imp (fun {a b} hab => (parseCipherDetail_ok hab).1)⟩
  · intro result ctx2 h
    obtain ⟨r, elems, hr, _, _, _, hmem, hres, _⟩ := parseBlobMetadataResponse_ok_elim h
    have hf := (parseEach_ok_iff _ _ _).mp hres
    exact ⟨r, elems, hr, hmem, forall₂_length hf,
      hf.imp (fun {a b} hab => ((parseBlobDetail_spec sys a).1 b hab).1)⟩

/-- C17: in every successful parse of a cipher response, the refresh interval of
an entry is present exactly when `refresh_after_sec` is present with a value
above 0, and is that value; the expiry interval is present exactly when
`expire_after_sec` is present, and is that value, negative values included.  In
every successful parse of a blob-metadata response, the refresh deadline of an
entry is `now() + refresh_after_sec` when the member is present and above 0 and
the largest `double` otherwise; the expiry deadline is `now() + expire_after_sec`
when the member is present and the largest `double` when it is absent.  The sum
is the one the code computes: the member is converted to `double` and added to
`now()` in `double`.  It is the exact sum whenever `now()` is a whole number and
that number, the member and their sum have magnitude at most `2^53`. -/
theorem intervals_follow_refresh_and_expire_members (sys : Sys) (ctx : RESTKmsConnectorCtx)
    (resp : ResponseRef) :
    (∀ result ctx2, parseEncryptCipherResponse sys ctx resp = some (.ok result, ctx2) →
      ∃ r elems, resp = some r ∧
        r.content.member CIPHER_KEY_DETAILS_TAG = some (.array elems) ∧
        List.Forall₂ CipherIntervalsOf elems result) ∧
    (∀ result ctx2, parseBlobMetadataResponse sys ctx resp = some (.ok result, ctx2) →
      ∃ r elems, resp = some r ∧
        r.content.member BLOB_METADATA_DETAILS_TAG = some (.array elems) ∧
        List.Forall₂ (BlobDeadlinesOf sys) elems result) ∧
    (∀ t n : Int, t.natAbs ≤ 2 ^ 53 → n.natAbs ≤ 2 ^ 53 → (t + n).natAbs ≤ 2 ^ 53 →
      Double.add (Double.ofInt t) (Double.ofInt n) = Double.ofInt (t + n)) := by
  refine ⟨?_, ?_, add_ofInt_exact⟩
  · intro result ctx2 h
    obtain ⟨r, elems, hr, _, _, _, hmem, hres, _⟩ := parseEncryptCipherResponse_ok_elim h
    have hf := (parseEach_ok_iff _ _ _).mp hres
    exact ⟨r, elems, hr, hmem, hf.imp (fun {a b} hab => (parseCipherDetail_ok hab).2.1)⟩
  · intro result ctx2 h
    obtain ⟨r, elems, hr, _, _, _, hmem, hres, _⟩ := parseBlobMetadataResponse_ok_elim h
    have hf := (parseEach_ok_iff _ _ _).mp hres
    exact ⟨r, elems, hr, hmem,
      hf.imp (fun {a b} hab => ((parseBlobDetail_spec sys a).1 b hab).2.1)⟩

/-! ### Parser: status, version and error object -/

/-- C20: a response whose status code is not 200 makes both parsers fail with
http-request-failed, whatever its body is; the result does not depend on the
body (also a body that is no JSON object gives it), and the context is left as
it was. -/
theorem non_200_status_gives_http_request_failed (sys : Sys) (ctx : RESTKmsConnectorCtx)
    (r : IncomingResponse) (hcode : r.code ≠ HTTP_STATUS_CODE_OK) :
    parseEncryptCipherResponse sys ctx (some r) =
      some (.error Error.http_request_failed, ctx) ∧
    parseBlobMetadataResponse sys ctx (some r) =
      some (.error Error.http_request_failed, ctx) := by
  constructor
  · simp only [parseEncryptCipherResponse, if_pos hcode]
  · simp only [parseBlobMetadataResponse, if_pos hcode]

/-- C12: on a status-200 response whose body is a JSON object, and for each
family, `checkResponseForError` gets past its version check (it returns normally
or throws encrypt-keys-fetch-failed) exactly when `version` is present, is an
integer (a C++ `int`), differs from `INVALID_REQUEST_VERSION` and is at most the
largest version of the family; otherwise it throws rest-malformed-response, and
so does the parser of the family, whatever else the document holds. -/
theorem version_check_decides_malformed_response (sys : Sys) (ctx : RESTKmsConnectorCtx)
    (members : List (String × JsonValue)) (isCipherType : Bool) :
    ((checkResponseForError sys (.object members) isCipherType = some (.ok ()) ∨
        checkResponseForError sys (.object members) isCipherType =
          some (.error Error.encrypt_keys_fetch_failed)) ↔
      VersionAccepted sys (.object members) isCipherType) ∧
    (checkResponseForError sys (.object members) isCipherType =
        some (.error Error.rest_malformed_response) ↔
      ¬ VersionAccepted sys (.object members) isCipherType) ∧
    (¬ VersionAccepted sys (.object members) true →
      parseEncryptCipherResponse sys ctx (response200 (.object members)) =
        some (.error Error.rest_malformed_response, ctx)) ∧
    (¬ VersionAccepted sys (.object members) false →
      parseBlobMetadataResponse sys ctx (response200 (.object members)) =
        some (.error Error.rest_malformed_response, ctx)) := by
  obtain ⟨h1, h2⟩ := checkResponseForError_object sys members isCipherType
  refine ⟨?_, ?_, ?_, ?_⟩
  · constructor
    · intro h
      by_contra hv
      rw [h2 hv] at h
      simp at h
    · intro hv
      rw [h1 hv]
      cases sys.getError (.object members) <;> simp
  · constructor
    · intro h hv
      rw [h1 hv] at h
      cases hg : sys.getError (.object members) <;> rw [hg] at h <;> simp at h
    · exact h2
  · intro hv
    simp only [parseEncryptCipherResponse, response200, ne_eq, not_true_eq_false, if_false,
      (checkResponseForError_object sys members true).2 hv]
  · intro hv
    simp only [parseBlobMetadataResponse, response200, ne_eq, not_true_eq_false, if_false,
      (checkResponseForError_object sys members false).2 hv]

/-- C13: on a status-200 response that satisfies the version rule and for which
`getError` reports an error object, both parsers fail with
encrypt-keys-fetch-failed; nothing is asked of the detail array, which may be
valid, malformed or absent. -/
theorem error_object_wins_over_details (sys : Sys) (ctx : RESTKmsConnectorCtx)
    (doc : JsonValue) (herr : sys.getError doc = true) :
    (VersionAccepted sys doc true →
      parseEncryptCipherResponse sys ctx (response200 doc) =
        some (.error Error.encrypt_keys_fetch_failed, ctx)) ∧
    (VersionAccepted sys doc false →
      parseBlobMetadataResponse sys ctx (response200 doc) =
        some (.error Error.encrypt_keys_fetch_failed, ctx)) := by
  constructor
  · intro hv
    obtain ⟨members, rfl⟩ := hv.isObject
    simp only [parseEncryptCipherResponse, response200, ne_eq, not_true_eq_false, if_false,
      (checkResponseForError_object sys members true).1 hv, herr, if_true]
  · intro hv
    obtain ⟨members, rfl⟩ := hv.isObject
    simp only [parseBlobMetadataResponse, response200, ne_eq, not_true_eq_false, if_false,
      (checkResponseForError_object sys members false).1 hv, herr, if_true]

/-! ### Parser: structure of the detail array -/

/-- C14 (amended): on a status-200 response that satisfies the version rule and
carries no error, `parseEncryptCipherResponse` fails with
rest-malformed-response when `cipher_key_details` is missing or is not an array,
and when an element of the array is not an object or lacks one of the keys
`base_cipher_id`, `base_cipher`, `encrypt_domain_id` while every element before
it is a valid entry (members of the types of the schema, key of at most
`MAX_BASE_CIPHER_LEN` bytes); it does not fail with rest-malformed-response when
`cipher_key_details` is an array of objects that all have the three keys. -/
theorem cipher_details_malformed_at_first_invalid_entry (sys : Sys)
    (ctx : RESTKmsConnectorCtx) (doc : JsonValue) (hv : VersionAccepted sys doc true)
    (herr : sys.getError doc = false) :
    ((∀ elems, doc.member CIPHER_KEY_DETAILS_TAG ≠ some (.array elems)) →
      parseEncryptCipherResponse sys ctx (response200 doc) =
        some (.error Error.rest_malformed_response, ctx)) ∧
    (∀ pre bad post, doc.member CIPHER_KEY_DETAILS_TAG = some (.array (pre ++ bad :: post)) →
      (∀ e ∈ pre, cipherEntryTyped e = true ∧ cipherKeyLength e ≤ sys.MAX_BASE_CIPHER_LEN) →
      hasCipherKeys bad = false →
      parseEncryptCipherResponse sys ctx (response200 doc) =
        some (.error Error.rest_malformed_response, ctx)) ∧
    (∀ elems, doc.member CIPHER_KEY_DETAILS_TAG = some (.array elems) →
      (∀ e ∈ elems, hasCipherKeys e = true) →
      ∀ ctx2, parseEncryptCipherResponse sys ctx (response200 doc) ≠
        some (.error Error.rest_malformed_response, ctx2)) := by
  obtain ⟨members, rfl⟩ := hv.isObject
  rw [parseEncryptCipherResponse_checked ctx hv herr]
  simp only [JsonValue.member]
  refine ⟨?_, ?_, ?_⟩
  · intro h
    split
    · rename_i elems hmem
      exact absurd hmem (h elems)
    · rfl
  · intro pre bad post hmem hpre hbad
    rw [hmem]
    simp only
    rw [parseEach_first_error (parseCipherDetail sys) pre bad post
      Error.rest_malformed_response
      (fun e he => (parseCipherDetail_typed (hpre e he).1).2 (hpre e he).2)
      ((parseCipherDetail_malformed_iff sys bad).mpr hbad)]
  · intro elems hmem hall ctx2
    rw [hmem]
    simp only
    have hne := parseEach_not_error (parseCipherDetail sys) elems Error.rest_malformed_response
      (fun e he hp => by
        have := (parseCipherDetail_malformed_iff sys e).mp hp
        rw [hall e he] at this
        cases this)
    cases hp : parseEach (parseCipherDetail sys) elems with
    | none => simp
    | some r =>
      cases r with
      | error e =>
        simp only [ne_eq, Option.some.injEq, Prod.mk.injEq, Except.error.injEq, not_and]
        intro he
        rw [hp, he] at hne
        exact absurd rfl hne
      | ok result =>
        simp only
        cases checkDocForNewKmsUrls sys ctx (.object members) <;> simp

/-- C16: on a status-200 response that satisfies the version rule, carries no
error, and is otherwise valid (`cipher_key_details` is an array of entries whose
members have the types of the schema, `kms_urls` is absent, null or an array):
when every `base_cipher` has at most `MAX_BASE_CIPHER_LEN` bytes the parse
succeeds, with one detail per entry; when some `base_cipher` has
`MAX_BASE_CIPHER_LEN + 1` bytes or more the parse fails with
rest-max-base-cipher-len. -/
theorem base_cipher_length_limit (sys : Sys) (ctx : RESTKmsConnectorCtx) (doc : JsonValue)
    (elems : List JsonValue) (hv : VersionAccepted sys doc true)
    (herr : sys.getError doc = false)
    (hmem : doc.member CIPHER_KEY_DETAILS_TAG = some (.array elems))
    (htyped : ∀ e ∈ elems, cipherEntryTyped e = true)
    (hurls : kmsUrlsIsArrayOrAbsent doc = true) :
    ((∀ e ∈ elems, cipherKeyLength e ≤ sys.MAX_BASE_CIPHER_LEN) →
      ∃ result ctx2, parseEncryptCipherResponse sys ctx (response200 doc) =
        some (.ok result, ctx2) ∧ result.length = elems.length) ∧
    ((∃ e ∈ elems, sys.MAX_BASE_CIPHER_LEN + 1 ≤ cipherKeyLength e) →
      parseEncryptCipherResponse sys ctx (response200 doc) =
        some (.error Error.rest_max_base_cipher_len, ctx)) := by
  obtain ⟨members, rfl⟩ := hv.isObject
  rw [parseEncryptCipherResponse_checked ctx hv herr]
  simp only [JsonValue.member] at hmem
  rw [hmem]
  simp only
  constructor
  · intro hlen
    obtain ⟨ds, hds⟩ := parseEach_all_ok (parseCipherDetail sys) elems
      (fun e he => (parseCipherDetail_typed (htyped e he)).2 (hlen e he))
    obtain ⟨ctx2, hc⟩ := checkDocForNewKmsUrls_defined sys ctx members hurls
    rw [hds, hc]
    exact ⟨ds, ctx2, rfl, forall₂_length ((parseEach_ok_iff _ _ _).mp hds)⟩
  · rintro ⟨e, he, hlong⟩
    obtain ⟨pre, bad, post, hl, hpre, hbad⟩ :=
      exists_first_failing (fun x => decide (cipherKeyLength x ≤ sys.MAX_BASE_CIPHER_LEN)) elems
        ⟨e, he, by simp only [decide_eq_false_iff_not, not_le]; omega⟩
    simp only [decide_eq_true_eq, decide_eq_false_iff_not, not_le] at hpre hbad
    have hin : ∀ x ∈ pre, x ∈ elems := fun x hx => by rw [hl]; simp [hx]
    rw [hl, parseEach_first_error (parseCipherDetail sys) pre bad post
      Error.rest_max_base_cipher_len
      (fun x hx => (parseCipherDetail_typed (htyped x (hin x hx))).2 (hpre x hx))
      ((parseCipherDetail_typed (htyped bad (by rw [hl]; simp))).1 hbad)]

/-- Where the behaviour of `parseBlobMetadataResponse` is defined, on a
status-200 response that satisfies the version rule and carries no error, the
parse succeeds exactly on the documents of the right structure and fails with
rest-malformed-response on the others. -/
theorem blob_parse_structure_of_defined (sys : Sys) (ctx : RESTKmsConnectorCtx)
    (doc : JsonValue) (hv : VersionAccepted sys doc false) (herr : sys.getError doc = false)
    (hdef : parseBlobMetadataResponse sys ctx (response200 doc) ≠ none) :
    ((∃ result ctx2, parseBlobMetadataResponse sys ctx (response200 doc) =
        some (.ok result, ctx2)) ↔ BlobStructureOk doc) ∧
    (¬ BlobStructureOk doc →
      parseBlobMetadataResponse sys ctx (response200 doc) =
        some (.error Error.rest_malformed_response, ctx)) := by
  obtain ⟨members, rfl⟩ := hv.isObject
  have hshape : ∀ elems result, parseEach (parseBlobDetail sys) elems = some (.ok result) →
      ∀ e ∈ elems, blobEntryShaped e = true := by
    intro elems result hres e he
    obtain ⟨d, _, hd⟩ := forall₂_mem_left ((parseEach_ok_iff _ _ _).mp hres) he
    exact ((parseBlobDetail_spec sys e).1 d hd).2.2
  have hbad : ∀ elems err, parseEach (parseBlobDetail sys) elems = some (.error err) →
      err = Error.rest_malformed_response ∧ ∃ e ∈ elems, blobEntryShaped e = false := by
    intro elems err h
    obtain ⟨pre, bad, post, hl, _, hb⟩ := parseEach_error_elim _ _ _ h
    obtain ⟨h1, h2⟩ := (parseBlobDetail_spec sys bad).2 err hb
    exact ⟨h1, bad, by rw [hl]; simp, h2⟩
  have hkey : BlobStructureOk (.object members) ∨
      parseBlobMetadataResponse sys ctx (response200 (.object members)) =
        some (.error Error.rest_malformed_response, ctx) := by
    rw [parseBlobMetadataResponse_checked ctx hv herr] at hdef ⊢
    cases hm : findMember BLOB_METADATA_DETAILS_TAG members with
    | none => right; rfl
    | some v =>
      cases v with
      | array elems =>
        rw [hm] at hdef
        simp only at hdef ⊢
        cases hp : parseEach (parseBlobDetail sys) elems with
        | none => rw [hp] at hdef; exact absurd rfl hdef
        | some r =>
          cases r with
          | error err =>
            right
            rw [(hbad elems err hp).1]
          | ok result =>
            left
            exact ⟨elems, hm, hshape elems result hp⟩
      | null => right; rfl
      | bool b => right; rfl
      | int n => right; rfl
      | double m e => right; rfl
      | string s => right; rfl
      | object ms => right; rfl
  have hsucc : (∃ result ctx2, parseBlobMetadataResponse sys ctx
      (response200 (.object members)) = some (.ok result, ctx2)) → 
      BlobStructureOk (.object members) := by
    rintro ⟨result, ctx2, h⟩
    obtain ⟨r, elems, hr, _, _, _, hmem, hres, _⟩ := parseBlobMetadataResponse_ok_elim h
    simp only [response200, Option.some.injEq] at hr
    subst hr
    exact ⟨elems, hmem, hshape elems result hres⟩
  refine ⟨⟨hsucc, ?_⟩, ?_⟩
  · rintro ⟨elems, hmem, hall⟩
    rw [parseBlobMetadataResponse_checked ctx hv herr] at hdef ⊢
    simp only [JsonValue.member] at hmem
    rw [hmem] at hdef ⊢
    simp only at hdef ⊢
    cases hp : parseEach (parseBlobDetail sys) elems with
    | none => rw [hp] at hdef; exact absurd rfl hdef
    | some r =>
      cases r with
      | error err =>
        obtain ⟨_, e, he, hs⟩ := hbad elems err hp
        rw [hall e he] at hs
        cases hs
      | ok result =>
        rw [hp] at hdef
        simp only at hdef ⊢
        cases hc : checkDocForNewKmsUrls sys ctx (.object members) with
        | none => rw [hc] at hdef; exact absurd rfl hdef
        | some c2 => exact ⟨result, c2, rfl⟩
  · intro hn
    rcases hkey with h | h
    · exact absurd h hn
    · exact h

/-! ### Definedness of the blob-metadata parser -/

/-- A loop whose body is defined on every element is defined. -/
theorem parseEach_defined {α β : Type} (f : α → Option (Except Error β)) (l : List α)
    (h : ∀ a ∈ l, f a ≠ none) : parseEach f l ≠ none := by
  induction l with
  | nil => simp [parseEach]
  | cons a rest ih =>
    have ha := h a (List.mem_cons_self _ _)
    have hr := ih (fun x hx => h x (List.mem_cons_of_mem _ hx))
    simp only [parseEach]
    cases hfa : f a with
    | none => exact absurd hfa ha
    | some r =>
      cases r with
      | error e => simp
      | ok d =>
        simp only
        cases hp : parseEach f rest with
        | none => exact absurd hp hr
        | some r2 => cases r2 <;> simp

theorem int64OrAbsent_bind {o : Option JsonValue} (h : int64OrAbsent o = true)
    (hs : o.isSome = true) : ∃ n, o.bind JsonValue.GetInt64 = some n := by
  cases o with
  | none => cases hs
  | some v =>
    simp only [int64OrAbsent, Option.isSome_iff_exists] at h
    exact h

/-- A typed location never drives `parseBlobLocation` outside the preconditions
of its accessors. -/
theorem parseBlobLocation_defined {l : JsonValue} (h : locationTyped l = true) :
    parseBlobLocation l ≠ none := by
  cases l with
  | object members =>
    simp only [locationTyped, JsonValue.member, Bool.and_eq_true] at h
    unfold parseBlobLocation
    simp only
    cases h1 : (findMember BLOB_METADATA_LOCATION_ID_TAG members).isSome with
    | false => simp
    | true =>
      cases h2 : findMember BLOB_METADATA_LOCATION_PATH_TAG members with
      | none => simp
      | some v =>
        obtain ⟨n, hn⟩ := int64OrAbsent_bind h.1 h1
        rw [h2] at h
        cases v with
        | string s => simp [hn]
        | null => simp [stringOrAbsent] at h
        | bool b => simp [stringOrAbsent] at h
        | int n => simp [stringOrAbsent] at h
        | double m e => simp [stringOrAbsent] at h
        | array elems => simp [stringOrAbsent] at h
        | object ms => simp [stringOrAbsent] at h
  | null => simp [parseBlobLocation]
  | bool b => simp [parseBlobLocation]
  | int n => simp [parseBlobLocation]
  | double m e => simp [parseBlobLocation]
  | string s => simp [parseBlobLocation]
  | array elems => simp [parseBlobLocation]

theorem blobRefreshAt_defined (sys : Sys) {members : List (String × JsonValue)}
    (h : int64OrAbsent (findMember REFRESH_AFTER_SEC members) = true) :
    ∃ r, blobRefreshAt sys members = some r := by
  unfold blobRefreshAt
  cases hf : findMember REFRESH_AFTER_SEC members with
  | none => exact ⟨_, rfl⟩
  | some v =>
    rw [hf] at h
    simp only [int64OrAbsent, Option.isSome_iff_exists] at h
    obtain ⟨n, hn⟩ := h
    simp only [hn]
    split
    · exact ⟨_, rfl⟩
    · exact ⟨_, rfl⟩

theorem blobExpireAt_defined (sys : Sys) {members : List (String × JsonValue)}
    (h : int64OrAbsent (findMember EXPIRE_AFTER_SEC members) = true) :
    ∃ r, blobExpireAt sys members = some r := by
  unfold blobExpireAt
  cases hf : findMember EXPIRE_AFTER_SEC members with
  | none => exact ⟨_, rfl⟩
  | some v =>
    rw [hf] at h
    simp only [int64OrAbsent, Option.isSome_iff_exists] at h
    obtain ⟨n, hn⟩ := h
    simp only [hn]
    exact ⟨_, rfl⟩

/-- A typed entry never drives `parseBlobDetail` outside the preconditions of its
accessors. -/
theorem parseBlobDetail_defined (sys : Sys) {e : JsonValue} (h : blobEntryTyped e = true) :
    parseBlobDetail sys e ≠ none := by
  cases e with
  | object members =>
    simp only [blobEntryTyped, JsonValue.member, Bool.and_eq_true] at h
    obtain ⟨⟨⟨hd, hl⟩, hr⟩, hx⟩ := h
    obtain ⟨r, hr2⟩ := blobRefreshAt_defined sys hr
    obtain ⟨x, hx2⟩ := blobExpireAt_defined sys hx
    unfold parseBlobDetail
    simp only
    cases h1 : (findMember BLOB_METADATA_DOMAIN_ID_TAG members).isSome with
    | false => simp
    | true =>
      obtain ⟨n, hn⟩ := int64OrAbsent_bind hd h1
      cases h2 : findMember BLOB_METADATA_LOCATIONS_TAG members with
      | none => simp
      | some v =>
        cases v with
        | array locs =>
          rw [h2] at hl
          simp only [List.all_eq_true] at hl
          have hp := parseEach_defined parseBlobLocation locs
            (fun a ha => parseBlobLocation_defined (hl a ha))
          rw [← parseBlobLocations_eq] at hp
          simp only [JsonValue.IsArray, Bool.not_true, Bool.or_self, Bool.false_eq_true,
            if_false, hn, hr2, hx2]
          cases hq : parseBlobLocations locs with
          | none => exact absurd hq hp
          | some r2 => cases r2 <;> simp
        | null => simp [JsonValue.IsArray]
        | bool b => simp [JsonValue.IsArray]
        | int n => simp [JsonValue.IsArray]
        | double m e => simp [JsonValue.IsArray]
        | string s => simp [JsonValue.IsArray]
        | object ms => simp [JsonValue.IsArray]
  | null => simp [parseBlobDetail]
  | bool b => simp [parseBlobDetail]
  | int n => simp [parseBlobDetail]
  | double m e => simp [parseBlobDetail]
  | string s => simp [parseBlobDetail]
  | array elems => simp [parseBlobDetail]

/-- The behaviour of `parseBlobMetadataResponse` is defined on a status-200
response that satisfies the version rule, carries no error, has typed entries
and a `kms_urls` member that is absent, null or an array. -/
theorem parseBlobMetadataResponse_defined (sys : Sys) (ctx : RESTKmsConnectorCtx)
    (doc : JsonValue) (hv : VersionAccepted sys doc false) (herr : sys.getError doc = false)
    (htyped : ∀ elems, doc.member BLOB_METADATA_DETAILS_TAG = some (.array elems) →
      ∀ e ∈ elems, blobEntryTyped e = true)
    (hurls : kmsUrlsIsArrayOrAbsent doc = true) :
    parseBlobMetadataResponse sys ctx (response200 doc) ≠ none := by
  obtain ⟨members, rfl⟩ := hv.isObject
  rw [parseBlobMetadataResponse_checked ctx hv herr]
  simp only [JsonValue.member] at htyped
  obtain ⟨c2, hc⟩ := checkDocForNewKmsUrls_defined sys ctx members hurls
  split
  · rename_i elems hm
    have hp := parseEach_defined (parseBlobDetail sys) elems
      (fun a ha => parseBlobDetail_defined sys (htyped elems hm a ha))
    cases hq : parseEach (parseBlobDetail sys) elems with
    | none => exact absurd hq hp
    | some r2 =>
      cases r2 with
      | error e => simp
      | ok result => simp [hc]
  · simp

/-! ### Parser: the `kms_urls` member -/

theorem freshEndpoints_length (sys : Sys) (k : Nat) (urls : List String) :
    (freshEndpoints sys k urls).length = urls.length := by
  induction urls generalizing k with
  | nil => rfl
  | cons u us ih => simp [freshEndpoints, ih]

theorem freshEndpoints_obj (sys : Sys) (k : Nat) (urls : List String) :
    (freshEndpoints sys k urls).map (fun p => p.obj) = urls.map KmsUrlCtx.mk1 := by
  induction urls generalizing k with
  | nil => rfl
  | cons u us ih => simp [freshEndpoints, ih]

/-- The context that `checkDocForNewKmsUrls` leaves, by the kind of `kms_urls`. -/
theorem checkDocForNewKmsUrls_result {sys : Sys} {ctx ctx2 : RESTKmsConnectorCtx}
    {doc : JsonValue} (h : checkDocForNewKmsUrls sys ctx doc = some ctx2) :
    (∀ urls, doc.member KMS_URLS_TAG = some (.array (urls.map JsonValue.string)) →
      ctx2 = { kmsUrlHeap := { c := freshEndpoints sys ctx.nAllocs urls },
               lastKmsUrlsRefreshTs := sys.now,
               nAllocs := ctx.nAllocs + urls.length }) ∧
    ((doc.member KMS_URLS_TAG = none ∨ doc.member KMS_URLS_TAG = some .null) → ctx2 = ctx) := by
  cases doc with
  | object members =>
    obtain ⟨h1, h2, h3, _⟩ := checkDocForNewKmsUrls_cases sys ctx members
    simp only [JsonValue.member]
    constructor
    · intro urls hu
      rw [h3 _ hu, extractKmsUrlsLoop_strings] at h
      simp only [Option.some.injEq, List.nil_append] at h
      exact h.symm
    · rintro (hu | hu)
      · rw [h1 hu] at h
        simp only [Option.some.injEq] at h
        exact h.symm
      · rw [h2 hu] at h
        simp only [Option.some.injEq] at h
        exact h.symm
  | null => simp [checkDocForNewKmsUrls, JsonValue.HasMember] at h
  | bool b => simp [checkDocForNewKmsUrls, JsonValue.HasMember] at h
  | int n => simp [checkDocForNewKmsUrls, JsonValue.HasMember] at h
  | double m e => simp [checkDocForNewKmsUrls, JsonValue.HasMember] at h
  | string s => simp [checkDocForNewKmsUrls, JsonValue.HasMember] at h
  | array elems => simp [checkDocForNewKmsUrls, JsonValue.HasMember] at h

/-- C19: for every prior pool and every status-200 response that either parser
parses successfully: when `kms_urls` is an array of the strings u1, ..., un, the
pool after the parse consists of exactly the n endpoints that `make_shared`
created during the parse, with the URLs u1, ..., un and all counters 0 (none of
the prior endpoints is left), and `lastKmsUrlsRefreshTs` is the current time;
when `kms_urls` is absent or null the context, pool and timestamp included, is
as it was. -/
theorem kms_urls_refresh_replaces_pool (sys : Sys) (ctx ctx2 : RESTKmsConnectorCtx)
    (doc : JsonValue)
    (hparsed : (∃ result, parseEncryptCipherResponse sys ctx (response200 doc) =
        some (.ok result, ctx2)) ∨
      (∃ result, parseBlobMetadataResponse sys ctx (response200 doc) =
        some (.ok result, ctx2))) :
    (∀ urls, doc.member KMS_URLS_TAG = some (.array (urls.map JsonValue.string)) →
      ctx2.kmsUrlHeap.c = freshEndpoints sys ctx.nAllocs urls ∧
      ctx2.kmsUrlHeap.size = urls.length ∧
      ctx2.kmsUrlHeap.c.map (fun p => p.obj) = urls.map KmsUrlCtx.mk1 ∧
      ctx2.lastKmsUrlsRefreshTs = sys.now) ∧
    ((doc.member KMS_URLS_TAG = none ∨ doc.member KMS_URLS_TAG = some .null) →
      ctx2.kmsUrlHeap = ctx.kmsUrlHeap ∧
      ctx2.lastKmsUrlsRefreshTs = ctx.lastKmsUrlsRefreshTs) := by
  have hc : checkDocForNewKmsUrls sys ctx doc = some ctx2 := by
    rcases hparsed with ⟨result, h⟩ | ⟨result, h⟩
    · obtain ⟨r, elems, hr, _, _, _, _, _, hc⟩ := parseEncryptCipherResponse_ok_elim h
      simp only [response200, Option.some.injEq] at hr
      subst hr
      exact hc
    · obtain ⟨r, elems, hr, _, _, _, _, _, hc⟩ := parseBlobMetadataResponse_ok_elim h
      simp only [response200, Option.some.injEq] at hr
      subst hr
      exact hc
  obtain ⟨h1, h2⟩ := checkDocForNewKmsUrls_result hc
  constructor
  · intro urls hu
    rw [h1 urls hu]
    exact ⟨rfl, by simp [KmsUrlMinHeap.size, freshEndpoints_length],
      freshEndpoints_obj sys _ urls, rfl⟩
  · intro hu
    rw [h2 hu]
    exact ⟨rfl, rfl⟩

/-- C18 (code bug): on a status-200 response that satisfies the version rule and
carries no error, and whose detail array is extracted successfully, each parser
returns the extracted list when `kms_urls` is absent, null or an array, whatever
the array holds; when `kms_urls` is any other value, `extractKmsUrls` calls
`GetArray()` on it without a test, outside the precondition of the accessor, and
the behaviour of the parser is undefined. -/
theorem kms_urls_not_array_is_not_guarded (sys : Sys) (ctx : RESTKmsConnectorCtx)
    (doc : JsonValue) (herr : sys.getError doc = false) :
    (∀ elems result, VersionAccepted sys doc true →
      doc.member CIPHER_KEY_DETAILS_TAG = some (.array elems) →
      parseCipherDetails sys elems = some (.ok result) →
      (kmsUrlsIsArrayOrAbsent doc = true →
        ∃ ctx2, parseEncryptCipherResponse sys ctx (response200 doc) =
          some (.ok result, ctx2)) ∧
      (kmsUrlsIsArrayOrAbsent doc = false →
        parseEncryptCipherResponse sys ctx (response200 doc) = none)) ∧
    (∀ elems result, VersionAccepted sys doc false →
      doc.member BLOB_METADATA_DETAILS_TAG = some (.array elems) →
      parseBlobDetails sys elems = some (.ok result) →
      (kmsUrlsIsArrayOrAbsent doc = true →
        ∃ ctx2, parseBlobMetadataResponse sys ctx (response200 doc) =
          some (.ok result, ctx2)) ∧
      (kmsUrlsIsArrayOrAbsent doc = false →
        parseBlobMetadataResponse sys ctx (response200 doc) = none)) := by
  have hundef : ∀ members, kmsUrlsIsArrayOrAbsent (.object members) = false →
      checkDocForNewKmsUrls sys ctx (.object members) = none := by
    intro members hu
    obtain ⟨_, _, _, h4⟩ := checkDocForNewKmsUrls_cases sys ctx members
    simp only [kmsUrlsIsArrayOrAbsent, JsonValue.member] at hu
    cases hf : findMember KMS_URLS_TAG members with
    | none => rw [hf] at hu; cases hu
    | some v =>
      rw [hf] at hu
      cases v with
      | null => cases hu
      | array xs => cases hu
      | bool b => exact h4 _ hf rfl rfl
      | int n => exact h4 _ hf rfl rfl
      | double m e => exact h4 _ hf rfl rfl
      | string s => exact h4 _ hf rfl rfl
      | object ms => exact h4 _ hf rfl rfl
  constructor
  · intro elems result hv hmem hres
    obtain ⟨members, rfl⟩ := hv.isObject
    rw [parseCipherDetails_eq] at hres
    rw [parseEncryptCipherResponse_checked ctx hv herr]
    simp only [JsonValue.member] at hmem
    rw [hmem]
    simp only [hres]
    constructor
    · intro hu
      obtain ⟨c2, hc⟩ := checkDocForNewKmsUrls_defined sys ctx members hu
      exact ⟨c2, by rw [hc]⟩
    · intro hu
      rw [hundef members hu]
  · intro elems result hv hmem hres
    obtain ⟨members, rfl⟩ := hv.isObject
    rw [parseBlobDetails_eq] at hres
    rw [parseBlobMetadataResponse_checked ctx hv herr]
    simp only [JsonValue.member] at hmem
    rw [hmem]
    simp only [hres]
    constructor
    · intro hu
      obtain ⟨c2, hc⟩ := checkDocForNewKmsUrls_defined sys ctx members hu
      exact ⟨c2, by rw [hc]⟩
    · intro hu
      rw [hundef members hu]

/-! ### Parser scenarios -/

theorem keyOfLength_length (n : Nat) : (keyOfLength n).length = n := by
  simp [keyOfLength, String.length]

theorem cipherKeyLength_cipherEntry (key : String) :
    cipherKeyLength (cipherEntry 5 1 key none none) = key.length := rfl

/-- The cipher parser on a checked response whose `cipher_key_details` is the
array `elems`. -/
theorem parseEncryptCipherResponse_of_details {sys : Sys} {doc : JsonValue}
    {elems : List JsonValue} (ctx : RESTKmsConnectorCtx) (hv : VersionAccepted sys doc true)
    (herr : sys.getError doc = false)
    (hmem : doc.member CIPHER_KEY_DETAILS_TAG = some (.array elems)) :
    parseEncryptCipherResponse sys ctx (response200 doc) =
      match parseEach (parseCipherDetail sys) elems with
      | none => none
      | some (.error e) => some (.error e, ctx)
      | some (.ok result) =>
        match checkDocForNewKmsUrls sys ctx doc with
        | none => none
        | some ctx2 => some (.ok result, ctx2) := by
  obtain ⟨members, rfl⟩ := hv.isObject
  rw [parseEncryptCipherResponse_checked ctx hv herr]
  simp only [JsonValue.member] at hmem
  rw [hmem]

theorem versionAccepted_responseDoc (isCipherType : Bool) (cipherDetails blobDetails : JsonValue)
    (more : List (String × JsonValue)) :
    VersionAccepted parserSys (responseDoc (some (.int 1)) cipherDetails blobDetails more)
      isCipherType :=
  ⟨1, rfl, by decide, by decide, by cases isCipherType <;> decide⟩

theorem versionZero_not_accepted (isCipherType : Bool) :
    ¬ VersionAccepted parserSys (.object versionZeroMembers) isCipherType := by
  rintro ⟨v, hm, _, hne, _⟩
  have hv : v = 0 := by
    have : (JsonValue.object versionZeroMembers).member REQUEST_VERSION_TAG = some (.int 0) := rfl
    rw [this] at hm
    simp only [Option.some.injEq, JsonValue.int.injEq] at hm
    exact hm.symm
  exact hne (by rw [hv]; rfl)

/-- C14 (counterexample): version 1, no error object, and `cipher_key_details`
holds an entry with a key of 4097 bytes followed by the number 5.  The second
element is not an object, yet the parse fails with rest-max-base-cipher-len, not
with rest-malformed-response: the loop stops at the first entry. -/
theorem overlong_key_hides_later_malformed_entry :
    VersionAccepted parserSys overlongThenNonObject true ∧
    parserSys.getError overlongThenNonObject = false ∧
    overlongThenNonObject.member CIPHER_KEY_DETAILS_TAG =
      some (.array [cipherEntry 5 1 (keyOfLength 4097) none none, .int 5]) ∧
    (JsonValue.int 5).IsObject = false ∧
    parserSys.MAX_BASE_CIPHER_LEN = 4096 ∧
    parseEncryptCipherResponse parserSys (ctxOf []) (response200 overlongThenNonObject) =
      some (.error Error.rest_max_base_cipher_len, ctxOf []) ∧
    parseEncryptCipherResponse parserSys (ctxOf []) (response200 overlongThenNonObject) ≠
      some (.error Error.rest_malformed_response, ctxOf []) := by
  have hv : VersionAccepted parserSys overlongThenNonObject true :=
    versionAccepted_responseDoc true _ _ _
  have hp : parseEncryptCipherResponse parserSys (ctxOf []) (response200 overlongThenNonObject) =
      some (.error Error.rest_max_base_cipher_len, ctxOf []) := by
    have h1 : parseCipherDetail parserSys (cipherEntry 5 1 (keyOfLength 4097) none none) =
        some (.error Error.rest_max_base_cipher_len) :=
      (parseCipherDetail_typed
        (show cipherEntryTyped (cipherEntry 5 1 (keyOfLength 4097) none none) = true from rfl)).1
        (by rw [cipherKeyLength_cipherEntry, keyOfLength_length]; decide)
    have h2 : parseEach (parseCipherDetail parserSys)
        [cipherEntry 5 1 (keyOfLength 4097) none none, .int 5] =
        some (.error Error.rest_max_base_cipher_len) :=
      parseEach_first_error (parseCipherDetail parserSys) []
        (cipherEntry 5 1 (keyOfLength 4097) none none) [.int 5] _ (by simp) h1
    rw [parseEncryptCipherResponse_of_details (ctxOf []) hv rfl
      (show overlongThenNonObject.member CIPHER_KEY_DETAILS_TAG =
        some (.array [cipherEntry 5 1 (keyOfLength 4097) none none, .int 5]) from rfl), h2]
  refine ⟨hv, rfl, rfl, rfl, rfl, hp, ?_⟩
  rw [hp]
  simp

/-! ### Witnesses of the parser properties -/

/-- C11 (witness): a response with two cipher entries and one blob-metadata
entry. -/
theorem parsed_details_mirror_response_witness :
    parseEncryptCipherResponse parserSys (ctxOf []) (response200 (goodDoc [])) =
      some (.ok twoCipherDetails, ctxOf []) ∧
    parseBlobMetadataResponse parserSys (ctxOf []) (response200 (goodDoc [])) =
      some (.ok oneBlobDetail, ctxOf []) ∧
    (∃ r elems, response200 (goodDoc []) = some r ∧
      r.content.member CIPHER_KEY_DETAILS_TAG = some (.array elems) ∧
      twoCipherDetails.length = elems.length ∧
      List.Forall₂ CipherDetailOf elems twoCipherDetails) ∧
    (∃ r elems, response200 (goodDoc []) = some r ∧
      r.content.member BLOB_METADATA_DETAILS_TAG = some (.array elems) ∧
      oneBlobDetail.length = elems.length ∧ List.Forall₂ BlobDetailOf elems oneBlobDetail) :=
  ⟨rfl, rfl,
    (parsed_details_mirror_response parserSys (ctxOf []) (response200 (goodDoc []))).1
      twoCipherDetails (ctxOf []) rfl,
    (parsed_details_mirror_response parserSys (ctxOf []) (response200 (goodDoc []))).2
      oneBlobDetail (ctxOf []) rfl⟩

/-- C17 (witness): cipher entries with the intervals (10, -1) and (0, absent),
and a blob-metadata entry with the intervals (10, -1) parsed at time 42: the
deadlines are 52 and 41.  An entry with the intervals (2^53 + 1, 2^53) parsed at
time 42 gets the deadline 2^53 + 42 twice, and at time 42.5 as well: the sums
are rounded as the machine rounds them. -/
theorem intervals_follow_refresh_and_expire_members_witness :
    parseEncryptCipherResponse parserSys (ctxOf []) (response200 (goodDoc [])) =
      some (.ok twoCipherDetails, ctxOf []) ∧
    parseBlobMetadataResponse parserSys (ctxOf []) (response200 (goodDoc [])) =
      some (.ok oneBlobDetail, ctxOf []) ∧
    twoCipherDetails.map (fun d => (d.refreshAfterSec, d.expireAfterSec)) =
      [(some 10, some (-1)), (none, none)] ∧
    oneBlobDetail.map (fun d => (d.refreshAt, d.expireAt)) =
      [(Double.ofInt 52, Double.ofInt 41)] ∧
    parseBlobMetadataResponse parserSys (ctxOf [])
        (response200 (responseDoc (some (.int 1)) (.array []) (.array [farBlobEntry]) [])) =
      some (.ok [{ domainId := 7, locations := [],
                   refreshAt := Double.ofInt 9007199254741034,
                   expireAt := Double.ofInt 9007199254741034 }], ctxOf []) ∧
    parseBlobMetadataResponse halfSecondSys (ctxOf [])
        (response200 (responseDoc (some (.int 1)) (.array []) (.array [farBlobEntry]) [])) =
      some (.ok [{ domainId := 7, locations := [],
                   refreshAt := Double.ofInt 9007199254741034,
                   expireAt := Double.ofInt 9007199254741034 }], ctxOf []) ∧
    (∃ r elems, response200 (goodDoc []) = some r ∧
      r.content.member CIPHER_KEY_DETAILS_TAG = some (.array elems) ∧
      List.Forall₂ CipherIntervalsOf elems twoCipherDetails) ∧
    (∃ r elems, response200 (goodDoc []) = some r ∧
      r.content.member BLOB_METADATA_DETAILS_TAG = some (.array elems) ∧
      List.Forall₂ (BlobDeadlinesOf parserSys) elems oneBlobDetail) ∧
    Double.add (Double.ofInt 42) (Double.ofInt 10) = Double.ofInt (42 + 10) :=
  ⟨rfl, rfl, rfl, rfl, rfl, rfl,
    (intervals_follow_refresh_and_expire_members parserSys (ctxOf [])
      (response200 (goodDoc []))).1 twoCipherDetails (ctxOf []) rfl,
    (intervals_follow_refresh_and_expire_members parserSys (ctxOf [])
      (response200 (goodDoc []))).2.1 oneBlobDetail (ctxOf []) rfl,
    (intervals_follow_refresh_and_expire_members parserSys (ctxOf [])
      (response200 (goodDoc []))).2.2 42 10 (by decide) (by decide) (by decide)⟩

/-- C20 (witness): status 503 with a body that is not a JSON object. -/
theorem non_200_status_gives_http_request_failed_witness :
    (503 : Nat) ≠ HTTP_STATUS_CODE_OK ∧
    parseEncryptCipherResponse parserSys (ctxOf []) (some { code := 503, content := .null }) =
      some (.error Error.http_request_failed, ctxOf []) ∧
    parseBlobMetadataResponse parserSys (ctxOf []) (some { code := 503, content := .null }) =
      some (.error Error.http_request_failed, ctxOf []) :=
  ⟨by decide,
    non_200_status_gives_http_request_failed parserSys (ctxOf [])
      { code := 503, content := .null } (by decide)⟩

/-- C12 (witness): version 0, which is `INVALID_REQUEST_VERSION`, with valid
details of both families and an error object. -/
theorem version_check_decides_malformed_response_witness :
    parserSys.INVALID_REQUEST_VERSION = 0 ∧
    ¬ VersionAccepted parserSys (.object versionZeroMembers) true ∧
    ¬ VersionAccepted parserSys (.object versionZeroMembers) false ∧
    parseEncryptCipherResponse parserSys (ctxOf []) (response200 (.object versionZeroMembers)) =
      some (.error Error.rest_malformed_response, ctxOf []) ∧
    parseBlobMetadataResponse parserSys (ctxOf []) (response200 (.object versionZeroMembers)) =
      some (.error Error.rest_malformed_response, ctxOf []) :=
  ⟨rfl, versionZero_not_accepted true, versionZero_not_accepted false,
    (version_check_decides_malformed_response parserSys (ctxOf []) versionZeroMembers true).2.2.1
      (versionZero_not_accepted true),
    (version_check_decides_malformed_response parserSys (ctxOf []) versionZeroMembers true).2.2.2
      (versionZero_not_accepted false)⟩

/-- C13 (witness): version 1, valid details of both families, and an error
object. -/
theorem error_object_wins_over_details_witness :
    parserSys.getError (goodDoc [("error", errorObject)]) = true ∧
    VersionAccepted parserSys (goodDoc [("error", errorObject)]) true ∧
    VersionAccepted parserSys (goodDoc [("error", errorObject)]) false ∧
    parseEncryptCipherResponse parserSys (ctxOf []) (response200 (goodDoc [])) =
      some (.ok twoCipherDetails, ctxOf []) ∧
    parseEncryptCipherResponse parserSys (ctxOf [])
        (response200 (goodDoc [("error", errorObject)])) =
      some (.error Error.encrypt_keys_fetch_failed, ctxOf []) ∧
    parseBlobMetadataResponse parserSys (ctxOf [])
        (response200 (goodDoc [("error", errorObject)])) =
      some (.error Error.encrypt_keys_fetch_failed, ctxOf []) :=
  ⟨rfl, versionAccepted_responseDoc true _ _ _, versionAccepted_responseDoc false _ _ _, rfl,
    (error_object_wins_over_details parserSys (ctxOf []) (goodDoc [("error", errorObject)])
      rfl).1 (versionAccepted_responseDoc true _ _ _),
    (error_object_wins_over_details parserSys (ctxOf []) (goodDoc [("error", errorObject)])
      rfl).2 (versionAccepted_responseDoc false _ _ _)⟩

/-- C14 (witness): a valid entry followed by the number 5. -/
theorem cipher_details_malformed_at_first_invalid_entry_witness :
    VersionAccepted parserSys validThenNonObject true ∧
    parserSys.getError validThenNonObject = false ∧
    validThenNonObject.member CIPHER_KEY_DETAILS_TAG =
      some (.array ([cipherEntry 5 1 "key" none none] ++ .int 5 :: [])) ∧
    hasCipherKeys (.int 5) = false ∧
    parseEncryptCipherResponse parserSys (ctxOf []) (response200 validThenNonObject) =
      some (.error Error.rest_malformed_response, ctxOf []) ∧
    (((∀ elems, validThenNonObject.member CIPHER_KEY_DETAILS_TAG ≠ some (.array elems)) →
      parseEncryptCipherResponse parserSys (ctxOf []) (response200 validThenNonObject) =
        some (.error Error.rest_malformed_response, ctxOf [])) ∧
    (∀ pre bad post,
      validThenNonObject.member CIPHER_KEY_DETAILS_TAG = some (.array (pre ++ bad :: post)) →
      (∀ e ∈ pre, cipherEntryTyped e = true ∧
        cipherKeyLength e ≤ parserSys.MAX_BASE_CIPHER_LEN) →
      hasCipherKeys bad = false →
      parseEncryptCipherResponse parserSys (ctxOf []) (response200 validThenNonObject) =
        some (.error Error.rest_malformed_response, ctxOf [])) ∧
    (∀ elems, validThenNonObject.member CIPHER_KEY_DETAILS_TAG = some (.array elems) →
      (∀ e ∈ elems, hasCipherKeys e = true) →
      ∀ ctx2, parseEncryptCipherResponse parserSys (ctxOf []) (response200 validThenNonObject) ≠
        some (.error Error.rest_malformed_response, ctx2))) :=
  ⟨versionAccepted_responseDoc true _ _ _, rfl, rfl, rfl,
    (cipher_details_malformed_at_first_invalid_entry parserSys (ctxOf []) validThenNonObject
      (versionAccepted_responseDoc true _ _ _) rfl).2.1
      [cipherEntry 5 1 "key" none none] (.int 5) [] rfl
      (by intro e he; simp only [List.mem_singleton] at he; subst he; exact ⟨rfl, by decide⟩) rfl,
    cipher_details_malformed_at_first_invalid_entry parserSys (ctxOf []) validThenNonObject
      (versionAccepted_responseDoc true _ _ _) rfl⟩

theorem keyDoc_typed (n : Nat) :
    ∀ e ∈ [cipherEntry 5 1 (keyOfLength n) none none], cipherEntryTyped e = true := by
  intro e he
  simp only [List.mem_singleton] at he
  subst he
  rfl

/-- C16 (witness): a key of exactly 4096 bytes parses, a key of 4097 bytes is
refused. -/
theorem base_cipher_length_limit_witness :
    parserSys.MAX_BASE_CIPHER_LEN = 4096 ∧
    (∀ e ∈ [cipherEntry 5 1 (keyOfLength 4096) none none],
      cipherKeyLength e ≤ parserSys.MAX_BASE_CIPHER_LEN) ∧
    (∃ e ∈ [cipherEntry 5 1 (keyOfLength 4097) none none],
      parserSys.MAX_BASE_CIPHER_LEN + 1 ≤ cipherKeyLength e) ∧
    (∃ result ctx2, parseEncryptCipherResponse parserSys (ctxOf []) (response200 (keyDoc 4096)) =
      some (.ok result, ctx2) ∧
      result.length = [cipherEntry 5 1 (keyOfLength 4096) none none].length) ∧
    parseEncryptCipherResponse parserSys (ctxOf []) (response200 (keyDoc 4097)) =
      some (.error Error.rest_max_base_cipher_len, ctxOf []) :=
  ⟨rfl,
    (by
      intro e he
      simp only [List.mem_singleton] at he
      subst he
      rw [cipherKeyLength_cipherEntry, keyOfLength_length]
      decide),
    ⟨_, List.mem_singleton_self _, by
      rw [cipherKeyLength_cipherEntry, keyOfLength_length]
      decide⟩,
    (base_cipher_length_limit parserSys (ctxOf []) (keyDoc 4096)
      [cipherEntry 5 1 (keyOfLength 4096) none none] (versionAccepted_responseDoc true _ _ _)
      rfl rfl (keyDoc_typed 4096) rfl).1
      (by
        intro e he
        simp only [List.mem_singleton] at he
        subst he
        rw [cipherKeyLength_cipherEntry, keyOfLength_length]
        decide),
    (base_cipher_length_limit parserSys (ctxOf []) (keyDoc 4097)
      [cipherEntry 5 1 (keyOfLength 4097) none none] (versionAccepted_responseDoc true _ _ _)
      rfl rfl (keyDoc_typed 4097) rfl).2
      ⟨_, List.mem_singleton_self _, by
        rw [cipherKeyLength_cipherEntry, keyOfLength_length]
        decide⟩⟩

/-- C18 (witness): the valid response with `kms_urls = true`, and with
`kms_urls = ["https://new1", 7]`. -/
theorem kms_urls_not_array_is_not_guarded_witness :
    parserSys.getError (goodDoc [("kms_urls", .bool true)]) = false ∧
    parserSys.getError (goodDoc [("kms_urls", .array [.string "https://new1", .int 7])]) =
      false ∧
    parseCipherDetails parserSys [cipherEntry 5 12345 "key" (some 10) (some (-1)),
      cipherEntry 6 67890 "other" (some 0) none] = some (.ok twoCipherDetails) ∧
    parseBlobDetails parserSys [blobEntry] = some (.ok oneBlobDetail) ∧
    parseEncryptCipherResponse parserSys (ctxOf [])
      (response200 (goodDoc [("kms_urls", .bool true)])) = none ∧
    parseBlobMetadataResponse parserSys (ctxOf [])
      (response200 (goodDoc [("kms_urls", .bool true)])) = none ∧
    (∃ ctx2, parseEncryptCipherResponse parserSys (ctxOf [])
      (response200 (goodDoc [("kms_urls", .array [.string "https://new1", .int 7])])) =
        some (.ok twoCipherDetails, ctx2)) ∧
    (∃ ctx2, parseBlobMetadataResponse parserSys (ctxOf [])
      (response200 (goodDoc [("kms_urls", .array [.string "https://new1", .int 7])])) =
        some (.ok oneBlobDetail, ctx2)) :=
  ⟨rfl, rfl, rfl, rfl,
    ((kms_urls_not_array_is_not_guarded parserSys (ctxOf [])
      (goodDoc [("kms_urls", .bool true)]) rfl).1 _ twoCipherDetails
      (versionAccepted_responseDoc true _ _ _) rfl rfl).2 rfl,
    ((kms_urls_not_array_is_not_guarded parserSys (ctxOf [])
      (goodDoc [("kms_urls", .bool true)]) rfl).2 _ oneBlobDetail
      (versionAccepted_responseDoc false _ _ _) rfl rfl).2 rfl,
    ((kms_urls_not_array_is_not_guarded parserSys (ctxOf [])
      (goodDoc [("kms_urls", .array [.string "https://new1", .int 7])]) rfl).1 _
      twoCipherDetails (versionAccepted_responseDoc true _ _ _) rfl rfl).1 rfl,
    ((kms_urls_not_array_is_not_guarded parserSys (ctxOf [])
      (goodDoc [("kms_urls", .array [.string "https://new1", .int 7])]) rfl).2 _
      oneBlobDetail (versionAccepted_responseDoc false _ _ _) rfl rfl).1 rfl⟩

/-- C19 (witness): pool = [A], and a valid response with
`kms_urls = ["https://new1", "https://new2"]`: after the parse the pool holds the
two new endpoints and the refresh timestamp is the time of the parse. -/
theorem kms_urls_refresh_replaces_pool_witness :
    parseEncryptCipherResponse parserSys (ctxOf [freshAt 1 "https://a"])
      (response200 (goodDoc newUrls)) = some (.ok twoCipherDetails, refreshedCtx) ∧
    parseBlobMetadataResponse parserSys (ctxOf [freshAt 1 "https://a"])
      (response200 (goodDoc newUrls)) = some (.ok oneBlobDetail, refreshedCtx) ∧
    parseEncryptCipherResponse parserSys (ctxOf [freshAt 1 "https://a"])
      (response200 (goodDoc [("kms_urls", .null)])) =
        some (.ok twoCipherDetails, ctxOf [freshAt 1 "https://a"]) ∧
    ((∀ urls, (goodDoc newUrls).member KMS_URLS_TAG = some (.array (urls.map JsonValue.string)) →
      refreshedCtx.kmsUrlHeap.c =
        freshEndpoints parserSys (ctxOf [freshAt 1 "https://a"]).nAllocs urls ∧
      refreshedCtx.kmsUrlHeap.size = urls.length ∧
      refreshedCtx.kmsUrlHeap.c.map (fun p => p.obj) = urls.map KmsUrlCtx.mk1 ∧
      refreshedCtx.lastKmsUrlsRefreshTs = parserSys.now) ∧
    (((goodDoc newUrls).member KMS_URLS_TAG = none ∨
        (goodDoc newUrls).member KMS_URLS_TAG = some .null) →
      refreshedCtx.kmsUrlHeap = (ctxOf [freshAt 1 "https://a"]).kmsUrlHeap ∧
      refreshedCtx.lastKmsUrlsRefreshTs =
        (ctxOf [freshAt 1 "https://a"]).lastKmsUrlsRefreshTs)) ∧
    refreshedCtx.kmsUrlHeap.c.map (fun p => p.obj.url) = ["https://new1", "https://new2"] :=
  ⟨rfl, rfl, rfl,
    kms_urls_refresh_replaces_pool parserSys (ctxOf [freshAt 1 "https://a"]) refreshedCtx
      (goodDoc newUrls) (Or.inl ⟨twoCipherDetails, rfl⟩),
    rfl⟩

/-! ### Parser: structure of the blob-metadata details -/

theorem goodDoc_blob_typed :
    ∀ elems, (goodDoc []).member BLOB_METADATA_DETAILS_TAG = some (.array elems) →
      ∀ e ∈ elems, blobEntryTyped e = true := by
  intro elems hm e he
  have : (goodDoc []).member BLOB_METADATA_DETAILS_TAG = some (.array [blobEntry]) := rfl
  rw [this] at hm
  simp only [Option.some.injEq, JsonValue.array.injEq] at hm
  subst hm
  simp only [List.mem_singleton] at he
  subst he
  rfl

theorem goodDoc_blob_structure : BlobStructureOk (goodDoc []) :=
  ⟨[blobEntry], rfl, by
    intro e he
    simp only [List.mem_singleton] at he
    subst he
    rfl⟩

/-- C15: on a status-200 response that satisfies the version rule and carries no
error, and whose members have the types of the schema where they are present
(`domain_id`, `id` and the optional intervals 64-bit integers, `path` a string,
`kms_urls` absent, null or an array), `parseBlobMetadataResponse` succeeds if and
only if `blob_metadata_details` is present and is an array, every element is an
object that has `domain_id` and an array `locations`, and every location is an
object that has `id` and `path`; in every other case it fails with
rest-malformed-response. -/
theorem blob_parse_succeeds_iff_structure (sys : Sys) (ctx : RESTKmsConnectorCtx)
    (doc : JsonValue) (hv : VersionAccepted sys doc false) (herr : sys.getError doc = false)
    (htyped : ∀ elems, doc.member BLOB_METADATA_DETAILS_TAG = some (.array elems) →
      ∀ e ∈ elems, blobEntryTyped e = true)
    (hurls : kmsUrlsIsArrayOrAbsent doc = true) :
    ((∃ result ctx2, parseBlobMetadataResponse sys ctx (response200 doc) =
        some (.ok result, ctx2)) ↔ BlobStructureOk doc) ∧
    (¬ BlobStructureOk doc →
      parseBlobMetadataResponse sys ctx (response200 doc) =
        some (.error Error.rest_malformed_response, ctx)) :=
  blob_parse_structure_of_defined sys ctx doc hv herr
    (parseBlobMetadataResponse_defined sys ctx doc hv herr htyped hurls)

/-- C15 (witness): a response with one well-formed blob-metadata entry; a
response whose only location lacks `path` is refused. -/
theorem blob_parse_succeeds_iff_structure_witness :
    VersionAccepted parserSys (goodDoc []) false ∧
    parserSys.getError (goodDoc []) = false ∧
    (∀ elems, (goodDoc []).member BLOB_METADATA_DETAILS_TAG = some (.array elems) →
      ∀ e ∈ elems, blobEntryTyped e = true) ∧
    kmsUrlsIsArrayOrAbsent (goodDoc []) = true ∧
    BlobStructureOk (goodDoc []) ∧
    parseBlobMetadataResponse parserSys (ctxOf []) (response200 (goodDoc [])) =
      some (.ok oneBlobDetail, ctxOf []) ∧
    parseBlobMetadataResponse parserSys (ctxOf [])
      (response200 (responseDoc (some (.int 1)) (.array [])
        (.array [.object [("domain_id", .int 7),
          ("locations", .array [.object [("id", .int 1)]])]]) [])) =
      some (.error Error.rest_malformed_response, ctxOf []) ∧
    (((∃ result ctx2, parseBlobMetadataResponse parserSys (ctxOf []) (response200 (goodDoc [])) =
        some (.ok result, ctx2)) ↔ BlobStructureOk (goodDoc [])) ∧
    (¬ BlobStructureOk (goodDoc []) →
      parseBlobMetadataResponse parserSys (ctxOf []) (response200 (goodDoc [])) =
        some (.error Error.rest_malformed_response, ctxOf []))) :=
  ⟨versionAccepted_responseDoc false _ _ _, rfl, goodDoc_blob_typed, rfl,
    goodDoc_blob_structure, rfl, rfl,
    blob_parse_succeeds_iff_structure parserSys (ctxOf []) (goodDoc [])
      (versionAccepted_responseDoc false _ _ _) rfl goodDoc_blob_typed rfl⟩

/-! ### Discovery file -/

/-- What is cut off the end of a string by a loop that removes the last
character as long as it satisfies `p`. -/
theorem dropWhile_end_spec {α : Type} (p : α → Bool) (s : List α) :
    ∃ t, s = (s.reverse.dropWhile p).reverse ++ t ∧ (∀ x ∈ t, p x = true) ∧
      (∀ x, (s.reverse.dropWhile p).reverse.getLast? = some x → p x = false) := by
  refine ⟨(s.reverse.takeWhile p).reverse, ?_, ?_, ?_⟩
  · rw [← List.reverse_append, List.takeWhile_append_dropWhile, List.reverse_reverse]
  · intro x hx
    exact List.mem_takeWhile_imp (List.mem_reverse.mp hx)
  · intro x hx
    rw [List.getLast?_reverse] at hx
    have := List.head?_dropWhile_not p s.reverse
    rw [hx] at this
    exact this

theorem foldl_addDiscoveredUrl (sys : Sys) (lines : List (List Char))
    (ctx : RESTKmsConnectorCtx) :
    lines.foldl (addDiscoveredUrl sys) ctx =
      withDiscovered sys ctx
        (((lines.map normaliseUrlLine).filter (fun u => !u.isEmpty)).map String.mk) := by
  induction lines generalizing ctx with
  | nil => simp [withDiscovered, freshEndpoints]
  | cons l ls ih =>
    simp only [List.foldl_cons, List.map_cons]
    rw [ih]
    unfold addDiscoveredUrl
    simp only [normaliseUrlLine]
    by_cases he : (stripTrailingSlashes (trim_copy l)).isEmpty = true
    · simp [he, List.filter_cons]
    · simp only [he, Bool.false_eq_true, if_false, List.filter_cons, Bool.not_eq_true',
        Bool.not_eq_true, he, Bool.not_false, if_true, List.map_cons]
      simp only [withDiscovered, emplaceNewUrl, KmsUrlMinHeap.emplace, freshEndpoints,
        List.append_assoc, List.singleton_append, List.length_cons]
      congr 1
      omega

/-- A successful `parseDiscoverKmsUrlFile` appends one fresh endpoint per
discovered URL, in file order. -/
theorem parseDiscoverKmsUrlFile_ok (sys : Sys) (ctx : RESTKmsConnectorCtx) (filename : String)
    (f : AsyncFile) (hname : filename.data ≠ []) (hex : sys.fileExists filename = true)
    (hopen : sys.openFile filename = .ok f) (hread : f.bytesRead = f.fSize) :
    parseDiscoverKmsUrlFile sys ctx filename =
      (.ok (), withDiscovered sys ctx (discoveredUrls f.buff)) := by
  unfold parseDiscoverKmsUrlFile
  have h1 : filename.data.isEmpty = false := by
    cases hd : filename.data with
    | nil => exact absurd hd hname
    | cons a l => rfl
  simp only [h1, hex, Bool.not_true, Bool.or_self, Bool.false_eq_true, if_false, hopen, hread,
    ne_eq, not_true_eq_false, foldl_addDiscoveredUrl, discoveredUrls]

/-- What a successful `parseDiscoverKmsUrlFile` went through. -/
theorem parseDiscoverKmsUrlFile_ok_elim {sys : Sys} {ctx ctx2 : RESTKmsConnectorCtx}
    {filename : String} (h : parseDiscoverKmsUrlFile sys ctx filename = (.ok (), ctx2)) :
    ∃ f, filename.data ≠ [] ∧ sys.fileExists filename = true ∧
      sys.openFile filename = .ok f ∧ f.bytesRead = f.fSize ∧
      ctx2 = withDiscovered sys ctx (discoveredUrls f.buff) := by
  unfold parseDiscoverKmsUrlFile at h
  split at h
  · cases h
  · rename_i hc
    simp only [Bool.or_eq_true, Bool.not_eq_true', not_or, Bool.not_eq_true,
      Bool.not_eq_false] at hc
    split at h
    · cases h
    · rename_i f hf
      split at h
      · cases h
      · rename_i hr
        simp only [Prod.mk.injEq, true_and] at h
        refine ⟨f, ?_, hc.2, hf, not_not.mp hr, ?_⟩
        · intro hd
          rw [hd] at hc
          simp at hc
        · rw [← h, foldl_addDiscoveredUrl]
          rfl

/-- The shape of a URL derived from a line: it does not end with `'/'`, does not
start with whitespace, and is the trimmed line without its trailing `'/'`
characters; the trimmed line does not end with whitespace. -/
theorem normaliseUrlLine_shape (line : List Char) (hne : normaliseUrlLine line ≠ []) :
    (normaliseUrlLine line).getLast? ≠ some '/' ∧
    (∀ ch, (normaliseUrlLine line).head? = some ch → isSpace ch = false) ∧
    ∃ k, trim_copy line = normaliseUrlLine line ++ List.replicate k '/' ∧
      (∀ ch, (trim_copy line).getLast? = some ch → isSpace ch = false) := by
  obtain ⟨t, ht, hall, hlast⟩ := dropWhile_end_spec (fun ch => decide (ch = '/')) (trim_copy line)
  obtain ⟨t2, ht2, _, hlast2⟩ := dropWhile_end_spec isSpace (line.dropWhile isSpace)
  have hu : normaliseUrlLine line =
      ((trim_copy line).reverse.dropWhile (fun ch => decide (ch = '/'))).reverse := rfl
  have htrim : trim_copy line =
      ((line.dropWhile isSpace).reverse.dropWhile isSpace).reverse := rfl
  rw [← hu] at ht hlast
  rw [← htrim] at ht2 hlast2
  refine ⟨?_, ?_, t.length, ?_, hlast2⟩
  · intro h
    have := hlast '/' h
    simp at this
  · intro ch hch
    have hhead : (line.dropWhile isSpace).head? = some ch := by
      rw [ht2, ht]
      cases hn : normaliseUrlLine line with
      | nil => exact absurd hn hne
      | cons a l =>
        rw [hn] at hch
        simpa using hch
    have := List.head?_dropWhile_not isSpace line
    rw [hhead] at this
    exact this
  · have : t = List.replicate t.length '/' := by
      rw [List.eq_replicate_iff]
      exact ⟨rfl, fun x hx => by simpa using hall x hx⟩
    rw [← this]
    exact ht

/-- C22: when the discovery file can be read completely,
`parseDiscoverKmsUrlFile` succeeds and appends to the pool, for each line of the
file in file order, one fresh endpoint (all counters 0) whose URL is the line
with surrounding whitespace trimmed and all trailing `'/'` removed, skipping the
lines for which this is empty; the number of endpoints added is the number of
lines that are non-empty after the normalisation. -/
theorem discovery_file_lines_become_endpoints (sys : Sys) (ctx : RESTKmsConnectorCtx)
    (filename : String) (f : AsyncFile) (hname : filename.data ≠ [])
    (hex : sys.fileExists filename = true) (hopen : sys.openFile filename = .ok f)
    (hread : f.bytesRead = f.fSize) :
    ∃ ctx2, parseDiscoverKmsUrlFile sys ctx filename = (.ok (), ctx2) ∧
      ctx2.kmsUrlHeap.c =
        ctx.kmsUrlHeap.c ++ freshEndpoints sys ctx.nAllocs (discoveredUrls f.buff) ∧
      (freshEndpoints sys ctx.nAllocs (discoveredUrls f.buff)).map (fun p => p.obj) =
        (discoveredUrls f.buff).map KmsUrlCtx.mk1 ∧
      ctx2.kmsUrlHeap.size = ctx.kmsUrlHeap.size +
        ((getlines DISCOVER_URL_FILE_URL_SEP f.buff.data []).filter
          (fun line => !(normaliseUrlLine line).isEmpty)).length ∧
      ctx2.lastKmsUrlsRefreshTs = ctx.lastKmsUrlsRefreshTs := by
  refine ⟨_, parseDiscoverKmsUrlFile_ok sys ctx filename f hname hex hopen hread, rfl,
    freshEndpoints_obj sys _ _, ?_, rfl⟩
  simp only [withDiscovered, KmsUrlMinHeap.size, List.length_append, freshEndpoints_length,
    discoveredUrls, List.length_map, List.filter_map, Function.comp_def]

/-- C25: `parseDiscoverKmsUrlFile` fails with invalid-kms-config when the file
name is empty and when it names a file that does not exist, and with io-error
when the number of bytes read differs from the size of the file; each time the
context, the pool included, is left as it was. -/
theorem discovery_file_errors_keep_pool (sys : Sys) (ctx : RESTKmsConnectorCtx)
    (filename : String) :
    (filename.data = [] ∨ sys.fileExists filename = false →
      parseDiscoverKmsUrlFile sys ctx filename =
        (.error Error.encrypt_invalid_kms_config, ctx)) ∧
    (∀ f, filename.data ≠ [] → sys.fileExists filename = true →
      sys.openFile filename = .ok f → f.bytesRead ≠ f.fSize →
      parseDiscoverKmsUrlFile sys ctx filename = (.error Error.io_error, ctx)) := by
  constructor
  · intro h
    unfold parseDiscoverKmsUrlFile
    rw [if_pos]
    rcases h with h | h
    · simp [h]
    · simp [h]
  · intro f hname hex hopen hread
    unfold parseDiscoverKmsUrlFile
    have h1 : filename.data.isEmpty = false := by
      cases hd : filename.data with
      | nil => exact absurd hd hname
      | cons a l => rfl
    simp only [h1, hex, Bool.not_true, Bool.or_self, Bool.false_eq_true, if_false, hopen,
      ne_eq, hread, not_false_eq_true, if_true]

/-- C23 (amended): every endpoint URL that a successful
`parseDiscoverKmsUrlFile` inserts is non-empty, does not end with `'/'` and has
no leading whitespace character; it is a line of the file, trimmed, without its
trailing `'/'` characters, so it has no trailing whitespace character either
unless whitespace stands right before the trailing `'/'` characters of the
line. -/
theorem discovered_urls_are_normalised (sys : Sys) (ctx ctx2 : RESTKmsConnectorCtx)
    (filename : String) (h : parseDiscoverKmsUrlFile sys ctx filename = (.ok (), ctx2)) :
    ∃ f, sys.openFile filename = .ok f ∧
      ctx2.kmsUrlHeap.c =
        ctx.kmsUrlHeap.c ++ freshEndpoints sys ctx.nAllocs (discoveredUrls f.buff) ∧
      ∀ u ∈ discoveredUrls f.buff,
        u.data ≠ [] ∧ u.data.getLast? ≠ some '/' ∧
        (∀ ch, u.data.head? = some ch → isSpace ch = false) ∧
        ∃ line ∈ getlines DISCOVER_URL_FILE_URL_SEP f.buff.data [], ∃ k,
          trim_copy line = u.data ++ List.replicate k '/' ∧
          (∀ ch, (trim_copy line).getLast? = some ch → isSpace ch = false) ∧
          (k = 0 → ∀ ch, u.data.getLast? = some ch → isSpace ch = false) := by
  obtain ⟨f, _, _, hopen, _, hctx⟩ := parseDiscoverKmsUrlFile_ok_elim h
  refine ⟨f, hopen, by rw [hctx]; rfl, ?_⟩
  intro u hu
  simp only [discoveredUrls, List.mem_map, List.mem_filter, Bool.not_eq_true',
    List.isEmpty_eq_false] at hu
  obtain ⟨cs, ⟨⟨line, hline, hcs⟩, hne⟩, hmk⟩ := hu
  subst hmk hcs
  obtain ⟨h1, h2, k, h3, h4⟩ := normaliseUrlLine_shape line hne
  refine ⟨hne, h1, h2, line, hline, k, h3, h4, ?_⟩
  intro hk ch hch
  subst hk
  simp only [List.replicate_zero, List.append_nil] at h3
  rw [h3] at h4
  exact h4 ch hch

/-- C23 (counterexample): the discovery file holds the line `https://a /`.  The
line is trimmed (nothing to trim), then its trailing `'/'` is removed: the
endpoint inserted has the URL `https://a ` with a blank at its end. -/
theorem discovered_url_with_trailing_blank :
    ∃ ctx2, parseDiscoverKmsUrlFile (scenarioSys "https://a /\n" []) (ctxOf []) "/kms/urls" =
        (.ok (), ctx2) ∧
      ctx2.kmsUrlHeap.c.map (fun p => p.obj.url) = ["https://a "] ∧
      ("https://a " : String).data.getLast? = some ' ' ∧ isSpace ' ' = true :=
  ⟨_, rfl, rfl, rfl, rfl⟩

/-- C24 (amended): after `discoverKmsUrls` succeeds, with `refreshPersistedUrls`
true or false, the pool holds the endpoints it held before the call followed by
one fresh endpoint per URL of the discovery file: nothing is drained, and the
argument is not used.  The pool holds exactly the endpoints of the discovered
URLs when it was empty at the call. -/
theorem discovery_appends_to_pool (sys : Sys) (ctx ctx2 : RESTKmsConnectorCtx)
    (refreshPersistedUrls : Bool)
    (h : discoverKmsUrls sys ctx refreshPersistedUrls = (.ok (), ctx2)) :
    ∃ f, sys.openFile sys.REST_KMS_CONNECTOR_DISCOVER_KMS_URL_FILE = .ok f ∧
      ctx2.kmsUrlHeap.c =
        ctx.kmsUrlHeap.c ++ freshEndpoints sys ctx.nAllocs (discoveredUrls f.buff) ∧
      (ctx.kmsUrlHeap.c = [] →
        ctx2.kmsUrlHeap.c = freshEndpoints sys ctx.nAllocs (discoveredUrls f.buff)) ∧
      discoverKmsUrls sys ctx (!refreshPersistedUrls) =
        discoverKmsUrls sys ctx refreshPersistedUrls := by
  have hp : parseDiscoverKmsUrlFile sys ctx sys.REST_KMS_CONNECTOR_DISCOVER_KMS_URL_FILE =
      (.ok (), ctx2) := by
    unfold discoverKmsUrls at h
    simp only [List.isEmpty_nil, Bool.not_true, Bool.false_eq_true, if_false] at h
    split at h
    · exact h
    · cases h
  obtain ⟨f, _, _, hopen, _, hctx⟩ := parseDiscoverKmsUrlFile_ok_elim hp
  refine ⟨f, hopen, by rw [hctx]; rfl, ?_, rfl⟩
  intro he
  rw [hctx]
  simp [withDiscovered, he]

/-- C24 (counterexample): pool = [A], the discovery file lists B, and
`discoverKmsUrls` is called with `refreshPersistedUrls = true`.  It succeeds and
the pool holds A and B: A, held before the call, is still there. -/
theorem discovery_keeps_prior_endpoints :
    ∃ ctx2, discoverKmsUrls (scenarioSys "https://b\n" [2]) (ctxOf [freshAt 1 "https://a"]) true =
        (.ok (), ctx2) ∧
      ctx2.kmsUrlHeap.c = [freshAt 1 "https://a", freshAt 2 "https://b"] ∧
      freshAt 1 "https://a" ∈ (ctxOf [freshAt 1 "https://a"]).kmsUrlHeap.c ∧
      freshAt 1 "https://a" ∈ ctx2.kmsUrlHeap.c ∧
      discoveredUrls "https://b\n" = ["https://b"] :=
  ⟨_, rfl, rfl, by decide, by decide, by decide⟩

/-- C26 (code bug): `discoverKmsUrls` compares the knob of the validation-token
mode with `file`: it runs the file discovery exactly when that knob is `file`
and fails with not-implemented, leaving the context as it was, otherwise.  The
knob of the discovery mode is not read: its value does not change the
outcome. -/
theorem discovery_reads_token_mode_knob (sys : Sys) (ctx : RESTKmsConnectorCtx)
    (refreshPersistedUrls : Bool) :
    (sys.REST_KMS_CONNECTOR_VALIDATION_TOKEN_MODE = "file" →
      discoverKmsUrls sys ctx refreshPersistedUrls =
        parseDiscoverKmsUrlFile sys ctx sys.REST_KMS_CONNECTOR_DISCOVER_KMS_URL_FILE) ∧
    (sys.REST_KMS_CONNECTOR_VALIDATION_TOKEN_MODE ≠ "file" →
      discoverKmsUrls sys ctx refreshPersistedUrls = (.error Error.not_implemented, ctx)) ∧
    (∀ mode,
      discoverKmsUrls { sys with REST_KMS_CONNECTOR_KMS_DISCOVERY_URL_MODE := mode } ctx
        refreshPersistedUrls = discoverKmsUrls sys ctx refreshPersistedUrls) := by
  refine ⟨?_, ?_, fun mode => rfl⟩
  · intro hm
    simp [discoverKmsUrls, hm]
  · intro hm
    simp [discoverKmsUrls, hm]

/-! ### Parser: versions that are refused -/

/-- Both parsers throw rest-malformed-response on a status-200 JSON object that
violates the version rule of their family. -/
theorem parsers_malformed_of_version (sys : Sys) (ctx : RESTKmsConnectorCtx)
    (members : List (String × JsonValue)) :
    (¬ VersionAccepted sys (.object members) true →
      parseEncryptCipherResponse sys ctx (response200 (.object members)) =
        some (.error Error.rest_malformed_response, ctx)) ∧
    (¬ VersionAccepted sys (.object members) false →
      parseBlobMetadataResponse sys ctx (response200 (.object members)) =
        some (.error Error.rest_malformed_response, ctx)) := by
  constructor
  · intro hv
    simp only [parseEncryptCipherResponse, response200, ne_eq, not_true_eq_false, if_false,
      (checkResponseForError_object sys members true).2 hv]
  · intro hv
    simp only [parseBlobMetadataResponse, response200, ne_eq, not_true_eq_false, if_false,
      (checkResponseForError_object sys members false).2 hv]

theorem not_versionAccepted_of_version {sys : Sys} {members : List (String × JsonValue)}
    {v : Int} {isCipherType : Bool}
    (hmem : findMember REQUEST_VERSION_TAG members = some (.int v))
    (hbad : v = sys.INVALID_REQUEST_VERSION ∨ maxSupportedVersion sys isCipherType < v) :
    ¬ VersionAccepted sys (.object members) isCipherType := by
  rintro ⟨w, hw, _, hne, hle⟩
  simp only [JsonValue.member, hmem, Option.some.injEq, JsonValue.int.injEq] at hw
  subst hw
  rcases hbad with h | h
  · exact hne h
  · exact absurd hle (not_le.mpr h)

/-- C21 (amended): a status-200 response whose version is
`INVALID_REQUEST_VERSION`, or is above the largest version that the family
supports (as the current version of the family + 10 is when it exceeds that
maximum), makes the parser of the family fail with rest-malformed-response
because of the version, whatever the detail array contains.  A negative version
other than `INVALID_REQUEST_VERSION` satisfies the version rule. -/
theorem invalid_or_unsupported_version_is_malformed (sys : Sys) (ctx : RESTKmsConnectorCtx)
    (members : List (String × JsonValue)) (v : Int)
    (hmem : findMember REQUEST_VERSION_TAG members = some (.int v)) :
    ((v = sys.INVALID_REQUEST_VERSION ∨ sys.REST_KMS_MAX_CIPHER_REQUEST_VERSION < v) →
      parseEncryptCipherResponse sys ctx (response200 (.object members)) =
        some (.error Error.rest_malformed_response, ctx)) ∧
    ((v = sys.INVALID_REQUEST_VERSION ∨ sys.REST_KMS_MAX_BLOB_METADATA_REQUEST_VERSION < v) →
      parseBlobMetadataResponse sys ctx (response200 (.object members)) =
        some (.error Error.rest_malformed_response, ctx)) ∧
    (sys.REST_KMS_MAX_CIPHER_REQUEST_VERSION < sys.REST_KMS_CURRENT_CIPHER_REQUEST_VERSION + 10 →
      v = sys.REST_KMS_CURRENT_CIPHER_REQUEST_VERSION + 10 →
      parseEncryptCipherResponse sys ctx (response200 (.object members)) =
        some (.error Error.rest_malformed_response, ctx)) ∧
    (sys.REST_KMS_MAX_BLOB_METADATA_REQUEST_VERSION <
        sys.REST_KMS_CURRENT_BLOB_METADATA_REQUEST_VERSION + 10 →
      v = sys.REST_KMS_CURRENT_BLOB_METADATA_REQUEST_VERSION + 10 →
      parseBlobMetadataResponse sys ctx (response200 (.object members)) =
        some (.error Error.rest_malformed_response, ctx)) ∧
    (∀ isCipherType, v < 0 → -(2 : Int) ^ 31 ≤ v → v ≠ sys.INVALID_REQUEST_VERSION →
      v ≤ maxSupportedVersion sys isCipherType →
      VersionAccepted sys (.object members) isCipherType) := by
  obtain ⟨hc, hb⟩ := parsers_malformed_of_version sys ctx members
  refine ⟨?_, ?_, ?_, ?_, ?_⟩
  · intro h
    exact hc (not_versionAccepted_of_version hmem h)
  · intro h
    exact hb (not_versionAccepted_of_version hmem h)
  · intro hlt hv
    exact hc (not_versionAccepted_of_version hmem (Or.inr (by rw [hv]; exact hlt)))
  · intro hlt hv
    exact hb (not_versionAccepted_of_version hmem (Or.inr (by rw [hv]; exact hlt)))
  · intro isCipherType hneg hlow hne hle
    refine ⟨v, hmem, ⟨hlow, ?_⟩, hne, hle⟩
    have : (0 : Int) < 2 ^ 31 := by norm_num
    omega

/-! ### Validation tokens: the details string -/

theorem takeWhile_ne_append_sep (sep : Char) (tok rest : List Char)
    (h : ∀ ch ∈ tok, ch ≠ sep) :
    (tok ++ sep :: rest).takeWhile (fun ch => decide (ch ≠ sep)) = tok := by
  induction tok with
  | nil => simp [List.takeWhile]
  | cons a l ih =>
    have ha : a ≠ sep := h a (List.mem_cons_self _ _)
    simp only [List.cons_append, List.takeWhile_cons, ne_eq, ha, not_false_eq_true,
      decide_True, if_true]
    rw [ih (fun ch hch => h ch (List.mem_cons_of_mem _ hch))]

theorem dropWhile_ne_append_sep (sep : Char) (tok rest : List Char)
    (h : ∀ ch ∈ tok, ch ≠ sep) :
    (tok ++ sep :: rest).dropWhile (fun ch => decide (ch ≠ sep)) = sep :: rest := by
  induction tok with
  | nil => simp [List.dropWhile]
  | cons a l ih =>
    have ha : a ≠ sep := h a (List.mem_cons_self _ _)
    simp only [List.cons_append, List.dropWhile_cons, ne_eq, ha, not_false_eq_true,
      decide_True, if_true]
    exact ih (fun ch hch => h ch (List.mem_cons_of_mem _ hch))

theorem eat_append_sep (sep : Char) (tok rest : List Char) (h : ∀ ch ∈ tok, ch ≠ sep) :
    eat sep (tok ++ sep :: rest) = (tok, rest) := by
  unfold eat
  rw [takeWhile_ne_append_sep sep tok rest h, dropWhile_ne_append_sep sep tok rest h]
  rfl

theorem eat_no_sep (sep : Char) (s : List Char) (h : ∀ ch ∈ s, ch ≠ sep) :
    eat sep s = (s, []) := by
  unfold eat
  have h1 : s.takeWhile (fun ch => decide (ch ≠ sep)) = s := by
    rw [List.takeWhile_eq_self_iff]
    intro ch hch
    simpa using h ch hch
  have h2 : s.dropWhile (fun ch => decide (ch ≠ sep)) = [] := by
    rw [List.dropWhile_eq_nil_iff]
    intro ch hch
    simpa using h ch hch
  rw [h1, h2]
  rfl

/-- What `eat` leaves is shorter than the string by the bytes it returns. -/
theorem eat_length (sep : Char) (s : List Char) :
    (eat sep s).1.length + (eat sep s).2.length ≤ s.length := by
  unfold eat
  have h := List.takeWhile_append_dropWhile (fun ch => decide (ch ≠ sep)) s
  have hl : (s.takeWhile (fun ch => decide (ch ≠ sep))).length +
      (s.dropWhile (fun ch => decide (ch ≠ sep))).length = s.length := by
    rw [← List.length_append, h]
  simp only [List.length_drop]
  omega

/-- The loop that fills `tokenFilePathMap` does not depend on its fuel, as long as
the fuel exceeds the length of what is left of the details string. -/
theorem tokenFileLoop_fuel (sys : Sys) (fuel1 fuel2 : Nat) (s : List Char)
    (m : UnorderedMap String) (h1 : s.length < fuel1) (h2 : s.length < fuel2) :
    tokenFileLoop sys fuel1 s m = tokenFileLoop sys fuel2 s m := by
  induction fuel1 generalizing fuel2 s m with
  | zero => omega
  | succ n ih =>
    cases fuel2 with
    | zero => omega
    | succ k =>
      simp only [tokenFileLoop]
      split
      · rfl
      · rename_i hname
        split
        · rfl
        · split
          · rfl
          · have hl1 := eat_length TOKEN_NAME_FILE_SEP s
            have hl2 := eat_length TOKEN_TUPLE_SEP (eat TOKEN_NAME_FILE_SEP s).2
            have hpos : 0 < (eat TOKEN_NAME_FILE_SEP s).1.length := by
              cases hq : (eat TOKEN_NAME_FILE_SEP s).1 with
              | nil => rw [hq] at hname; simp at hname
              | cons a l => simp
            apply ih <;> omega

/-- The loop that fills `tokenFilePathMap` never runs out of the fuel it is given
by `procureValidationTokensFromFiles`. -/
theorem tokenFileLoop_defined (sys : Sys) (fuel : Nat) (s : List Char)
    (m : UnorderedMap String) (h : s.length < fuel) : tokenFileLoop sys fuel s m ≠ none := by
  induction fuel generalizing s m with
  | zero => omega
  | succ n ih =>
    simp only [tokenFileLoop]
    split
    · simp
    · rename_i hname
      split
      · simp
      · split
        · simp
        · have hl1 := eat_length TOKEN_NAME_FILE_SEP s
          have hl2 := eat_length TOKEN_TUPLE_SEP (eat TOKEN_NAME_FILE_SEP s).2
          have hpos : 0 < (eat TOKEN_NAME_FILE_SEP s).1.length := by
            cases hq : (eat TOKEN_NAME_FILE_SEP s).1 with
            | nil => rw [hq] at hname; simp at hname
            | cons a l => simp
          apply ih
          omega

theorem tokenFileLoop_nil (sys : Sys) (fuel : Nat) (m : UnorderedMap String) :
    tokenFileLoop sys (fuel + 1) [] m = some (.ok m) := by
  simp [tokenFileLoop, eat]

/-- One iteration of the first loop of the procurement. -/
theorem tokenFileLoop_step (sys : Sys) (fuel : Nat) (s : List Char) (m : UnorderedMap String)
    (hname : nextName s ≠ []) :
    (nextPath s = [] → tokenFileLoop sys (fuel + 1) s m = some (.error Error.operation_failed)) ∧
    (nextPath s ≠ [] → sys.fileExists (String.mk (trim_copy (nextPath s))) = false →
      tokenFileLoop sys (fuel + 1) s m = some (.error Error.encrypt_invalid_kms_config)) ∧
    (nextPath s ≠ [] → sys.fileExists (String.mk (trim_copy (nextPath s))) = true →
      tokenFileLoop sys (fuel + 1) s m =
        tokenFileLoop sys fuel (eat TOKEN_TUPLE_SEP (eat TOKEN_NAME_FILE_SEP s).2).2
          (m.emplace (String.mk (trim_copy (nextName s)))
            (String.mk (trim_copy (nextPath s))))) := by
  have h1 : (eat TOKEN_NAME_FILE_SEP s).1.isEmpty = false := by
    cases hq : (eat TOKEN_NAME_FILE_SEP s).1 with
    | nil => exact absurd hq hname
    | cons a l => rfl
  refine ⟨?_, ?_, ?_⟩
  · intro hp
    have h2 : (eat TOKEN_TUPLE_SEP (eat TOKEN_NAME_FILE_SEP s).2).1.isEmpty = true := by
      have : (eat TOKEN_TUPLE_SEP (eat TOKEN_NAME_FILE_SEP s).2).1 = [] := hp
      rw [this]
      rfl
    simp only [tokenFileLoop, h1, h2, Bool.false_eq_true, if_false, if_true]
  · intro hp hex
    have h2 : (eat TOKEN_TUPLE_SEP (eat TOKEN_NAME_FILE_SEP s).2).1.isEmpty = false := by
      cases hq : (eat TOKEN_TUPLE_SEP (eat TOKEN_NAME_FILE_SEP s).2).1 with
      | nil => exact absurd hq hp
      | cons a l => rfl
    have hex2 : sys.fileExists
        (String.mk (trim_copy (eat TOKEN_TUPLE_SEP (eat TOKEN_NAME_FILE_SEP s).2).1)) = false :=
      hex
    simp only [tokenFileLoop, h1, h2, hex2, Bool.false_eq_true, if_false, Bool.not_false,
      if_true]
  · intro hp hex
    have h2 : (eat TOKEN_TUPLE_SEP (eat TOKEN_NAME_FILE_SEP s).2).1.isEmpty = false := by
      cases hq : (eat TOKEN_TUPLE_SEP (eat TOKEN_NAME_FILE_SEP s).2).1 with
      | nil => exact absurd hq hp
      | cons a l => rfl
    have hex2 : sys.fileExists
        (String.mk (trim_copy (eat TOKEN_TUPLE_SEP (eat TOKEN_NAME_FILE_SEP s).2).1)) = true :=
      hex
    simp only [tokenFileLoop, h1, h2, hex2, Bool.false_eq_true, if_false, Bool.not_true,
      nextName, nextPath]

/-- What the first loop reads at a well-formed tuple that is followed by
`TUPLE_SEP`. -/
theorem next_of_renderTuple_sep (t : String × String) (rest : List Char)
    (ht : TupleWellFormed t) :
    nextName (renderTuple t ++ TOKEN_TUPLE_SEP :: rest) = t.1.data ∧
    nextPath (renderTuple t ++ TOKEN_TUPLE_SEP :: rest) = t.2.data ∧
    (eat TOKEN_TUPLE_SEP (eat TOKEN_NAME_FILE_SEP
      (renderTuple t ++ TOKEN_TUPLE_SEP :: rest)).2).2 = rest := by
  obtain ⟨_, h2, _, h4⟩ := ht
  have h : renderTuple t ++ TOKEN_TUPLE_SEP :: rest =
      t.1.data ++ TOKEN_NAME_FILE_SEP :: (t.2.data ++ TOKEN_TUPLE_SEP :: rest) := by
    simp [renderTuple]
  simp only [nextName, nextPath, h, eat_append_sep TOKEN_NAME_FILE_SEP _ _ h2,
    eat_append_sep TOKEN_TUPLE_SEP _ _ h4, and_self]

/-- What the first loop reads at a well-formed tuple that ends the details
string. -/
theorem next_of_renderTuple_end (t : String × String) (ht : TupleWellFormed t) :
    nextName (renderTuple t) = t.1.data ∧ nextPath (renderTuple t) = t.2.data ∧
    (eat TOKEN_TUPLE_SEP (eat TOKEN_NAME_FILE_SEP (renderTuple t)).2).2 = [] := by
  obtain ⟨_, h2, _, h4⟩ := ht
  simp only [nextName, nextPath, renderTuple, eat_append_sep TOKEN_NAME_FILE_SEP _ _ h2,
    eat_no_sep TOKEN_TUPLE_SEP _ h4, and_self]

/-- The path map after the tuples `ts` have been entered. -/
theorem tokenFileLoop_over_tuples (sys : Sys) (ts : List (String × String)) (rest : List Char)
    (fuel : Nat) (m : UnorderedMap String)
    (hts : ∀ t ∈ ts, TupleWellFormed t ∧ sys.fileExists (trimString t.2) = true) :
    tokenFileLoop sys (fuel + ts.length) (renderTuples ts ++ rest) m =
      tokenFileLoop sys fuel rest
        (ts.foldl (fun acc t => acc.emplace (trimString t.1) (trimString t.2)) m) := by
  induction ts generalizing m with
  | nil => rfl
  | cons t ts ih =>
    obtain ⟨hw, hex⟩ := hts t (List.mem_cons_self _ _)
    obtain ⟨hn, hp, hr⟩ := next_of_renderTuple_sep t (renderTuples ts ++ rest) hw
    have hs : renderTuples (t :: ts) ++ rest =
        renderTuple t ++ TOKEN_TUPLE_SEP :: (renderTuples ts ++ rest) := by
      simp [renderTuples]
    have hstep := (tokenFileLoop_step sys (fuel + ts.length)
      (renderTuple t ++ TOKEN_TUPLE_SEP :: (renderTuples ts ++ rest)) m
      (by rw [hn]; exact hw.1)).2.2 (by rw [hp]; exact hw.2.2.1) (by rw [hp]; exact hex)
    rw [hs, List.length_cons, ← Nat.add_assoc, hstep, hr, hn, hp,
      ih _ (fun x hx => hts x (List.mem_cons_of_mem _ hx))]
    rfl

/-! ### Validation tokens: the store -/

theorem emplace_new {α : Type} (m : UnorderedMap α) (key : String) (value : α)
    (h : key ∉ m.map (fun kv => kv.1)) : m.emplace key value = m ++ [(key, value)] := by
  unfold UnorderedMap.emplace
  rw [if_neg]
  simp only [List.any_eq_true, decide_eq_true_eq, not_exists, not_and]
  intro kv hkv hk
  exact h (List.mem_map.mpr ⟨kv, hkv, hk⟩)

theorem mem_emplace {α : Type} (m : UnorderedMap α) (key : String) (value : α)
    (kv : String × α) (h : kv ∈ m.emplace key value) : kv ∈ m ∨ kv = (key, value) := by
  unfold UnorderedMap.emplace at h
  split at h
  · exact Or.inl h
  · simpa using h

/-- Entries with pairwise distinct keys that are new to the map are all
inserted, in order. -/
theorem foldl_emplace_nodup {α : Type} (pairs : List (String × α)) (m : UnorderedMap α)
    (h : (m.map (fun kv => kv.1) ++ pairs.map (fun kv => kv.1)).Nodup) :
    pairs.foldl (fun acc p => acc.emplace p.1 p.2) m = m ++ pairs := by
  induction pairs generalizing m with
  | nil => simp
  | cons p ps ih =>
    have hp : p.1 ∉ m.map (fun kv => kv.1) := by
      intro hin
      rw [List.nodup_append] at h
      exact h.2.2 hin (by simp)
    simp only [List.foldl_cons]
    rw [emplace_new m p.1 p.2 hp, ih]
    · simp
    · simpa [List.map_append, List.append_assoc] using h

theorem removeTrailingChar_length_le (str : String) (c : Char) :
    (removeTrailingChar str c).data.length ≤ str.data.length := by
  simp only [removeTrailingChar, List.length_reverse]
  exact ((List.dropWhile_suffix _).length_le).trans (by simp)

theorem payloadSize_emplace_le (store : ValidationTokenMap) (key : String)
    (tok : ValidationTokenCtx) :
    payloadSize (store.emplace key tok) ≤ payloadSize store + tok.value.data.length := by
  unfold UnorderedMap.emplace
  split
  · omega
  · simp [payloadSize]

/-- The bounds that hold after the second loop of the procurement has gone
through: every value it stored has at most `TOKEN_MAX_SIZE` bytes, and the
values of the store add up to at most `TOKENS_MAX_PAYLOAD` bytes. -/
theorem readTokenFiles_bounds (sys : Sys) (items : List (String × String)) (sum0 : Nat)
    (store store2 : ValidationTokenMap)
    (h : readTokenFiles sys items sum0 store = (.ok (), store2)) :
    (∀ kv ∈ store2, kv ∈ store ∨
      kv.2.value.data.length ≤ sys.REST_KMS_CONNECTOR_VALIDATION_TOKEN_MAX_SIZE) ∧
    (payloadSize store ≤ sum0 →
      sum0 ≤ sys.REST_KMS_CONNECTOR_VALIDATION_TOKENS_MAX_PAYLOAD_SIZE →
      payloadSize store2 ≤ sys.REST_KMS_CONNECTOR_VALIDATION_TOKENS_MAX_PAYLOAD_SIZE) := by
  induction items generalizing sum0 store with
  | nil =>
    simp only [readTokenFiles, Prod.mk.injEq, true_and] at h
    subst h
    exact ⟨fun kv hkv => Or.inl hkv, fun h1 h2 => h1.trans h2⟩
  | cons it rest ih =>
    obtain ⟨tokenName, tokenFile⟩ := it
    simp only [readTokenFiles] at h
    split at h
    · cases h
    · rename_i tFile hopen
      split at h
      · cases h
      · rename_i hsize
        split at h
        · cases h
        · rename_i hpay
          split at h
          · cases h
          · rename_i hread
            obtain ⟨ih1, ih2⟩ := ih _ _ h
            have hval : ∀ v : String,
                v = (if sys.REST_KMS_CONNECTOR_REMOVE_TRAILING_NEWLINE = true then
                  removeTrailingChar (String.mk (tFile.buff.data.take tFile.fSize)) '\n'
                else String.mk (tFile.buff.data.take tFile.fSize)) →
                v.data.length ≤ tFile.fSize := by
              intro v hv
              have hk : (String.mk (tFile.buff.data.take tFile.fSize)).data.length ≤
                  tFile.fSize := by
                simp only [List.length_take]
                omega
              split at hv
              · rw [hv]
                exact (removeTrailingChar_length_le _ _).trans hk
              · rw [hv]
                exact hk
            constructor
            · intro kv hkv
              rcases ih1 kv hkv with h1 | h1
              · rcases mem_emplace _ _ _ _ h1 with h2 | h2
                · exact Or.inl h2
                · right
                  rw [h2]
                  exact (hval _ rfl).trans (not_lt.mp hsize)
              · exact Or.inr h1
            · intro hp hs
              apply ih2
              · exact (payloadSize_emplace_le _ _ _).trans
                  (Nat.add_le_add hp (hval _ rfl))
              · exact not_lt.mp hpay

/-- The second loop of the procurement on files that can be read completely and
respect the bounds: it stores one token per entry, in the order of the visit. -/
theorem readTokenFiles_ok (sys : Sys) (content : String → String)
    (items : List (String × String)) (sum0 : Nat) (store : ValidationTokenMap)
    (hfiles : ∀ it ∈ items, sys.openFile it.2 = .ok (wholeFile (content it.2)) ∧
      (content it.2).data.length ≤ sys.REST_KMS_CONNECTOR_VALIDATION_TOKEN_MAX_SIZE)
    (hsum : sum0 + (items.map (fun it => (content it.2).data.length)).sum ≤
      sys.REST_KMS_CONNECTOR_VALIDATION_TOKENS_MAX_PAYLOAD_SIZE)
    (hkeys : (store.map (fun kv => kv.1) ++ items.map (fun it => it.1)).Nodup) :
    readTokenFiles sys items sum0 store =
      (.ok (), store ++
        items.map (fun it => (it.1, tokenOfFile sys (content it.2) it.1 it.2))) := by
  induction items generalizing sum0 store with
  | nil => simp [readTokenFiles]
  | cons it rest ih =>
    obtain ⟨tokenName, tokenFile⟩ := it
    obtain ⟨hopen, hsize⟩ := hfiles (tokenName, tokenFile) (List.mem_cons_self _ _)
    simp only [List.map_cons, List.sum_cons] at hsum
    have hnew : tokenName ∉ store.map (fun kv => kv.1) := by
      intro hin
      rw [List.nodup_append] at hkeys
      exact hkeys.2.2 hin (by simp)
    have htake : String.mk ((content tokenFile).data.take (content tokenFile).data.length) =
        content tokenFile := by
      rw [List.take_length]
    simp only [readTokenFiles, hopen, wholeFile, not_lt.mpr hsize, if_false, ne_eq,
      not_true_eq_false, htake]
    rw [if_neg (by omega)]
    rw [emplace_new store tokenName _ hnew, ih]
    · simp [tokenOfFile]
    · exact fun x hx => hfiles x (List.mem_cons_of_mem _ hx)
    · omega
    · simpa [List.map_append, List.append_assoc] using hkeys

/-- What `removeTrailingChar` removes: all the characters `c` that end the
string. -/
theorem removeTrailingChar_spec (str : String) (c : Char) :
    ∃ k, str.data = (removeTrailingChar str c).data ++ List.replicate k c ∧
      (removeTrailingChar str c).data.getLast? ≠ some c := by
  obtain ⟨t, ht, hall, hlast⟩ := dropWhile_end_spec (fun ch => decide (ch = c)) str.data
  refine ⟨t.length, ?_, ?_⟩
  · have : t = List.replicate t.length c := by
      rw [List.eq_replicate_iff]
      exact ⟨rfl, fun x hx => by simpa using hall x hx⟩
    rw [← this]
    exact ht
  · intro h
    have := hlast c h
    simp at this

/-- C30 (amended): for a token file that is read completely and respects the
bounds, the stored value is, when the strip knob is on, the bytes of the file
without all the `'\n'` characters that end them (it does not end with `'\n'`),
and, when the knob is off, the bytes of the file. -/
theorem stored_value_has_no_trailing_newline (sys : Sys) (tokenName tokenFile bytes : String)
    (hopen : sys.openFile tokenFile = .ok (wholeFile bytes))
    (hsize : bytes.data.length ≤ sys.REST_KMS_CONNECTOR_VALIDATION_TOKEN_MAX_SIZE)
    (hpay : bytes.data.length ≤ sys.REST_KMS_CONNECTOR_VALIDATION_TOKENS_MAX_PAYLOAD_SIZE) :
    ∃ tok, readTokenFiles sys [(tokenName, tokenFile)] 0 [] = (.ok (), [(tokenName, tok)]) ∧
      (sys.REST_KMS_CONNECTOR_REMOVE_TRAILING_NEWLINE = true →
        tok.value = removeTrailingChar bytes '\n' ∧
        tok.value.data.getLast? ≠ some '\n' ∧
        ∃ k, bytes.data = tok.value.data ++ List.replicate k '\n') ∧
      (sys.REST_KMS_CONNECTOR_REMOVE_TRAILING_NEWLINE = false → tok.value = bytes) := by
  have h := readTokenFiles_ok sys (fun _ => bytes) [(tokenName, tokenFile)] 0 []
    (by
      intro it hit
      simp only [List.mem_singleton] at hit
      subst hit
      exact ⟨hopen, hsize⟩)
    (by simpa using hpay) (by simp)
  refine ⟨tokenOfFile sys bytes tokenName tokenFile, by simpa using h, ?_, ?_⟩
  · intro hflag
    obtain ⟨k, hk, hl⟩ := removeTrailingChar_spec bytes '\n'
    simp only [tokenOfFile, hflag, if_true]
    exact ⟨trivial, hl, k, hk⟩
  · intro hflag
    simp [tokenOfFile, hflag]

/-- C28: in the loop of `procureValidationTokensFromFiles` over the token files,
a file whose size exceeds `TOKEN_MAX_SIZE` makes the call fail with
file-too-large (a size of exactly `TOKEN_MAX_SIZE` passes this test), and a
running sum of the file sizes that exceeds `TOKENS_MAX_PAYLOAD` makes it fail
with value-too-large; a file that passes both tests and is read completely
gives a token whose value is no longer than the file.  After every successful
procurement each stored value has at most `TOKEN_MAX_SIZE` bytes and the stored
values add up to at most `TOKENS_MAX_PAYLOAD` bytes. -/
theorem token_sizes_are_bounded (sys : Sys) :
    (∀ tokenName tokenFile rest tokensPayloadSize store tFile,
      sys.openFile tokenFile = .ok tFile →
      (sys.REST_KMS_CONNECTOR_VALIDATION_TOKEN_MAX_SIZE < tFile.fSize →
        readTokenFiles sys ((tokenName, tokenFile) :: rest) tokensPayloadSize store =
          (.error Error.file_too_large, store)) ∧
      (tFile.fSize ≤ sys.REST_KMS_CONNECTOR_VALIDATION_TOKEN_MAX_SIZE →
        sys.REST_KMS_CONNECTOR_VALIDATION_TOKENS_MAX_PAYLOAD_SIZE <
          tokensPayloadSize + tFile.fSize →
        readTokenFiles sys ((tokenName, tokenFile) :: rest) tokensPayloadSize store =
          (.error Error.value_too_large, store)) ∧
      (tFile.fSize ≤ sys.REST_KMS_CONNECTOR_VALIDATION_TOKEN_MAX_SIZE →
        tokensPayloadSize + tFile.fSize ≤
          sys.REST_KMS_CONNECTOR_VALIDATION_TOKENS_MAX_PAYLOAD_SIZE →
        tFile.bytesRead = tFile.fSize →
        ∃ tok, tok.value.data.length ≤ tFile.fSize ∧
          readTokenFiles sys ((tokenName, tokenFile) :: rest) tokensPayloadSize store =
            readTokenFiles sys rest (tokensPayloadSize + tFile.fSize)
              (store.emplace tokenName tok))) ∧
    (∀ store details store2,
      procureValidationTokensFromFiles sys store details = some (.ok (), store2) →
      (∀ kv ∈ store2,
        kv.2.value.data.length ≤ sys.REST_KMS_CONNECTOR_VALIDATION_TOKEN_MAX_SIZE) ∧
      payloadSize store2 ≤ sys.REST_KMS_CONNECTOR_VALIDATION_TOKENS_MAX_PAYLOAD_SIZE) := by
  constructor
  · intro tokenName tokenFile rest tokensPayloadSize store tFile hopen
    refine ⟨?_, ?_, ?_⟩
    · intro h
      simp only [readTokenFiles, hopen, gt_iff_lt, h, if_true]
    · intro h1 h2
      simp only [readTokenFiles, hopen, gt_iff_lt, not_lt.mpr h1, if_false, h2, if_true]
    · intro h1 h2 h3
      refine ⟨_, ?_, by
        simp only [readTokenFiles, hopen, gt_iff_lt, not_lt.mpr h1, if_false, not_lt.mpr h2,
          ne_eq, h3, not_true_eq_false]
        rfl⟩
      have hk : (String.mk (tFile.buff.data.take tFile.fSize)).data.length ≤ tFile.fSize := by
        simp only [List.length_take]
        omega
      simp only
      split
      · exact (removeTrailingChar_length_le _ _).trans hk
      · exact hk
  · intro store details store2 h
    unfold procureValidationTokensFromFiles at h
    split at h
    · simp at h
    · split at h
      · cases h
      · simp at h
      · rename_i m hm
        simp only [Option.some.injEq] at h
        obtain ⟨h1, h2⟩ := readTokenFiles_bounds sys _ 0 [] store2 h
        constructor
        · intro kv hkv
          rcases h1 kv hkv with hc | hc
          · cases hc
          · exact hc
        · exact h2 (by simp [payloadSize]) (Nat.zero_le _)

/-! ### Validation tokens: the procurement -/

/-- The first loop of the procurement after a prefix of well-formed tuples whose
files exist. -/
theorem tokenFileLoop_after_tuples (sys : Sys) (good : List (String × String))
    (tail : List Char)
    (hgood : ∀ t ∈ good, TupleWellFormed t ∧ sys.fileExists (trimString t.2) = true) :
    tokenFileLoop sys ((renderTuples good ++ tail).length + 1) (renderTuples good ++ tail) [] =
      tokenFileLoop sys ((renderTuples good ++ tail).length + 1) tail
        (good.foldl (fun acc t => acc.emplace (trimString t.1) (trimString t.2)) []) := by
  rw [tokenFileLoop_fuel sys ((renderTuples good ++ tail).length + 1)
    (((renderTuples good ++ tail).length + 1) + good.length) _ _ (by omega) (by omega)]
  exact tokenFileLoop_over_tuples sys good tail _ [] hgood

theorem nextName_ne_nil {s : List Char} (h : nextName s ≠ []) : s ≠ [] := by
  intro hs
  rw [hs] at h
  exact h rfl

/-- C27: `procureValidationTokensFromFiles` checks the details string before it
touches the store.  It fails with invalid-kms-config when the details string is
empty.  After any number of well-formed tuples whose files exist, it fails with
operation-failed at a non-empty name that is followed by an empty path (as when
the rest of the string holds no name separator), and with invalid-kms-config at
a tuple whose file does not exist.  In each of these failures, and in every
failure of this check, the store is as it was before the call. -/
theorem token_details_are_checked_before_the_store (sys : Sys) (store : ValidationTokenMap) :
    procureValidationTokensFromFiles sys store "" =
      some (.error Error.encrypt_invalid_kms_config, store) ∧
    (∀ good tail,
      (∀ t ∈ good, TupleWellFormed t ∧ sys.fileExists (trimString t.2) = true) →
      nextName tail ≠ [] →
      (nextPath tail = [] →
        procureValidationTokensFromFiles sys store (String.mk (renderTuples good ++ tail)) =
          some (.error Error.operation_failed, store)) ∧
      (nextPath tail ≠ [] → sys.fileExists (String.mk (trim_copy (nextPath tail))) = false →
        procureValidationTokensFromFiles sys store (String.mk (renderTuples good ++ tail)) =
          some (.error Error.encrypt_invalid_kms_config, store))) ∧
    (∀ details e, details.data ≠ [] →
      tokenFileLoop sys (details.data.length + 1) details.data [] = some (.error e) →
      procureValidationTokensFromFiles sys store details = some (.error e, store)) := by
  have hgen : ∀ details e, details.data ≠ [] →
      tokenFileLoop sys (details.data.length + 1) details.data [] = some (.error e) →
      procureValidationTokensFromFiles sys store details = some (.error e, store) := by
    intro details e hne hloop
    unfold procureValidationTokensFromFiles
    have h1 : details.data.isEmpty = false := by
      cases hd : details.data with
      | nil => exact absurd hd hne
      | cons a l => rfl
    simp only [h1, Bool.false_eq_true, if_false, hloop]
  refine ⟨rfl, ?_, hgen⟩
  intro good tail hgood hname
  have hne : (String.mk (renderTuples good ++ tail)).data ≠ [] := by
    have := nextName_ne_nil hname
    simp [this]
  have hpre := tokenFileLoop_after_tuples sys good tail hgood
  obtain ⟨h1, h2, _⟩ := tokenFileLoop_step sys (renderTuples good ++ tail).length tail
    (good.foldl (fun acc t => acc.emplace (trimString t.1) (trimString t.2)) []) hname
  constructor
  · intro hp
    exact hgen _ _ hne (hpre.trans (h1 hp))
  · intro hp hex
    exact hgen _ _ hne (hpre.trans (h2 hp hex))

theorem renderTuples_append (a b : List (String × String)) :
    renderTuples (a ++ b) = renderTuples a ++ renderTuples b := by
  induction a with
  | nil => rfl
  | cons t ts ih => simp [renderTuples, ih]

theorem renderTuples_concat_dropLast (init : List (String × String)) (last : String × String) :
    (renderTuples (init ++ [last])).dropLast = renderTuples init ++ renderTuple last := by
  rw [renderTuples_append]
  have : renderTuples [last] = renderTuple last ++ [TOKEN_TUPLE_SEP] := by
    simp [renderTuples]
  rw [this, ← List.append_assoc, List.dropLast_concat]

/-- The path map that the first loop of the procurement builds from a details
string of well-formed tuples with pairwise distinct trimmed names whose files
exist. -/
theorem tokenFileLoop_tokenDetails (sys : Sys) (tuples : List (String × String))
    (trailingSep : Bool) (hne : tuples ≠ [])
    (hwf : ∀ t ∈ tuples, TupleWellFormed t ∧ sys.fileExists (trimString t.2) = true)
    (hnames : (tuples.map (fun t => trimString t.1)).Nodup) :
    (tokenDetails tuples trailingSep).data ≠ [] ∧
    tokenFileLoop sys ((tokenDetails tuples trailingSep).data.length + 1)
      (tokenDetails tuples trailingSep).data [] =
      some (.ok (tuples.map (fun t => (trimString t.1, trimString t.2)))) := by
  have hfold : ∀ ts : List (String × String), (ts.map (fun t => trimString t.1)).Nodup →
      ts.foldl (fun (acc : UnorderedMap String) t =>
        acc.emplace (trimString t.1) (trimString t.2)) [] = ts.map (fun t => (trimString t.1, trimString t.2)) := by
    intro ts hn
    have := foldl_emplace_nodup (ts.map (fun t => (trimString t.1, trimString t.2))) []
      (by simpa [List.map_map, Function.comp_def] using hn)
    rw [List.foldl_map] at this
    simpa using this
  obtain ⟨init, last, rfl⟩ : ∃ init last, tuples = init ++ [last] :=
    ⟨tuples.dropLast, tuples.getLast hne, (List.dropLast_append_getLast hne).symm⟩
  have hinit : ∀ t ∈ init, TupleWellFormed t ∧ sys.fileExists (trimString t.2) = true :=
    fun t ht => hwf t (by simp [ht])
  obtain ⟨hlw, hlex⟩ := hwf last (by simp)
  cases trailingSep with
  | true =>
    have hd : (tokenDetails (init ++ [last]) true).data = renderTuples (init ++ [last]) ++ [] := by
      simp [tokenDetails]
    have hnn : renderTuples (init ++ [last]) ≠ [] := by
      rw [renderTuples_append]
      simp [renderTuples]
    rw [hd]
    refine ⟨by simpa using hnn, ?_⟩
    rw [tokenFileLoop_after_tuples sys (init ++ [last]) [] hwf, tokenFileLoop_nil,
      hfold _ hnames]
  | false =>
    have hd : (tokenDetails (init ++ [last]) false).data =
        renderTuples init ++ renderTuple last := by
      simp only [tokenDetails, Bool.false_eq_true, if_false]
      exact renderTuples_concat_dropLast init last
    obtain ⟨hn, hp, hr⟩ := next_of_renderTuple_end last hlw
    have hlen : 0 < (renderTuples init ++ renderTuple last).length := by
      simp [renderTuple]
    rw [hd]
    refine ⟨fun h => by rw [h] at hlen; simp at hlen, ?_⟩
    rw [tokenFileLoop_after_tuples sys init (renderTuple last) hinit]
    have hstep := (tokenFileLoop_step sys (renderTuples init ++ renderTuple last).length
      (renderTuple last)
      (init.foldl (fun acc t => acc.emplace (trimString t.1) (trimString t.2)) [])
      (by rw [hn]; exact hlw.1)).2.2 (by rw [hp]; exact hlw.2.2.1) (by rw [hp]; exact hlex)
    rw [hstep, hr, hn, hp]
    obtain ⟨k, hk⟩ : ∃ k, (renderTuples init ++ renderTuple last).length = k + 1 :=
      ⟨_, (Nat.succ_pred_eq_of_pos hlen).symm⟩
    rw [hk, tokenFileLoop_nil]
    have := hfold (init ++ [last]) hnames
    simp only [List.foldl_append, List.foldl_cons, List.foldl_nil] at this
    rw [← this]
    rfl

/-- C29 (amended): for a details string of k ≥ 1 well-formed name/path tuples
whose names are pairwise distinct after trimming, whose files exist, can be read
completely and respect the size bounds, `procureValidationTokensFromFiles` succeeds, and the store then
holds exactly k tokens, one per tuple: keyed by the trimmed name, with the bytes
of the file as value (without the trailing newlines when the strip knob is on),
source `file`, and the trimmed path as origin; whatever the store held before
the call is gone. -/
theorem procurement_stores_one_token_per_tuple (sys : Sys) (content : String → String)
    (tuples : List (String × String)) (trailingSep : Bool) (store : ValidationTokenMap)
    (hne : tuples ≠ [])
    (hwf : ∀ t ∈ tuples, TupleWellFormed t)
    (hnames : (tuples.map (fun t => trimString t.1)).Nodup)
    (hfiles : ∀ t ∈ tuples, sys.fileExists (trimString t.2) = true ∧
      sys.openFile (trimString t.2) = .ok (wholeFile (content (trimString t.2))) ∧
      (content (trimString t.2)).data.length ≤
        sys.REST_KMS_CONNECTOR_VALIDATION_TOKEN_MAX_SIZE)
    (hsum : (tuples.map (fun t => (content (trimString t.2)).data.length)).sum ≤
      sys.REST_KMS_CONNECTOR_VALIDATION_TOKENS_MAX_PAYLOAD_SIZE)
    (horder : ∀ m, List.Perm (sys.unorderedMapOrder m) m) :
    ∃ store2, procureValidationTokensFromFiles sys store (tokenDetails tuples trailingSep) =
        some (.ok (), store2) ∧
      List.Perm store2 (tuples.map (fun t => (trimString t.1,
        tokenOfFile sys (content (trimString t.2)) (trimString t.1) (trimString t.2)))) ∧
      store2.length = tuples.length := by
  obtain ⟨hd, hloop⟩ := tokenFileLoop_tokenDetails sys tuples trailingSep hne
    (fun t ht => ⟨hwf t ht, (hfiles t ht).1⟩) hnames
  have hperm := horder (tuples.map (fun t => (trimString t.1, trimString t.2)))
  have hitems : ∀ it ∈ sys.unorderedMapOrder
      (tuples.map (fun t => (trimString t.1, trimString t.2))),
      sys.openFile it.2 = .ok (wholeFile (content it.2)) ∧
      (content it.2).data.length ≤ sys.REST_KMS_CONNECTOR_VALIDATION_TOKEN_MAX_SIZE := by
    intro it hit
    obtain ⟨t, ht, rfl⟩ := List.mem_map.mp (hperm.mem_iff.mp hit)
    exact (hfiles t ht).2
  have hs : (0 : Nat) + ((sys.unorderedMapOrder
      (tuples.map (fun t => (trimString t.1, trimString t.2)))).map
        (fun it => (content it.2).data.length)).sum ≤
      sys.REST_KMS_CONNECTOR_VALIDATION_TOKENS_MAX_PAYLOAD_SIZE := by
    rw [Nat.zero_add, ((hperm.map _).sum_eq)]
    simpa [List.map_map, Function.comp_def] using hsum
  have hk : (([] : ValidationTokenMap).map (fun kv => kv.1) ++
      (sys.unorderedMapOrder (tuples.map (fun t => (trimString t.1, trimString t.2)))).map
        (fun it => it.1)).Nodup := by
    simp only [List.map_nil, List.nil_append]
    refine ((hperm.map _).nodup_iff).mpr ?_
    simpa [List.map_map, Function.comp_def] using hnames
  have hread := readTokenFiles_ok sys content _ 0 [] hitems hs hk
  have h1 : (tokenDetails tuples trailingSep).data.isEmpty = false := by
    cases hq : (tokenDetails tuples trailingSep).data with
    | nil => exact absurd hq hd
    | cons a l => rfl
  refine ⟨[] ++ (sys.unorderedMapOrder
    (tuples.map (fun t => (trimString t.1, trimString t.2)))).map
      (fun it => (it.1, tokenOfFile sys (content it.2) it.1 it.2)), ?_, ?_, ?_⟩
  · unfold procureValidationTokensFromFiles
    simp only [h1, Bool.false_eq_true, if_false, hloop, hread]
  · simp only [List.nil_append]
    have := hperm.map (fun it : String × String =>
      (it.1, tokenOfFile sys (content it.2) it.1 it.2))
    simpa [List.map_map, Function.comp_def] using this
  · simp only [List.nil_append, List.length_map]
    simpa using hperm.length_eq

/-- C21 (counterexample): a status-200 response with version -7 and valid
details is parsed successfully by both parsers (`INVALID_REQUEST_VERSION` is 0
and the largest supported version is 1): the negative version is not rejected.
The document of the unit test with version -7 is malformed because its detail
entry holds nothing but an id. -/
theorem negative_version_is_accepted :
    parserSys.INVALID_REQUEST_VERSION = 0 ∧
    findMember REQUEST_VERSION_TAG (versionMembers (-7)) = some (.int (-7)) ∧
    parseEncryptCipherResponse parserSys (ctxOf []) (response200 (.object (versionMembers (-7)))) =
      some (.ok twoCipherDetails, ctxOf []) ∧
    parseBlobMetadataResponse parserSys (ctxOf []) (response200 (.object (versionMembers (-7)))) =
      some (.ok oneBlobDetail, ctxOf []) ∧
    parseEncryptCipherResponse parserSys (ctxOf []) (response200 (testVersionDoc true)) =
      some (.error Error.rest_malformed_response, ctxOf []) ∧
    parseBlobMetadataResponse parserSys (ctxOf []) (response200 (testVersionDoc false)) =
      some (.error Error.rest_malformed_response, ctxOf []) :=
  ⟨rfl, rfl, rfl, rfl, rfl, rfl⟩

/-- C21 (witness): version 11, the current version 1 + 10, above the largest
supported version 1, with valid details of both families; and version -7, which
satisfies the version rule. -/
theorem invalid_or_unsupported_version_is_malformed_witness :
    findMember REQUEST_VERSION_TAG (versionMembers 11) = some (.int 11) ∧
    parserSys.REST_KMS_MAX_CIPHER_REQUEST_VERSION <
      parserSys.REST_KMS_CURRENT_CIPHER_REQUEST_VERSION + 10 ∧
    (11 : Int) = parserSys.REST_KMS_CURRENT_CIPHER_REQUEST_VERSION + 10 ∧
    parseEncryptCipherResponse parserSys (ctxOf []) (response200 (.object (versionMembers 11))) =
      some (.error Error.rest_malformed_response, ctxOf []) ∧
    parseBlobMetadataResponse parserSys (ctxOf []) (response200 (.object (versionMembers 11))) =
      some (.error Error.rest_malformed_response, ctxOf []) ∧
    VersionAccepted parserSys (.object (versionMembers (-7))) true :=
  ⟨rfl, by decide, rfl,
    (invalid_or_unsupported_version_is_malformed parserSys (ctxOf []) (versionMembers 11) 11
      rfl).2.2.1 (by decide) rfl,
    (invalid_or_unsupported_version_is_malformed parserSys (ctxOf []) (versionMembers 11) 11
      rfl).2.1 (Or.inr (by decide)),
    (invalid_or_unsupported_version_is_malformed parserSys (ctxOf []) (versionMembers (-7)) (-7)
      rfl).2.2.2.2 true (by decide) (by decide) (by decide) (by decide)⟩

/-- C22 (witness): the lines `https://a/x  `, `  https://a/y` and
`https://a/z///` give exactly the endpoints `https://a/x`, `https://a/y` and
`https://a/z`, in this order. -/
theorem discovery_file_lines_become_endpoints_witness :
    discoveredUrls threeUrlLines = ["https://a/x", "https://a/y", "https://a/z"] ∧
    ∃ ctx2, parseDiscoverKmsUrlFile (scenarioSys threeUrlLines []) (ctxOf []) "/kms/urls" =
        (.ok (), ctx2) ∧
      ctx2.kmsUrlHeap.c = (ctxOf []).kmsUrlHeap.c ++
        freshEndpoints (scenarioSys threeUrlLines []) (ctxOf []).nAllocs
          (discoveredUrls (wholeFile threeUrlLines).buff) ∧
      (freshEndpoints (scenarioSys threeUrlLines []) (ctxOf []).nAllocs
          (discoveredUrls (wholeFile threeUrlLines).buff)).map (fun p => p.obj) =
        (discoveredUrls (wholeFile threeUrlLines).buff).map KmsUrlCtx.mk1 ∧
      ctx2.kmsUrlHeap.size = (ctxOf []).kmsUrlHeap.size +
        ((getlines DISCOVER_URL_FILE_URL_SEP (wholeFile threeUrlLines).buff.data []).filter
          (fun line => !(normaliseUrlLine line).isEmpty)).length ∧
      ctx2.lastKmsUrlsRefreshTs = (ctxOf []).lastKmsUrlsRefreshTs :=
  ⟨by decide,
    discovery_file_lines_become_endpoints (scenarioSys threeUrlLines []) (ctxOf []) "/kms/urls"
      (wholeFile threeUrlLines) (by decide) (by decide) rfl rfl⟩

/-- C23 (witness): the discovery file with the lines `https://a/x  `,
`  https://a/y` and `https://a/z///`. -/
theorem discovered_urls_are_normalised_witness :
    parseDiscoverKmsUrlFile (scenarioSys threeUrlLines []) (ctxOf []) "/kms/urls" =
      (.ok (), { kmsUrlHeap := { c := [freshAt 1000 "https://a/x", freshAt 1001 "https://a/y",
                    freshAt 1002 "https://a/z"] },
                 lastKmsUrlsRefreshTs := 0, nAllocs := 3 }) ∧
    ∃ f, (scenarioSys threeUrlLines []).openFile "/kms/urls" = .ok f ∧
      [freshAt 1000 "https://a/x", freshAt 1001 "https://a/y", freshAt 1002 "https://a/z"] =
        (ctxOf []).kmsUrlHeap.c ++
          freshEndpoints (scenarioSys threeUrlLines []) (ctxOf []).nAllocs
            (discoveredUrls f.buff) ∧
      ∀ u ∈ discoveredUrls f.buff,
        u.data ≠ [] ∧ u.data.getLast? ≠ some '/' ∧
        (∀ ch, u.data.head? = some ch → isSpace ch = false) ∧
        ∃ line ∈ getlines DISCOVER_URL_FILE_URL_SEP f.buff.data [], ∃ k,
          trim_copy line = u.data ++ List.replicate k '/' ∧
          (∀ ch, (trim_copy line).getLast? = some ch → isSpace ch = false) ∧
          (k = 0 → ∀ ch, u.data.getLast? = some ch → isSpace ch = false) :=
  ⟨rfl,
    discovered_urls_are_normalised (scenarioSys threeUrlLines []) (ctxOf [])
      { kmsUrlHeap := { c := [freshAt 1000 "https://a/x", freshAt 1001 "https://a/y",
            freshAt 1002 "https://a/z"] },
        lastKmsUrlsRefreshTs := 0, nAllocs := 3 } "/kms/urls" rfl⟩

/-- C24 (witness): pool = [A], the discovery file lists B; after the call the
pool is [A, B], with `refreshPersistedUrls` true as with false. -/
theorem discovery_appends_to_pool_witness :
    discoverKmsUrls (scenarioSys "https://b\n" [2]) (ctxOf [freshAt 1 "https://a"]) true =
      (.ok (), { kmsUrlHeap := { c := [freshAt 1 "https://a", freshAt 2 "https://b"] },
                 lastKmsUrlsRefreshTs := 0, nAllocs := 1 }) ∧
    ∃ f, (scenarioSys "https://b\n" [2]).openFile
        (scenarioSys "https://b\n" [2]).REST_KMS_CONNECTOR_DISCOVER_KMS_URL_FILE = .ok f ∧
      [freshAt 1 "https://a", freshAt 2 "https://b"] =
        (ctxOf [freshAt 1 "https://a"]).kmsUrlHeap.c ++
          freshEndpoints (scenarioSys "https://b\n" [2]) (ctxOf [freshAt 1 "https://a"]).nAllocs
            (discoveredUrls f.buff) ∧
      ((ctxOf [freshAt 1 "https://a"]).kmsUrlHeap.c = [] →
        [freshAt 1 "https://a", freshAt 2 "https://b"] =
          freshEndpoints (scenarioSys "https://b\n" [2]) (ctxOf [freshAt 1 "https://a"]).nAllocs
            (discoveredUrls f.buff)) ∧
      discoverKmsUrls (scenarioSys "https://b\n" [2]) (ctxOf [freshAt 1 "https://a"]) (!true) =
        discoverKmsUrls (scenarioSys "https://b\n" [2]) (ctxOf [freshAt 1 "https://a"]) true :=
  ⟨rfl,
    discovery_appends_to_pool (scenarioSys "https://b\n" [2]) (ctxOf [freshAt 1 "https://a"])
      { kmsUrlHeap := { c := [freshAt 1 "https://a", freshAt 2 "https://b"] },
        lastKmsUrlsRefreshTs := 0, nAllocs := 1 } true rfl⟩

/-- C25 (witness): an empty file name and the name of a file that does not exist
give invalid-kms-config; a file of 3 bytes of which 2 are read gives io-error;
the pool [A] is left as it was. -/
theorem discovery_file_errors_keep_pool_witness :
    parseDiscoverKmsUrlFile (scenarioSys "https://b\n" []) (ctxOf [freshAt 1 "https://a"]) "" =
      (.error Error.encrypt_invalid_kms_config, ctxOf [freshAt 1 "https://a"]) ∧
    (scenarioSys "https://b\n" []).fileExists "/kms/missing" = false ∧
    parseDiscoverKmsUrlFile (scenarioSys "https://b\n" []) (ctxOf [freshAt 1 "https://a"])
        "/kms/missing" =
      (.error Error.encrypt_invalid_kms_config, ctxOf [freshAt 1 "https://a"]) ∧
    shortReadSys.openFile "/kms/urls" = .ok { fSize := 3, bytesRead := 2, buff := "ab" } ∧
    parseDiscoverKmsUrlFile shortReadSys (ctxOf [freshAt 1 "https://a"]) "/kms/urls" =
      (.error Error.io_error, ctxOf [freshAt 1 "https://a"]) :=
  ⟨(discovery_file_errors_keep_pool (scenarioSys "https://b\n" []) (ctxOf [freshAt 1 "https://a"])
      "").1 (Or.inl rfl),
    by decide,
    (discovery_file_errors_keep_pool (scenarioSys "https://b\n" []) (ctxOf [freshAt 1 "https://a"])
      "/kms/missing").1 (Or.inr (by decide)),
    rfl,
    (discovery_file_errors_keep_pool shortReadSys (ctxOf [freshAt 1 "https://a"])
      "/kms/urls").2 { fSize := 3, bytesRead := 2, buff := "ab" } (by decide) (by decide) rfl
      (by decide)⟩

/-- C26 (witness): with the discovery mode `file` and the validation-token mode
`none` the discovery fails with not-implemented; with the discovery mode `none`
and the validation-token mode `file` the file discovery runs and adds the
endpoint of the file. -/
theorem discovery_reads_token_mode_knob_witness :
    tokenModeOffSys.REST_KMS_CONNECTOR_KMS_DISCOVERY_URL_MODE = "file" ∧
    tokenModeOffSys.REST_KMS_CONNECTOR_VALIDATION_TOKEN_MODE = "none" ∧
    discoverKmsUrls tokenModeOffSys (ctxOf []) true = (.error Error.not_implemented, ctxOf []) ∧
    discoveryModeOffSys.REST_KMS_CONNECTOR_KMS_DISCOVERY_URL_MODE = "none" ∧
    discoveryModeOffSys.REST_KMS_CONNECTOR_VALIDATION_TOKEN_MODE = "file" ∧
    discoverKmsUrls discoveryModeOffSys (ctxOf []) true =
      parseDiscoverKmsUrlFile discoveryModeOffSys (ctxOf [])
        discoveryModeOffSys.REST_KMS_CONNECTOR_DISCOVER_KMS_URL_FILE ∧
    discoverKmsUrls discoveryModeOffSys (ctxOf []) true =
      (.ok (), { kmsUrlHeap := { c := [freshAt 1000 "https://a"] },
                 lastKmsUrlsRefreshTs := 0, nAllocs := 1 }) :=
  ⟨rfl, rfl,
    (discovery_reads_token_mode_knob tokenModeOffSys (ctxOf []) true).2.1 (by decide),
    rfl, rfl,
    (discovery_reads_token_mode_knob discoveryModeOffSys (ctxOf []) true).1 rfl,
    rfl⟩

/-- C30 (counterexample): the token file holds `abc\n\n` and the strip knob is
on.  The loop of `removeTrailingChar` erases both newlines: the stored value is
`abc`, not `abc\n`. -/
theorem two_trailing_newlines_are_both_removed :
    procureValidationTokensFromFiles (tokenSys [("/t/1", "abc\n\n")] true) [] "t1$/t/1" =
      some (.ok (), [("t1", fileToken "t1" "abc" "/t/1")]) ∧
    removeTrailingChar "abc\n\n" '\n' = "abc" ∧
    ("abc" : String) ≠ "abc\n" :=
  ⟨rfl, rfl, by decide⟩

/-- C30 (witness): the token file holds `abc\n`; the stored value is `abc` when
the strip knob is on. -/
theorem stored_value_has_no_trailing_newline_witness :
    readTokenFiles (tokenSys threeTokenFiles true) [("t1", "/t/1")] 0 [] =
      (.ok (), [("t1", fileToken "t1" "abc" "/t/1")]) ∧
    ∃ tok, readTokenFiles (tokenSys threeTokenFiles true) [("t1", "/t/1")] 0 [] =
        (.ok (), [("t1", tok)]) ∧
      ((tokenSys threeTokenFiles true).REST_KMS_CONNECTOR_REMOVE_TRAILING_NEWLINE = true →
        tok.value = removeTrailingChar "abc\n" '\n' ∧
        tok.value.data.getLast? ≠ some '\n' ∧
        ∃ k, ("abc\n" : String).data = tok.value.data ++ List.replicate k '\n') ∧
      ((tokenSys threeTokenFiles true).REST_KMS_CONNECTOR_REMOVE_TRAILING_NEWLINE = false →
        tok.value = "abc\n") :=
  ⟨rfl,
    stored_value_has_no_trailing_newline (tokenSys threeTokenFiles true) "t1" "/t/1" "abc\n"
      rfl (by decide) (by decide)⟩

/-- C27 (witness): the details strings of the unit tests, in a system without
token files and with a store that holds a token: the empty string gives
invalid-kms-config, `abdc/tmp/foo` gives operation-failed,
`foo$/imaginary-dir/dream/phantom-file` gives invalid-kms-config, and the store
still holds its token. -/
theorem token_details_are_checked_before_the_store_witness :
    procureValidationTokensFromFiles (tokenSys [] true) oldStore "" =
      some (.error Error.encrypt_invalid_kms_config, oldStore) ∧
    procureValidationTokensFromFiles (tokenSys [] true) oldStore "abdc/tmp/foo" =
      some (.error Error.operation_failed, oldStore) ∧
    procureValidationTokensFromFiles (tokenSys [] true) oldStore
        "foo$/imaginary-dir/dream/phantom-file" =
      some (.error Error.encrypt_invalid_kms_config, oldStore) ∧
    procureValidationTokensFromFiles (tokenSys threeTokenFiles true) oldStore
        "t1$/t/1,t2$/t/missing" =
      some (.error Error.encrypt_invalid_kms_config, oldStore) :=
  ⟨(token_details_are_checked_before_the_store (tokenSys [] true) oldStore).1,
    ((token_details_are_checked_before_the_store (tokenSys [] true) oldStore).2.1 []
      "abdc/tmp/foo".data (by simp) (by decide)).1 (by decide),
    ((token_details_are_checked_before_the_store (tokenSys [] true) oldStore).2.1 []
      "foo$/imaginary-dir/dream/phantom-file".data (by simp) (by decide)).2 (by decide)
      (by decide),
    ((token_details_are_checked_before_the_store (tokenSys threeTokenFiles true) oldStore).2.1
      [("t1", "/t/1")] "t2$/t/missing".data (by decide) (by decide)).2 (by decide) (by decide)⟩

/-- C28 (witness): with `TOKEN_MAX_SIZE = 8` and `TOKENS_MAX_PAYLOAD = 20`, a
file of 8 bytes is accepted, a file of 9 bytes gives file-too-large, and three
files of 8 bytes give value-too-large at the third; the values stored by the
successful procurement respect both bounds. -/
theorem token_sizes_are_bounded_witness :
    procureValidationTokensFromFiles (tokenSys sizedTokenFiles false) oldStore "t8$/t/8" =
      some (.ok (), [("t8", fileToken "t8" "12345678" "/t/8")]) ∧
    procureValidationTokensFromFiles (tokenSys sizedTokenFiles false) oldStore "t9$/t/9" =
      some (.error Error.file_too_large, []) ∧
    procureValidationTokensFromFiles (tokenSys sizedTokenFiles false) oldStore
        "a$/t/a,b$/t/b,c$/t/c" =
      some (.error Error.value_too_large,
        [("a", fileToken "a" "aaaaaaaa" "/t/a"), ("b", fileToken "b" "bbbbbbbb" "/t/b")]) ∧
    readTokenFiles (tokenSys sizedTokenFiles false) [("t9", "/t/9")] 0 [] =
      (.error Error.file_too_large, []) ∧
    readTokenFiles (tokenSys sizedTokenFiles false) [("c", "/t/c")] 16
        [("a", fileToken "a" "aaaaaaaa" "/t/a"), ("b", fileToken "b" "bbbbbbbb" "/t/b")] =
      (.error Error.value_too_large,
        [("a", fileToken "a" "aaaaaaaa" "/t/a"), ("b", fileToken "b" "bbbbbbbb" "/t/b")]) ∧
    ((∀ kv ∈ [("t8", fileToken "t8" "12345678" "/t/8")],
        kv.2.value.data.length ≤
          (tokenSys sizedTokenFiles false).REST_KMS_CONNECTOR_VALIDATION_TOKEN_MAX_SIZE) ∧
      payloadSize [("t8", fileToken "t8" "12345678" "/t/8")] ≤
        (tokenSys sizedTokenFiles false).REST_KMS_CONNECTOR_VALIDATION_TOKENS_MAX_PAYLOAD_SIZE) :=
  ⟨rfl, rfl, rfl,
    ((token_sizes_are_bounded (tokenSys sizedTokenFiles false)).1 "t9" "/t/9" [] 0 []
      (wholeFile "123456789") rfl).1 (by decide),
    ((token_sizes_are_bounded (tokenSys sizedTokenFiles false)).1 "c" "/t/c" [] 16
      [("a", fileToken "a" "aaaaaaaa" "/t/a"), ("b", fileToken "b" "bbbbbbbb" "/t/b")]
      (wholeFile "cccccccc") rfl).2.1 (by decide) (by decide),
    (token_sizes_are_bounded (tokenSys sizedTokenFiles false)).2 oldStore "t8$/t/8"
      [("t8", fileToken "t8" "12345678" "/t/8")] rfl⟩

/-- C29 (witness): three files with the body `abc\n`, named by the tuples
`t1..t3`, with the strip knob on: the store, which held another token before the
call, then holds exactly the three tokens `t1..t3` of value `abc`. -/
theorem procurement_stores_one_token_per_tuple_witness :
    tokenDetails threeTuples false = "t1$/t/1,t2$/t/2,t3$/t/3" ∧
    procureValidationTokensFromFiles (tokenSys threeTokenFiles true) oldStore
        "t1$/t/1,t2$/t/2,t3$/t/3" =
      some (.ok (), [("t1", fileToken "t1" "abc" "/t/1"), ("t2", fileToken "t2" "abc" "/t/2"),
        ("t3", fileToken "t3" "abc" "/t/3")]) ∧
    ∃ store2, procureValidationTokensFromFiles (tokenSys threeTokenFiles true) oldStore
        (tokenDetails threeTuples false) = some (.ok (), store2) ∧
      List.Perm store2 (threeTuples.map (fun t => (trimString t.1,
        tokenOfFile (tokenSys threeTokenFiles true) (contentOf threeTokenFiles (trimString t.2))
          (trimString t.1) (trimString t.2)))) ∧
      store2.length = threeTuples.length :=
  ⟨by decide, rfl,
    procurement_stores_one_token_per_tuple (tokenSys threeTokenFiles true)
      (contentOf threeTokenFiles) threeTuples false oldStore (by decide) (by decide) (by decide)
      (by
        intro t ht
        simp only [threeTuples, List.mem_cons, List.mem_singleton, List.not_mem_nil,
          or_false] at ht
        rcases ht with rfl | rfl | rfl <;> exact ⟨rfl, rfl, by decide⟩)
      (by decide) (fun _ => List.Perm.refl _)⟩

/-- C29 (counterexample): the details string holds the two tuples ` t1$/t/1` and
`t1$/t/2`, whose names ` t1` and `t1` are distinct and whose files exist and
respect the size bounds.  Both names are trimmed to the key `t1`, the second
`emplace` of the path map finds the key and inserts nothing: the call succeeds
and the store holds one token, not two. -/
theorem names_equal_after_trimming_share_a_token :
    (" t1" : String) ≠ "t1" ∧
    tokenDetails [(" t1", "/t/1"), ("t1", "/t/2")] false = " t1$/t/1,t1$/t/2" ∧
    (∀ p ∈ ["/t/1", "/t/2"], (tokenSys threeTokenFiles true).fileExists p = true) ∧
    procureValidationTokensFromFiles (tokenSys threeTokenFiles true) oldStore
        " t1$/t/1,t1$/t/2" =
      some (.ok (), [("t1", fileToken "t1" "abc" "/t/1")]) :=
  ⟨by decide, by decide, by decide, rfl⟩

/-! ### Failed parses, discovery and the refresh timestamp -/

/-- A failed `parseBlobMetadataResponse` leaves the whole context as it was. -/
theorem parseBlobMetadataResponse_error_ctx {sys : Sys} {c c2 : RESTKmsConnectorCtx}
    {resp : ResponseRef} {e : Error}
    (h : parseBlobMetadataResponse sys c resp = some (.error e, c2)) : c2 = c := by
  unfold parseBlobMetadataResponse at h
  split at h
  · cases h
  · split at h
    · simp only [Option.some.injEq, Prod.mk.injEq] at h
      exact h.2.symm
    · simp only at h
      split at h
      · cases h
      · simp only [Option.some.injEq, Prod.mk.injEq] at h
        exact h.2.symm
      · split at h
        · split at h
          · cases h
          · simp only [Option.some.injEq, Prod.mk.injEq] at h
            exact h.2.symm
          · split at h
            · cases h
            · simp only [Option.some.injEq, Prod.mk.injEq] at h
              exact absurd h.1 (by simp)
        · simp only [Option.some.injEq, Prod.mk.injEq] at h
          exact h.2.symm

/-- C38: when `parseEncryptCipherResponse` or `parseBlobMetadataResponse` fails,
with whatever error, the context it leaves is the context it was called on: the
URL pool and `lastKmsUrlsRefreshTs` are exactly as they were before the call. -/
theorem failed_parse_keeps_pool_and_refresh_ts (sys : Sys) (ctx ctx2 : RESTKmsConnectorCtx)
    (resp : ResponseRef) (e : Error) :
    (parseEncryptCipherResponse sys ctx resp = some (.error e, ctx2) →
      ctx2.kmsUrlHeap = ctx.kmsUrlHeap ∧
      ctx2.lastKmsUrlsRefreshTs = ctx.lastKmsUrlsRefreshTs ∧ ctx2 = ctx) ∧
    (parseBlobMetadataResponse sys ctx resp = some (.error e, ctx2) →
      ctx2.kmsUrlHeap = ctx.kmsUrlHeap ∧
      ctx2.lastKmsUrlsRefreshTs = ctx.lastKmsUrlsRefreshTs ∧ ctx2 = ctx) := by
  constructor
  · intro h
    rw [parseEncryptCipherResponse_error_ctx h]
    exact ⟨rfl, rfl, rfl⟩
  · intro h
    rw [parseBlobMetadataResponse_error_ctx h]
    exact ⟨rfl, rfl, rfl⟩

theorem foldl_addDiscoveredUrl_ts (sys : Sys) (lines : List (List Char))
    (ctx : RESTKmsConnectorCtx) :
    (lines.foldl (addDiscoveredUrl sys) ctx).lastKmsUrlsRefreshTs = ctx.lastKmsUrlsRefreshTs := by
  rw [foldl_addDiscoveredUrl]
  rfl

/-- Whatever its outcome, `parseDiscoverKmsUrlFile` leaves the refresh timestamp
as it was. -/
theorem parseDiscoverKmsUrlFile_ts (sys : Sys) (ctx : RESTKmsConnectorCtx) (filename : String) :
    (parseDiscoverKmsUrlFile sys ctx filename).2.lastKmsUrlsRefreshTs =
      ctx.lastKmsUrlsRefreshTs := by
  unfold parseDiscoverKmsUrlFile
  split
  · rfl
  · split
    · rfl
    · split
      · rfl
      · exact foldl_addDiscoveredUrl_ts sys _ ctx

/-- C35 (amended): whatever their outcome, and so after a successful parse of
the discovery file, `parseDiscoverKmsUrlFile` and `discoverKmsUrls` leave
`lastKmsUrlsRefreshTs` as it was before the call.  The timestamp is set to the
current time by `extractKmsUrls`, the side-band refresh, when every entry of
`kms_urls` is a string. -/
theorem discovery_keeps_last_refresh_ts (sys : Sys) (ctx : RESTKmsConnectorCtx)
    (filename : String) (refreshPersistedUrls : Bool) :
    (parseDiscoverKmsUrlFile sys ctx filename).2.lastKmsUrlsRefreshTs =
      ctx.lastKmsUrlsRefreshTs ∧
    (discoverKmsUrls sys ctx refreshPersistedUrls).2.lastKmsUrlsRefreshTs =
      ctx.lastKmsUrlsRefreshTs ∧
    (∀ (doc : JsonValue) (urls : List String),
      doc.member KMS_URLS_TAG = some (.array (urls.map JsonValue.string)) →
      ∃ ctx2, extractKmsUrls sys ctx doc = some (.ok (), ctx2) ∧
        ctx2.lastKmsUrlsRefreshTs = sys.now) := by
  refine ⟨parseDiscoverKmsUrlFile_ts sys ctx filename, ?_, ?_⟩
  · unfold discoverKmsUrls
    simp only [List.isEmpty_nil, Bool.not_true, Bool.false_eq_true, if_false]
    split
    · exact parseDiscoverKmsUrlFile_ts sys ctx _
    · rfl
  · intro doc urls h
    rw [extractKmsUrls_array sys ctx doc _ h, extractKmsUrlsLoop_strings]
    exact ⟨_, rfl, rfl⟩

/-- C35 (counterexample): the connector is created with `lastKmsUrlsRefreshTs =
0`, the time is 42 and the discovery file lists `https://b`.  `discoverKmsUrls`
and `parseDiscoverKmsUrlFile` succeed and add the endpoint; the timestamp is
still 0, not the current time. -/
theorem discovery_does_not_set_last_refresh_ts :
    (scenarioSys "https://b\n" []).now = 42 ∧
    discoverKmsUrls (scenarioSys "https://b\n" []) (ctxOf []) false =
      (.ok (), { kmsUrlHeap := { c := [freshAt 1000 "https://b"] },
                 lastKmsUrlsRefreshTs := 0, nAllocs := 1 }) ∧
    parseDiscoverKmsUrlFile (scenarioSys "https://b\n" []) (ctxOf []) "/kms/urls" =
      (.ok (), { kmsUrlHeap := { c := [freshAt 1000 "https://b"] },
                 lastKmsUrlsRefreshTs := 0, nAllocs := 1 }) ∧
    (0 : Double) ≠ (scenarioSys "https://b\n" []).now :=
  ⟨rfl, rfl, rfl, by decide⟩

/-- C38 (witness): pool = [A], and responses that carry
`kms_urls = ["https://new1", "https://new2"]` and fail: with status 503, with
version 0, with an error object, with details that are not an array, and with a
key longer than `MAX_BASE_CIPHER_LEN`.  The context is left as it was. -/
theorem failed_parse_keeps_pool_and_refresh_ts_witness :
    parseEncryptCipherResponse parserSys (ctxOf [freshAt 1 "https://a"])
        (some { code := 503, content := goodDoc newUrls }) =
      some (.error Error.http_request_failed, ctxOf [freshAt 1 "https://a"]) ∧
    parseBlobMetadataResponse parserSys (ctxOf [freshAt 1 "https://a"])
        (response200 (.object (versionZeroMembers ++ newUrls))) =
      some (.error Error.rest_malformed_response, ctxOf [freshAt 1 "https://a"]) ∧
    parseEncryptCipherResponse parserSys (ctxOf [freshAt 1 "https://a"])
        (response200 (goodDoc (("error", errorObject) :: newUrls))) =
      some (.error Error.encrypt_keys_fetch_failed, ctxOf [freshAt 1 "https://a"]) ∧
    parseBlobMetadataResponse parserSys (ctxOf [freshAt 1 "https://a"])
        (response200 (responseDoc (some (.int 1)) (.int 5) (.int 5) newUrls)) =
      some (.error Error.rest_malformed_response, ctxOf [freshAt 1 "https://a"]) ∧
    parseEncryptCipherResponse { parserSys with MAX_BASE_CIPHER_LEN := 2 }
        (ctxOf [freshAt 1 "https://a"]) (response200 (goodDoc newUrls)) =
      some (.error Error.rest_max_base_cipher_len, ctxOf [freshAt 1 "https://a"]) ∧
    ((ctxOf [freshAt 1 "https://a"]).kmsUrlHeap = (ctxOf [freshAt 1 "https://a"]).kmsUrlHeap ∧
      (ctxOf [freshAt 1 "https://a"]).lastKmsUrlsRefreshTs =
        (ctxOf [freshAt 1 "https://a"]).lastKmsUrlsRefreshTs ∧
      ctxOf [freshAt 1 "https://a"] = ctxOf [freshAt 1 "https://a"]) :=
  ⟨rfl, rfl, rfl, rfl, rfl,
    (failed_parse_keeps_pool_and_refresh_ts parserSys (ctxOf [freshAt 1 "https://a"])
      (ctxOf [freshAt 1 "https://a"])
      (response200 (responseDoc (some (.int 1)) (.int 5) (.int 5) newUrls))
      Error.rest_malformed_response).2 rfl⟩

/-- The loop of `extractKmsUrls` over an array whose first entry that is not a
string comes after the strings `urls`: the endpoints of `urls` have been added
when the loop throws. -/
theorem extractKmsUrlsLoop_non_string (sys : Sys) (urls : List String) (bad : JsonValue)
    (rest : List JsonValue) (c : RESTKmsConnectorCtx) (hbad : bad.IsString = false) :
    extractKmsUrlsLoop sys (urls.map JsonValue.string ++ bad :: rest) c =
      (.error Error.operation_failed, { c with
        kmsUrlHeap := { c := c.kmsUrlHeap.c ++ freshEndpoints sys c.nAllocs urls }
        nAllocs := c.nAllocs + urls.length }) := by
  induction urls generalizing c with
  | nil =>
    cases bad <;> simp [JsonValue.IsString] at hbad <;>
      simp [extractKmsUrlsLoop, freshEndpoints]
  | cons u us ih =>
    show extractKmsUrlsLoop sys
      (JsonValue.string u :: (us.map JsonValue.string ++ bad :: rest)) c = _
    rw [extractKmsUrlsLoop, ih]
    simp only [emplaceNewUrl, KmsUrlMinHeap.emplace, freshEndpoints, List.append_assoc,
      List.singleton_append, List.length_cons]
    have hk : c.nAllocs + 1 + us.length = c.nAllocs + (us.length + 1) := by omega
    rw [hk]

/-- The context after `checkDocForNewKmsUrls` met an entry that is not a string
after the strings `urls`. -/
theorem checkDocForNewKmsUrls_non_string (sys : Sys) (ctx : RESTKmsConnectorCtx)
    (members : List (String × JsonValue)) (urls : List String) (bad : JsonValue)
    (rest : List JsonValue) (hbad : bad.IsString = false)
    (hurls : findMember KMS_URLS_TAG members =
      some (.array (urls.map JsonValue.string ++ bad :: rest))) :
    checkDocForNewKmsUrls sys ctx (.object members) =
      some { kmsUrlHeap := { c := freshEndpoints sys ctx.nAllocs urls },
             lastKmsUrlsRefreshTs := ctx.lastKmsUrlsRefreshTs,
             nAllocs := ctx.nAllocs + urls.length } := by
  rw [(checkDocForNewKmsUrls_cases sys ctx members).2.2.1 _ hurls,
    extractKmsUrlsLoop_non_string sys urls bad rest _ hbad]
  simp

/-- C36 (amended): for every prior pool and every status-200 response that
satisfies the version rule, carries no error and whose details are extracted
successfully, when `kms_urls` is an array whose first entry that is not a string
comes after the strings u1, ..., uk (k ≥ 0): the parser returns the details,
`lastKmsUrlsRefreshTs` is what it was, and the pool consists of exactly the k
fresh endpoints of u1, ..., uk; the prior endpoints are all dropped and the
entries after the one that is not a string are not inserted. -/
theorem non_string_kms_url_leaves_partial_refresh (sys : Sys) (ctx : RESTKmsConnectorCtx)
    (doc : JsonValue) (urls : List String) (bad : JsonValue) (rest : List JsonValue)
    (herr : sys.getError doc = false) (hbad : bad.IsString = false)
    (hurls : doc.member KMS_URLS_TAG =
      some (.array (urls.map JsonValue.string ++ bad :: rest))) :
    (∀ elems result, VersionAccepted sys doc true →
      doc.member CIPHER_KEY_DETAILS_TAG = some (.array elems) →
      parseCipherDetails sys elems = some (.ok result) →
      parseEncryptCipherResponse sys ctx (response200 doc) =
        some (.ok result,
          { kmsUrlHeap := { c := freshEndpoints sys ctx.nAllocs urls },
            lastKmsUrlsRefreshTs := ctx.lastKmsUrlsRefreshTs,
            nAllocs := ctx.nAllocs + urls.length })) ∧
    (∀ elems result, VersionAccepted sys doc false →
      doc.member BLOB_METADATA_DETAILS_TAG = some (.array elems) →
      parseBlobDetails sys elems = some (.ok result) →
      parseBlobMetadataResponse sys ctx (response200 doc) =
        some (.ok result,
          { kmsUrlHeap := { c := freshEndpoints sys ctx.nAllocs urls },
            lastKmsUrlsRefreshTs := ctx.lastKmsUrlsRefreshTs,
            nAllocs := ctx.nAllocs + urls.length })) := by
  constructor
  · intro elems result hv hmem hres
    obtain ⟨members, rfl⟩ := hv.isObject
    rw [parseCipherDetails_eq] at hres
    rw [parseEncryptCipherResponse_checked ctx hv herr]
    simp only [JsonValue.member] at hmem hurls
    rw [hmem]
    simp only [hres, checkDocForNewKmsUrls_non_string sys ctx members urls bad rest hbad hurls]
  · intro elems result hv hmem hres
    obtain ⟨members, rfl⟩ := hv.isObject
    rw [parseBlobDetails_eq] at hres
    rw [parseBlobMetadataResponse_checked ctx hv herr]
    simp only [JsonValue.member] at hmem hurls
    rw [hmem]
    simp only [hres, checkDocForNewKmsUrls_non_string sys ctx members urls bad rest hbad hurls]

/-- C36 (counterexample): pool = [A] and a valid response with
`kms_urls = ["https://new1", 7]`.  The parse returns the details; the pool is
then [new1]: it is neither the pool as it was before the parse (A is gone) nor
the pool of all the listed URLs. -/
theorem non_string_kms_url_drops_prior_pool :
    parseEncryptCipherResponse parserSys (ctxOf [freshAt 1 "https://a"])
        (response200 (goodDoc [("kms_urls", .array [.string "https://new1", .int 7])])) =
      some (.ok twoCipherDetails,
        { kmsUrlHeap := { c := [freshAt 1000 "https://new1"] },
          lastKmsUrlsRefreshTs := 0, nAllocs := 1 }) ∧
    parseBlobMetadataResponse parserSys (ctxOf [freshAt 1 "https://a"])
        (response200 (goodDoc [("kms_urls", .array [.string "https://new1", .int 7])])) =
      some (.ok oneBlobDetail,
        { kmsUrlHeap := { c := [freshAt 1000 "https://new1"] },
          lastKmsUrlsRefreshTs := 0, nAllocs := 1 }) ∧
    [freshAt 1000 "https://new1"] ≠ (ctxOf [freshAt 1 "https://a"]).kmsUrlHeap.c :=
  ⟨rfl, rfl, by decide⟩

/-- C36 (witness): pool = [A] and a valid response with
`kms_urls = ["https://new1", 7, "https://new2"]`: the pool after the parse holds
the endpoint of `https://new1` alone, and the timestamp is still 0. -/
theorem non_string_kms_url_leaves_partial_refresh_witness :
    parserSys.getError
      (goodDoc [("kms_urls", .array [.string "https://new1", .int 7, .string "https://new2"])]) =
      false ∧
    parseEncryptCipherResponse parserSys (ctxOf [freshAt 1 "https://a"])
        (response200 (goodDoc
          [("kms_urls", .array [.string "https://new1", .int 7, .string "https://new2"])])) =
      some (.ok twoCipherDetails,
        { kmsUrlHeap :=
            { c := freshEndpoints parserSys (ctxOf [freshAt 1 "https://a"]).nAllocs
                ["https://new1"] },
          lastKmsUrlsRefreshTs := (ctxOf [freshAt 1 "https://a"]).lastKmsUrlsRefreshTs,
          nAllocs := (ctxOf [freshAt 1 "https://a"]).nAllocs + ["https://new1"].length }) ∧
    parseBlobMetadataResponse parserSys (ctxOf [freshAt 1 "https://a"])
        (response200 (goodDoc
          [("kms_urls", .array [.string "https://new1", .int 7, .string "https://new2"])])) =
      some (.ok oneBlobDetail,
        { kmsUrlHeap :=
            { c := freshEndpoints parserSys (ctxOf [freshAt 1 "https://a"]).nAllocs
                ["https://new1"] },
          lastKmsUrlsRefreshTs := (ctxOf [freshAt 1 "https://a"]).lastKmsUrlsRefreshTs,
          nAllocs := (ctxOf [freshAt 1 "https://a"]).nAllocs + ["https://new1"].length }) ∧
    freshEndpoints parserSys 0 ["https://new1"] = [freshAt 1000 "https://new1"] :=
  ⟨rfl,
    (non_string_kms_url_leaves_partial_refresh parserSys (ctxOf [freshAt 1 "https://a"])
      (goodDoc [("kms_urls", .array [.string "https://new1", .int 7, .string "https://new2"])])
      ["https://new1"] (.int 7) [.string "https://new2"] rfl rfl rfl).1 _ twoCipherDetails
      (versionAccepted_responseDoc true _ _ _) rfl rfl,
    (non_string_kms_url_leaves_partial_refresh parserSys (ctxOf [freshAt 1 "https://a"])
      (goodDoc [("kms_urls", .array [.string "https://new1", .int 7, .string "https://new2"])])
      ["https://new1"] (.int 7) [.string "https://new2"] rfl rfl rfl).2 _ oneBlobDetail
      (versionAccepted_responseDoc false _ _ _) rfl rfl,
    rfl⟩

/-! ### JSON text -/

theorem digitVal_digitChar (d : Nat) (h : d < 10) : digitVal (digitChar d) = some d := by
  interval_cases d <;> rfl

theorem digitChar_ne_minus (d : Nat) (h : d < 10) : digitChar d ≠ '-' := by
  interval_cases d <;> decide

theorem natDigits_lt (fuel n : Nat) : ∀ d ∈ natDigits fuel n, d < 10 := by
  induction fuel generalizing n with
  | zero => intro d hd; cases hd
  | succ fuel ih =>
    intro d hd
    unfold natDigits at hd
    split at hd
    · simp only [List.mem_singleton] at hd
      omega
    · rcases List.mem_append.mp hd with h | h
      · exact ih _ d h
      · simp only [List.mem_singleton] at h
        omega

theorem natDigits_value (fuel n : Nat) (h : n < fuel) :
    (natDigits fuel n).foldl (fun a d => a * 10 + d) 0 = n := by
  induction fuel generalizing n with
  | zero => omega
  | succ fuel ih =>
    unfold natDigits
    split
    · simp
    · rw [List.foldl_append, ih (n / 10) (by omega)]
      simp only [List.foldl_cons, List.foldl_nil]
      omega

theorem natDigits_ne_nil (fuel n : Nat) : natDigits (fuel + 1) n ≠ [] := by
  unfold natDigits
  split <;> simp

theorem readDigits_digits (ds : List Nat) (hds : ∀ d ∈ ds, d < 10) (rest : List Char)
    (hrest : NoDigitAhead rest) (acc : Nat) :
    readDigits (ds.map digitChar ++ rest) acc = (ds.foldl (fun a d => a * 10 + d) acc, rest) := by
  induction ds generalizing acc with
  | nil =>
    cases rest with
    | nil => rfl
    | cons c cs =>
      simp only [List.map_nil, List.nil_append, List.foldl_nil, readDigits]
      rw [show digitVal c = none from hrest]
  | cons d ds ih =>
    simp only [List.map_cons, List.cons_append, readDigits, List.foldl_cons]
    rw [digitVal_digitChar d (hds d (List.mem_cons_self _ _))]
    exact ih (fun x hx => hds x (List.mem_cons_of_mem _ hx)) _

theorem readNat_writeNat (n : Nat) (rest : List Char) (hrest : NoDigitAhead rest) :
    readNat (writeNat n ++ rest) = some (n, rest) := by
  unfold writeNat
  have hlt := natDigits_lt (n + 1) n
  have hval := natDigits_value (n + 1) n (by omega)
  cases hd : natDigits (n + 1) n with
  | nil => exact absurd hd (natDigits_ne_nil n n)
  | cons d ds =>
    rw [hd] at hlt hval
    simp only [List.map_cons, List.cons_append, readNat]
    rw [digitVal_digitChar d (hlt d (List.mem_cons_self _ _))]
    simp only [List.foldl_cons, Nat.zero_mul, Nat.zero_add] at hval
    simp only []
    rw [readDigits_digits ds (fun x hx => hlt x (List.mem_cons_of_mem _ hx)) rest hrest, hval]

/-- The first character of a natural number is a digit. -/
theorem writeNat_head (n : Nat) : ∃ d ds, d < 10 ∧ writeNat n = digitChar d :: ds := by
  unfold writeNat
  cases hd : natDigits (n + 1) n with
  | nil => exact absurd hd (natDigits_ne_nil n n)
  | cons d ds =>
    exact ⟨d, ds.map digitChar, by
      have := natDigits_lt (n + 1) n d (by rw [hd]; exact List.mem_cons_self _ _)
      exact this, rfl⟩

theorem readInt_writeInt (n : Int) (rest : List Char) (hrest : NoDigitAhead rest) :
    readInt (writeInt n ++ rest) = some (n, rest) := by
  unfold writeInt
  split
  · rename_i hneg
    simp only [List.cons_append, readInt, readNat_writeNat _ rest hrest, Option.map_some']
    rw [Int.ofNat_natAbs_of_nonpos (le_of_lt hneg), neg_neg]
  · rename_i hpos
    obtain ⟨d, ds, hd, hw⟩ := writeNat_head n.natAbs
    have hr := readNat_writeNat n.natAbs rest hrest
    rw [hw] at hr ⊢
    have hne := digitChar_ne_minus d hd
    simp only [List.cons_append] at hr ⊢
    unfold readInt
    split
    · rename_i cs heq
      injection heq with h1 _
      exact absurd h1 hne
    · rw [hr]
      simp only [Option.map_some']
      rw [Int.natAbs_of_nonneg (not_lt.mp hpos)]

theorem Delim.noDigit {rest : List Char} (h : Delim rest) : NoDigitAhead rest := by
  cases rest with
  | nil => trivial
  | cons c cs =>
    rcases h with h | h | h <;> subst h <;> rfl

theorem readString_escape (s rest : List Char) :
    readString false (escape s ++ quote :: rest) = some (s, rest) := by
  induction s with
  | nil => simp [escape, readString]
  | cons c cs ih =>
    unfold escape
    by_cases h : c = quote ∨ c = backslash
    · rw [if_pos h]
      have hb : backslash ≠ quote := by decide
      simp only [List.cons_append, readString, if_neg hb, if_true]
      show Option.map _ (readString false (escape cs ++ quote :: rest)) = _
      rw [ih]
      rfl
    · rw [if_neg h]
      simp only [not_or] at h
      simp only [List.cons_append, readString, if_neg h.1, if_neg h.2]
      show Option.map _ (readString false (escape cs ++ quote :: rest)) = _
      rw [ih]
      rfl

theorem readKey_escape (k : String) (rest : List Char) :
    readKey (escape k.data ++ quote :: ':' :: rest) = some (k, rest) := by
  unfold readKey
  rw [readString_escape]
  simp

/-- The first character of an integer starts a number. -/
theorem writeInt_head (n : Int) : ∃ c cs, writeInt n = c :: cs ∧ isNumStart c = true := by
  unfold writeInt
  split
  · exact ⟨'-', _, rfl, rfl⟩
  · obtain ⟨d, ds, hd, hw⟩ := writeNat_head n.natAbs
    refine ⟨digitChar d, ds, hw, ?_⟩
    unfold isNumStart
    rw [digitVal_digitChar d hd]
    simp

theorem readNumber_int (n : Int) (rest : List Char) (hrest : Delim rest) :
    readNumber (writeInt n ++ rest) = some (.int n, rest) := by
  unfold readNumber
  rw [readInt_writeInt n rest hrest.noDigit]
  cases rest with
  | nil => rfl
  | cons c cs =>
    have hc : c ≠ 'e' := by
      rcases hrest with h | h | h <;> subst h <;> decide
    simp only [if_neg hc]

theorem readNumber_double (m e : Int) (rest : List Char) (hrest : Delim rest) :
    readNumber (writeInt m ++ 'e' :: writeInt e ++ rest) = some (.double m e, rest) := by
  unfold readNumber
  have h1 : writeInt m ++ 'e' :: writeInt e ++ rest = writeInt m ++ ('e' :: (writeInt e ++ rest)) := by
    simp
  rw [h1, readInt_writeInt m _ (show NoDigitAhead ('e' :: _) from rfl)]
  simp only [if_true, readInt_writeInt e rest hrest.noDigit, Option.map_some']

theorem isNumStart_ne {c d : Char} (hc : isNumStart c = true) (hd : isNumStart d = false) :
    c ≠ d := by
  intro h
  subst h
  rw [hc] at hd
  cases hd

/-- The first character of the text of a value is not a closing bracket. -/
theorem writeValue_head (v : JsonValue) : ∃ d ds, writeValue v = d :: ds ∧ d ≠ ']' := by
  cases v with
  | null => exact ⟨_, _, rfl, by decide⟩
  | bool b => cases b <;> exact ⟨_, _, rfl, by decide⟩
  | int n =>
    obtain ⟨c, cs, hw, hc⟩ := writeInt_head n
    exact ⟨c, cs, hw, isNumStart_ne hc (by decide)⟩
  | double m e =>
    obtain ⟨c, cs, hw, hc⟩ := writeInt_head m
    refine ⟨c, cs ++ 'e' :: writeInt e, ?_, isNumStart_ne hc (by decide)⟩
    show writeInt m ++ 'e' :: writeInt e = _
    rw [hw]
    rfl
  | string s => exact ⟨_, _, rfl, by decide⟩
  | array vs =>
    cases vs with
    | nil => exact ⟨_, _, rfl, by decide⟩
    | cons v vs => exact ⟨_, _, rfl, by decide⟩
  | object ms =>
    cases ms with
    | nil => exact ⟨_, _, rfl, by decide⟩
    | cons m ms =>
      obtain ⟨k, v⟩ := m
      exact ⟨_, _, rfl, by decide⟩

theorem delim_elemsTail (vs : List JsonValue) (rest : List Char) :
    Delim (writeElemsTail vs ++ rest) := by
  cases vs with
  | nil => simp [writeElemsTail, Delim]
  | cons v vs => simp [writeElemsTail, Delim]

theorem delim_membersTail (ms : List (String × JsonValue)) (rest : List Char) :
    Delim (writeMembersTail ms ++ rest) := by
  cases ms with
  | nil => simp [writeMembersTail, Delim]
  | cons m ms =>
    obtain ⟨k, v⟩ := m
    simp [writeMembersTail, Delim]

mutual
/-- Reading the text of a value gives the value back. -/
theorem readValue_writeValue : ∀ (v : JsonValue) (fuel : Nat) (rest : List Char),
    (writeValue v).length ≤ fuel → Delim rest →
    readValue fuel (writeValue v ++ rest) = some (v, rest)
  | .null, fuel, rest, hf, _ => by
    obtain ⟨f, rfl⟩ : ∃ f, fuel = f + 1 := ⟨fuel - 1, by simp [writeValue] at hf; omega⟩
    simp [writeValue, readValue, isNumStart, digitVal]
  | .bool b, fuel, rest, hf, _ => by
    obtain ⟨f, rfl⟩ : ∃ f, fuel = f + 1 := ⟨fuel - 1, by cases b <;> simp [writeValue] at hf <;> omega⟩
    cases b <;> simp [writeValue, readValue, isNumStart, digitVal]
  | .int n, fuel, rest, hf, hd => by
    obtain ⟨c, cs, hw, hc⟩ := writeInt_head n
    obtain ⟨f, rfl⟩ : ∃ f, fuel = f + 1 := ⟨fuel - 1, by simp [writeValue, hw] at hf; omega⟩
    have := readNumber_int n rest hd
    simp only [writeValue, hw, List.cons_append, readValue, hc, if_true] at this ⊢
    exact this
  | .double m e, fuel, rest, hf, hd => by
    obtain ⟨c, cs, hw, hc⟩ := writeInt_head m
    obtain ⟨f, rfl⟩ : ∃ f, fuel = f + 1 := ⟨fuel - 1, by simp [writeValue, hw] at hf; omega⟩
    have := readNumber_double m e rest hd
    simp only [writeValue, hw, List.cons_append, readValue, hc, if_true] at this ⊢
    exact this
  | .string s, fuel, rest, hf, _ => by
    obtain ⟨f, rfl⟩ : ∃ f, fuel = f + 1 := ⟨fuel - 1, by simp [writeValue] at hf; omega⟩
    have h0 : isNumStart quote = false := by decide
    have h1 : quote ≠ 'n' := by decide
    have h2 : quote ≠ 't' := by decide
    have h3 : quote ≠ 'f' := by decide
    simp only [writeValue, List.cons_append, List.append_assoc, readValue, h0, h1, h2, h3,
      Bool.false_eq_true, if_false, if_true, List.append_eq, List.append_assoc,
      List.singleton_append, readString_escape, Option.map_some']
    rfl
  | .array [], fuel, rest, hf, _ => by
    obtain ⟨f, rfl⟩ : ∃ f, fuel = f + 1 := ⟨fuel - 1, by simp [writeValue] at hf; omega⟩
    have h0 : isNumStart '[' = false := by decide
    have h1 : '[' ≠ 'n' := by decide
    have h2 : '[' ≠ 't' := by decide
    have h3 : '[' ≠ 'f' := by decide
    have h4 : '[' ≠ quote := by decide
    show readValue (f + 1) ('[' :: ']' :: rest) = _
    simp only [readValue, h0, h1, h2, h3, h4, Bool.false_eq_true, if_false, if_true]
  | .array (v :: vs), fuel, rest, hf, _ => by
    obtain ⟨f, rfl⟩ : ∃ f, fuel = f + 1 := ⟨fuel - 1, by simp [writeValue] at hf; omega⟩
    obtain ⟨d, ds, hw, hne⟩ := writeValue_head v
    have hlen : (writeValue v).length + (writeElemsTail vs).length ≤ f := by
      simp [writeValue] at hf; omega
    have ih1 := readValue_writeValue v f (writeElemsTail vs ++ rest) (by omega)
      (delim_elemsTail vs rest)
    have ih2 := readElemsTail_writeElemsTail vs f rest (by omega)
    have h0 : isNumStart '[' = false := by decide
    have h1 : '[' ≠ 'n' := by decide
    have h2 : '[' ≠ 't' := by decide
    have h3 : '[' ≠ 'f' := by decide
    have h4 : '[' ≠ quote := by decide
    rw [hw] at ih1
    simp only [List.cons_append] at ih1
    simp only [writeValue, hw, List.cons_append, List.append_assoc, readValue, h0, h1, h2, h3, h4,
      Bool.false_eq_true, if_false, if_true, if_neg hne, List.append_eq, ih1, ih2,
      Option.map_some']
  | .object [], fuel, rest, hf, _ => by
    obtain ⟨f, rfl⟩ : ∃ f, fuel = f + 1 := ⟨fuel - 1, by simp [writeValue] at hf; omega⟩
    have h0 : isNumStart lbrace = false := by decide
    have h1 : lbrace ≠ 'n' := by decide
    have h2 : lbrace ≠ 't' := by decide
    have h3 : lbrace ≠ 'f' := by decide
    have h4 : lbrace ≠ quote := by decide
    have h5 : lbrace ≠ '[' := by decide
    show readValue (f + 1) (lbrace :: rbrace :: rest) = _
    simp only [readValue, h0, h1, h2, h3, h4, h5, Bool.false_eq_true, if_false, if_true]
  | .object ((k, v) :: ms), fuel, rest, hf, _ => by
    obtain ⟨f, rfl⟩ : ∃ f, fuel = f + 1 := ⟨fuel - 1, by simp [writeValue] at hf; omega⟩
    have hlen : (writeValue v).length + (writeMembersTail ms).length ≤ f := by
      simp [writeValue] at hf; omega
    have ih1 := readValue_writeValue v f (writeMembersTail ms ++ rest) (by omega)
      (delim_membersTail ms rest)
    have ih2 := readMembersTail_writeMembersTail ms f rest (by omega)
    have h0 : isNumStart lbrace = false := by decide
    have h1 : lbrace ≠ 'n' := by decide
    have h2 : lbrace ≠ 't' := by decide
    have h3 : lbrace ≠ 'f' := by decide
    have h4 : lbrace ≠ quote := by decide
    have h5 : lbrace ≠ '[' := by decide
    have h6 : quote ≠ rbrace := by decide
    have hk := readKey_escape k (writeValue v ++ (writeMembersTail ms ++ rest))
    have htxt : writeValue (.object ((k, v) :: ms)) ++ rest =
        lbrace :: quote :: (escape k.data ++ quote :: ':' ::
          (writeValue v ++ (writeMembersTail ms ++ rest))) := by
      simp [writeValue]
    rw [htxt]
    simp only [readValue, h0, h1, h2, h3, h4, h5, h6, Bool.false_eq_true, if_false, if_true, hk,
      ih1, ih2, Option.map_some']
/-- Reading the text that follows an element gives the remaining elements back. -/
theorem readElemsTail_writeElemsTail : ∀ (vs : List JsonValue) (fuel : Nat) (rest : List Char),
    (writeElemsTail vs).length ≤ fuel →
    readElemsTail fuel (writeElemsTail vs ++ rest) = some (vs, rest)
  | [], fuel, rest, hf => by
    obtain ⟨f, rfl⟩ : ∃ f, fuel = f + 1 := ⟨fuel - 1, by simp [writeElemsTail] at hf; omega⟩
    simp [writeElemsTail, readElemsTail]
  | v :: vs, fuel, rest, hf => by
    obtain ⟨f, rfl⟩ : ∃ f, fuel = f + 1 := ⟨fuel - 1, by simp [writeElemsTail] at hf; omega⟩
    have hlen : (writeValue v).length + (writeElemsTail vs).length ≤ f := by
      simp [writeElemsTail] at hf; omega
    have ih1 := readValue_writeValue v f (writeElemsTail vs ++ rest) (by omega)
      (delim_elemsTail vs rest)
    have ih2 := readElemsTail_writeElemsTail vs f rest (by omega)
    have h1 : ',' ≠ ']' := by decide
    have htxt : writeElemsTail (v :: vs) ++ rest =
        ',' :: (writeValue v ++ (writeElemsTail vs ++ rest)) := by
      simp [writeElemsTail]
    rw [htxt]
    simp only [readElemsTail, if_neg h1, if_true, ih1, ih2, Option.map_some']
/-- Reading the text that follows a member gives the remaining members back. -/
theorem readMembersTail_writeMembersTail : ∀ (ms : List (String × JsonValue)) (fuel : Nat)
    (rest : List Char), (writeMembersTail ms).length ≤ fuel →
    readMembersTail fuel (writeMembersTail ms ++ rest) = some (ms, rest)
  | [], fuel, rest, hf => by
    obtain ⟨f, rfl⟩ : ∃ f, fuel = f + 1 := ⟨fuel - 1, by simp [writeMembersTail] at hf; omega⟩
    simp [writeMembersTail, readMembersTail]
  | (k, v) :: ms, fuel, rest, hf => by
    obtain ⟨f, rfl⟩ : ∃ f, fuel = f + 1 := ⟨fuel - 1, by simp [writeMembersTail] at hf; omega⟩
    have hlen : (writeValue v).length + (writeMembersTail ms).length ≤ f := by
      simp [writeMembersTail] at hf; omega
    have ih1 := readValue_writeValue v f (writeMembersTail ms ++ rest) (by omega)
      (delim_membersTail ms rest)
    have ih2 := readMembersTail_writeMembersTail ms f rest (by omega)
    have h1 : ',' ≠ rbrace := by decide
    have hk := readKey_escape k (writeValue v ++ (writeMembersTail ms ++ rest))
    have htxt : writeMembersTail ((k, v) :: ms) ++ rest =
        ',' :: quote :: (escape k.data ++ quote :: ':' ::
          (writeValue v ++ (writeMembersTail ms ++ rest))) := by
      simp [writeMembersTail]
    rw [htxt]
    simp only [readMembersTail, if_neg h1, if_true, hk, ih1, ih2, Option.map_some']
end

/-- Parsing the text of a document gives the document back. -/
theorem jsonParse_jsonText (d : JsonValue) : jsonParse (jsonText d) = some d := by
  unfold jsonParse jsonText
  have := readValue_writeValue d ((String.mk (writeValue d)).length + 1) []
    (by simp [String.length]) trivial
  rw [List.append_nil] at this
  rw [this]

/-! ### Request builders and workers -/

/-- The array that the loop of `getEncryptKeysByKeyIdsRequestBody` builds: one
entry per requested key, in the caller's order, after the entries already
there. -/
theorem foldl_addBaseCipherIdDomIdToDoc (infos : List KmsConnLookupKeyIdsReqInfo)
    (acc : List JsonValue) :
    infos.foldl (fun keyIdDetails detail =>
        addBaseCipherIdDomIdToDoc keyIdDetails detail.baseCipherId (some detail.domainId)) acc =
      acc ++ infos.map (fun d => JsonValue.object
        [(BASE_CIPHER_ID_TAG, .int d.baseCipherId), (ENCRYPT_DOMAIN_ID_TAG, .int d.domainId)]) := by
  induction infos generalizing acc with
  | nil => simp
  | cons d ds ih =>
    rw [List.foldl_cons, ih]
    simp only [addBaseCipherIdDomIdToDoc, List.map_cons, List.append_assoc,
      List.singleton_append]

/-- The members `version` and details of the three request documents. -/
theorem request_doc_members (sys : Sys) (store : ValidationTokenMap) (refreshKmsUrls : Bool) :
    (∀ req, ∃ more, getEncryptKeysByKeyIdsRequestDoc sys store req refreshKmsUrls =
      .object ((REQUEST_VERSION_TAG, .int sys.REST_KMS_CURRENT_BLOB_METADATA_REQUEST_VERSION) ::
        (CIPHER_KEY_DETAILS_TAG, .array (req.encryptKeyInfos.map (fun d => JsonValue.object
          [(BASE_CIPHER_ID_TAG, .int d.baseCipherId),
           (ENCRYPT_DOMAIN_ID_TAG, .int d.domainId)]))) :: more)) ∧
    (∀ req, ∃ more, getEncryptKeysByDomainIdsRequestDoc sys store req refreshKmsUrls =
      .object ((REQUEST_VERSION_TAG, .int sys.REST_KMS_CURRENT_CIPHER_REQUEST_VERSION) ::
        (CIPHER_KEY_DETAILS_TAG, .array (req.encryptDomainIds.map (fun d => JsonValue.object
          [(ENCRYPT_DOMAIN_ID_TAG, .int d)]))) :: more)) ∧
    (∀ req, ∃ more, getBlobMetadataRequestDoc sys store req refreshKmsUrls =
      .object ((REQUEST_VERSION_TAG, .int sys.REST_KMS_CURRENT_BLOB_METADATA_REQUEST_VERSION) ::
        (BLOB_METADATA_DETAILS_TAG, .array (req.domainIds.map (fun d => JsonValue.object
          [(BLOB_METADATA_DOMAIN_ID_TAG, .int d)]))) :: more)) := by
  refine ⟨fun req => ?_, fun req => ?_, fun req => ?_⟩
  · cases hd : req.debugId <;>
      exact ⟨_, by
        simp [getEncryptKeysByKeyIdsRequestDoc, addVersionToDoc, foldl_addBaseCipherIdDomIdToDoc,
          addValidationTokensSectionToJsonDoc, addRefreshKmsUrlsSectionToJsonDoc,
          addDebugUidSectionToJsonDoc, hd]; rfl⟩
  · cases hd : req.debugId <;>
      exact ⟨_, by
        simp [getEncryptKeysByDomainIdsRequestDoc, addVersionToDoc, addLatestDomainDetailsToDoc,
          addValidationTokensSectionToJsonDoc, addRefreshKmsUrlsSectionToJsonDoc,
          addDebugUidSectionToJsonDoc, hd]; rfl⟩
  · cases hd : req.debugId <;>
      exact ⟨_, by
        simp [getBlobMetadataRequestDoc, addVersionToDoc, addLatestDomainDetailsToDoc,
          addValidationTokensSectionToJsonDoc, addRefreshKmsUrlsSectionToJsonDoc,
          addDebugUidSectionToJsonDoc, hd]; rfl⟩

theorem forall₂_map_left_of {α β : Type} (f : β → α) (P : α → β → Prop)
    (h : ∀ d, P (f d) d) (l : List β) : List.Forall₂ P (l.map f) l := by
  induction l with
  | nil => exact List.Forall₂.nil
  | cons d ds ih => exact List.Forall₂.cons (h d) ih

/-- C32 (code bug): `getEncryptKeysByKeyIdsRequestBody` serialises a document
whose top-level `version` is the current version of the blob-metadata family,
which is not the current cipher version whenever the two configured versions
differ; `getEncryptKeysByDomainIdsRequestBody` writes the current cipher version
and `getBlobMetadataRequestBody` the current blob-metadata version. -/
theorem key_ids_request_writes_blob_metadata_version (sys : Sys) (store : ValidationTokenMap)
    (refreshKmsUrls : Bool) :
    (∀ req, getEncryptKeysByKeyIdsRequestBody sys store req refreshKmsUrls =
        sys.writeJson (getEncryptKeysByKeyIdsRequestDoc sys store req refreshKmsUrls) ∧
      (getEncryptKeysByKeyIdsRequestDoc sys store req refreshKmsUrls).member REQUEST_VERSION_TAG =
        some (.int sys.REST_KMS_CURRENT_BLOB_METADATA_REQUEST_VERSION) ∧
      (sys.REST_KMS_CURRENT_CIPHER_REQUEST_VERSION ≠
          sys.REST_KMS_CURRENT_BLOB_METADATA_REQUEST_VERSION →
        (getEncryptKeysByKeyIdsRequestDoc sys store req refreshKmsUrls).member
            REQUEST_VERSION_TAG ≠
          some (.int sys.REST_KMS_CURRENT_CIPHER_REQUEST_VERSION))) ∧
    (∀ req, getEncryptKeysByDomainIdsRequestBody sys store req refreshKmsUrls =
        sys.writeJson (getEncryptKeysByDomainIdsRequestDoc sys store req refreshKmsUrls) ∧
      (getEncryptKeysByDomainIdsRequestDoc sys store req refreshKmsUrls).member
          REQUEST_VERSION_TAG =
        some (.int sys.REST_KMS_CURRENT_CIPHER_REQUEST_VERSION)) ∧
    (∀ req, getBlobMetadataRequestBody sys store req refreshKmsUrls =
        sys.writeJson (getBlobMetadataRequestDoc sys store req refreshKmsUrls) ∧
      (getBlobMetadataRequestDoc sys store req refreshKmsUrls).member REQUEST_VERSION_TAG =
        some (.int sys.REST_KMS_CURRENT_BLOB_METADATA_REQUEST_VERSION)) := by
  obtain ⟨h1, h2, h3⟩ := request_doc_members sys store refreshKmsUrls
  refine ⟨fun req => ?_, fun req => ?_, fun req => ?_⟩
  · obtain ⟨more, hm⟩ := h1 req
    have hv : (getEncryptKeysByKeyIdsRequestDoc sys store req refreshKmsUrls).member
        REQUEST_VERSION_TAG =
        some (.int sys.REST_KMS_CURRENT_BLOB_METADATA_REQUEST_VERSION) := by
      rw [hm]
      simp [JsonValue.member, findMember]
    refine ⟨rfl, hv, fun hne => ?_⟩
    rw [hv]
    intro h
    simp only [Option.some.injEq, JsonValue.int.injEq] at h
    exact hne h.symm
  · obtain ⟨more, hm⟩ := h2 req
    refine ⟨rfl, ?_⟩
    rw [hm]
    simp [JsonValue.member, findMember]
  · obtain ⟨more, hm⟩ := h3 req
    refine ⟨rfl, ?_⟩
    rw [hm]
    simp [JsonValue.member, findMember]

/-- C33: with a serialiser and a parser of JSON text such that parsing the text
written for a document gives that document back (the round trip of rapidjson's
`Writer` and `Parse`), parsing the body produced by each request builder yields a
document that holds, under the details tag of its family (`cipher_key_details`,
resp. `blob_metadata_details`), an array with exactly one entry per requested
item, in the caller's order: for the by-key-ids request the entry of a key holds
its `base_cipher_id` and its `encrypt_domain_id`, for the by-domain-ids request
the entry of a domain holds its `encrypt_domain_id`, for the blob-metadata
request its `domain_id`. -/
theorem request_details_follow_the_request (sys : Sys) (store : ValidationTokenMap)
    (refreshKmsUrls : Bool)
    (hparse : ∀ doc, sys.parseJson (sys.writeJson doc) = some doc) :
    (∀ req, ∃ doc entries,
      sys.parseJson (getEncryptKeysByKeyIdsRequestBody sys store req refreshKmsUrls) =
        some doc ∧
      doc.member CIPHER_KEY_DETAILS_TAG = some (.array entries) ∧
      entries.length = req.encryptKeyInfos.length ∧
      List.Forall₂ (fun (e : JsonValue) (d : KmsConnLookupKeyIdsReqInfo) =>
        e.member BASE_CIPHER_ID_TAG = some (.int d.baseCipherId) ∧
        e.member ENCRYPT_DOMAIN_ID_TAG = some (.int d.domainId)) entries req.encryptKeyInfos) ∧
    (∀ req, ∃ doc entries,
      sys.parseJson (getEncryptKeysByDomainIdsRequestBody sys store req refreshKmsUrls) =
        some doc ∧
      doc.member CIPHER_KEY_DETAILS_TAG = some (.array entries) ∧
      entries.length = req.encryptDomainIds.length ∧
      List.Forall₂ (fun (e : JsonValue) (d : Int) =>
        e.member ENCRYPT_DOMAIN_ID_TAG = some (.int d)) entries req.encryptDomainIds) ∧
    (∀ req, ∃ doc entries,
      sys.parseJson (getBlobMetadataRequestBody sys store req refreshKmsUrls) = some doc ∧
      doc.member BLOB_METADATA_DETAILS_TAG = some (.array entries) ∧
      entries.length = req.domainIds.length ∧
      List.Forall₂ (fun (e : JsonValue) (d : Int) =>
        e.member BLOB_METADATA_DOMAIN_ID_TAG = some (.int d)) entries req.domainIds) := by
  obtain ⟨h1, h2, h3⟩ := request_doc_members sys store refreshKmsUrls
  refine ⟨fun req => ?_, fun req => ?_, fun req => ?_⟩
  · obtain ⟨more, hm⟩ := h1 req
    refine ⟨_, _, hparse _, by rw [hm]; rfl, by simp, ?_⟩
    exact forall₂_map_left_of _ _ (fun d => ⟨rfl, rfl⟩) _
  · obtain ⟨more, hm⟩ := h2 req
    refine ⟨_, _, hparse _, by rw [hm]; rfl, by simp, ?_⟩
    exact forall₂_map_left_of
      (fun d : Int => JsonValue.object [(ENCRYPT_DOMAIN_ID_TAG, .int d)])
      (fun e d => e.member ENCRYPT_DOMAIN_ID_TAG = some (.int d)) (fun d => rfl) _
  · obtain ⟨more, hm⟩ := h3 req
    refine ⟨_, _, hparse _, by rw [hm]; rfl, by simp, ?_⟩
    exact forall₂_map_left_of
      (fun d : Int => JsonValue.object [(BLOB_METADATA_DOMAIN_ID_TAG, .int d)])
      (fun e d => e.member BLOB_METADATA_DOMAIN_ID_TAG = some (.int d)) (fun d => rfl) _

/-- C34: `canReplyWith` holds exactly for the eleven error kinds of the
reply-safe set, and so not for not-implemented or rest-max-base-cipher-len.
When `kmsRequestImpl` raises the error `e`, each of the three workers sends `e`
on the reply channel and returns normally if `canReplyWith e`, and otherwise
rethrows `e` and sends nothing; when `kmsRequestImpl` returns, the worker sends
the reply and returns normally. -/
theorem reply_safe_errors_are_sent_others_rethrown (sys : Sys)
    (doPost : Nat → Nat → String → String → Except Error ResponseRef)
    (store : ValidationTokenMap) (fuel : Nat) (ctx : RESTKmsConnectorCtx) :
    (∀ e, canReplyWith e = true ↔
      e ∈ [Error.encrypt_invalid_kms_config, Error.encrypt_keys_fetch_failed,
        Error.file_not_found, Error.file_too_large, Error.http_request_failed, Error.io_error,
        Error.operation_failed, Error.value_too_large, Error.timed_out,
        Error.connection_failed, Error.rest_malformed_response]) ∧
    canReplyWith Error.not_implemented = false ∧
    canReplyWith Error.rest_max_base_cipher_len = false ∧
    (∀ req r st,
      kmsRequestImpl sys { doPost := doPost, parseFunc := parseEncryptCipherResponse sys }
        sys.REST_KMS_CONNECTOR_GET_ENCRYPTION_KEYS_ENDPOINT
        (getEncryptKeysByKeyIdsRequestBody sys store req (shouldRefreshKmsUrls sys ctx))
        fuel ctx = some (r, st) →
      fetchEncryptionKeysByKeyIds sys doPost store fuel ctx req =
        some (match r with
          | .ok v => { sent := some (.ok v), thrown := none, ctx := st.ctx }
          | .error e =>
            if canReplyWith e then { sent := some (.error e), thrown := none, ctx := st.ctx }
            else { sent := none, thrown := some e, ctx := st.ctx })) ∧
    (∀ req r st,
      kmsRequestImpl sys { doPost := doPost, parseFunc := parseEncryptCipherResponse sys }
        sys.REST_KMS_CONNECTOR_GET_LATEST_ENCRYPTION_KEYS_ENDPOINT
        (getEncryptKeysByDomainIdsRequestBody sys store req (shouldRefreshKmsUrls sys ctx))
        fuel ctx = some (r, st) →
      fetchEncryptionKeysByDomainIds sys doPost store fuel ctx req =
        some (match r with
          | .ok v => { sent := some (.ok v), thrown := none, ctx := st.ctx }
          | .error e =>
            if canReplyWith e then { sent := some (.error e), thrown := none, ctx := st.ctx }
            else { sent := none, thrown := some e, ctx := st.ctx })) ∧
    (∀ req r st,
      kmsRequestImpl sys { doPost := doPost, parseFunc := parseBlobMetadataResponse sys }
        sys.REST_KMS_CONNECTOR_GET_BLOB_METADATA_ENDPOINT
        (getBlobMetadataRequestBody sys store req (shouldRefreshKmsUrls sys ctx))
        fuel ctx = some (r, st) →
      fetchBlobMetadata sys doPost store fuel ctx req =
        some (match r with
          | .ok v => { sent := some (.ok v), thrown := none, ctx := st.ctx }
          | .error e =>
            if canReplyWith e then { sent := some (.error e), thrown := none, ctx := st.ctx }
            else { sent := none, thrown := some e, ctx := st.ctx })) := by
  refine ⟨?_, rfl, rfl, ?_, ?_, ?_⟩
  · intro e
    cases e <;> simp [canReplyWith]
  · intro req r st h
    unfold fetchEncryptionKeysByKeyIds
    simp only [h]
    cases r with
    | ok v => rfl
    | error e => cases hc : canReplyWith e <;> simp [hc]
  · intro req r st h
    unfold fetchEncryptionKeysByDomainIds
    simp only [h]
    cases r with
    | ok v => rfl
    | error e => cases hc : canReplyWith e <;> simp [hc]
  · intro req r st h
    unfold fetchBlobMetadata
    simp only [h]
    cases r with
    | ok v => rfl
    | error e => cases hc : canReplyWith e <;> simp [hc]

/-- C32 (witness): with the current cipher version 1 and the current
blob-metadata version 2, the by-key-ids request carries version 2, the
by-domain-ids request version 1 and the blob-metadata request version 2. -/
theorem key_ids_request_writes_blob_metadata_version_witness :
    twoVersionsSys.REST_KMS_CURRENT_CIPHER_REQUEST_VERSION = 1 ∧
    twoVersionsSys.REST_KMS_CURRENT_BLOB_METADATA_REQUEST_VERSION = 2 ∧
    (getEncryptKeysByKeyIdsRequestDoc twoVersionsSys oldStore keyIdsReq false).member
      REQUEST_VERSION_TAG = some (.int 2) ∧
    (getEncryptKeysByKeyIdsRequestDoc twoVersionsSys oldStore keyIdsReq false).member
      REQUEST_VERSION_TAG ≠ some (.int twoVersionsSys.REST_KMS_CURRENT_CIPHER_REQUEST_VERSION) ∧
    (getEncryptKeysByDomainIdsRequestDoc twoVersionsSys oldStore domainIdsReq false).member
      REQUEST_VERSION_TAG = some (.int 1) ∧
    (getBlobMetadataRequestDoc twoVersionsSys oldStore blobReq false).member
      REQUEST_VERSION_TAG = some (.int 2) :=
  ⟨rfl, rfl,
    ((key_ids_request_writes_blob_metadata_version twoVersionsSys oldStore false).1
      keyIdsReq).2.1,
    ((key_ids_request_writes_blob_metadata_version twoVersionsSys oldStore false).1
      keyIdsReq).2.2 (by decide),
    ((key_ids_request_writes_blob_metadata_version twoVersionsSys oldStore false).2.1
      domainIdsReq).2,
    ((key_ids_request_writes_blob_metadata_version twoVersionsSys oldStore false).2.2
      blobReq).2⟩

/-- The scenario systems parse what they have written. -/
theorem scenarioSys_parse_write (fileText : String) (addrs : List Nat) (doc : JsonValue) :
    (scenarioSys fileText addrs).parseJson ((scenarioSys fileText addrs).writeJson doc) =
      some doc :=
  jsonParse_jsonText doc

set_option maxRecDepth 4096 in
/-- C33 (witness): the scenario system writes compact JSON text and parses it,
and parsing what it has written gives the document back.  The body of a
by-key-ids request for two keys is the text shown, and parsing that body yields
the document shown, whose `cipher_key_details` holds the two keys in the
caller's order; likewise for a by-domain-ids request for three domains and a
blob-metadata request for two domains.  For every request, parsing the body that
this system writes yields the details of the request. -/
theorem request_details_follow_the_request_witness :
    (∀ doc, (scenarioSys "" []).parseJson ((scenarioSys "" []).writeJson doc) = some doc) ∧
    getEncryptKeysByKeyIdsRequestBody (scenarioSys "" []) oldStore keyIdsReq true =
      "\x7b\"version\":1,\"cipher_key_details\":[\x7b\"base_cipher_id\":12345,\"encrypt_domain_id\":5\x7d,\x7b\"base_cipher_id\":67890,\"encrypt_domain_id\":6\x7d],\"validation_tokens\":[\x7b\"token_name\":\"old\",\"token_value\":\"secret\"\x7d],\"refresh_kms_urls\":true\x7d" ∧
    (scenarioSys "" []).parseJson
        (getEncryptKeysByKeyIdsRequestBody (scenarioSys "" []) oldStore keyIdsReq true) =
      some (.object [("version", .int 1),
        ("cipher_key_details",
          .array [.object [("base_cipher_id", .int 12345), ("encrypt_domain_id", .int 5)],
                  .object [("base_cipher_id", .int 67890), ("encrypt_domain_id", .int 6)]]),
        ("validation_tokens",
          .array [.object [("token_name", .string "old"), ("token_value", .string "secret")]]),
        ("refresh_kms_urls", .bool true)]) ∧
    getEncryptKeysByDomainIdsRequestBody (scenarioSys "" []) oldStore domainIdsReq true =
      "\x7b\"version\":1,\"cipher_key_details\":[\x7b\"encrypt_domain_id\":5\x7d,\x7b\"encrypt_domain_id\":-2\x7d,\x7b\"encrypt_domain_id\":6\x7d],\"validation_tokens\":[\x7b\"token_name\":\"old\",\"token_value\":\"secret\"\x7d],\"refresh_kms_urls\":true,\"debug_uid\":\"dbg\"\x7d" ∧
    (scenarioSys "" []).parseJson
        (getEncryptKeysByDomainIdsRequestBody (scenarioSys "" []) oldStore domainIdsReq true) =
      some (.object [("version", .int 1),
        ("cipher_key_details",
          .array [.object [("encrypt_domain_id", .int 5)],
                  .object [("encrypt_domain_id", .int (-2))],
                  .object [("encrypt_domain_id", .int 6)]]),
        ("validation_tokens",
          .array [.object [("token_name", .string "old"), ("token_value", .string "secret")]]),
        ("refresh_kms_urls", .bool true), ("debug_uid", .string "dbg")]) ∧
    getBlobMetadataRequestBody (scenarioSys "" []) oldStore blobReq false =
      "\x7b\"version\":1,\"blob_metadata_details\":[\x7b\"domain_id\":7\x7d,\x7b\"domain_id\":8\x7d],\"validation_tokens\":[\x7b\"token_name\":\"old\",\"token_value\":\"secret\"\x7d],\"refresh_kms_urls\":false\x7d" ∧
    (scenarioSys "" []).parseJson
        (getBlobMetadataRequestBody (scenarioSys "" []) oldStore blobReq false) =
      some (.object [("version", .int 1),
        ("blob_metadata_details",
          .array [.object [("domain_id", .int 7)], .object [("domain_id", .int 8)]]),
        ("validation_tokens",
          .array [.object [("token_name", .string "old"), ("token_value", .string "secret")]]),
        ("refresh_kms_urls", .bool false)]) ∧
    ((∀ req, ∃ doc entries,
      (scenarioSys "" []).parseJson (getEncryptKeysByKeyIdsRequestBody (scenarioSys "" []) oldStore req true) =
        some doc ∧
      doc.member CIPHER_KEY_DETAILS_TAG = some (.array entries) ∧
      entries.length = req.encryptKeyInfos.length ∧
      List.Forall₂ (fun (e : JsonValue) (d : KmsConnLookupKeyIdsReqInfo) =>
        e.member BASE_CIPHER_ID_TAG = some (.int d.baseCipherId) ∧
        e.member ENCRYPT_DOMAIN_ID_TAG = some (.int d.domainId)) entries req.encryptKeyInfos) ∧
    (∀ req, ∃ doc entries,
      (scenarioSys "" []).parseJson (getEncryptKeysByDomainIdsRequestBody (scenarioSys "" []) oldStore req true) =
        some doc ∧
      doc.member CIPHER_KEY_DETAILS_TAG = some (.array entries) ∧
      entries.length = req.encryptDomainIds.length ∧
      List.Forall₂ (fun (e : JsonValue) (d : Int) =>
        e.member ENCRYPT_DOMAIN_ID_TAG = some (.int d)) entries req.encryptDomainIds) ∧
    (∀ req, ∃ doc entries,
      (scenarioSys "" []).parseJson (getBlobMetadataRequestBody (scenarioSys "" []) oldStore req true) = some doc ∧
      doc.member BLOB_METADATA_DETAILS_TAG = some (.array entries) ∧
      entries.length = req.domainIds.length ∧
      List.Forall₂ (fun (e : JsonValue) (d : Int) =>
        e.member BLOB_METADATA_DOMAIN_ID_TAG = some (.int d)) entries req.domainIds)) :=
  ⟨scenarioSys_parse_write "" [], rfl, rfl, rfl, rfl, rfl, rfl,
    request_details_follow_the_request (scenarioSys "" []) oldStore true
      (scenarioSys_parse_write "" [])⟩

/-- C34 (witness): with an empty pool and an empty discovery file the engine
fails with encrypt-keys-fetch-failed, which the worker sends to the caller; when
the rediscovery fails with not-implemented, the worker rethrows it and sends
nothing; when the KMS answers, the worker sends the details. -/
theorem reply_safe_errors_are_sent_others_rethrown_witness :
    fetchEncryptionKeysByKeyIds (scenarioSys "" []) noAnswer oldStore 1 (ctxOf []) keyIdsReq =
      some { sent := some (.error Error.encrypt_keys_fetch_failed), thrown := none,
             ctx := ctxOf [] } ∧
    canReplyWith Error.encrypt_keys_fetch_failed = true ∧
    fetchBlobMetadata tokenModeOffSys noAnswer oldStore 1 (ctxOf []) blobReq =
      some { sent := none, thrown := some Error.not_implemented, ctx := ctxOf [] } ∧
    canReplyWith Error.not_implemented = false ∧
    fetchEncryptionKeysByDomainIds (scenarioSys "" []) validAnswer oldStore 2
        (ctxOf [freshAt 1 "https://a"]) domainIdsReq =
      some { sent := some (.ok validCipherDetails), thrown := none,
             ctx := ctxOf [usedOnce] } :=
  ⟨(reply_safe_errors_are_sent_others_rethrown (scenarioSys "" []) noAnswer oldStore 1
      (ctxOf [])).2.2.2.1 keyIdsReq (.error Error.encrypt_keys_fetch_failed)
      { ctx := ctxOf [], pass := 3, tempStack := [], log := [], discoverCalls := [true] } rfl,
    rfl,
    (reply_safe_errors_are_sent_others_rethrown tokenModeOffSys noAnswer oldStore 1
      (ctxOf [])).2.2.2.2.2 blobReq (.error Error.not_implemented)
      { ctx := ctxOf [], pass := 1, tempStack := [], log := [], discoverCalls := [true] } rfl,
    rfl,
    (reply_safe_errors_are_sent_others_rethrown (scenarioSys "" []) validAnswer oldStore 2
      (ctxOf [freshAt 1 "https://a"])).2.2.2.2.1 domainIdsReq (.ok validCipherDetails)
      { ctx := ctxOf [usedOnce], pass := 1, tempStack := [],
        log := [{ pass := 1, curUrl := freshAt 1 "https://a", outcome := .parsed }],
        discoverCalls := [] } rfl⟩

/-! ### Generations of the token store -/

/-- Every store that the loop over the token files goes through is the one
before it after the `emplace` of a token read by the call. -/
theorem readTokenFilesStates_chain (sys : Sys) (items : List (String × String)) (sum0 : Nat)
    (m : ValidationTokenMap) :
    List.Chain (InsertsFresh sys) m (readTokenFilesStates sys items sum0 m) := by
  induction items generalizing sum0 m with
  | nil => exact List.Chain.nil
  | cons it rest ih =>
    obtain ⟨tokenName, tokenFile⟩ := it
    unfold readTokenFilesStates
    cases hopen : sys.openFile tokenFile with
    | error e => exact List.Chain.nil
    | ok tFile =>
      simp only
      split
      · exact List.Chain.nil
      · split
        · exact List.Chain.nil
        · split
          · exact List.Chain.nil
          · exact List.Chain.cons ⟨tokenName, tokenFile, tFile, hopen, rfl⟩ (ih _ _)

/-- The last store of the trace is the store that `readTokenFiles` leaves. -/
theorem readTokenFilesStates_last (sys : Sys) (items : List (String × String)) (sum0 : Nat)
    (m : ValidationTokenMap) :
    (m :: readTokenFilesStates sys items sum0 m).getLast? =
      some (readTokenFiles sys items sum0 m).2 := by
  induction items generalizing sum0 m with
  | nil => rfl
  | cons it rest ih =>
    obtain ⟨tokenName, tokenFile⟩ := it
    unfold readTokenFiles readTokenFilesStates
    cases hopen : sys.openFile tokenFile with
    | error e => rfl
    | ok tFile =>
      simp only
      split
      · rfl
      · split
        · rfl
        · split
          · rfl
          · rw [List.getLast?_cons_cons]
            exact ih _ _

/-- A chain of fresh insertions that starts from a store of tokens read by the
call goes through such stores only. -/
theorem chain_insertsFresh_mem (sys : Sys) (states : List ValidationTokenMap)
    (m : ValidationTokenMap) (hm : ∀ kv ∈ m, ReadByThisCall sys kv)
    (hc : List.Chain (InsertsFresh sys) m states) :
    ∀ s ∈ states, ∀ kv ∈ s, ReadByThisCall sys kv := by
  induction states generalizing m with
  | nil => intro s hs; cases hs
  | cons a rest ih =>
    obtain ⟨hstep, hrest⟩ := List.chain_cons.mp hc
    obtain ⟨tokenName, tokenFile, tFile, hopen, rfl⟩ := hstep
    have ha : ∀ kv ∈ m.emplace tokenName
        (tokenOfFile sys (String.mk (tFile.buff.data.take tFile.fSize)) tokenName tokenFile),
        ReadByThisCall sys kv := by
      intro kv hkv
      rcases mem_emplace _ _ _ _ hkv with h | h
      · exact hm kv h
      · subst h
        exact ⟨tokenFile, tFile, hopen, rfl⟩
    intro s hs
    rcases List.mem_cons.mp hs with rfl | hs
    · exact ha
    · exact ih _ ha hrest s hs

/-- C31: the values that the token store takes during a call of
`procureValidationTokensFromFiles` are: the store as it was at the call, and
then, if the details string passes its checks, the empty store (after
`clear()`) followed by the stores after each `emplace` of a token read by this
call, each built from the one before.  So every value after the first holds
tokens read by this call only: no value holds a token kept from before the call
together with a token read by this call, also when the call fails while it
reads the files.  The last of these values is the store that the call
leaves. -/
theorem token_store_never_mixes_generations (sys : Sys) (store : ValidationTokenMap)
    (details : String) :
    ∃ rest, procureStates sys store details = some (store :: rest) ∧
      (rest = [] ∨
        ∃ inserted, rest = [] :: inserted ∧ List.Chain (InsertsFresh sys) [] inserted) ∧
      (∀ s ∈ rest, ∀ kv ∈ s, ReadByThisCall sys kv) ∧
      ∃ res store2, procureValidationTokensFromFiles sys store details = some (res, store2) ∧
        (store :: rest).getLast? = some store2 := by
  unfold procureStates procureValidationTokensFromFiles
  cases hd : details.data.isEmpty with
  | true =>
    exact ⟨[], by simp, Or.inl rfl, by simp, .error Error.encrypt_invalid_kms_config, store,
      by simp, rfl⟩
  | false =>
    simp only [Bool.false_eq_true, if_false]
    cases hl : tokenFileLoop sys (details.data.length + 1) details.data [] with
    | none => exact absurd hl (tokenFileLoop_defined sys _ _ _ (Nat.lt_succ_self _))
    | some r =>
      cases r with
      | error e => exact ⟨[], rfl, Or.inl rfl, by simp, .error e, store, rfl, rfl⟩
      | ok tokenFilePathMap =>
        have hc := readTokenFilesStates_chain sys (sys.unorderedMapOrder tokenFilePathMap) 0 []
        refine ⟨_, rfl, Or.inr ⟨_, rfl, hc⟩, ?_,
          (readTokenFiles sys (sys.unorderedMapOrder tokenFilePathMap) 0 []).1,
          (readTokenFiles sys (sys.unorderedMapOrder tokenFilePathMap) 0 []).2, rfl, ?_⟩
        · intro s hs
          rcases List.mem_cons.mp hs with rfl | hs
          · intro kv hkv; cases hkv
          · exact chain_insertsFresh_mem sys _ [] (by intro kv hkv; cases hkv) hc s hs
        · rw [List.getLast?_cons_cons]
          exact readTokenFilesStates_last sys _ 0 []

/-- C31 (witness): the store holds a token; the details name three files of 8
bytes, and the third makes the call fail with value-too-large.  The store goes
through: the old token, the empty store, the token `a`, the tokens `a` and `b`;
the old token is never held together with `a` or `b`. -/
theorem token_store_never_mixes_generations_witness :
    procureStates (tokenSys sizedTokenFiles false) oldStore "a$/t/a,b$/t/b,c$/t/c" =
      some [oldStore, [], [("a", fileToken "a" "aaaaaaaa" "/t/a")],
        [("a", fileToken "a" "aaaaaaaa" "/t/a"), ("b", fileToken "b" "bbbbbbbb" "/t/b")]] ∧
    procureValidationTokensFromFiles (tokenSys sizedTokenFiles false) oldStore
        "a$/t/a,b$/t/b,c$/t/c" =
      some (.error Error.value_too_large,
        [("a", fileToken "a" "aaaaaaaa" "/t/a"), ("b", fileToken "b" "bbbbbbbb" "/t/b")]) ∧
    ∃ rest, procureStates (tokenSys sizedTokenFiles false) oldStore "a$/t/a,b$/t/b,c$/t/c" =
        some (oldStore :: rest) ∧
      (rest = [] ∨ ∃ inserted, rest = [] :: inserted ∧
        List.Chain (InsertsFresh (tokenSys sizedTokenFiles false)) [] inserted) ∧
      (∀ s ∈ rest, ∀ kv ∈ s, ReadByThisCall (tokenSys sizedTokenFiles false) kv) ∧
      ∃ res store2, procureValidationTokensFromFiles (tokenSys sizedTokenFiles false) oldStore
          "a$/t/a,b$/t/b,c$/t/c" = some (res, store2) ∧
        (oldStore :: rest).getLast? = some store2 :=
  ⟨rfl, rfl,
    token_store_never_mixes_generations (tokenSys sizedTokenFiles false) oldStore
      "a$/t/a,b$/t/b,c$/t/c"⟩

/-! ### Errors raised by the engine -/

/-- The record at a position of a sound log is sound for its attempt number. -/
theorem LogSound_get {T : Type} (env : RequestEnv T) (suf body : String)
    (l1 : List AttemptRecord) (r : AttemptRecord) (l2 : List AttemptRecord) (i : Nat)
    (h : LogSound env suf body i (l1 ++ r :: l2)) :
    RecordSound env suf body (i + l1.length) r := by
  induction l1 generalizing i with
  | nil => exact h.1
  | cons a l ih =>
    have := ih (i + 1) h.2
    simpa [Nat.add_assoc, Nat.add_comm 1] using this

/-- The only error of `getFullRequestUrl`: invalid-kms-config, on an empty
suffix. -/
theorem getFullRequestUrl_error {url suf : String} {e : Error}
    (h : getFullRequestUrl url suf = .error e) :
    e = Error.encrypt_invalid_kms_config ∧ suf.data = [] := by
  unfold getFullRequestUrl at h
  split at h
  · rename_i hs
    cases h
    exact ⟨rfl, hs⟩
  · split at h <;> cases h

/-- C39: every error that `kmsRequestImpl` raises comes from one of three
places.  It is the final encrypt-keys-fetch-failed, thrown after both passes
went through their pools without a result; or it is timed-out or
connection-failed, raised by the POST of the last attempt, which was made in
pass 2; or it is the error that the rediscovery raised.  An attempt whose parse
function threw, or whose URL could not be built (invalid-kms-config, on an empty
suffix, counted as a failed response), is never the end of the request by
itself: it is followed by a further attempt, by the rediscovery, or by the final
throw. -/
theorem engine_errors_come_from_three_places {T : Type} (sys : Sys) (env : RequestEnv T)
    (suf body : String) (fuel : Nat) (ctx : RESTKmsConnectorCtx) (e : Error)
    (st : RequestState)
    (h : kmsRequestImpl sys env suf body fuel ctx = some (.error e, st)) :
    ((e = Error.encrypt_keys_fetch_failed ∧ st.discoverCalls = [true] ∧
        st.ctx.kmsUrlHeap.c = [] ∧ ∀ r ∈ st.log, r.goesOn) ∨
      ((e = Error.timed_out ∨ e = Error.connection_failed) ∧
        ∃ init last u, st.log = init ++ [last] ∧ last.pass = 2 ∧
          last.outcome = .postFailed e ∧
          getFullRequestUrl last.curUrl.obj.url suf = .ok u ∧
          env.doPost 2 init.length u body = .error e) ∨
      (∃ c0 c, discoverKmsUrls sys c0 true = (.error e, c) ∧ st.ctx = c ∧
        st.discoverCalls = [true] ∧ ∀ r ∈ st.log, r.goesOn)) ∧
    (∀ l1 rec l2 e2, st.log = l1 ++ rec :: l2 →
      (rec.outcome = .parseFailed e2 ∨ rec.outcome = .urlFailed e2) →
      rec.goesOn ∧
      (l2 ≠ [] ∨ (∀ r ∈ st.log, r.goesOn) ∧ st.discoverCalls = [true]) ∧
      (rec.outcome = .urlFailed e2 →
        e2 = Error.encrypt_invalid_kms_config ∧ suf.data = [] ∧
        rec.updated = rec.curUrl.incFailedResponses)) := by
  obtain ⟨recs1, recs2, x1, hlog, hp1, hp2, hsound, hout1, _, hcases⟩ :=
    kmsRequestImpl_trace h
  rw [hlog] at *
  have hmain : (e = Error.encrypt_keys_fetch_failed ∧ st.discoverCalls = [true] ∧
        st.ctx.kmsUrlHeap.c = [] ∧ ∀ r ∈ recs1 ++ recs2, r.goesOn) ∨
      ((e = Error.timed_out ∨ e = Error.connection_failed) ∧
        ∃ init last u, recs1 ++ recs2 = init ++ [last] ∧ last.pass = 2 ∧
          last.outcome = .postFailed e ∧
          getFullRequestUrl last.curUrl.obj.url suf = .ok u ∧
          env.doPost 2 init.length u body = .error e) ∨
      (∃ c0 c, discoverKmsUrls sys c0 true = (.error e, c) ∧ st.ctx = c ∧
        st.discoverCalls = [true] ∧ ∀ r ∈ recs1 ++ recs2, r.goesOn) := by
    rcases hcases with ⟨v, _, hr, _⟩ | ⟨hx1, hd, hdisc⟩
    · cases hr
    · subst hx1
      have hg1 : ∀ r ∈ recs1, r.goesOn := hout1
      rcases hdisc with ⟨e', c0, c, _, hde, hr, h0, hctx⟩ | ⟨c0, c, x2, _, _, hout2, _, hx2⟩
      · cases hr
        subst h0
        exact Or.inr (Or.inr ⟨c0, c, hde, hctx, hd, by simpa using hg1⟩)
      · rcases hx2 with ⟨v, _, hr, _⟩ | ⟨e', hx2, hr⟩ | ⟨hx2, hr, hemp⟩
        · cases hr
        · cases hr
          subst hx2
          obtain ⟨init, last, hrec, _, hlast⟩ := hout2
          have hpass : last.pass = 2 := hp2 last (by rw [hrec]; simp)
          have hterm : isKmsNotReachable e = true := by
            have := hlast.2
            simpa [isTerminal, hpass] using this
          have hs : RecordSound env suf body (0 + (recs1 ++ init).length) last := by
            apply LogSound_get env suf body (recs1 ++ init) last []
            rw [hrec] at hsound
            simpa using hsound
          refine Or.inr (Or.inl ⟨(isKmsNotReachable_iff e).mp hterm, recs1 ++ init, last, ?_⟩)
          rcases hlast.1 with ho | ho
          · unfold RecordSound at hs
            rw [ho] at hs
            have := (getFullRequestUrl_error hs).1
            subst this
            cases hterm
          · unfold RecordSound at hs
            rw [ho] at hs
            obtain ⟨u, hu, hpost⟩ := hs
            rw [hpass] at hpost
            exact ⟨u, by rw [hrec]; simp, hpass, ho, hu, by simpa using hpost⟩
        · cases hr
          subst hx2
          have hg2 : ∀ r ∈ recs2, r.goesOn := hout2
          refine Or.inl ⟨rfl, hd, hemp, ?_⟩
          intro r hr
          rcases List.mem_append.mp hr with h1 | h2
          · exact hg1 r h1
          · exact hg2 r h2
  refine ⟨hmain, ?_⟩
  intro l1 rec l2 e2 hdec ho
  have hsr : RecordSound env suf body (0 + l1.length) rec := by
    apply LogSound_get env suf body l1 rec l2
    rw [← hdec]
    exact hsound
  have hurl : rec.outcome = .urlFailed e2 →
      e2 = Error.encrypt_invalid_kms_config ∧ suf.data = [] ∧
      rec.updated = rec.curUrl.incFailedResponses := by
    intro hu
    unfold RecordSound at hsr
    rw [hu] at hsr
    exact ⟨(getFullRequestUrl_error hsr).1, (getFullRequestUrl_error hsr).2, by
      simp [AttemptRecord.updated, hu]⟩
  have hgo : rec.goesOn := by
    rcases ho with ho | ho
    · simp [AttemptRecord.goesOn, ho]
    · have he2 := (hurl ho).1
      subst he2
      simp [AttemptRecord.goesOn, ho, isTerminal, isKmsNotReachable]
  refine ⟨hgo, ?_, hurl⟩
  rcases hmain with ⟨_, hd, _, hall⟩ | ⟨_, init, last, u, hrec, _, hlo, _⟩ | ⟨_, _, _, _, hd, hall⟩
  · exact Or.inr ⟨hall, hd⟩
  · left
    rcases mem_init_or_last (hdec.symm.trans hrec) with ⟨_, _, rfl⟩ | hin
    · rcases ho with ho | ho <;> rw [hlo] at ho <;> cases ho
    · intro hl2
      subst hl2
      have := List.append_inj_right' (hdec.symm.trans hrec) rfl
      simp only [List.cons.injEq, and_true] at this
      subst this
      rcases ho with ho | ho <;> rw [hlo] at ho <;> cases ho
  · exact Or.inr ⟨hall, hd⟩

/-- C39 (witness): server A cannot be connected to.  With pool = [A] and a
discovery file that lists A and C, pass 1 fails on A, and pass 2 reaches A
first: the request fails with connection-failed, raised by that POST.  With an
empty URL suffix every attempt fails in `getFullRequestUrl`, is counted as a
failed response, and the request ends with encrypt-keys-fetch-failed. -/
theorem engine_errors_come_from_three_places_witness :
    (∃ st, kmsRequestImpl (scenarioSys fileAC [20, 10]) (envOf (scenarioSys fileAC [20, 10]) aUnreachable) "/get" "{}" 3
        (ctxOf [freshAt 1 "https://a"]) = some (.error Error.connection_failed, st) ∧
    ((Error.connection_failed = Error.encrypt_keys_fetch_failed ∧ st.discoverCalls = [true] ∧
        st.ctx.kmsUrlHeap.c = [] ∧ ∀ r ∈ st.log, r.goesOn) ∨
      ((Error.connection_failed = Error.timed_out ∨ Error.connection_failed = Error.connection_failed) ∧
        ∃ init last u, st.log = init ++ [last] ∧ last.pass = 2 ∧
          last.outcome = .postFailed Error.connection_failed ∧
          getFullRequestUrl last.curUrl.obj.url "/get" = .ok u ∧
          (envOf (scenarioSys fileAC [20, 10]) aUnreachable).doPost 2 init.length u "{}" = .error Error.connection_failed) ∨
      (∃ c0 c, discoverKmsUrls (scenarioSys fileAC [20, 10]) c0 true = (.error Error.connection_failed, c) ∧ st.ctx = c ∧
        st.discoverCalls = [true] ∧ ∀ r ∈ st.log, r.goesOn)) ∧
    (∀ l1 rec l2 e2, st.log = l1 ++ rec :: l2 →
      (rec.outcome = .parseFailed e2 ∨ rec.outcome = .urlFailed e2) →
      rec.goesOn ∧
      (l2 ≠ [] ∨ (∀ r ∈ st.log, r.goesOn) ∧ st.discoverCalls = [true]) ∧
      (rec.outcome = .urlFailed e2 →
        e2 = Error.encrypt_invalid_kms_config ∧ "/get".data = [] ∧
        rec.updated = rec.curUrl.incFailedResponses))) ∧
    (∃ st, kmsRequestImpl (scenarioSys fileAC []) (envOf (scenarioSys fileAC []) allDown) "" "{}" 3
        (ctxOf [freshAt 1 "https://a"]) = some (.error Error.encrypt_keys_fetch_failed, st) ∧
      st.log.map (fun r => r.outcome) =
        [.urlFailed Error.encrypt_invalid_kms_config,
         .urlFailed Error.encrypt_invalid_kms_config,
         .urlFailed Error.encrypt_invalid_kms_config] ∧
    ((Error.encrypt_keys_fetch_failed = Error.encrypt_keys_fetch_failed ∧ st.discoverCalls = [true] ∧
        st.ctx.kmsUrlHeap.c = [] ∧ ∀ r ∈ st.log, r.goesOn) ∨
      ((Error.encrypt_keys_fetch_failed = Error.timed_out ∨ Error.encrypt_keys_fetch_failed = Error.connection_failed) ∧
        ∃ init last u, st.log = init ++ [last] ∧ last.pass = 2 ∧
          last.outcome = .postFailed Error.encrypt_keys_fetch_failed ∧
          getFullRequestUrl last.curUrl.obj.url "" = .ok u ∧
          (envOf (scenarioSys fileAC []) allDown).doPost 2 init.length u "{}" = .error Error.encrypt_keys_fetch_failed) ∨
      (∃ c0 c, discoverKmsUrls (scenarioSys fileAC []) c0 true = (.error Error.encrypt_keys_fetch_failed, c) ∧ st.ctx = c ∧
        st.discoverCalls = [true] ∧ ∀ r ∈ st.log, r.goesOn)) ∧
    (∀ l1 rec l2 e2, st.log = l1 ++ rec :: l2 →
      (rec.outcome = .parseFailed e2 ∨ rec.outcome = .urlFailed e2) →
      rec.goesOn ∧
      (l2 ≠ [] ∨ (∀ r ∈ st.log, r.goesOn) ∧ st.discoverCalls = [true]) ∧
      (rec.outcome = .urlFailed e2 →
        e2 = Error.encrypt_invalid_kms_config ∧ "".data = [] ∧
        rec.updated = rec.curUrl.incFailedResponses))) :=
  ⟨⟨_, rfl,
      engine_errors_come_from_three_places (scenarioSys fileAC [20, 10]) (envOf (scenarioSys fileAC [20, 10]) aUnreachable) "/get" "{}" 3
        (ctxOf [freshAt 1 "https://a"]) Error.connection_failed _ rfl⟩,
    ⟨_, rfl, rfl,
      engine_errors_come_from_three_places (scenarioSys fileAC []) (envOf (scenarioSys fileAC []) allDown) "" "{}" 3
        (ctxOf [freshAt 1 "https://a"]) Error.encrypt_keys_fetch_failed _ rfl⟩⟩

/-! ### Termination of the engine -/

/-- A discovery that fails leaves the context as it was. -/
theorem discoverKmsUrls_error_ctx {sys : Sys} {c0 c : RESTKmsConnectorCtx} {b : Bool}
    {e : Error} (h : discoverKmsUrls sys c0 b = (.error e, c)) : c = c0 := by
  unfold discoverKmsUrls at h
  simp only [List.isEmpty_nil, Bool.not_true, Bool.false_eq_true, if_false] at h
  split at h
  · unfold parseDiscoverKmsUrlFile at h
    split at h
    · exact (Prod.mk.inj h).2.symm
    · split at h
      · exact (Prod.mk.inj h).2.symm
      · split at h
        · exact (Prod.mk.inj h).2.symm
        · cases (Prod.mk.inj h).1
  · exact (Prod.mk.inj h).2.symm

theorem posts_le_length (log : List AttemptRecord) : posts log ≤ log.length :=
  List.length_filter_le _ _

/-- The fuel that is enough for `kmsRequestImpl` on the pool of `ctx`: more than
the endpoints of the pool and than the lines of the discovery file. -/
theorem enough_fuel (sys : Sys) (ctx : RESTKmsConnectorCtx) :
    ∃ fuel0, ∀ fuel, fuel0 ≤ fuel → ctx.kmsUrlHeap.size < fuel ∧
      ∀ c0 c, c0.kmsUrlHeap.c = [] → discoverKmsUrls sys c0 true = (.ok (), c) →
        c.kmsUrlHeap.size < fuel := by
  refine ⟨ctx.kmsUrlHeap.size +
    (match sys.openFile sys.REST_KMS_CONNECTOR_DISCOVER_KMS_URL_FILE with
      | .ok f => (getlines DISCOVER_URL_FILE_URL_SEP f.buff.data []).length
      | .error _ => 0) + 1, fun fuel hfuel => ⟨by omega, fun c0 c hc0 hd => ?_⟩⟩
  obtain ⟨f, hf, hsize⟩ := discoverKmsUrls_size hd
  rw [hf] at hfuel
  simp only [KmsUrlMinHeap.size, hc0, List.length_nil, Nat.zero_add] at hsize
  simp only [KmsUrlMinHeap.size] at hfuel ⊢
  omega

/-- C40: the parsers of the connector leave the pool as it was when they fail,
and with such a parse function (defined on the responses of the HTTP client) an
iteration of the inner loop that goes on leaves a pool of one endpoint less.
So `kmsRequestImpl` ends whenever the fuel of the model exceeds a bound given by
the pool at entry and the discovery file, and the number of its POSTs is at most
the number of endpoints of the pool at entry plus the number of endpoints that
the rediscovery, called at most once and on an empty pool, inserted. -/
theorem engine_terminates_with_bounded_posts (sys : Sys) :
    (∀ doPost,
      FailedParseKeepsPool
        ({ doPost := doPost, parseFunc := parseEncryptCipherResponse sys } :
          RequestEnv (List EncryptCipherKeyDetailsRef)) ∧
      FailedParseKeepsPool
        ({ doPost := doPost, parseFunc := parseBlobMetadataResponse sys } :
          RequestEnv (List BlobMetadataDetailsRef))) ∧
    (∀ (T : Type) (env : RequestEnv T) (suf body : String) (ctx : RESTKmsConnectorCtx),
      FailedParseKeepsPool env → ParseDefined env →
      (∀ st cur st1, st.ctx.kmsUrlHeap.top = some cur →
        kmsUrlIteration env suf body st cur = some (.next, st1) →
        st1.ctx.kmsUrlHeap.size + 1 = st.ctx.kmsUrlHeap.size) ∧
      ∃ fuel0, ∀ fuel, fuel0 ≤ fuel →
        ∃ r st inserted, kmsRequestImpl sys env suf body fuel ctx = some (r, st) ∧
          posts st.log ≤ st.log.length ∧
          st.log.length ≤ ctx.kmsUrlHeap.size + inserted ∧
          ((st.discoverCalls = [] ∧ inserted = 0) ∨
            (st.discoverCalls = [true] ∧
              ∃ c0 o c, c0.kmsUrlHeap.c = [] ∧ discoverKmsUrls sys c0 true = (o, c) ∧
                c.kmsUrlHeap.size = c0.kmsUrlHeap.size + inserted))) := by
  constructor
  · intro doPost
    constructor
    · intro pass n url body resp c e c2 _ h
      rw [parseEncryptCipherResponse_error_ctx h]
    · intro pass n url body resp c e c2 _ h
      rw [parseBlobMetadataResponse_error_ctx h]
  · intro T env suf body ctx hkeep hdef
    constructor
    · intro st cur st1 ht hi
      rw [iteration_next_heap hkeep hi]
      exact pop_size ht
    · obtain ⟨fuel0, hf0⟩ := enough_fuel sys ctx
      refine ⟨fuel0, fun fuel hfuel => ?_⟩
      obtain ⟨hf1, hf2⟩ := hf0 fuel hfuel
      obtain ⟨r, st, h⟩ := @kmsRequestImpl_terminates T sys env hkeep hdef suf body fuel ctx hf1 hf2
      obtain ⟨recs1, recs2, x1, hlog, _, _, _, _, hpre1, hcases⟩ := kmsRequestImpl_trace h
      have hl1 : recs1.length ≤ ctx.kmsUrlHeap.size := by
        have := (hpre1 hkeep).1.length_le
        simpa [KmsUrlMinHeap.size, (popOrder_perm ctx.kmsUrlHeap).length_eq] using this
      rcases hcases with ⟨v, _, _, h0, hd, _⟩ | ⟨_, hd, hdisc⟩
      · refine ⟨r, st, 0, h, posts_le_length _, ?_, Or.inl ⟨hd, rfl⟩⟩
        rw [hlog, h0]
        simpa using hl1
      · rcases hdisc with ⟨e, c0, c, hc0, hde, _, h0, _⟩ | ⟨c0, c, x2, hc0, hdo, _, hpre2, _⟩
        · refine ⟨r, st, 0, h, posts_le_length _, ?_,
            Or.inr ⟨hd, c0, .error e, c, hc0, hde, ?_⟩⟩
          · rw [hlog, h0]
            simpa using hl1
          · rw [discoverKmsUrls_error_ctx hde]
            rfl
        · refine ⟨r, st, c.kmsUrlHeap.size, h, posts_le_length _, ?_,
            Or.inr ⟨hd, c0, .ok (), c, hc0, hdo, ?_⟩⟩
          · have hl2 : recs2.length ≤ c.kmsUrlHeap.size := by
              have := (hpre2 hkeep).1.length_le
              simpa [KmsUrlMinHeap.size, (popOrder_perm c.kmsUrlHeap).length_eq] using this
            rw [hlog, List.length_append]
            omega
          · simp [KmsUrlMinHeap.size, hc0]

/-- C40 (witness): pool = [A], A answers 503, the discovery file lists A and C.
The request ends after 2 POSTs (A in pass 1, C in pass 2), within the bound
1 + 2. -/
theorem engine_terminates_with_bounded_posts_witness :
    (∃ st, kmsRequestImpl (scenarioSys fileAC []) (envOf (scenarioSys fileAC []) aDown) "/get" "{}" 3
        (ctxOf [freshAt 1 "https://a"]) = some (.ok validCipherDetails, st) ∧
      posts st.log = 2 ∧ st.discoverCalls = [true] ∧ (ctxOf [freshAt 1 "https://a"]).kmsUrlHeap.size = 1) ∧
    ((∀ st cur st1, st.ctx.kmsUrlHeap.top = some cur →
        kmsUrlIteration (envOf (scenarioSys fileAC []) aDown) "/get" "{}" st cur =
          some (.next, st1) →
        st1.ctx.kmsUrlHeap.size + 1 = st.ctx.kmsUrlHeap.size) ∧
      ∃ fuel0, ∀ fuel, fuel0 ≤ fuel →
        ∃ r st inserted,
          kmsRequestImpl (scenarioSys fileAC []) (envOf (scenarioSys fileAC []) aDown) "/get" "{}" fuel
            (ctxOf [freshAt 1 "https://a"]) = some (r, st) ∧
          posts st.log ≤ st.log.length ∧
          st.log.length ≤ (ctxOf [freshAt 1 "https://a"]).kmsUrlHeap.size + inserted ∧
          ((st.discoverCalls = [] ∧ inserted = 0) ∨
            (st.discoverCalls = [true] ∧
              ∃ c0 o c, c0.kmsUrlHeap.c = [] ∧
                discoverKmsUrls (scenarioSys fileAC []) c0 true = (o, c) ∧
                c.kmsUrlHeap.size = c0.kmsUrlHeap.size + inserted))) :=
  ⟨⟨_, rfl, rfl, rfl, rfl⟩,
    (engine_terminates_with_bounded_posts (scenarioSys fileAC [])).2 _
      (envOf (scenarioSys fileAC []) aDown) "/get" "{}" (ctxOf [freshAt 1 "https://a"])
      (envOf_keeps_on_failure _ _) (aDown_defined _ _)⟩

/-! ### Endpoints are updated outside the heap -/

theorem freshEndpoints_addrs (sys : Sys) (k : Nat) (urls : List String) :
    (freshEndpoints sys k urls).map (fun p => p.addr) =
      (List.range' k urls.length).map sys.alloc := by
  induction urls generalizing k with
  | nil => rfl
  | cons u us ih =>
    simp only [freshEndpoints, List.map_cons, List.length_cons, List.range'_succ, ih]

/-- The invariant after a step that keeps some of the live endpoints and adds
endpoints that it creates. -/
theorem poolInv_step (sys : Sys) (hinj : Function.Injective sys.alloc)
    {ctx ctx2 : RESTKmsConnectorCtx} {stack stack2 : List KmsUrlPtr} (old : List Nat)
    (urls : List String) (h : PoolInv sys ctx stack)
    (hold : old.Nodup) (hsub : old ⊆ liveAddrs ctx stack)
    (hperm : List.Perm (liveAddrs ctx2 stack2)
      (old ++ (freshEndpoints sys ctx.nAllocs urls).map (fun p => p.addr)))
    (hn : ctx2.nAllocs = ctx.nAllocs + urls.length) : PoolInv sys ctx2 stack2 := by
  obtain ⟨_, hidx⟩ := h
  rw [freshEndpoints_addrs] at hperm
  constructor
  · rw [hperm.nodup_iff, List.nodup_append]
    refine ⟨hold, (List.nodup_range' _ _).map hinj, ?_⟩
    intro a ha hb
    obtain ⟨i, hi, rfl⟩ := hidx a (hsub ha)
    obtain ⟨j, hj, hij⟩ := List.mem_map.mp hb
    have := hinj hij
    subst this
    simp only [List.mem_range'_1] at hj
    omega
  · intro a ha
    rcases List.mem_append.mp (hperm.mem_iff.mp ha) with h1 | h2
    · obtain ⟨i, hi, rfl⟩ := hidx a (hsub h1)
      exact ⟨i, by omega, rfl⟩
    · obtain ⟨j, hj, rfl⟩ := List.mem_map.mp h2
      simp only [List.mem_range'_1] at hj
      exact ⟨j, by omega, rfl⟩

/-- The loop of `extractKmsUrls` adds the endpoints of the strings that it read
before it ended. -/
theorem extractKmsUrlsLoop_adds (sys : Sys) (elems : List JsonValue) (c : RESTKmsConnectorCtx) :
    ∃ urls, (extractKmsUrlsLoop sys elems c).2.kmsUrlHeap.c =
        c.kmsUrlHeap.c ++ freshEndpoints sys c.nAllocs urls ∧
      (extractKmsUrlsLoop sys elems c).2.nAllocs = c.nAllocs + urls.length := by
  induction elems generalizing c with
  | nil => exact ⟨[], by simp [extractKmsUrlsLoop, freshEndpoints], rfl⟩
  | cons v rest ih =>
    cases v with
    | string s =>
      obtain ⟨urls, h1, h2⟩ := ih (emplaceNewUrl sys c s)
      refine ⟨s :: urls, ?_, ?_⟩
      · rw [extractKmsUrlsLoop, h1]
        simp [emplaceNewUrl, KmsUrlMinHeap.emplace, freshEndpoints]
      · rw [extractKmsUrlsLoop, h2]
        simp [emplaceNewUrl]
        omega
    | null => exact ⟨[], by simp [extractKmsUrlsLoop, freshEndpoints], rfl⟩
    | bool b => exact ⟨[], by simp [extractKmsUrlsLoop, freshEndpoints], rfl⟩
    | int n => exact ⟨[], by simp [extractKmsUrlsLoop, freshEndpoints], rfl⟩
    | double m e => exact ⟨[], by simp [extractKmsUrlsLoop, freshEndpoints], rfl⟩
    | array xs => exact ⟨[], by simp [extractKmsUrlsLoop, freshEndpoints], rfl⟩
    | object ms => exact ⟨[], by simp [extractKmsUrlsLoop, freshEndpoints], rfl⟩

/-- `checkDocForNewKmsUrls` leaves the pool as it is or replaces it by endpoints
that it creates. -/
theorem checkDocForNewKmsUrls_poolStep {sys : Sys} {ctx ctx2 : RESTKmsConnectorCtx}
    {doc : JsonValue} (h : checkDocForNewKmsUrls sys ctx doc = some ctx2) :
    PoolStep sys ctx ctx2 := by
  cases doc with
  | object members =>
    obtain ⟨h1, h2, h3, h4⟩ := checkDocForNewKmsUrls_cases sys ctx members
    cases hf : findMember KMS_URLS_TAG members with
    | none =>
      rw [h1 hf] at h
      cases h
      exact Or.inl ⟨rfl, rfl⟩
    | some v =>
      cases v with
      | null =>
        rw [h2 hf] at h
        cases h
        exact Or.inl ⟨rfl, rfl⟩
      | array elems =>
        rw [h3 elems hf] at h
        obtain ⟨urls, hu1, hu2⟩ :=
          extractKmsUrlsLoop_adds sys elems { ctx with kmsUrlHeap := { c := [] } }
        simp only [Option.some.injEq] at h
        subst h
        refine Or.inr ⟨urls, ?_, ?_⟩
        · cases hx : extractKmsUrlsLoop sys elems { ctx with kmsUrlHeap := { c := [] } } with
          | mk r c' =>
            rw [hx] at hu1
            cases r with
            | ok u => simpa using hu1
            | error e => simpa using hu1
        · cases hx : extractKmsUrlsLoop sys elems { ctx with kmsUrlHeap := { c := [] } } with
          | mk r c' =>
            rw [hx] at hu2
            cases r with
            | ok u => simpa using hu2
            | error e => simpa using hu2
      | bool b => rw [h4 _ hf rfl rfl] at h; cases h
      | int n => rw [h4 _ hf rfl rfl] at h; cases h
      | double m e => rw [h4 _ hf rfl rfl] at h; cases h
      | string s => rw [h4 _ hf rfl rfl] at h; cases h
      | object ms => rw [h4 _ hf rfl rfl] at h; cases h
  | null => simp [checkDocForNewKmsUrls, JsonValue.HasMember] at h
  | bool b => simp [checkDocForNewKmsUrls, JsonValue.HasMember] at h
  | int n => simp [checkDocForNewKmsUrls, JsonValue.HasMember] at h
  | double m e => simp [checkDocForNewKmsUrls, JsonValue.HasMember] at h
  | string s => simp [checkDocForNewKmsUrls, JsonValue.HasMember] at h
  | array elems => simp [checkDocForNewKmsUrls, JsonValue.HasMember] at h

/-- The two parsers of the connector treat the pool as `ParseStepsPool` says. -/
theorem parsers_step_pool (sys : Sys)
    (doPost : Nat → Nat → String → String → Except Error ResponseRef) :
    ParseStepsPool sys
      ({ doPost := doPost, parseFunc := parseEncryptCipherResponse sys } :
        RequestEnv (List EncryptCipherKeyDetailsRef)) ∧
    ParseStepsPool sys
      ({ doPost := doPost, parseFunc := parseBlobMetadataResponse sys } :
        RequestEnv (List BlobMetadataDetailsRef)) := by
  constructor
  · intro c resp o c2 h
    cases o with
    | error e =>
      have := parseEncryptCipherResponse_error_ctx h
      subst this
      exact ⟨Or.inl ⟨rfl, rfl⟩, fun _ _ => rfl⟩
    | ok v =>
      obtain ⟨r, elems, _, _, _, _, _, _, hc⟩ := parseEncryptCipherResponse_ok_elim h
      exact ⟨checkDocForNewKmsUrls_poolStep hc, fun e he => by cases he⟩
  · intro c resp o c2 h
    cases o with
    | error e =>
      have := parseBlobMetadataResponse_error_ctx h
      subst this
      exact ⟨Or.inl ⟨rfl, rfl⟩, fun _ _ => rfl⟩
    | ok v =>
      obtain ⟨r, elems, _, _, _, _, _, _, hc⟩ := parseBlobMetadataResponse_ok_elim h
      exact ⟨checkDocForNewKmsUrls_poolStep hc, fun e he => by cases he⟩

/-- A discovery appends the endpoints that it creates, if any. -/
theorem discoverKmsUrls_adds (sys : Sys) (ctx : RESTKmsConnectorCtx) (b : Bool) :
    ∃ urls, (discoverKmsUrls sys ctx b).2.kmsUrlHeap.c =
        ctx.kmsUrlHeap.c ++ freshEndpoints sys ctx.nAllocs urls ∧
      (discoverKmsUrls sys ctx b).2.nAllocs = ctx.nAllocs + urls.length := by
  have hnone : ∃ urls, ctx.kmsUrlHeap.c = ctx.kmsUrlHeap.c ++ freshEndpoints sys ctx.nAllocs urls ∧
      ctx.nAllocs = ctx.nAllocs + urls.length := ⟨[], by simp [freshEndpoints], rfl⟩
  unfold discoverKmsUrls
  simp only [List.isEmpty_nil, Bool.not_true, Bool.false_eq_true, if_false]
  split
  · unfold parseDiscoverKmsUrlFile
    split
    · exact hnone
    · split
      · exact hnone
      · split
        · exact hnone
        · rw [foldl_addDiscoveredUrl]
          exact ⟨_, rfl, rfl⟩
  · exact hnone

theorem poolInv_discover (sys : Sys) (hinj : Function.Injective sys.alloc)
    {ctx : RESTKmsConnectorCtx} {stack : List KmsUrlPtr} (b : Bool)
    (h : PoolInv sys ctx stack) : PoolInv sys (discoverKmsUrls sys ctx b).2 stack := by
  obtain ⟨urls, h1, h2⟩ := discoverKmsUrls_adds sys ctx b
  refine poolInv_step sys hinj (liveAddrs ctx stack) urls h h.1 (fun _ ha => ha) ?_ h2
  simp only [liveAddrs, h1, List.map_append, List.append_assoc]
  exact List.Perm.append_left _ List.perm_append_comm

theorem poolInv_parse (sys : Sys) (hinj : Function.Injective sys.alloc)
    {c c2 : RESTKmsConnectorCtx} {stack : List KmsUrlPtr}
    (h : PoolInv sys c stack) (hs : PoolStep sys c c2) : PoolInv sys c2 stack := by
  rcases hs with ⟨hh, hn⟩ | ⟨urls, hh, hn⟩
  · refine poolInv_step sys hinj (liveAddrs c stack) [] h h.1 (fun _ ha => ha) ?_ (by simpa using hn)
    simp [liveAddrs, hh, freshEndpoints]
  · refine poolInv_step sys hinj (stack.map (fun p => p.addr)) urls h ?_ ?_ ?_ hn
    · have := h.1
      simp only [liveAddrs, List.map_append] at this
      exact (List.nodup_append.mp this).2.1
    · intro a ha
      simp only [liveAddrs, List.map_append, List.mem_append]
      exact Or.inr ha
    · simp only [liveAddrs, hh, List.map_append]
      exact List.perm_append_comm

theorem incFailedResponses_addr (p : KmsUrlPtr) : p.incFailedResponses.addr = p.addr := rfl

theorem incRequests_addr (p : KmsUrlPtr) : p.incRequests.addr = p.addr := rfl

theorem incResponseParseFailures_addr (p : KmsUrlPtr) :
    p.incResponseParseFailures.addr = p.addr := rfl

/-- Moving the top of the pool to the stack, with or without new counters,
permutes the live addresses. -/
theorem liveAddrs_pop_perm {ctx ctx1 : RESTKmsConnectorCtx} {stack : List KmsUrlPtr}
    {cur ep : KmsUrlPtr} (ht : ctx.kmsUrlHeap.top = some cur) (hep : ep.addr = cur.addr)
    (h1 : ctx1.kmsUrlHeap = ctx.kmsUrlHeap.pop) :
    List.Perm (liveAddrs ctx1 (ep :: stack)) (liveAddrs ctx stack) := by
  have hp := (pop_perm ht).map (fun p => p.addr)
  simp only [liveAddrs, h1, List.map_append, List.map_cons, hep]
  refine List.Perm.trans ?_ (hp.symm.append_right _)
  simp only [List.map_cons, List.cons_append]
  exact List.perm_middle

/-- The address of the endpoint just popped is not an address of the pool. -/
theorem top_addr_not_in_pop (sys : Sys) {ctx : RESTKmsConnectorCtx} {stack : List KmsUrlPtr}
    {cur : KmsUrlPtr} (h : PoolInv sys ctx stack) (ht : ctx.kmsUrlHeap.top = some cur) :
    ∀ p ∈ ctx.kmsUrlHeap.pop.c, p.addr ≠ cur.addr := by
  have hp := (pop_perm ht).map (fun p => p.addr)
  have hn := h.1
  simp only [liveAddrs, List.map_append] at hn
  have hn1 := (List.nodup_append.mp hn).1
  rw [hp.nodup_iff, List.map_cons, List.nodup_cons] at hn1
  intro p hp' heq
  exact hn1.1 (heq ▸ List.mem_map_of_mem _ hp')

/-- One iteration of the `while` loop keeps the invariant. -/
theorem poolInv_attempt {T : Type} (sys : Sys) (hinj : Function.Injective sys.alloc)
    {env : RequestEnv T} {suf body : String} {st st1 : RequestState} {cur : KmsUrlPtr}
    {x : IterExit T} (hparse : ParseStepsPool sys env)
    (h : PoolInv sys st.ctx st.tempStack) (ht : st.ctx.kmsUrlHeap.top = some cur)
    (hi : kmsUrlIteration env suf body st cur = some (x, st1)) :
    PoolInv sys st1.ctx st1.tempStack := by
  rcases kmsUrlIteration_cases hi with ⟨e, o, _, _, rfl⟩ | ⟨u, resp, e, ctx2, _, _, hp, _, rfl⟩ |
      ⟨u, resp, v, ctx2, _, _, hp, _, rfl⟩
  · refine poolInv_step sys hinj (liveAddrs st.ctx st.tempStack) [] h h.1 (fun _ ha => ha) ?_
      (by simp)
    simp only [freshEndpoints, List.map_nil, List.append_nil]
    exact liveAddrs_pop_perm ht rfl rfl
  · have hc := (hparse _ _ _ _ hp).2 e rfl
    subst hc
    refine poolInv_step sys hinj (liveAddrs st.ctx st.tempStack) [] h h.1 (fun _ ha => ha) ?_
      (by simp)
    simp only [freshEndpoints, List.map_nil, List.append_nil]
    exact liveAddrs_pop_perm ht rfl rfl
  · have hlive : liveAddrs
          { ctx2 with
            kmsUrlHeap := (restoreTempStack (cur.incRequests :: st.tempStack) ctx2.kmsUrlHeap) }
          [] = liveAddrs ctx2 (cur.incRequests :: st.tempStack) := by
      simp [liveAddrs, restoreTempStack_c]
    have hmid : PoolInv sys { st.ctx with kmsUrlHeap := st.ctx.kmsUrlHeap.pop }
        (cur.incRequests :: st.tempStack) :=
      poolInv_step sys hinj (liveAddrs st.ctx st.tempStack) [] h h.1 (fun _ ha => ha)
        (by
          simp only [freshEndpoints, List.map_nil, List.append_nil]
          exact liveAddrs_pop_perm ht rfl rfl) (by simp)
    have hfin := poolInv_parse sys hinj hmid (hparse _ _ _ _ hp).1
    constructor
    · show (liveAddrs _ []).Nodup
      rw [hlive]
      exact hfin.1
    · intro a ha
      have ha' : a ∈ liveAddrs ctx2 (cur.incRequests :: st.tempStack) := by
        rw [← hlive]
        exact ha
      exact hfin.2 a ha'

/-- Every reachable state satisfies the invariant. -/
theorem reachable_poolInv (sys : Sys) (hinj : Function.Injective sys.alloc)
    {ctx : RESTKmsConnectorCtx} {stack : List KmsUrlPtr} (h : Reachable sys ctx stack) :
    PoolInv sys ctx stack := by
  induction h with
  | init => exact ⟨List.nodup_nil, fun a ha => by cases ha⟩
  | discover b _ ih => exact poolInv_discover sys hinj b ih
  | parse env resp o hparse _ hp ih => exact poolInv_parse sys hinj ih (hparse _ _ _ _ hp).1
  | attempt env suf body hparse _ ht hi ih => exact poolInv_attempt sys hinj hparse ih ht hi
  | @scopeEnd c stack _ ih =>
    refine poolInv_step sys hinj (liveAddrs c []) [] ih ?_ ?_ (by simp [freshEndpoints])
      (by simp)
    · have := ih.1
      simp only [liveAddrs, List.map_append] at this
      simpa [liveAddrs] using (List.nodup_append.mp this).1
    · intro a ha
      simp only [liveAddrs, List.append_nil] at ha
      simp only [liveAddrs, List.map_append, List.mem_append]
      exact Or.inl ha

theorem freshEndpoints_mk1 (sys : Sys) (k : Nat) (urls : List String) :
    ∀ p ∈ freshEndpoints sys k urls, p.obj = KmsUrlCtx.mk1 p.obj.url := by
  induction urls generalizing k with
  | nil => intro p hp; cases hp
  | cons u us ih =>
    intro p hp
    rcases List.mem_cons.mp hp with rfl | hp
    · rfl
    · exact ih _ p hp

theorem pop_subset {h : KmsUrlMinHeap} {t : KmsUrlPtr} (ht : h.top = some t) :
    ∀ p ∈ h.pop.c, p ∈ h.c :=
  fun _ hp => (pop_perm ht).mem_iff.mpr (List.mem_cons_of_mem _ hp)

/-- The heaps that the counter updates of an iteration see do not hold the
endpoint that is updated. -/
theorem heapsAtCounterUpdates_spec {T : Type} (sys : Sys) (env : RequestEnv T)
    (suf body : String) (st : RequestState) (cur : KmsUrlPtr)
    (hparse : ParseStepsPool sys env) (hinv : PoolInv sys st.ctx st.tempStack)
    (htop : st.ctx.kmsUrlHeap.top = some cur) :
    heapsAtCounterUpdates env suf body st cur ≠ [] ∧
    ∀ h ∈ heapsAtCounterUpdates env suf body st cur, ∀ p ∈ h.c, p.addr ≠ cur.addr := by
  have hpop := top_addr_not_in_pop sys hinv htop
  unfold heapsAtCounterUpdates
  simp only
  split
  · exact ⟨by simp, fun h hh => by
      simp only [List.mem_singleton] at hh
      subst hh
      exact hpop⟩
  · split
    · exact ⟨by simp, fun h hh => by
        simp only [List.mem_singleton] at hh
        subst hh
        exact hpop⟩
    · split
      · rename_i e ctx2 hp
        have hc := (hparse _ _ _ _ hp).2 e rfl
        subst hc
        exact ⟨by simp, fun h hh => by
          simp only [List.mem_cons, List.mem_singleton, List.not_mem_nil, or_false,
            or_self] at hh
          subst hh
          exact hpop⟩
      · exact ⟨by simp, fun h hh => by
          simp only [List.mem_singleton] at hh
          subst hh
          exact hpop⟩

/-- C37: in every reachable state of the connector (reached from the
construction of the context by discoveries, parses, iterations of the loop of
`kmsRequestImpl` and ends of the scope of `tempStack`), when the allocator gives
distinct addresses to distinct endpoints, the endpoints that are alive are
distinct objects, and an iteration of the loop on the endpoint `cur` that it
pops makes each of its counter updates while the heap does not hold `cur`.
After the iteration `cur` is, as `ep`, on `tempStack` and not in the heap, or,
when the iteration returns, it has been pushed back after its update; every
other endpoint that is alive is exactly as it was before the iteration, or has
just been created with all counters zero. -/
theorem counters_change_only_outside_the_heap {T : Type} (sys : Sys) (env : RequestEnv T)
    (suf body : String) (st : RequestState) (cur : KmsUrlPtr)
    (hinj : Function.Injective sys.alloc) (hparse : ParseStepsPool sys env)
    (hreach : Reachable sys st.ctx st.tempStack) (htop : st.ctx.kmsUrlHeap.top = some cur) :
    PoolInv sys st.ctx st.tempStack ∧
    heapsAtCounterUpdates env suf body st cur ≠ [] ∧
    (∀ h ∈ heapsAtCounterUpdates env suf body st cur, ∀ p ∈ h.c, p.addr ≠ cur.addr) ∧
    (∀ x st1, kmsUrlIteration env suf body st cur = some (x, st1) →
      Reachable sys st1.ctx st1.tempStack ∧
      ∃ ep, ep.addr = cur.addr ∧ ep.obj.url = cur.obj.url ∧
        ((st1.tempStack = ep :: st.tempStack ∧ ∀ p ∈ st1.ctx.kmsUrlHeap.c, p.addr ≠ cur.addr) ∨
          (st1.tempStack = [] ∧ (∃ v, x = .returned v) ∧
            ∃ pool, st1.ctx.kmsUrlHeap.c = pool ++ ep :: st.tempStack)) ∧
        ∀ p ∈ st1.ctx.kmsUrlHeap.c ++ st1.tempStack,
          p = ep ∨ p ∈ st.ctx.kmsUrlHeap.c ++ st.tempStack ∨
            p.obj = KmsUrlCtx.mk1 p.obj.url) := by
  have hinv := reachable_poolInv sys hinj hreach
  obtain ⟨hne, hheaps⟩ := heapsAtCounterUpdates_spec sys env suf body st cur hparse hinv htop
  refine ⟨hinv, hne, hheaps, ?_⟩
  intro x st1 hi
  refine ⟨Reachable.attempt env suf body hparse hreach htop hi, ?_⟩
  have hpop := top_addr_not_in_pop sys hinv htop
  have hkeep : ∀ (ep : KmsUrlPtr), ∀ p ∈ st.ctx.kmsUrlHeap.pop.c ++ ep :: st.tempStack,
      p = ep ∨ p ∈ st.ctx.kmsUrlHeap.c ++ st.tempStack ∨ p.obj = KmsUrlCtx.mk1 p.obj.url := by
    intro ep p hp
    rcases List.mem_append.mp hp with h1 | h1
    · exact Or.inr (Or.inl (List.mem_append_left _ (pop_subset htop p h1)))
    · rcases List.mem_cons.mp h1 with h2 | h2
      · exact Or.inl h2
      · exact Or.inr (Or.inl (List.mem_append_right _ h2))
  rcases kmsUrlIteration_cases hi with ⟨e, o, _, _, rfl⟩ | ⟨u, resp, e, ctx2, _, _, hp, _, rfl⟩ |
      ⟨u, resp, v, ctx2, _, _, hp, hx, rfl⟩
  · exact ⟨cur.incFailedResponses, rfl, rfl, Or.inl ⟨rfl, hpop⟩, hkeep _⟩
  · have hc := (hparse _ _ _ _ hp).2 e rfl
    subst hc
    exact ⟨cur.incRequests.incResponseParseFailures, rfl, rfl, Or.inl ⟨rfl, hpop⟩, hkeep _⟩
  · refine ⟨cur.incRequests, rfl, rfl,
      Or.inr ⟨rfl, ⟨v, hx⟩, ctx2.kmsUrlHeap.c, restoreTempStack_c _ _⟩, ?_⟩
    intro p hp'
    simp only [List.append_nil, restoreTempStack_c] at hp'
    rcases (hparse _ _ _ _ hp).1 with ⟨hh, _⟩ | ⟨urls, hh, _⟩
    · rw [hh] at hp'
      exact hkeep _ p hp'
    · rcases List.mem_append.mp hp' with h1 | h1
      · rw [hh] at h1
        exact Or.inr (Or.inr (freshEndpoints_mk1 sys _ urls p h1))
      · rcases List.mem_cons.mp h1 with h2 | h2
        · exact Or.inl h2
        · exact Or.inr (Or.inl (List.mem_append_right _ h2))

theorem scenarioSys_alloc_injective (fileText : String) :
    Function.Injective (scenarioSys fileText []).alloc := by
  intro a b h
  simpa [scenarioSys] using h

/-- The context after the first discovery of the scenario is reachable. -/
theorem discoveredAC_reachable : Reachable (scenarioSys fileAC []) discoveredAC [] :=
  Reachable.discover false Reachable.init

/-- C37 (witness): after the construction of the context and the discovery of
the file that lists A and C, the pool holds A at address 1000 and C at address
1001.  The first iteration of a request pops C; the heap that its counter update
sees holds A alone. -/
theorem counters_change_only_outside_the_heap_witness :
    Function.Injective (scenarioSys fileAC []).alloc ∧
    Reachable (scenarioSys fileAC []) (initialState discoveredAC).ctx (initialState discoveredAC).tempStack ∧
    (initialState discoveredAC).ctx.kmsUrlHeap.top = some (freshAt 1001 "https://c") ∧
    heapsAtCounterUpdates (envOf (scenarioSys fileAC []) aDown) "/get" "{}"
      (initialState discoveredAC) (freshAt 1001 "https://c") = [{ c := [freshAt 1000 "https://a"] }] ∧
    PoolInv (scenarioSys fileAC []) (initialState discoveredAC).ctx (initialState discoveredAC).tempStack ∧
    heapsAtCounterUpdates (envOf (scenarioSys fileAC []) aDown) "/get" "{}"
      (initialState discoveredAC) (freshAt 1001 "https://c") ≠ [] ∧
    (∀ h ∈ heapsAtCounterUpdates (envOf (scenarioSys fileAC []) aDown) "/get" "{}"
        (initialState discoveredAC) (freshAt 1001 "https://c"),
      ∀ p ∈ h.c, p.addr ≠ (freshAt 1001 "https://c").addr) ∧
    (∀ x st1, kmsUrlIteration (envOf (scenarioSys fileAC []) aDown) "/get" "{}"
        (initialState discoveredAC) (freshAt 1001 "https://c") = some (x, st1) →
      Reachable (scenarioSys fileAC []) st1.ctx st1.tempStack ∧
      ∃ ep, ep.addr = (freshAt 1001 "https://c").addr ∧
        ep.obj.url = (freshAt 1001 "https://c").obj.url ∧
        ((st1.tempStack = ep :: (initialState discoveredAC).tempStack ∧
            ∀ p ∈ st1.ctx.kmsUrlHeap.c, p.addr ≠ (freshAt 1001 "https://c").addr) ∨
          (st1.tempStack = [] ∧ (∃ v, x = .returned v) ∧
            ∃ pool, st1.ctx.kmsUrlHeap.c = pool ++ ep :: (initialState discoveredAC).tempStack)) ∧
        ∀ p ∈ st1.ctx.kmsUrlHeap.c ++ st1.tempStack,
          p = ep ∨ p ∈ (initialState discoveredAC).ctx.kmsUrlHeap.c ++ (initialState discoveredAC).tempStack ∨
            p.obj = KmsUrlCtx.mk1 p.obj.url) :=
  ⟨scenarioSys_alloc_injective fileAC, discoveredAC_reachable, rfl, rfl,
    counters_change_only_outside_the_heap (scenarioSys fileAC []) (envOf (scenarioSys fileAC []) aDown) "/get" "{}"
      (initialState discoveredAC) (freshAt 1001 "https://c") (scenarioSys_alloc_injective fileAC)
      (parsers_step_pool (scenarioSys fileAC []) _).1 discoveredAC_reachable rfl⟩

/-- C35 (witness): the discovery of a file that lists `https://b`, at time 42 on
a context whose timestamp is 7, leaves the timestamp 7; a side-band refresh with
`kms_urls = ["https://new1", "https://new2"]` sets it to 42. -/
theorem discovery_keeps_last_refresh_ts_witness :
    (parseDiscoverKmsUrlFile (scenarioSys "https://b\n" [])
        { kmsUrlHeap := { c := [] }, lastKmsUrlsRefreshTs := 7, nAllocs := 0 }
        "/kms/urls").2.lastKmsUrlsRefreshTs = 7 ∧
    (discoverKmsUrls (scenarioSys "https://b\n" [])
        { kmsUrlHeap := { c := [] }, lastKmsUrlsRefreshTs := 7, nAllocs := 0 }
        true).2.lastKmsUrlsRefreshTs = 7 ∧
    (discoverKmsUrls (scenarioSys "https://b\n" [])
        { kmsUrlHeap := { c := [] }, lastKmsUrlsRefreshTs := 7, nAllocs := 0 } true).1 =
      .ok () ∧
    ∃ ctx2, extractKmsUrls (scenarioSys "https://b\n" [])
        { kmsUrlHeap := { c := [] }, lastKmsUrlsRefreshTs := 7, nAllocs := 0 }
        (goodDoc newUrls) = some (.ok (), ctx2) ∧
      ctx2.lastKmsUrlsRefreshTs = (scenarioSys "https://b\n" []).now :=
  ⟨(discovery_keeps_last_refresh_ts (scenarioSys "https://b\n" [])
      { kmsUrlHeap := { c := [] }, lastKmsUrlsRefreshTs := 7, nAllocs := 0 } "/kms/urls" true).1,
    (discovery_keeps_last_refresh_ts (scenarioSys "https://b\n" [])
      { kmsUrlHeap := { c := [] }, lastKmsUrlsRefreshTs := 7, nAllocs := 0 } "/kms/urls" true).2.1,
    rfl,
    (discovery_keeps_last_refresh_ts (scenarioSys "https://b\n" [])
      { kmsUrlHeap := { c := [] }, lastKmsUrlsRefreshTs := 7, nAllocs := 0 } "/kms/urls"
      true).2.2 (goodDoc newUrls) ["https://new1", "https://new2"] rfl⟩

end RESTKmsConnector
